import Mathlib

/-!
CDC-NCM gadget function (`kernel/drivers/usb/gadget/f_ncm.c`)

A shallow embedding of the NTB framing engine of `f_ncm.c` (egress aggregation
`ncm_wrap_ntb` / `package_for_tx`, ingress `ncm_unwrap_ntb`) and of the class
control handler `ncm_setup`, followed by theorems about them.

Conventions of the embedding.

* A byte buffer (`skb->data`, `skb->len`) is a `List Nat`; every byte the driver
  writes is reduced modulo 256 and every byte it decodes is read modulo 256.
* `skb_put` appends to the list.  The tail room of an `sk_buff` is decided by the
  allocator, not by this file, so the embedding does not bound it.
* A pointer to an `sk_buff` is `NULL`, `live` or `dangling` (freed but not cleared).
* A kernel fault (`BUG()`, a NULL dereference, a read outside the received
  buffer) is an `Except.error`; a function that returns gives `Except.ok`.
* Buffer lengths are natural numbers; the 16-bit stores of the driver
  (`put_unaligned_le16`, `put_ncm` with width 1) truncate explicitly.
-/

namespace NCM

/-! ## Constants of the file -/

def NCM_NDP_HDR_CRC_MASK : Nat := 0x01000000
def NCM_NDP_HDR_CRC : Nat := 0x01000000
def NCM_NDP_HDR_NOCRC : Nat := 0x00000000

def NTB_DEFAULT_IN_SIZE : Nat := 4096
def NTB_OUT_SIZE : Nat := 16384
def TX_MAX_NUM_DPE : Nat := 32

/-- Modelled from the spec: the NTH16 signature 'NCMH' of linux/usb/cdc.h
(`USB_CDC_NCM_NTH16_SIGN`), which is not part of the sources. -/
def USB_CDC_NCM_NTH16_SIGN : Nat := 0x484D434E

/-- Modelled from the spec: the NDP16 signature 'NCM0' of linux/usb/cdc.h
(`USB_CDC_NCM_NDP16_NOCRC_SIGN`), which is not part of the sources. -/
def USB_CDC_NCM_NDP16_NOCRC_SIGN : Nat := 0x304D434E

/-- Modelled from the spec: the NTH32 signature 'ncmh' of linux/usb/cdc.h
(`USB_CDC_NCM_NTH32_SIGN`), which is not part of the sources. -/
def USB_CDC_NCM_NTH32_SIGN : Nat := 0x686D636E

/-- Modelled from the spec: the NDP32 signature 'ncm0' of linux/usb/cdc.h
(`USB_CDC_NCM_NDP32_NOCRC_SIGN`), which is not part of the sources. -/
def USB_CDC_NCM_NDP32_NOCRC_SIGN : Nat := 0x306D636E

/-- The `sizeof` of the wire structures of linux/usb/cdc.h that the two
`INIT_NDPxx_OPTS` initialisers mention.  The header is not part of the sources,
so the five sizes are a parameter of the embedding. -/
structure cdc_sizes where
  /-- The value of `sizeof(struct usb_cdc_ncm_nth16)`. -/
  nth16 : Nat
  /-- The value of `sizeof(struct usb_cdc_ncm_ndp16)`. -/
  ndp16 : Nat
  /-- The value of `sizeof(struct usb_cdc_ncm_dpe16)`. -/
  dpe16 : Nat
  /-- The value of `sizeof(struct usb_cdc_ncm_nth32)`. -/
  nth32 : Nat
  /-- The value of `sizeof(struct usb_cdc_ncm_ndp32)`. -/
  ndp32 : Nat
  deriving DecidableEq, Repr

/-- The sizes of the packed structures whose fields the driver itself walks:
an NTH is dwSignature, wHeaderLength, wSequence, (d)wBlockLength, (d)wNdpIndex;
an NDP header is dwSignature, wLength and the reserved words skipped by
`ncm_unwrap_ntb`; a DPE16 is two 16-bit words. -/
def packed_sizes : cdc_sizes :=
  { nth16 := 12, ndp16 := 8, dpe16 := 4, nth32 := 16, ndp32 := 16 }

/-- The static block `ntb_parameters` (the fields the framing engine reads). -/
structure usb_cdc_ncm_ntb_parameters where
  bmNtbFormatsSupported : Nat
  dwNtbInMaxSize : Nat
  wNdpInDivisor : Nat
  wNdpInPayloadRemainder : Nat
  wNdpInAlignment : Nat
  dwNtbOutMaxSize : Nat
  wNdpOutDivisor : Nat
  wNdpOutPayloadRemainder : Nat
  wNdpOutAlignment : Nat
  deriving DecidableEq, Repr

def ntb_parameters : usb_cdc_ncm_ntb_parameters :=
  { bmNtbFormatsSupported := 1
    dwNtbInMaxSize := NTB_DEFAULT_IN_SIZE
    wNdpInDivisor := 4
    wNdpInPayloadRemainder := 0
    wNdpInAlignment := 4
    dwNtbOutMaxSize := NTB_OUT_SIZE
    wNdpOutDivisor := 4
    wNdpOutPayloadRemainder := 2
    wNdpOutAlignment := 4 }

/-! ## Parser options -/

structure ndp_parser_opts where
  nth_sign : Nat
  ndp_sign : Nat
  nth_size : Nat
  ndp_size : Nat
  dpe_size : Nat
  ndplen_align : Nat
  dgram_item_len : Nat
  block_length : Nat
  ndp_index : Nat
  fp_index : Nat
  reserved1 : Nat
  reserved2 : Nat
  next_fp_index : Nat
  next_ndp_index : Nat
  deriving DecidableEq, Repr

/-- The initialiser `INIT_NDP16_OPTS`; a member it does not name is zero. -/
def INIT_NDP16_OPTS (sz : cdc_sizes) : ndp_parser_opts :=
  { nth_sign := USB_CDC_NCM_NTH16_SIGN
    ndp_sign := USB_CDC_NCM_NDP16_NOCRC_SIGN
    nth_size := sz.nth16
    ndp_size := sz.ndp16
    dpe_size := sz.dpe16
    ndplen_align := 4
    dgram_item_len := 1
    block_length := 1
    ndp_index := 1
    fp_index := 1
    reserved1 := 0
    reserved2 := 0
    next_fp_index := 1
    next_ndp_index := 0 }

/-- The initialiser `INIT_NDP32_OPTS`; a member it does not name is zero
(`dpe_size`, `ndp_index` and `next_ndp_index` are not named). -/
def INIT_NDP32_OPTS (sz : cdc_sizes) : ndp_parser_opts :=
  { nth_sign := USB_CDC_NCM_NTH32_SIGN
    ndp_sign := USB_CDC_NCM_NDP32_NOCRC_SIGN
    nth_size := sz.nth32
    ndp_size := sz.ndp32
    dpe_size := 0
    ndplen_align := 8
    dgram_item_len := 2
    block_length := 2
    ndp_index := 0
    fp_index := 2
    reserved1 := 1
    reserved2 := 2
    next_fp_index := 2
    next_ndp_index := 0 }

/-! ## Faults and the byte codec -/

inductive Fault where
  /-- The `BUG()` of `put_ncm` / `get_ncm`. -/
  | BUG
  /-- A dereference of a NULL `sk_buff` pointer. -/
  | null_deref
  /-- A dereference of a freed `sk_buff`. -/
  | use_after_free
  /-- A read outside the received buffer. -/
  | out_of_bounds
  /-- The iteration budget of the embedding was too small. -/
  | fuel
  deriving DecidableEq, Repr

def put_unaligned_le16 (val : Nat) : List Nat :=
  [val % 256, val / 256 % 256]

def put_unaligned_le32 (val : Nat) : List Nat :=
  [val % 256, val / 256 % 256, val / 65536 % 256, val / 16777216 % 256]

/-- Bytes `[off, off + n)` of a buffer, or a fault when they are not all there. -/
def peek (buf : List Nat) (off n : Nat) : Except Fault (List Nat) :=
  if off + n ≤ buf.length then .ok ((buf.drop off).take n) else .error .out_of_bounds

/-- Little-endian value of a byte string. -/
def le_value : List Nat → Nat
  | [] => 0
  | b :: bs => b % 256 + 256 * le_value bs

def get_unaligned_le16 (buf : List Nat) (off : Nat) : Except Fault Nat :=
  (peek buf off 2).map le_value

def get_unaligned_le32 (buf : List Nat) (off : Nat) : Except Fault Nat :=
  (peek buf off 4).map le_value

/-- The bytes `put_ncm` stores (`size` is in 16-bit units); the caller advances
its pointer by `2 * size` bytes. -/
def put_ncm (size val : Nat) : Except Fault (List Nat) :=
  match size with
  | 1 => .ok (put_unaligned_le16 val)
  | 2 => .ok (put_unaligned_le32 val)
  | _ => .error .BUG

def get_ncm (buf : List Nat) (off size : Nat) : Except Fault Nat :=
  match size with
  | 1 => get_unaligned_le16 buf off
  | 2 => get_unaligned_le32 buf off
  | _ => .error .BUG

/-- A store of `bs` at byte offset `off` of a buffer whose length stays as it is
(a store into memory that `skb_put` has already handed out). -/
def poke (buf : List Nat) (off : Nat) (bs : List Nat) : List Nat :=
  buf.take off ++ bs.take (buf.length - off) ++ buf.drop (off + bs.length)

def zeros (n : Nat) : List Nat := List.replicate n 0

/-- The kernel macro `ALIGN(x, a)` for a power of two `a`. -/
def ALIGN (x a : Nat) : Nat := (x + (a - 1)) / a * a

/-! ## CRC32 -/

/-- One bit step of the reflected CRC-32 (polynomial 0xEDB88320). -/
def crc32_bit (c : Nat) : Nat :=
  if c % 2 = 1 then Nat.xor (c / 2) 0xEDB88320 else c / 2

def crc32_byte (c b : Nat) : Nat :=
  crc32_bit (crc32_bit (crc32_bit (crc32_bit (crc32_bit (crc32_bit (crc32_bit (crc32_bit
    (Nat.xor c (b % 256)))))))))

/-- Modelled from the spec: `crc32_le` of the kernel library (lib/crc32.c, not part
of the sources): CRC32 with the standard Ethernet polynomial, little-endian bit
order, without the seed and final complement (those are the caller's). -/
def crc32_le (seed : Nat) (data : List Nat) : Nat :=
  data.foldl crc32_byte (seed % 4294967296)

/-- The 32-bit complement `~x`. -/
def not32 (x : Nat) : Nat := 4294967295 - x % 4294967296

/-- The value `~crc32_le(~0, data, len)` that both directions compute. -/
def dgram_crc (data : List Nat) : Nat := not32 (crc32_le (not32 0) data)

/-! ## Session state -/

/-- What a `struct sk_buff *` of the session points to. -/
inductive skb_ptr where
  | NULL
  | live (data : List Nat)
  | dangling
  deriving DecidableEq, Repr

/-- The dereference `p->data` / `p->len` (a length is the length of the data). -/
def skb_ptr.deref : skb_ptr → Except Fault (List Nat)
  | .NULL => .error .null_deref
  | .live d => .ok d
  | .dangling => .error .use_after_free

/-- The guarded free `if (p) dev_kfree_skb_any(p);` which leaves `p` as it is. -/
def skb_ptr.kfree_if_set : skb_ptr → Except Fault skb_ptr
  | .NULL => .ok .NULL
  | .live _ => .ok .dangling
  | .dangling => .error .use_after_free

inductive ncm_notify_state where
  | NCM_NOTIFY_NONE
  | NCM_NOTIFY_CONNECT
  | NCM_NOTIFY_SPEED
  deriving DecidableEq, Repr

/-- The value of `ncm->parser_opts`: the address of one of the two static tables. -/
inductive parser_sel where
  | ndp16
  | ndp32
  deriving DecidableEq, Repr

/-- The fields of `struct f_ncm` (with those of its `port` and the `tx_dropped`
counter of its net device) and the one member of the static tables `ndp16_opts`
and `ndp32_opts` that the driver writes, `ndp_sign`. -/
structure f_ncm where
  ctrl_id : Nat
  data_id : Nat
  /-- Whether `notify_req` is non-NULL (the request is in its slot). -/
  notify_req : Bool
  notify_state : ncm_notify_state
  is_open : Bool
  parser_opts : parser_sel
  is_crc : Bool
  ndp_sign : Nat
  skb_tx_data : skb_ptr
  skb_tx_ndp : skb_ptr
  ndp_dgram_count : Nat
  timer_force_tx : Bool
  timer_stopping : Bool
  fixed_in_len : Nat
  fixed_out_len : Nat
  tx_dropped : Nat
  /-- The member `ndp16_opts.ndp_sign`. -/
  ndp16_sign : Nat
  /-- The member `ndp32_opts.ndp_sign`. -/
  ndp32_sign : Nat
  deriving DecidableEq, Repr

/-- The table `*ncm->parser_opts` as it currently stands. -/
def f_ncm.opts (sz : cdc_sizes) (s : f_ncm) : ndp_parser_opts :=
  match s.parser_opts with
  | .ndp16 => { INIT_NDP16_OPTS sz with ndp_sign := s.ndp16_sign }
  | .ndp32 => { INIT_NDP32_OPTS sz with ndp_sign := s.ndp32_sign }

/-- The assignments of `ncm_reset_values`. -/
def ncm_reset_values (s : f_ncm) : f_ncm :=
  { s with
    parser_opts := .ndp16
    is_crc := false
    ndp_sign := s.ndp16_sign
    fixed_out_len := ntb_parameters.dwNtbOutMaxSize
    fixed_in_len := NTB_DEFAULT_IN_SIZE }

/-- A session once bound: zeroed by `kzalloc` and reset by `ncm_reset_values`
(`ncm_bind_config`), its interface numbers and notification request set
(`ncm_bind`), the static tables as initialised. -/
def ncm_initial (ctrl_id data_id : Nat) : f_ncm :=
  ncm_reset_values
    { ctrl_id := ctrl_id
      data_id := data_id
      notify_req := true
      notify_state := .NCM_NOTIFY_NONE
      is_open := false
      parser_opts := .ndp16
      is_crc := false
      ndp_sign := 0
      skb_tx_data := .NULL
      skb_tx_ndp := .NULL
      ndp_dgram_count := 0
      timer_force_tx := false
      timer_stopping := false
      fixed_in_len := 0
      fixed_out_len := 0
      tx_dropped := 0
      ndp16_sign := USB_CDC_NCM_NDP16_NOCRC_SIGN
      ndp32_sign := USB_CDC_NCM_NDP32_NOCRC_SIGN }

/-! ## Egress: `package_for_tx` and `ncm_wrap_ntb` -/

def package_for_tx (sz : cdc_sizes) (s : f_ncm) : Except Fault (List Nat × f_ncm) := do
  let opts := s.opts sz
  let ndp_align := ntb_parameters.wNdpInAlignment
  let dgram_idx_len := 2 * 2 * opts.dgram_item_len
  let data ← s.skb_tx_data.deref
  let ndp_pad := ALIGN data.length ndp_align - data.length
  let ndp_index := data.length + ndp_pad
  let ndp ← s.skb_tx_ndp.deref
  let new_len := ndp_index + dgram_idx_len + ndp.length
  -- Set the final BlockLength and wNdpIndex (ntb_iter += 2 + 1 + 1)
  let bl ← put_ncm opts.block_length new_len
  let data := poke data 8 bl
  let ni ← put_ncm opts.ndp_index ndp_index
  let data := poke data (8 + 2 * opts.block_length) ni
  -- Set the final NDP wLength
  let new_len := opts.ndp_size + s.ndp_dgram_count * dgram_idx_len
  let ndp := poke ndp 4 (put_unaligned_le16 new_len)
  -- Merge the skbs: NDP alignment, the NDP, a zeroed datagram entry
  .ok (data ++ zeros ndp_pad ++ ndp ++ zeros dgram_idx_len,
       { s with ndp_dgram_count := 0, skb_tx_data := .NULL, skb_tx_ndp := .NULL })

/-- The label `err:` of `ncm_wrap_ntb`. -/
def ncm_wrap_ntb_err (s : f_ncm) : Except Fault (Option (List Nat) × f_ncm) := do
  let d ← s.skb_tx_data.kfree_if_set
  let n ← s.skb_tx_ndp.kfree_if_set
  .ok (none, { s with tx_dropped := s.tx_dropped + 1, skb_tx_data := d, skb_tx_ndp := n })

/-- The first `if` of the frame branch: send the stored NTB now when the entry
table is full or the new frame does not fit. -/
def wrap_flush_if_full (sz : cdc_sizes) (s : f_ncm) (skb_len : Nat) :
    Except Fault (Option (List Nat) × f_ncm) := do
  let opts := s.opts sz
  let ndp_align := ntb_parameters.wNdpInAlignment
  let div := ntb_parameters.wNdpInDivisor
  let rem := ntb_parameters.wNdpInPayloadRemainder
  let dgram_idx_len := 2 * 2 * opts.dgram_item_len
  if s.skb_tx_data = .NULL then .ok (none, s)
  else if s.ndp_dgram_count ≥ TX_MAX_NUM_DPE then
    let (skb2, s) ← package_for_tx sz s
    .ok (some skb2, s)
  else
    let data ← s.skb_tx_data.deref
    let ndp ← s.skb_tx_ndp.deref
    if data.length + div + rem + skb_len + ndp.length + ndp_align + 2 * dgram_idx_len
        > s.fixed_in_len then
      let (skb2, s) ← package_for_tx sz s
      .ok (some skb2, s)
    else .ok (none, s)

/-- The block `if (!ncm->skb_tx_data) { ... }`: open a new NTB.  The result is
`Sum.inr` for `goto err`.  `data_alloc` tells whether the first `alloc_skb`
succeeds, `ndp_alloc` is `none` when the second fails and otherwise the contents
of the memory it returns. -/
def wrap_open (sz : cdc_sizes) (s : f_ncm) (data_alloc : Bool)
    (ndp_alloc : Option (Nat → Nat)) : f_ncm ⊕ f_ncm :=
  let opts := s.opts sz
  let div := ntb_parameters.wNdpInDivisor
  let rem := ntb_parameters.wNdpInPayloadRemainder
  if s.skb_tx_data = .NULL then
    let ncb_len := opts.nth_size
    let dgram_pad := ALIGN ncb_len div + rem - ncb_len
    let ncb_len := ncb_len + dgram_pad
    if data_alloc = false then .inr { s with skb_tx_data := .NULL }
    else
      -- memset, dwSignature, wHeaderLength
      let data := poke (poke (zeros ncb_len) 0 (put_unaligned_le32 opts.nth_sign)) 4
        (put_unaligned_le16 opts.nth_size)
      let s := { s with skb_tx_data := .live data }
      match ndp_alloc with
      | none => .inr { s with skb_tx_ndp := .NULL }
      | some mem =>
        -- skb_put(ndp_size); memset(ntb_ndp, 0, ncb_len); dwSignature
        let ndp := (List.range opts.ndp_size).map (fun i => if i < ncb_len then 0 else mem i)
        let ndp := poke ndp 0 (put_unaligned_le32 s.ndp_sign)
        .inl { s with skb_tx_ndp := .live ndp, ndp_dgram_count := 1 }
  else .inl s

/-- The rest of the frame branch: add the datagram position entry and the data. -/
def wrap_append (sz : cdc_sizes) (s : f_ncm) (skb : List Nat) : Except Fault f_ncm := do
  let opts := s.opts sz
  let div := ntb_parameters.wNdpInDivisor
  let rem := ntb_parameters.wNdpInPayloadRemainder
  let ndp ← s.skb_tx_ndp.deref
  let data ← s.skb_tx_data.deref
  let ncb_len := data.length
  let dgram_pad := ALIGN ncb_len div + rem - ncb_len
  let ncb_len := ncb_len + dgram_pad
  -- (d)wDatagramIndex, (d)wDatagramLength: they fill the zeroed entry exactly
  let e_index ← put_ncm opts.dgram_item_len ncb_len
  let e_len ← put_ncm opts.dgram_item_len skb.length
  .ok { s with
        skb_tx_ndp := .live (ndp ++ (e_index ++ e_len))
        ndp_dgram_count := (s.ndp_dgram_count + 1) % 65536
        skb_tx_data := .live (data ++ zeros dgram_pad ++ skb) }

/-- The function `ncm_wrap_ntb`.  `skb = none` is the NULL frame of the flush
tasklet.  The result is the NTB handed back (`none` for NULL) and the session. -/
def ncm_wrap_ntb (sz : cdc_sizes) (s : f_ncm) (data_alloc : Bool)
    (ndp_alloc : Option (Nat → Nat)) (skb : Option (List Nat)) :
    Except Fault (Option (List Nat) × f_ncm) :=
  match skb with
  | none =>
    if s.skb_tx_data = .NULL then .ok (none, s)
    else if s.timer_force_tx = true then do
      let (skb2, s) ← package_for_tx sz s
      .ok (some skb2, s)
    else .ok (none, s)
  | some frame => do
    -- Add the CRC if required up front
    let frame := if s.is_crc = true then frame ++ put_unaligned_le32 (dgram_crc frame) else frame
    let (skb2, s) ← wrap_flush_if_full sz s frame.length
    match wrap_open sz s data_alloc ndp_alloc with
    | .inr s => ncm_wrap_ntb_err s
    | .inl s =>
      let s ← wrap_append sz s frame
      .ok (skb2, s)

/-- The body of `ncm_tx_tasklet`: the flush that the timer schedules.  The call
`ndo_start_xmit(NULL, netdev)` reaches `ncm_wrap_ntb` with a NULL frame. -/
def ncm_tx_tasklet (sz : cdc_sizes) (s : f_ncm) : Except Fault (Option (List Nat) × f_ncm) :=
  if s.timer_stopping = true then .ok (none, s)
  else if s.skb_tx_data = .NULL then .ok (none, s)
  else do
    let (out, s) ← ncm_wrap_ntb sz { s with timer_force_tx := true } true none none
    .ok (out, { s with timer_force_tx := false })

/-! ## Ingress: `ncm_unwrap_ntb` -/

/-- Modelled from the spec: the errno value behind the INVALID result (`EINVAL` of
the kernel headers, which are not part of the sources). -/
def EINVAL : Int := 22

/-- The errno value `EOVERFLOW` of the kernel headers (not part of the sources). -/
def EOVERFLOW : Int := 75

/-- Modelled from the spec: the errno value behind the UNSUPPORTED result
(`EOPNOTSUPP` of the kernel headers, which are not part of the sources). -/
def EOPNOTSUPP : Int := 95

/-- The label `err:` of `ncm_unwrap_ntb`: the list is purged, `ret` is returned. -/
def unwrap_err (ret : Int) : Except Fault (Int × List (List Nat)) := .ok (ret, [])

/-- The `do { ... } while (ndp_len > 2 * (opts->dgram_item_len * 2))` loop of
`ncm_unwrap_ntb`, one iteration per unit of `fuel`.  `tmp` is the byte offset of
the read pointer in `skb`, `clone_ok n` tells whether the `skb_clone` made while
`dgram_counter = n` succeeds. -/
def unwrap_loop (opts : ndp_parser_opts) (is_crc : Bool) (skb : List Nat)
    (clone_ok : Nat → Bool) :
    Nat → Nat → Nat → Nat → Nat → Nat → List (List Nat) →
      Except Fault (Int × List (List Nat))
  | 0, _, _, _, _, _, _ => .error .fuel
  | fuel + 1, tmp, index2, dg_len2, ndp_len, dgram_counter, list => do
    let crc_len := if is_crc = true then 4 else 0
    let index := index2
    let dg_len := dg_len2
    if dg_len < 14 + crc_len then unwrap_err (-EINVAL)
    else
      let crc_good ←
        if is_crc = true then do
          let crc ← get_unaligned_le32 skb (index + dg_len - crc_len)
          let payload ← peek skb index (dg_len - crc_len)
          pure (decide (crc = dgram_crc payload))
        else pure true
      if crc_good = false then unwrap_err (-EINVAL)
      else
        let index2 ← get_ncm skb tmp opts.dgram_item_len
        let dg_len2 ← get_ncm skb (tmp + 2 * opts.dgram_item_len) opts.dgram_item_len
        let tmp := tmp + 2 * opts.dgram_item_len + 2 * opts.dgram_item_len
        let last := decide (index2 = 0 ∨ dg_len2 = 0)
        if last = false ∧ clone_ok dgram_counter = false then unwrap_err (-EINVAL)
        -- skb_pull(skb2, index)
        else if index > skb.length then unwrap_err (-EOVERFLOW)
        else
          -- skb_trim(skb2, dg_len - crc_len); skb_queue_tail(list, skb2)
          let list := list ++ [(skb.drop index).take (dg_len - crc_len)]
          let ndp_len := ndp_len - 2 * (opts.dgram_item_len * 2)
          if last = true then .ok (0, list)
          else if ndp_len > 2 * (opts.dgram_item_len * 2) then
            unwrap_loop opts is_crc skb clone_ok fuel tmp index2 dg_len2 ndp_len
              (dgram_counter + 1) list
          else .ok (0, list)

/-- The function `ncm_unwrap_ntb`: the return value and the list afterwards. -/
def ncm_unwrap_ntb (sz : cdc_sizes) (s : f_ncm) (clone_ok : Nat → Bool) (skb : List Nat)
    (list : List (List Nat)) : Except Fault (Int × List (List Nat)) := do
  let max_size := ntb_parameters.dwNtbOutMaxSize
  let opts := s.opts sz
  -- dwSignature
  if (← get_unaligned_le32 skb 0) ≠ opts.nth_sign then unwrap_err (-EINVAL)
  -- wHeaderLength
  else if (← get_unaligned_le16 skb 4) ≠ opts.nth_size then unwrap_err (-EINVAL)
  -- skip wSequence; (d)wBlockLength
  else if (← get_ncm skb 8 opts.block_length) > max_size then unwrap_err (-EINVAL)
  else
    let index ← get_ncm skb (8 + 2 * opts.block_length) opts.fp_index
    -- NCM 3.2
    if index % 4 ≠ 0 ∧ index < opts.nth_size then unwrap_err (-EINVAL)
    -- walk through NDP
    else if (← get_unaligned_le32 skb index) ≠ opts.ndp_sign then unwrap_err (-EINVAL)
    else
      let ndp_len ← get_unaligned_le16 skb (index + 4)
      if ndp_len < opts.ndp_size + 2 * 2 * (opts.dgram_item_len * 2)
          ∨ ndp_len % opts.ndplen_align ≠ 0 then unwrap_err (-EINVAL)
      else
        let tmp := index + 6 + 2 * opts.reserved1 + 2 * opts.next_fp_index + 2 * opts.reserved2
        let ndp_len := ndp_len - opts.ndp_size
        let index2 ← get_ncm skb tmp opts.dgram_item_len
        let dg_len2 ← get_ncm skb (tmp + 2 * opts.dgram_item_len) opts.dgram_item_len
        let tmp := tmp + 2 * opts.dgram_item_len + 2 * opts.dgram_item_len
        unwrap_loop opts s.is_crc skb clone_ok (ndp_len + 1) tmp index2 dg_len2 ndp_len 0 list

/-! ## Class control requests: `ncm_setup` and `ncm_ep0out_complete` -/

/-- The value of `(ctrl->bRequestType << 8) | ctrl->bRequest` as the `switch` of
`ncm_setup` classifies it: one of its seven `case` labels, or anything else. -/
inductive ncm_request where
  | GET_NTB_PARAMETERS
  | GET_NTB_INPUT_SIZE
  | SET_NTB_INPUT_SIZE
  | GET_NTB_FORMAT
  | SET_NTB_FORMAT
  | GET_CRC_MODE
  | SET_CRC_MODE
  | other
  deriving DecidableEq, Repr

structure usb_ctrlrequest where
  request : ncm_request
  wValue : Nat
  wIndex : Nat
  wLength : Nat
  deriving DecidableEq, Repr

/-- Modelled from the spec: the byte image of `ntb_parameters`, 28 bytes in the
layout of `struct usb_cdc_ncm_ntb_parameters` (linux/usb/cdc.h, not part of the
sources), with the values of the initialiser in the file. -/
def ntb_parameters_bytes : List Nat :=
  put_unaligned_le16 28
    ++ put_unaligned_le16 ntb_parameters.bmNtbFormatsSupported
    ++ put_unaligned_le32 ntb_parameters.dwNtbInMaxSize
    ++ put_unaligned_le16 ntb_parameters.wNdpInDivisor
    ++ put_unaligned_le16 ntb_parameters.wNdpInPayloadRemainder
    ++ put_unaligned_le16 ntb_parameters.wNdpInAlignment
    ++ put_unaligned_le16 0
    ++ put_unaligned_le32 ntb_parameters.dwNtbOutMaxSize
    ++ put_unaligned_le16 ntb_parameters.wNdpOutDivisor
    ++ put_unaligned_le16 ntb_parameters.wNdpOutPayloadRemainder
    ++ put_unaligned_le16 ntb_parameters.wNdpOutAlignment
    ++ put_unaligned_le16 0

/-- What `ncm_setup` leaves behind. -/
structure setup_result where
  /-- The return value. -/
  value : Int
  /-- The request handed to `usb_ep_queue` on EP0, as the first `req->length`
  bytes of `req->buf` (for an OUT data stage: `req->length` zero bytes, the
  buffer is still to be received); `none` when nothing is queued. -/
  queued : Option (List Nat)
  /-- Whether `req->complete` was set to `ncm_ep0out_complete`. -/
  out_stage : Bool
  /-- The session afterwards. -/
  ncm : f_ncm
  deriving DecidableEq, Repr

/-- The tail of `ncm_setup` for `value >= 0`: queue the response on EP0;
`queue_ret` is what `usb_ep_queue` returns. -/
def setup_respond (s : f_ncm) (reply : List Nat) (out_stage : Bool) (queue_ret : Int) :
    setup_result :=
  { value := queue_ret, queued := some reply, out_stage := out_stage, ncm := s }

/-- The label `invalid:` of `ncm_setup`: `value` stays `-EOPNOTSUPP`. -/
def setup_invalid (s : f_ncm) : setup_result :=
  { value := -EOPNOTSUPP, queued := none, out_stage := false, ncm := s }

/-- The function `ncm_setup`. -/
def ncm_setup (s : f_ncm) (ctrl : usb_ctrlrequest) (queue_ret : Int) : setup_result :=
  let w_index := ctrl.wIndex % 65536
  let w_value := ctrl.wValue % 65536
  let w_length := ctrl.wLength % 65536
  match ctrl.request with
  | .GET_NTB_PARAMETERS =>
    if w_length = 0 ∨ w_value ≠ 0 ∨ w_index ≠ s.ctrl_id then setup_invalid s
    else
      let value := if w_length > 28 then 28 else w_length
      setup_respond s (ntb_parameters_bytes.take value) false queue_ret
  | .GET_NTB_INPUT_SIZE =>
    if w_length < 4 ∨ w_value ≠ 0 ∨ w_index ≠ s.ctrl_id then setup_invalid s
    else setup_respond s (put_unaligned_le32 s.fixed_in_len) false queue_ret
  | .SET_NTB_INPUT_SIZE =>
    if w_length ≠ 4 ∨ w_value ≠ 0 ∨ w_index ≠ s.ctrl_id then setup_invalid s
    else setup_respond s (zeros w_length) true queue_ret
  | .GET_NTB_FORMAT =>
    if w_length < 2 ∨ w_value ≠ 0 ∨ w_index ≠ s.ctrl_id then setup_invalid s
    else
      let format := if s.parser_opts = .ndp16 then 0x0000 else 0x0001
      setup_respond s (put_unaligned_le16 format) false queue_ret
  | .SET_NTB_FORMAT =>
    if w_length ≠ 0 ∨ w_index ≠ s.ctrl_id then setup_invalid s
    else
      match w_value with
      | 0x0000 => setup_respond { s with parser_opts := .ndp16 } [] false queue_ret
      | 0x0001 => setup_respond { s with parser_opts := .ndp32 } [] false queue_ret
      | _ => setup_invalid s
  | .GET_CRC_MODE =>
    if w_length < 2 ∨ w_value ≠ 0 ∨ w_index ≠ s.ctrl_id then setup_invalid s
    else
      let is_crc := if s.is_crc = true then 0x0001 else 0x0000
      setup_respond s (put_unaligned_le16 is_crc) false queue_ret
  | .SET_CRC_MODE =>
    if w_length ≠ 0 ∨ w_index ≠ s.ctrl_id then setup_invalid s
    else
      let set_sign (s : f_ncm) (is_crc : Bool) (ndp_hdr_crc : Nat) : f_ncm :=
        -- ndp_sign &= ~NCM_NDP_HDR_CRC_MASK; ndp_sign |= ndp_hdr_crc
        let upd (sign : Nat) : Nat :=
          Nat.lor (Nat.land sign (4294967295 - NCM_NDP_HDR_CRC_MASK)) ndp_hdr_crc
        match s.parser_opts with
        | .ndp16 =>
          { s with is_crc := is_crc, ndp16_sign := upd s.ndp16_sign, ndp_sign := upd s.ndp16_sign }
        | .ndp32 =>
          { s with is_crc := is_crc, ndp32_sign := upd s.ndp32_sign, ndp_sign := upd s.ndp32_sign }
      match w_value with
      | 0x0000 => setup_respond (set_sign s false NCM_NDP_HDR_NOCRC) [] false queue_ret
      | 0x0001 => setup_respond (set_sign s true NCM_NDP_HDR_CRC) [] false queue_ret
      | _ => setup_invalid s
  | .other => setup_invalid s

/-! ## Runs of the transmit path -/

/-- One entry into the transmit path: a call of `ncm_wrap_ntb` (with the outcome
of the two allocations it may make), or the flush tasklet. -/
inductive tx_event where
  | wrap (data_alloc : Bool) (ndp_alloc : Option (Nat → Nat)) (skb : Option (List Nat))
  | tasklet

def tx_step (sz : cdc_sizes) (s : f_ncm) : tx_event → Except Fault (Option (List Nat) × f_ncm)
  | .wrap data_alloc ndp_alloc skb => ncm_wrap_ntb sz s data_alloc ndp_alloc skb
  | .tasklet => ncm_tx_tasklet sz s

/-- A sequence of entries into the transmit path; the NTBs handed back, in the
order of their return, and the session at the end. -/
def tx_run (sz : cdc_sizes) : f_ncm → List tx_event → Except Fault (List (List Nat) × f_ncm)
  | s, [] => .ok ([], s)
  | s, e :: es => do
    let (out, s) ← tx_step sz s e
    let (outs, s) ← tx_run sz s es
    .ok (out.toList ++ outs, s)

/-- The frames of a run, in the order of submission. -/
def tx_frames : List tx_event → List (List Nat)
  | [] => []
  | .wrap _ _ (some f) :: es => f :: tx_frames es
  | _ :: es => tx_frames es

/-- A run in which no allocation fails. -/
def tx_no_alloc_failure : List tx_event → Prop
  | [] => True
  | .wrap data_alloc ndp_alloc _ :: es =>
    data_alloc = true ∧ ndp_alloc.isSome = true ∧ tx_no_alloc_failure es
  | .tasklet :: es => tx_no_alloc_failure es

/-- The events that submit the frames `fs` one after the other, every allocation
succeeding (fresh memory reads as `junk`). -/
def submit (junk : Nat → Nat) (fs : List (List Nat)) : List tx_event :=
  fs.map (fun f => tx_event.wrap true (some junk) (some f))

/-! ## Reading an NTB -/

/-- The NTH field (d)wBlockLength of an NTB. -/
def nth_block_length (opts : ndp_parser_opts) (ntb : List Nat) : Except Fault Nat :=
  get_ncm ntb 8 opts.block_length

/-- The NTH field (d)wNdpIndex of an NTB, read as `ncm_unwrap_ntb` reads it. -/
def nth_ndp_index (opts : ndp_parser_opts) (ntb : List Nat) : Except Fault Nat :=
  get_ncm ntb (8 + 2 * opts.block_length) opts.fp_index

/-- The field wLength of the NDP at byte offset `ndp` of an NTB. -/
def ndp_wLength (ntb : List Nat) (ndp : Nat) : Except Fault Nat :=
  get_unaligned_le16 ntb (ndp + 4)

/-- The pair ((d)wDatagramIndex, (d)wDatagramLength) of the `k`-th DPE slot. -/
def dpe_entry (opts : ndp_parser_opts) (ntb : List Nat) (ndp k : Nat) :
    Except Fault (Nat × Nat) := do
  let at_ := ndp + opts.ndp_size + k * (2 * 2 * opts.dgram_item_len)
  let index ← get_ncm ntb at_ opts.dgram_item_len
  let len ← get_ncm ntb (at_ + 2 * opts.dgram_item_len) opts.dgram_item_len
  pure (index, len)

/-- The datagram that the `k`-th DPE of the NDP at `ndp` locates. -/
def dpe_dgram (opts : ndp_parser_opts) (ntb : List Nat) (ndp k : Nat) :
    Except Fault (List Nat) := do
  let (index, len) ← dpe_entry opts ntb ndp k
  peek ntb index len

/-- The datagrams located by the first `n` DPEs of the NDP at `ndp`, in DPE order. -/
def dpe_dgrams (opts : ndp_parser_opts) (ntb : List Nat) (ndp : Nat) :
    Nat → Except Fault (List (List Nat))
  | 0 => .ok []
  | n + 1 => do
    let ds ← dpe_dgrams opts ntb ndp n
    let d ← dpe_dgram opts ntb ndp n
    pure (ds ++ [d])

/-- The datagrams of an NTB: those located by the DPEs that its wLength counts,
the last slot being the terminator. -/
def ntb_dgrams (opts : ndp_parser_opts) (ntb : List Nat) : Except Fault (List (List Nat)) := do
  let ndp ← nth_ndp_index opts ntb
  let wLength ← ndp_wLength ntb ndp
  dpe_dgrams opts ntb ndp ((wLength - opts.ndp_size) / (2 * 2 * opts.dgram_item_len) - 1)

/-- The datagrams of a sequence of NTBs, in the order of the NTBs and, within an
NTB, of its DPEs. -/
def ntbs_dgrams (opts : ndp_parser_opts) : List (List Nat) → Except Fault (List (List Nat))
  | [] => .ok []
  | ntb :: rest => do
    let ds ← ntb_dgrams opts ntb
    let more ← ntbs_dgrams opts rest
    pure (ds ++ more)

/-- The datagram that `ncm_wrap_ntb` stores for a frame: the frame, followed by
its CRC when the session is in CRC mode. -/
def with_crc (is_crc : Bool) (frame : List Nat) : List Nat :=
  if is_crc = true then frame ++ put_unaligned_le32 (dgram_crc frame) else frame

/-! ## The layout of a pending NTB -/

/-- The bytes `put_ncm` stores for a field of `item` 16-bit units, `item` being
1 or 2. -/
def enc_item (item val : Nat) : List Nat :=
  if item = 1 then put_unaligned_le16 val else put_unaligned_le32 val

/-- The two buffers of a pending NTB after one more datagram. -/
def lay_step (item : Nat) (st : List Nat × List Nat) (d : List Nat) : List Nat × List Nat :=
  (st.1 ++ zeros (ALIGN st.1.length 4 - st.1.length) ++ d,
   st.2 ++ (enc_item item (ALIGN st.1.length 4) ++ enc_item item d.length))

/-- The two buffers of a pending NTB that was opened with the header `hdr` and
the NDP header `ndp0` and has received the datagrams `ds`. -/
def lay (item : Nat) (hdr ndp0 : List Nat) (ds : List (List Nat)) : List Nat × List Nat :=
  ds.foldl (lay_step item) (hdr, ndp0)

/-- The NTH as `ncm_wrap_ntb` writes it when it opens an NTB. -/
def fresh_nth (opts : ndp_parser_opts) : List Nat :=
  poke (poke (zeros (ALIGN opts.nth_size 4)) 0 (put_unaligned_le32 opts.nth_sign)) 4
    (put_unaligned_le16 opts.nth_size)

/-- The NDP header as `ncm_wrap_ntb` writes it when it opens an NTB. -/
def fresh_ndp (opts : ndp_parser_opts) (sign : Nat) (mem : Nat → Nat) : List Nat :=
  poke ((List.range opts.ndp_size).map (fun i => if i < ALIGN opts.nth_size 4 then 0 else mem i))
    0 (put_unaligned_le32 sign)

/-- The NTB that `package_for_tx` builds from the two buffers of a pending NTB. -/
def packaged (opts : ndp_parser_opts) (count : Nat) (b n : List Nat) : List Nat :=
  poke (poke b 8 (enc_item opts.block_length
      (ALIGN b.length 4 + 2 * 2 * opts.dgram_item_len + n.length)))
      (8 + 2 * opts.block_length) (enc_item opts.ndp_index (ALIGN b.length 4))
    ++ zeros (ALIGN b.length 4 - b.length)
    ++ poke n 4 (put_unaligned_le16 (opts.ndp_size + count * (2 * 2 * opts.dgram_item_len)))
    ++ zeros (2 * 2 * opts.dgram_item_len)

/-! ## A reference model of the pending NTB -/

/-- The session after `package_for_tx`. -/
def after_package (s : f_ncm) : f_ncm :=
  { s with ndp_dgram_count := 0, skb_tx_data := .NULL, skb_tx_ndp := .NULL }

/-- The session after `wrap_append` has added `d` to the buffers `b` and `n`. -/
def after_append (sz : cdc_sizes) (s : f_ncm) (b n d : List Nat) : f_ncm :=
  { s with
    skb_tx_ndp := .live (lay_step (s.opts sz).dgram_item_len (b, n) d).2
    ndp_dgram_count := (s.ndp_dgram_count + 1) % 65536
    skb_tx_data := .live (lay_step (s.opts sz).dgram_item_len (b, n) d).1 }

/-- The session after `wrap_open` has opened a new NTB, both allocations succeeding. -/
def opened (sz : cdc_sizes) (s : f_ncm) (mem : Nat → Nat) : f_ncm :=
  { s with
    skb_tx_data := .live (fresh_nth (s.opts sz))
    skb_tx_ndp := .live (fresh_ndp (s.opts sz) s.ndp_sign mem)
    ndp_dgram_count := 1 }

/-- The frame branch of `ncm_wrap_ntb` after its first `if`: open an NTB when
none is pending, add the datagram, hand back `skb2`. -/
def wrap_tail (sz : cdc_sizes) (s : f_ncm) (data_alloc : Bool) (ndp_alloc : Option (Nat → Nat))
    (frame : List Nat) (skb2 : Option (List Nat)) : Except Fault (Option (List Nat) × f_ncm) :=
  match wrap_open sz s data_alloc ndp_alloc with
  | .inr s => ncm_wrap_ntb_err s
  | .inl s => do
    let s ← wrap_append sz s frame
    .ok (skb2, s)

/-- What the transmit path holds: nothing, a pending NTB (the memory its NDP
buffer was made of and the datagrams it holds, oldest first), or the freed body
that a failed NDP allocation leaves behind. -/
inductive tx_abs where
  | idle
  | pending (mem : Nat → Nat) (ds : List (List Nat))
  | poisoned

/-- The two buffers of the pending NTB that holds `ds`. -/
def pending_bufs (sz : cdc_sizes) (s : f_ncm) (mem : Nat → Nat) (ds : List (List Nat)) :
    List Nat × List Nat :=
  lay (s.opts sz).dgram_item_len (fresh_nth (s.opts sz)) (fresh_ndp (s.opts sz) s.ndp_sign mem) ds

/-- The NTB that `package_for_tx` makes of the pending NTB that holds `ds`. -/
def ntb_of (sz : cdc_sizes) (s : f_ncm) (g : (Nat → Nat) × List (List Nat)) : List Nat :=
  packaged (s.opts sz) (g.2.length + 1) (pending_bufs sz s g.1 g.2).1 (pending_bufs sz s g.1 g.2).2

/-- The session state `s` holds what `a` says. -/
def tx_repr (sz : cdc_sizes) (s : f_ncm) : tx_abs → Prop
  | .idle => s.skb_tx_data = .NULL ∧ s.skb_tx_ndp = .NULL
  | .pending mem ds =>
    ds ≠ [] ∧ ds.length ≤ 31
      ∧ s.skb_tx_data = .live (pending_bufs sz s mem ds).1
      ∧ s.skb_tx_ndp = .live (pending_bufs sz s mem ds).2
      ∧ s.ndp_dgram_count = ds.length + 1
  | .poisoned => s.skb_tx_data = .dangling ∧ s.skb_tx_ndp = .NULL

/-- The test of `ncm_wrap_ntb` that sends the pending NTB before a datagram of
`len` bytes is added. -/
def must_flush (sz : cdc_sizes) (s : f_ncm) (mem : Nat → Nat) (ds : List (List Nat))
    (len : Nat) : Prop :=
  ds.length + 1 ≥ TX_MAX_NUM_DPE
    ∨ (pending_bufs sz s mem ds).1.length + 4 + 0 + len + (pending_bufs sz s mem ds).2.length
        + 4 + 2 * (2 * 2 * (s.opts sz).dgram_item_len) > s.fixed_in_len

instance (sz : cdc_sizes) (s : f_ncm) (mem : Nat → Nat) (ds : List (List Nat)) (len : Nat) :
    Decidable (must_flush sz s mem ds len) := by
  unfold must_flush; infer_instance

/-- Opening an NTB for the datagram `d`, by the outcome of the two allocations. -/
def abs_open (data_alloc : Bool) (ndp_alloc : Option (Nat → Nat)) (d : List Nat) : tx_abs :=
  if data_alloc = false then .idle
  else match ndp_alloc with
    | none => .poisoned
    | some mem => .pending mem [d]

/-- Whether both allocations of an opening succeed. -/
def alloc_ok (data_alloc : Bool) (ndp_alloc : Option (Nat → Nat)) : Bool :=
  data_alloc && ndp_alloc.isSome

/-- The reference model of one entry into the transmit path: the pending NTB
that is sent, if one is, and what is held afterwards. -/
def abs_step (sz : cdc_sizes) (s : f_ncm) (a : tx_abs) :
    tx_event → Option ((Nat → Nat) × List (List Nat)) × tx_abs
  | .wrap data_alloc ndp_alloc (some f) =>
    match a with
    | .idle => (none, abs_open data_alloc ndp_alloc (with_crc s.is_crc f))
    | .pending mem ds =>
      if must_flush sz s mem ds (with_crc s.is_crc f).length then
        (if alloc_ok data_alloc ndp_alloc = true then some (mem, ds) else none,
         abs_open data_alloc ndp_alloc (with_crc s.is_crc f))
      else (none, .pending mem (ds ++ [with_crc s.is_crc f]))
    | .poisoned => (none, .poisoned)
  | .wrap _ _ none =>
    match a with
    | .pending mem ds => if s.timer_force_tx = true then (some (mem, ds), .idle) else (none, a)
    | _ => (none, a)
  | .tasklet =>
    match a with
    | .pending mem ds => if s.timer_stopping = true then (none, a) else (some (mem, ds), .idle)
    | _ => (none, a)

/-- The fields of the session that the transmit path reads and never writes. -/
def tx_settings (s : f_ncm) : parser_sel × Bool × Nat × Nat × Nat × Nat × Bool :=
  (s.parser_opts, s.is_crc, s.ndp_sign, s.fixed_in_len, s.ndp16_sign, s.ndp32_sign,
   s.timer_stopping)

/-- The datagrams that the transmit path holds. -/
def abs_pend : tx_abs → List (List Nat)
  | .pending _ ds => ds
  | _ => []

/-- A property of the pending NTB, when there is one. -/
def abs_inv (Q : (Nat → Nat) × List (List Nat) → Prop) : tx_abs → Prop
  | .pending mem ds => Q (mem, ds)
  | _ => True

/-- The byte offset at which the `k`-th datagram of the pending NTB that holds
`ds` starts: the length of the body before it, rounded up to the divisor. -/
def dgram_index (sz : cdc_sizes) (s : f_ncm) (mem : Nat → Nat) (ds : List (List Nat))
    (k : Nat) : Nat :=
  ALIGN (pending_bufs sz s mem (ds.take k)).1.length 4

/-- The byte offset of the NDP in the NTB made of the pending NTB that holds `ds`. -/
def ndp_offset (sz : cdc_sizes) (s : f_ncm) (mem : Nat → Nat) (ds : List (List Nat)) : Nat :=
  ALIGN (pending_bufs sz s mem ds).1.length 4

/-! ## Sample sessions and inputs -/

/-- The session of a freshly bound function (control interface 0, data interface 1). -/
def default_session : f_ncm := ncm_initial 0 1

/-- The default session after the host has sent SET_NTB_FORMAT(1). -/
def ntb32_session : f_ncm :=
  (ncm_setup default_session
    { request := .SET_NTB_FORMAT, wValue := 1, wIndex := 0, wLength := 0 } 0).ncm

/-- The default session after the host has sent SET_CRC_MODE(1). -/
def crc_session : f_ncm :=
  (ncm_setup default_session
    { request := .SET_CRC_MODE, wValue := 1, wIndex := 0, wLength := 0 } 0).ncm

/-- Fresh memory that reads as zero. -/
def zero_mem : Nat → Nat := fun _ => 0

/-- A frame of `n` bytes, the bytes counting up from `k`. -/
def sample_frame (n k : Nat) : List Nat := (List.range n).map (fun i => (i + k) % 256)

/-- An NTB32 session with one frame pending. -/
def ntb32_pending : f_ncm :=
  { ntb32_session with
    skb_tx_data := .live (fresh_nth (ntb32_session.opts packed_sizes) ++ sample_frame 14 1)
    skb_tx_ndp := .live (fresh_ndp (ntb32_session.opts packed_sizes) ntb32_session.ndp_sign zero_mem
      ++ (put_unaligned_le32 16 ++ put_unaligned_le32 14))
    ndp_dgram_count := 2 }

/-- A received buffer that is an NTH16 with the wrong wHeaderLength (16 for 12). -/
def bad_header_skb : List Nat :=
  put_unaligned_le32 USB_CDC_NCM_NTH16_SIGN ++ put_unaligned_le16 16 ++ put_unaligned_le16 0
    ++ put_unaligned_le16 32 ++ put_unaligned_le16 12 ++ zeros 20

/-- The events of the scenario "one 64-byte frame, then the timer-forced flush". -/
def single_frame_events : List tx_event :=
  submit zero_mem [sample_frame 64 0] ++ [.tasklet]

/-- The NTB that the default session hands back in that scenario. -/
def single_frame_ntb : List Nat :=
  match tx_run packed_sizes default_session single_frame_events with
  | .ok (ntb :: _, _) => ntb
  | _ => []

/-- The session after that scenario. -/
def single_frame_after : f_ncm :=
  match tx_run packed_sizes default_session single_frame_events with
  | .ok (_, s) => s
  | _ => default_session

/-- Thirty-three frames of 64 bytes. -/
def frames_33 : List (List Nat) := List.replicate 33 (sample_frame 64 0)

/-! ## Conservation of frames in an NTB16 session -/

/-- The datagrams of the NTB that a step of the reference model sends. -/
def sent_dgrams : Option ((Nat → Nat) × List (List Nat)) → List (List Nat)
  | some g => g.2
  | none => []

/-- The datagram that `ncm_unwrap_ntb` queues for a datagram of the NTB: the
datagram without its CRC. -/
def strip_crc (is_crc : Bool) (d : List Nat) : List Nat :=
  d.take (d.length - (if is_crc = true then 4 else 0))

/-- A datagram that passes the per-datagram checks of `ncm_unwrap_ntb`: at least
an Ethernet header long, and in CRC mode ending in the CRC of what precedes. -/
def dgram_ok (is_crc : Bool) (d : List Nat) : Prop :=
  14 + (if is_crc = true then 4 else 0) ≤ d.length
    ∧ (is_crc = true → le_value (d.drop (d.length - 4)) = dgram_crc (d.take (d.length - 4)))

/-! ## Reading a received NTB -/

/-- The `k`-th DPE of the NDP at byte offset `ndp` of a received buffer, read
where `ncm_unwrap_ntb` reads it: behind the signature, wLength and the reserved
fields it skips, `k` entries of two items further on. -/
def rx_dpe (opts : ndp_parser_opts) (skb : List Nat) (ndp k : Nat) : Except Fault (Nat × Nat) := do
  let tmp := ndp + 6 + 2 * opts.reserved1 + 2 * opts.next_fp_index + 2 * opts.reserved2
    + k * (2 * (opts.dgram_item_len * 2))
  let index ← get_ncm skb tmp opts.dgram_item_len
  let dg_len ← get_ncm skb (tmp + 2 * opts.dgram_item_len) opts.dgram_item_len
  pure (index, dg_len)

/-- The datagram window of a DPE `(index, length)`: the bytes
`[index, index + length - crc_len)` of the buffer. -/
def dpe_window (is_crc : Bool) (skb : List Nat) (e : Nat × Nat) : List Nat :=
  (skb.drop e.1).take (e.2 - (if is_crc = true then 4 else 0))

/-- The datagram that a DPE locates lies in the buffer and passes the length and
CRC checks of `ncm_unwrap_ntb`. -/
def rx_dgram_ok (is_crc : Bool) (skb : List Nat) (e : Nat × Nat) : Prop :=
  ∃ d, peek skb e.1 e.2 = .ok d ∧ dgram_ok is_crc d

/-! ## Sample received buffers -/

/-- An NTB16 of 44 bytes whose NDP sits at offset 14: a 12-byte NTH16, two bytes
of padding, an NDP16 with one DPE (30, 14) and the zero DPE, and the datagram. -/
def misaligned_ntb : List Nat :=
  put_unaligned_le32 USB_CDC_NCM_NTH16_SIGN ++ put_unaligned_le16 12 ++ put_unaligned_le16 0
    ++ put_unaligned_le16 44 ++ put_unaligned_le16 14
    ++ zeros 2
    ++ put_unaligned_le32 USB_CDC_NCM_NDP16_NOCRC_SIGN ++ put_unaligned_le16 16
    ++ put_unaligned_le16 0
    ++ put_unaligned_le16 30 ++ put_unaligned_le16 14
    ++ put_unaligned_le16 0 ++ put_unaligned_le16 0
    ++ sample_frame 14 1

/-- The default session after the host has sent SET_CRC_MODE(1) and then
SET_NTB_FORMAT(1). -/
def crc_then_ntb32_session : f_ncm :=
  (ncm_setup crc_session
    { request := .SET_NTB_FORMAT, wValue := 1, wIndex := 0, wLength := 0 } 0).ncm

/-- An NTB32 of 66 bytes with the NDP signature `ndp_sign`: a 16-byte NTH32, an
NDP32 at offset 16 with one DPE (48, 18) and the zero DPE, and a 14-byte frame
followed by its CRC. -/
def ntb32_one_dgram (ndp_sign : Nat) : List Nat :=
  put_unaligned_le32 USB_CDC_NCM_NTH32_SIGN ++ put_unaligned_le16 16 ++ put_unaligned_le16 0
    ++ put_unaligned_le32 66 ++ put_unaligned_le32 16
    ++ put_unaligned_le32 ndp_sign ++ put_unaligned_le16 32 ++ put_unaligned_le16 0
    ++ put_unaligned_le32 0 ++ put_unaligned_le32 0
    ++ put_unaligned_le32 48 ++ put_unaligned_le32 18
    ++ put_unaligned_le32 0 ++ put_unaligned_le32 0
    ++ with_crc true (sample_frame 14 1)

/-- An NTB16 with the NDP at offset 12 holding the DPEs `dpes` (nothing is added
to them) and the bytes `body` behind the NDP. -/
def ntb16_of_dpes (ndp_sign : Nat) (dpes : List (Nat × Nat)) (body : List Nat) : List Nat :=
  put_unaligned_le32 USB_CDC_NCM_NTH16_SIGN ++ put_unaligned_le16 12 ++ put_unaligned_le16 0
    ++ put_unaligned_le16 (20 + 4 * dpes.length + body.length) ++ put_unaligned_le16 12
    ++ put_unaligned_le32 ndp_sign ++ put_unaligned_le16 (8 + 4 * dpes.length)
    ++ put_unaligned_le16 0
    ++ (dpes.map (fun e => put_unaligned_le16 e.1 ++ put_unaligned_le16 e.2)).flatten
    ++ body

/-- An NTB16 whose NDP (wLength 16) holds two nonzero DPEs and no zero DPE. -/
def no_terminator_ntb : List Nat :=
  ntb16_of_dpes USB_CDC_NCM_NDP16_NOCRC_SIGN [(28, 14), (42, 14)]
    (sample_frame 14 1 ++ sample_frame 14 2)

/-- An NTB16 whose first DPE has index 0 and length 14, followed by the zero DPE. -/
def zero_first_ntb : List Nat :=
  ntb16_of_dpes USB_CDC_NCM_NDP16_NOCRC_SIGN [(0, 14), (0, 0)] []

/-- An NTB16 with two datagrams and the zero DPE. -/
def two_dgram_ntb : List Nat :=
  ntb16_of_dpes USB_CDC_NCM_NDP16_NOCRC_SIGN [(32, 14), (46, 14), (0, 0)]
    (sample_frame 14 1 ++ sample_frame 14 2)

/-- An NTB16 for CRC mode with two datagrams and the zero DPE: the first
datagram ends in its CRC, the second in four zero bytes. -/
def bad_crc_ntb : List Nat :=
  ntb16_of_dpes (USB_CDC_NCM_NDP16_NOCRC_SIGN + NCM_NDP_HDR_CRC) [(32, 18), (50, 18), (0, 0)]
    (with_crc true (sample_frame 14 1) ++ (sample_frame 14 2 ++ [0, 0, 0, 0]))

/-! ## The claim on the ingress output, as it is worded -/

/-- The DPEs of the NDP at `ndp` whose slots lie within its wLength: DPE `k` for
each `k` with `ndp_size + (k + 1) * (entry size) <= wLength`, below `n`. -/
def dpes_in_budget (opts : ndp_parser_opts) (skb : List Nat) (ndp : Nat) :
    Nat → Except Fault (List (Nat × Nat))
  | 0 => .ok []
  | n + 1 => do
    let es ← dpes_in_budget opts skb ndp n
    let e ← rx_dpe opts skb ndp n
    pure (es ++ [e])

/-- The output list that the claim describes: in DPE order, one window for each
DPE that lies within the wLength budget and precedes the first DPE with zero
index or zero length. -/
def claimed_output (opts : ndp_parser_opts) (is_crc : Bool) (skb : List Nat) (ndp wLength : Nat) :
    Except Fault (List (List Nat)) := do
  let es ← dpes_in_budget opts skb ndp
    ((wLength - opts.ndp_size) / (2 * (opts.dgram_item_len * 2)))
  pure ((es.takeWhile (fun e => decide (e.1 ≠ 0 ∧ e.2 ≠ 0))).map (dpe_window is_crc skb))

/-- The claim on the ingress output at one received buffer: when
`ncm_unwrap_ntb`, called with an empty list, returns 0, the list afterwards is
the claimed output. -/
def ingress_output_claim (sz : cdc_sizes) (s : f_ncm) (clone_ok : Nat → Bool)
    (skb : List Nat) : Prop :=
  ∀ out ndp wLength, ncm_unwrap_ntb sz s clone_ok skb [] = .ok (0, out) →
    nth_ndp_index (s.opts sz) skb = .ok ndp → ndp_wLength skb ndp = .ok wLength →
    claimed_output (s.opts sz) s.is_crc skb ndp wLength = .ok out

/-! ## The data stage of SET_NTB_INPUT_SIZE: `ncm_ep0out_complete` -/

/-- Modelled from the spec: the constant `USB_CDC_NCM_NTB_MIN_IN_SIZE` of
linux/usb/cdc.h (not part of the sources), the smallest NTB input size a host
may set. -/
def USB_CDC_NCM_NTB_MIN_IN_SIZE : Nat := 2048

/-- The members of the EP0 `struct usb_request` that `ncm_ep0out_complete` reads;
`buf` is the content of the request buffer. -/
structure usb_request where
  status : Int
  actual : Nat
  length : Nat
  buf : List Nat
  deriving DecidableEq, Repr

/-- What `ncm_ep0out_complete` leaves behind. -/
structure ep0out_result where
  /-- The session afterwards. -/
  ncm : f_ncm
  /-- Whether `usb_ep_set_halt(ep)` was called. -/
  halted : Bool
  deriving DecidableEq, Repr

/-- The function `ncm_ep0out_complete`. -/
def ncm_ep0out_complete (s : f_ncm) (req : usb_request) : Except Fault ep0out_result :=
  if req.status ≠ 0 ∨ req.actual ≠ req.length then .ok { ncm := s, halted := true }
  else do
    let in_size ← get_unaligned_le32 req.buf 0
    if in_size < USB_CDC_NCM_NTB_MIN_IN_SIZE ∨ in_size > ntb_parameters.dwNtbInMaxSize then
      .ok { ncm := s, halted := true }
    else .ok { ncm := { s with fixed_in_len := in_size }, halted := false }

/-- A control request of the host to the control interface of the session. -/
def class_request (s : f_ncm) (request : ncm_request) (wValue wLength : Nat) : usb_ctrlrequest :=
  { request := request, wValue := wValue, wIndex := s.ctrl_id, wLength := wLength }

/-- The 28 bytes of the NTB parameter block with wLength 28, bmNtbFormatsSupported
1, dwNtbInMaxSize 4096, wNdpInDivisor 4, wNdpInPayloadRemainder 0,
wNdpInAlignment 4, a reserved zero, dwNtbOutMaxSize 16384, wNdpOutDivisor 4,
wNdpOutPayloadRemainder 2, wNdpOutAlignment 4 and wNtbOutMaxDatagrams 0, each
little-endian. -/
def ntb_parameter_block : List Nat :=
  [28, 0, 1, 0, 0, 16, 0, 0, 4, 0, 0, 0, 4, 0, 0, 0, 0, 64, 0, 0, 4, 0, 2, 0, 4, 0, 0, 0]

/-- A setup packet that the claim on malformed requests names: addressed to
another interface, or with a wLength or a wValue that the request does not
allow, or none of the seven class requests. -/
def setup_malformed (s : f_ncm) (ctrl : usb_ctrlrequest) : Prop :=
  match ctrl.request with
  | .GET_NTB_PARAMETERS => ctrl.wIndex ≠ s.ctrl_id ∨ ctrl.wLength < 1 ∨ ctrl.wValue ≠ 0
  | .GET_NTB_INPUT_SIZE => ctrl.wIndex ≠ s.ctrl_id ∨ ctrl.wLength < 4 ∨ ctrl.wValue ≠ 0
  | .SET_NTB_INPUT_SIZE => ctrl.wIndex ≠ s.ctrl_id ∨ ctrl.wLength ≠ 4 ∨ ctrl.wValue ≠ 0
  | .GET_NTB_FORMAT => ctrl.wIndex ≠ s.ctrl_id ∨ ctrl.wLength < 2 ∨ ctrl.wValue ≠ 0
  | .SET_NTB_FORMAT =>
    ctrl.wIndex ≠ s.ctrl_id ∨ ctrl.wLength ≠ 0 ∨ (ctrl.wValue ≠ 0 ∧ ctrl.wValue ≠ 1)
  | .GET_CRC_MODE => ctrl.wIndex ≠ s.ctrl_id ∨ ctrl.wLength < 2 ∨ ctrl.wValue ≠ 0
  | .SET_CRC_MODE =>
    ctrl.wIndex ≠ s.ctrl_id ∨ ctrl.wLength ≠ 0 ∨ (ctrl.wValue ≠ 0 ∧ ctrl.wValue ≠ 1)
  | .other => True

/-! ## Notifications: `ncm_do_notify`, `ncm_notify`, `ncm_notify_complete` -/

/-- The errno value `ECONNRESET` of the kernel headers (not part of the sources). -/
def ECONNRESET : Int := 104

/-- The errno value `ESHUTDOWN` of the kernel headers (not part of the sources). -/
def ESHUTDOWN : Int := 108

def NCM_STATUS_BYTECOUNT : Nat := 16

/-- The function `ncm_bitrate`; `high_speed` stands for
`gadget_is_dualspeed(g) && g->speed == USB_SPEED_HIGH`. -/
def ncm_bitrate (high_speed : Bool) : Nat :=
  if high_speed = true then 13 * 512 * 8 * 1000 * 8 else 19 * 64 * 1 * 1000 * 8

/-- The two notification codes of linux/usb/cdc.h that the driver sends. -/
inductive cdc_notify where
  | USB_CDC_NOTIFY_NETWORK_CONNECTION
  | USB_CDC_NOTIFY_SPEED_CHANGE
  deriving DecidableEq, Repr

/-- A request as `ncm_do_notify` hands it to `usb_ep_queue` on the interrupt
endpoint: the members of the `struct usb_cdc_notification` at the start of its
buffer, `req->length`, and the bytes written behind the header. -/
structure usb_cdc_notification where
  bmRequestType : Nat
  bNotificationType : cdc_notify
  wValue : Nat
  wIndex : Nat
  wLength : Nat
  /-- The member `req->length`; `sizeof *event` is 8 (Modelled from the spec: the
  header of a notification is 8 bytes, linux/usb/cdc.h is not part of the sources). -/
  length : Nat
  data : List Nat
  deriving DecidableEq, Repr

/-- The function `ncm_do_notify`: the session afterwards and the notification
queued on the interrupt endpoint, if any; `queue_status` is what `usb_ep_queue`
returns. -/
def ncm_do_notify (s : f_ncm) (high_speed : Bool) (queue_status : Int) :
    f_ncm × Option usb_cdc_notification :=
  -- notification already in flight?
  if s.notify_req = false then (s, none)
  else
    let send (s : f_ncm) (event : usb_cdc_notification) : f_ncm × Option usb_cdc_notification :=
      let s := { s with notify_req := false }
      if queue_status < 0 then ({ s with notify_req := true }, none) else (s, some event)
    match s.notify_state with
    | .NCM_NOTIFY_NONE => (s, none)
    | .NCM_NOTIFY_CONNECT =>
      send { s with notify_state := .NCM_NOTIFY_NONE }
        { bmRequestType := 0xA1
          bNotificationType := .USB_CDC_NOTIFY_NETWORK_CONNECTION
          wValue := if s.is_open = true then 1 else 0
          wIndex := s.ctrl_id
          wLength := 0
          length := 8
          data := [] }
    | .NCM_NOTIFY_SPEED =>
      send { s with notify_state := .NCM_NOTIFY_CONNECT }
        { bmRequestType := 0xA1
          bNotificationType := .USB_CDC_NOTIFY_SPEED_CHANGE
          wValue := 0
          wIndex := s.ctrl_id
          wLength := 8
          length := NCM_STATUS_BYTECOUNT
          data := put_unaligned_le32 (ncm_bitrate high_speed)
            ++ put_unaligned_le32 (ncm_bitrate high_speed) }

/-- The function `ncm_notify`. -/
def ncm_notify (s : f_ncm) (high_speed : Bool) (queue_status : Int) :
    f_ncm × Option usb_cdc_notification :=
  ncm_do_notify { s with notify_state := .NCM_NOTIFY_SPEED } high_speed queue_status

/-- The function `ncm_notify_complete`; `status` is `req->status`. -/
def ncm_notify_complete (s : f_ncm) (status : Int) (high_speed : Bool) (queue_status : Int) :
    f_ncm × Option usb_cdc_notification :=
  let s :=
    if status = 0 then s
    else if status = -ECONNRESET ∨ status = -ESHUTDOWN then
      { s with notify_state := .NCM_NOTIFY_NONE }
    else s
  ncm_do_notify { s with notify_req := true } high_speed queue_status

/-- The completions that follow a call which may have queued a notification:
while a notification is in flight its completion handler runs with status 0 (at
most `fuel` times).  The notifications put on the interrupt endpoint, in order,
and the session at the end. -/
def notify_drain (high_speed : Bool) (queue_status : Int) :
    Nat → f_ncm × Option usb_cdc_notification → Except Fault (List usb_cdc_notification × f_ncm)
  | _, (s, none) => .ok ([], s)
  | 0, (_, some _) => .error .fuel
  | fuel + 1, (s, some event) => do
    let (events, s) ←
      notify_drain high_speed queue_status fuel (ncm_notify_complete s 0 high_speed queue_status)
    .ok (event :: events, s)

/-! ## Scenarios on the control pipe -/

/-- The session after the host has sent the SET request `request` with the value
`v` and no data to the control interface. -/
def after_set (s : f_ncm) (request : ncm_request) (v : Nat) (queue_ret : Int) : f_ncm :=
  (ncm_setup s (class_request s request v 0) queue_ret).ncm

/-- The host sends SET_NTB_INPUT_SIZE and its data stage completes with status 0
and all four bytes, the little-endian `N`; `rest` is what the request buffer
holds behind them. -/
def set_input_size (s : f_ncm) (N : Nat) (rest : List Nat) (queue_ret : Int) :
    Except Fault ep0out_result :=
  ncm_ep0out_complete (ncm_setup s (class_request s .SET_NTB_INPUT_SIZE 0 4) queue_ret).ncm
    { status := 0, actual := 4, length := 4, buf := put_unaligned_le32 N ++ rest }

/-- The reply that the GET request `request` with wValue 0 and the given wLength
to the control interface puts on EP0. -/
def get_reply (s : f_ncm) (request : ncm_request) (wLength : Nat) (queue_ret : Int) :
    Option (List Nat) :=
  (ncm_setup s (class_request s request 0 wLength) queue_ret).queued

/-! ## The bytes of a notification -/

/-- Modelled from the spec: the notification codes of linux/usb/cdc.h (not part
of the sources), 0x00 for NETWORK_CONNECTION and 0x2A for SPEED_CHANGE. -/
def cdc_notify.code : cdc_notify → Nat
  | .USB_CDC_NOTIFY_NETWORK_CONNECTION => 0x00
  | .USB_CDC_NOTIFY_SPEED_CHANGE => 0x2A

/-- Modelled from the spec: the bytes that go out for a queued notification, the
first `req->length` bytes of the request buffer: the 8-byte header in the layout
of `struct usb_cdc_notification` (linux/usb/cdc.h, not part of the sources:
bmRequestType, bNotificationType, then wValue, wIndex and wLength little-endian)
and what was written behind it. -/
def notification_bytes (event : usb_cdc_notification) : List Nat :=
  ([event.bmRequestType % 256, event.bNotificationType.code]
    ++ put_unaligned_le16 event.wValue ++ put_unaligned_le16 event.wIndex
    ++ put_unaligned_le16 event.wLength ++ event.data).take event.length

/-! ## Interface activation: `ncm_set_alt`, `ncm_open`, `ncm_close` -/

/-- What `ncm_set_alt` finds in the endpoints and gets back from the endpoint
layer and the Ethernet glue (composite.c and u_ether.c are not part of the
sources): each member stands for the expression named in its comment. -/
structure alt_env where
  /-- Whether `ncm->notify->desc` is set when it is tested. -/
  notify_desc : Bool
  /-- What `config_ep_by_speed(cdev->gadget, f, ncm->notify)` returns. -/
  config_notify : Int
  /-- Whether `ncm->port.in_ep->driver_data` is set: the bulk endpoints are claimed. -/
  in_ep_driver_data : Bool
  /-- Whether `ncm->port.in_ep->desc` and `ncm->port.out_ep->desc` are both set
  when they are tested. -/
  bulk_desc : Bool
  /-- What `config_ep_by_speed` returns for `in_ep`. -/
  config_in : Int
  /-- What `config_ep_by_speed` returns for `out_ep`. -/
  config_out : Int
  /-- The value `PTR_ERR(net)` when `gether_connect` returns an error pointer. -/
  connect_err : Option Int
  /-- The speed of the gadget, for `ncm_bitrate`. -/
  high_speed : Bool
  /-- What `usb_ep_queue` on the interrupt endpoint returns. -/
  queue_status : Int
  deriving DecidableEq, Repr

/-- What `ncm_set_alt` leaves behind. -/
structure set_alt_result where
  /-- The return value. -/
  value : Int
  /-- The session afterwards. -/
  ncm : f_ncm
  /-- The notification that its `ncm_notify` call queued, if any. -/
  notified : Option usb_cdc_notification
  deriving DecidableEq, Repr

/-- The function `ncm_set_alt`. -/
def ncm_set_alt (s : f_ncm) (env : alt_env) (intf alt : Nat) : set_alt_result :=
  let fail (s : f_ncm) : set_alt_result := { value := -EINVAL, ncm := s, notified := none }
  -- Control interface has only altsetting 0
  if intf = s.ctrl_id then
    if alt ≠ 0 then fail s
    else if env.notify_desc = false ∧ env.config_notify ≠ 0 then fail s
    else { value := 0, ncm := s, notified := none }
  -- Data interface has two altsettings, 0 and 1
  else if intf = s.data_id then
    if alt = 1 ∧ env.notify_desc = false ∧ env.config_notify ≠ 0 then fail s
    else if alt > 1 then fail s
    else
      let s :=
        if env.in_ep_driver_data = true then ncm_reset_values { s with timer_stopping := true }
        else s
      if alt = 1 then
        if env.bulk_desc = false ∧ (env.config_in ≠ 0 ∨ env.config_out ≠ 0) then fail s
        else
          let s := { s with timer_stopping := false }
          match env.connect_err with
          | some e => { value := e, ncm := s, notified := none }
          | none =>
            let r := ncm_notify s env.high_speed env.queue_status
            { value := 0, ncm := r.1, notified := r.2 }
      else
        let r := ncm_notify s env.high_speed env.queue_status
        { value := 0, ncm := r.1, notified := r.2 }
  else fail s

/-- The function `ncm_open`. -/
def ncm_open (s : f_ncm) (high_speed : Bool) (queue_status : Int) :
    f_ncm × Option usb_cdc_notification :=
  ncm_notify { s with is_open := true } high_speed queue_status

/-- The function `ncm_close`. -/
def ncm_close (s : f_ncm) (high_speed : Bool) (queue_status : Int) :
    f_ncm × Option usb_cdc_notification :=
  ncm_notify { s with is_open := false } high_speed queue_status

/-! ## Executions of the notification engine -/

/-- One entry into the notification engine under `ncm->lock`: the `ncm_notify`
call of `ncm_set_alt`, `ncm_open`, `ncm_close`, or the completion of the
notification request; each with what its `usb_ep_queue` returns. -/
inductive notify_event where
  | notify (queue_status : Int)
  | opened (queue_status : Int)
  | closed (queue_status : Int)
  | completed (status : Int) (queue_status : Int)
  deriving DecidableEq, Repr

def notify_step (high_speed : Bool) (s : f_ncm) :
    notify_event → f_ncm × Option usb_cdc_notification
  | .notify q => ncm_notify s high_speed q
  | .opened q => ncm_open s high_speed q
  | .closed q => ncm_close s high_speed q
  | .completed status q => ncm_notify_complete s status high_speed q

/-- A sequence of entries into the notification engine: the notifications handed
to the interrupt endpoint, in order, and the session at the end. -/
def notify_run (high_speed : Bool) :
    f_ncm → List notify_event → List usb_cdc_notification × f_ncm
  | s, [] => ([], s)
  | s, e :: es =>
    let r := notify_step high_speed s e
    let rs := notify_run high_speed r.1 es
    (r.2.toList ++ rs.1, rs.2)

/-- The completions of a sequence of entries are completions of a queued
request: each finds the request out of its slot (`notify_req` is NULL while the
request is with the endpoint). -/
def completions_in_flight (high_speed : Bool) : f_ncm → List notify_event → Prop
  | _, [] => True
  | s, e :: es =>
    (match e with
      | .completed _ _ => s.notify_req = false
      | _ => True)
    ∧ completions_in_flight high_speed (notify_step high_speed s e).1 es

/-- In a sequence of notifications that follows `last`, each NETWORK_CONNECTION
is immediately preceded by a SPEED_CHANGE. -/
def connect_follows_speed : Option cdc_notify → List cdc_notify → Prop
  | _, [] => True
  | last, x :: xs =>
    (x = .USB_CDC_NOTIFY_NETWORK_CONNECTION → last = some .USB_CDC_NOTIFY_SPEED_CHANGE)
    ∧ connect_follows_speed (some x) xs

/-- The notification last handed to the endpoint, after one more entry. -/
def last_notified (last : Option cdc_notify) : Option usb_cdc_notification → Option cdc_notify
  | none => last
  | some event => some event.bNotificationType

/-- The invariant of the engine: while the state is CONNECT and the request is
with the endpoint, the notification handed over last is the SPEED_CHANGE. -/
def connect_armed (s : f_ncm) (last : Option cdc_notify) : Prop :=
  s.notify_state = .NCM_NOTIFY_CONNECT → s.notify_req = false →
    last = some .USB_CDC_NOTIFY_SPEED_CHANGE

/-! ## The signatures in the parser tables -/

/-- The `ndp_sign` members of the two static parser tables hold what the driver
ever puts there: the signature of the initialiser, with or without the CRC flag. -/
def table_signs_ok (s : f_ncm) : Prop :=
  (s.ndp16_sign = USB_CDC_NCM_NDP16_NOCRC_SIGN
      ∨ s.ndp16_sign = USB_CDC_NCM_NDP16_NOCRC_SIGN + NCM_NDP_HDR_CRC)
    ∧ (s.ndp32_sign = USB_CDC_NCM_NDP32_NOCRC_SIGN
      ∨ s.ndp32_sign = USB_CDC_NCM_NDP32_NOCRC_SIGN + NCM_NDP_HDR_CRC)

/-- A received NTB16 whose wNdpIndex is 8: the NDP would lie inside the NTH. -/
def ndp_in_header_ntb : List Nat :=
  put_unaligned_le32 USB_CDC_NCM_NTH16_SIGN ++ put_unaligned_le16 12 ++ put_unaligned_le16 0
    ++ put_unaligned_le16 40 ++ put_unaligned_le16 8 ++ zeros 28

/-! ## More sample sessions -/

/-- Endpoints as they are while the data interface is active: all descriptors
set, the bulk endpoints claimed, every call succeeding. -/
def active_env : alt_env :=
  { notify_desc := true, config_notify := 0, in_ep_driver_data := true, bulk_desc := true,
    config_in := 0, config_out := 0, connect_err := none, high_speed := true,
    queue_status := 0 }

/-- The bulk endpoints claimed, the interrupt endpoint without a descriptor and
`config_ep_by_speed` failing for it. -/
def notify_unconfigured_env : alt_env :=
  { active_env with notify_desc := false, config_notify := -EINVAL }

/-- The default session after SET_CRC_MODE(1) and then a reset through
`ncm_set_alt(data_id, 0)` with the bulk endpoints claimed. -/
def crc_reset_session : f_ncm :=
  (ncm_set_alt crc_session active_env crc_session.data_id 0).ncm

/-- The default session when `ncm_notify` has set `notify_state` to SPEED. -/
def speed_pending_session : f_ncm :=
  { default_session with notify_state := .NCM_NOTIFY_SPEED }

/-- The NTB32 session with one frame pending when the flush timer has fired. -/
def ntb32_pending_forced : f_ncm := { ntb32_pending with timer_force_tx := true }

/-- The default session after a call of `ncm_wrap_ntb` in which the allocation
of the NDP buffer failed. -/
def ndp_alloc_failed_session : f_ncm :=
  match ncm_wrap_ntb packed_sizes default_session true none (some (sample_frame 64 0)) with
  | .ok (_, s) => s
  | _ => default_session

/-! ## The DPE loop of `ncm_unwrap_ntb`, pass by pass -/

/-- The variables of the `do { ... } while` loop of `ncm_unwrap_ntb` at the start
of a pass: the read pointer (as a byte offset), the DPE read ahead, the
remaining-length counter `ndp_len`, `dgram_counter` and the list. -/
structure dpe_loop where
  tmp : Nat
  index2 : Nat
  dg_len2 : Nat
  ndp_len : Nat
  dgram_counter : Nat
  list : List (List Nat)
  deriving DecidableEq, Repr

/-- One pass through the body of the loop: `Sum.inl` is what the function
returns when the pass leaves the loop (by `goto err`, by `break` or by the
`while` test), `Sum.inr` the variables at the start of the next pass. -/
def unwrap_pass (opts : ndp_parser_opts) (is_crc : Bool) (skb : List Nat)
    (clone_ok : Nat → Bool) (st : dpe_loop) :
    Except Fault ((Int × List (List Nat)) ⊕ dpe_loop) := do
  let crc_len := if is_crc = true then 4 else 0
  let index := st.index2
  let dg_len := st.dg_len2
  if dg_len < 14 + crc_len then .ok (.inl (-EINVAL, []))
  else
    let crc_good ←
      if is_crc = true then do
        let crc ← get_unaligned_le32 skb (index + dg_len - crc_len)
        let payload ← peek skb index (dg_len - crc_len)
        pure (decide (crc = dgram_crc payload))
      else pure true
    if crc_good = false then .ok (.inl (-EINVAL, []))
    else
      let index2 ← get_ncm skb st.tmp opts.dgram_item_len
      let dg_len2 ← get_ncm skb (st.tmp + 2 * opts.dgram_item_len) opts.dgram_item_len
      let tmp := st.tmp + 2 * opts.dgram_item_len + 2 * opts.dgram_item_len
      let last := decide (index2 = 0 ∨ dg_len2 = 0)
      if last = false ∧ clone_ok st.dgram_counter = false then .ok (.inl (-EINVAL, []))
      else if index > skb.length then .ok (.inl (-EOVERFLOW, []))
      else
        let list := st.list ++ [(skb.drop index).take (dg_len - crc_len)]
        let ndp_len := st.ndp_len - 2 * (opts.dgram_item_len * 2)
        if last = true then .ok (.inl (0, list))
        else if ndp_len > 2 * (opts.dgram_item_len * 2) then
          .ok (.inr { tmp := tmp, index2 := index2, dg_len2 := dg_len2, ndp_len := ndp_len,
                      dgram_counter := st.dgram_counter + 1, list := list })
        else .ok (.inl (0, list))

/-- The variables at the start of pass `n` (counted from 0) of the loop entered
with `st`, when the loop gets that far. -/
def pass_nth (opts : ndp_parser_opts) (is_crc : Bool) (skb : List Nat)
    (clone_ok : Nat → Bool) : Nat → dpe_loop → Option dpe_loop
  | 0, st => some st
  | n + 1, st =>
    match unwrap_pass opts is_crc skb clone_ok st with
    | .ok (.inr st2) => pass_nth opts is_crc skb clone_ok n st2
    | _ => none

/-- The variables with which `ncm_unwrap_ntb` enters its loop: the NDP is at
byte offset `ndp`, its wLength is `wl`, its first DPE is `(index2, dg_len2)`. -/
def unwrap_entry (opts : ndp_parser_opts) (ndp wl index2 dg_len2 : Nat)
    (list : List (List Nat)) : dpe_loop :=
  { tmp := ndp + 6 + 2 * opts.reserved1 + 2 * opts.next_fp_index + 2 * opts.reserved2
      + 2 * opts.dgram_item_len + 2 * opts.dgram_item_len
    index2 := index2
    dg_len2 := dg_len2
    ndp_len := wl - opts.ndp_size
    dgram_counter := 0
    list := list }

/-! ## Received buffers that are shorter than their fields say -/

/-- A received buffer of 12 bytes: an NTH16 with wBlockLength 12 and wNdpIndex
12 and nothing behind it. -/
def header_only_ntb : List Nat :=
  put_unaligned_le32 USB_CDC_NCM_NTH16_SIGN ++ put_unaligned_le16 12 ++ put_unaligned_le16 0
    ++ put_unaligned_le16 12 ++ put_unaligned_le16 12

/-- A received buffer of 44 bytes: an NTH16 whose wNdpIndex is 65532, followed
by 32 zero bytes. -/
def far_ndp_ntb : List Nat :=
  put_unaligned_le32 USB_CDC_NCM_NTH16_SIGN ++ put_unaligned_le16 12 ++ put_unaligned_le16 0
    ++ put_unaligned_le16 44 ++ put_unaligned_le16 65532 ++ zeros 32

/-- A received NTB16 of 42 bytes whose NDP at offset 12 has wLength 32, so that
it would end at offset 44: the NDP header, the DPE (28, 14), the zero DPE and
the 14-byte datagram. -/
def long_ndp_ntb : List Nat :=
  put_unaligned_le32 USB_CDC_NCM_NTH16_SIGN ++ put_unaligned_le16 12 ++ put_unaligned_le16 0
    ++ put_unaligned_le16 42 ++ put_unaligned_le16 12
    ++ put_unaligned_le32 USB_CDC_NCM_NDP16_NOCRC_SIGN ++ put_unaligned_le16 32
    ++ put_unaligned_le16 0
    ++ put_unaligned_le16 28 ++ put_unaligned_le16 14
    ++ put_unaligned_le16 0 ++ put_unaligned_le16 0
    ++ sample_frame 14 1

/-- A received NTB16 of 42 bytes whose only DPE is (28, 100): the datagram would
end at offset 128. -/
def long_dgram_ntb : List Nat :=
  ntb16_of_dpes USB_CDC_NCM_NDP16_NOCRC_SIGN [(28, 100), (0, 0)] (sample_frame 14 1)

/-- A received NTB16 of 46 bytes for CRC mode whose only DPE is (28, 100): the
CRC of the datagram would be at offset 124. -/
def long_crc_dgram_ntb : List Nat :=
  ntb16_of_dpes (USB_CDC_NCM_NDP16_NOCRC_SIGN + NCM_NDP_HDR_CRC) [(28, 100), (0, 0)]
    (with_crc true (sample_frame 14 1))

/-- A received NTB16 of 42 bytes whose only DPE is (100, 14): the datagram would
start behind the end of the buffer. -/
def far_dgram_ntb : List Nat :=
  ntb16_of_dpes USB_CDC_NCM_NDP16_NOCRC_SIGN [(100, 14), (0, 0)] (sample_frame 14 1)

/-! ## Sessions with a pending NTB -/

/-- The body buffer of a session (empty when there is none). -/
def pending_body (s : f_ncm) : List Nat :=
  match s.skb_tx_data with
  | .live d => d
  | _ => []

/-- The NDP buffer of a session (empty when there is none). -/
def pending_ndp (s : f_ncm) : List Nat :=
  match s.skb_tx_ndp with
  | .live n => n
  | _ => []

/-- The default session after `ncm_wrap_ntb` of a 64-byte frame. -/
def one_frame_pending : f_ncm :=
  match ncm_wrap_ntb packed_sizes default_session true (some zero_mem)
      (some (sample_frame 64 0)) with
  | .ok (_, s) => s
  | _ => default_session

/-- That session after `ncm_wrap_ntb` of a 30-byte frame. -/
def two_frames_pending : f_ncm :=
  match ncm_wrap_ntb packed_sizes one_frame_pending true (some zero_mem)
      (some (sample_frame 30 7)) with
  | .ok (_, s) => s
  | _ => one_frame_pending

/-! ## The two orders of negotiating format and CRC mode -/

/-- The session after SET_NTB_FORMAT(`a`), then SET_CRC_MODE(`b`). -/
def format_then_crc (s : f_ncm) (a b : Nat) : f_ncm :=
  after_set (after_set s .SET_NTB_FORMAT a 0) .SET_CRC_MODE b 0

/-- The session after SET_CRC_MODE(`b`), then SET_NTB_FORMAT(`a`). -/
def crc_then_format (s : f_ncm) (a b : Nat) : f_ncm :=
  after_set (after_set s .SET_CRC_MODE b 0) .SET_NTB_FORMAT a 0

/-! ## The notification request and the interrupt endpoint -/

/-- The number of notification requests that the interrupt endpoint holds after
a sequence of entries into the engine, counted apart from the session: a
`usb_ep_queue` that succeeds hands one over, a completion callback takes one
back.  The result is `none` when a completion is delivered while the endpoint
holds no request, which an endpoint never does. -/
def notify_flight (high_speed : Bool) : f_ncm → Nat → List notify_event → Option (f_ncm × Nat)
  | s, n, [] => some (s, n)
  | s, n, e :: es =>
    match e with
    | .completed _ _ =>
      if n = 0 then none
      else
        notify_flight high_speed (notify_step high_speed s e).1
          (n - 1 + (notify_step high_speed s e).2.toList.length) es
    | _ =>
      notify_flight high_speed (notify_step high_speed s e).1
        (n + (notify_step high_speed s e).2.toList.length) es

/-- A sequence of entries into the notification engine: calls from set_alt, open
and close, completions, and a `usb_ep_queue` that fails. -/
def notify_sample_events : List notify_event :=
  [.notify 0, .opened 0, .completed 0 (-1), .notify 0, .completed 0 0, .closed 0,
    .completed 0 0, .completed 0 0]

/-! ## Runs in which the settings of the session change -/

theorem peek_of_le {buf : List Nat} {off n : Nat} (h : off + n ≤ buf.length) :
    peek buf off n = .ok ((buf.drop off).take n) := by
  simp [peek, h]

theorem get_unaligned_le32_of_le {buf : List Nat} {off : Nat} (h : off + 4 ≤ buf.length) :
    get_unaligned_le32 buf off = .ok (le_value ((buf.drop off).take 4)) := by
  simp [get_unaligned_le32, peek_of_le h, Except.map]

theorem get_unaligned_le16_of_le {buf : List Nat} {off : Nat} (h : off + 2 ≤ buf.length) :
    get_unaligned_le16 buf off = .ok (le_value ((buf.drop off).take 2)) := by
  simp [get_unaligned_le16, peek_of_le h, Except.map]

/-- The field `(d)wBlockLength` as `ncm_unwrap_ntb` decodes it. -/
theorem get_ncm_block_length (sz : cdc_sizes) (s : f_ncm) {buf : List Nat} {off : Nat}
    (h : off + 2 * (s.opts sz).block_length ≤ buf.length) :
    get_ncm buf off (s.opts sz).block_length
      = .ok (le_value ((buf.drop off).take (2 * (s.opts sz).block_length))) := by
  cases hp : s.parser_opts <;>
    simp [f_ncm.opts, hp, INIT_NDP16_OPTS, INIT_NDP32_OPTS, get_ncm] at h ⊢
  · exact get_unaligned_le16_of_le h
  · exact get_unaligned_le32_of_le h

/-! ## Arithmetic of `ALIGN` -/

theorem ALIGN_ge (x : Nat) : x ≤ ALIGN x 4 := by
  unfold ALIGN; omega

theorem ALIGN_lt (x : Nat) : ALIGN x 4 < x + 4 := by
  unfold ALIGN; omega

theorem ALIGN_mod (x : Nat) : ALIGN x 4 % 4 = 0 := by
  unfold ALIGN; omega

theorem ALIGN_of_mod {x : Nat} (h : x % 4 = 0) : ALIGN x 4 = x := by
  unfold ALIGN; omega

theorem ALIGN_add_sub (x : Nat) : x + (ALIGN x 4 - x) = ALIGN x 4 := by
  have := ALIGN_ge x; omega

/-! ## The two tables -/

theorem opts_ndp16 (sz : cdc_sizes) {s : f_ncm} (h : s.parser_opts = .ndp16) :
    s.opts sz = { INIT_NDP16_OPTS sz with ndp_sign := s.ndp16_sign } := by
  simp [f_ncm.opts, h]

theorem opts_ndp32 (sz : cdc_sizes) {s : f_ncm} (h : s.parser_opts = .ndp32) :
    s.opts sz = { INIT_NDP32_OPTS sz with ndp_sign := s.ndp32_sign } := by
  simp [f_ncm.opts, h]

theorem put_ncm_item (sz : cdc_sizes) (s : f_ncm) (v : Nat) :
    put_ncm (s.opts sz).dgram_item_len v = .ok (enc_item (s.opts sz).dgram_item_len v) := by
  cases h : s.parser_opts <;>
    simp [f_ncm.opts, h, INIT_NDP16_OPTS, INIT_NDP32_OPTS, put_ncm, enc_item]

theorem put_ncm_block_length (sz : cdc_sizes) (s : f_ncm) (v : Nat) :
    put_ncm (s.opts sz).block_length v = .ok (enc_item (s.opts sz).block_length v) := by
  cases h : s.parser_opts <;>
    simp [f_ncm.opts, h, INIT_NDP16_OPTS, INIT_NDP32_OPTS, put_ncm, enc_item]

theorem length_enc_item (sz : cdc_sizes) (s : f_ncm) (v : Nat) :
    (enc_item (s.opts sz).dgram_item_len v).length = 2 * (s.opts sz).dgram_item_len := by
  cases h : s.parser_opts <;>
    simp [f_ncm.opts, h, INIT_NDP16_OPTS, INIT_NDP32_OPTS, enc_item, put_unaligned_le16,
      put_unaligned_le32]

/-! ## Single calls -/

theorem package_for_tx_ndp16 (sz : cdc_sizes) {s : f_ncm} {b n : List Nat}
    (hp : s.parser_opts = .ndp16) (hb : s.skb_tx_data = .live b) (hn : s.skb_tx_ndp = .live n) :
    package_for_tx sz s
      = .ok (packaged (s.opts sz) s.ndp_dgram_count b n, after_package s) := by
  unfold package_for_tx
  simp only [hb, hn, skb_ptr.deref, bind, Except.bind, put_ncm_block_length]
  simp only [opts_ndp16 sz hp, INIT_NDP16_OPTS, put_ncm, packaged, enc_item, after_package,
    ntb_parameters, ALIGN_add_sub]
  rfl

theorem package_for_tx_ndp32 (sz : cdc_sizes) {s : f_ncm} (hp : s.parser_opts = .ndp32)
    (r : List Nat × f_ncm) : package_for_tx sz s ≠ .ok r := by
  unfold package_for_tx
  cases hd : s.skb_tx_data.deref with
  | error e => simp [bind, Except.bind]
  | ok d =>
    cases hn : s.skb_tx_ndp.deref with
    | error e => simp [bind, Except.bind]
    | ok n => simp [bind, Except.bind, f_ncm.opts, hp, INIT_NDP32_OPTS, put_ncm]

theorem package_for_tx_ndp32_live (sz : cdc_sizes) {s : f_ncm} {b n : List Nat}
    (hp : s.parser_opts = .ndp32) (hb : s.skb_tx_data = .live b) (hn : s.skb_tx_ndp = .live n) :
    package_for_tx sz s = .error .BUG := by
  unfold package_for_tx
  simp [hb, hn, skb_ptr.deref, bind, Except.bind, f_ncm.opts, hp, INIT_NDP32_OPTS, put_ncm]

theorem wrap_append_live (sz : cdc_sizes) {s : f_ncm} {b n : List Nat} (d : List Nat)
    (hb : s.skb_tx_data = .live b) (hn : s.skb_tx_ndp = .live n) :
    wrap_append sz s d = .ok (after_append sz s b n d) := by
  unfold wrap_append
  simp only [hb, hn, skb_ptr.deref, bind, Except.bind, put_ncm_item, ntb_parameters,
    Nat.add_zero, after_append, lay_step, ALIGN_add_sub]

theorem opts_congr (sz : cdc_sizes) {s t : f_ncm} (h : tx_settings t = tx_settings s) :
    t.opts sz = s.opts sz := by
  simp only [tx_settings, Prod.mk.injEq] at h
  obtain ⟨h1, -, -, -, h5, h6, -⟩ := h
  simp [f_ncm.opts, h1, h5, h6]

theorem pending_bufs_congr (sz : cdc_sizes) {s t : f_ncm} (h : tx_settings t = tx_settings s)
    (mem : Nat → Nat) (ds : List (List Nat)) :
    pending_bufs sz t mem ds = pending_bufs sz s mem ds := by
  have h3 : t.ndp_sign = s.ndp_sign := by
    simp only [tx_settings, Prod.mk.injEq] at h
    exact h.2.2.1
  simp [pending_bufs, opts_congr sz h, h3]

theorem tx_repr_congr (sz : cdc_sizes) {s t : f_ncm} (h : tx_settings t = tx_settings s)
    (hd : t.skb_tx_data = s.skb_tx_data) (hn : t.skb_tx_ndp = s.skb_tx_ndp)
    (hc : t.ndp_dgram_count = s.ndp_dgram_count) (a : tx_abs) :
    tx_repr sz t a ↔ tx_repr sz s a := by
  cases a <;> simp [tx_repr, hd, hn, hc, pending_bufs_congr sz h]

theorem pending_bufs_snoc (sz : cdc_sizes) (s : f_ncm) (mem : Nat → Nat)
    (ds : List (List Nat)) (d : List Nat) :
    pending_bufs sz s mem (ds ++ [d])
      = lay_step (s.opts sz).dgram_item_len (pending_bufs sz s mem ds) d := by
  simp [pending_bufs, lay, List.foldl_append]

theorem pending_bufs_single (sz : cdc_sizes) (s : f_ncm) (mem : Nat → Nat) (d : List Nat) :
    pending_bufs sz s mem [d]
      = lay_step (s.opts sz).dgram_item_len
          (fresh_nth (s.opts sz), fresh_ndp (s.opts sz) s.ndp_sign mem) d := by
  simp [pending_bufs, lay]

theorem wrap_open_idle (sz : cdc_sizes) (s : f_ncm) (mem : Nat → Nat)
    (hd : s.skb_tx_data = .NULL) :
    wrap_open sz s true (some mem) = .inl (opened sz s mem) := by
  simp only [wrap_open, hd, ite_true, ntb_parameters, Nat.add_zero, ALIGN_add_sub,
    Bool.true_eq_false, ite_false, opened, fresh_nth, fresh_ndp]

theorem ncm_wrap_ntb_frame (sz : cdc_sizes) (s : f_ncm) (data_alloc : Bool)
    (ndp_alloc : Option (Nat → Nat)) (f : List Nat) :
    ncm_wrap_ntb sz s data_alloc ndp_alloc (some f)
      = (wrap_flush_if_full sz s (with_crc s.is_crc f).length).bind
          (fun r => wrap_tail sz r.2 data_alloc ndp_alloc (with_crc s.is_crc f) r.1) := by
  unfold ncm_wrap_ntb wrap_tail
  cases h : wrap_flush_if_full sz s (with_crc s.is_crc f).length <;>
    simp only [with_crc] at h <;> simp only [h, bind, Except.bind, with_crc]

/-- The tail of the frame branch on a session that holds nothing. -/
theorem wrap_tail_idle (sz : cdc_sizes) (s : f_ncm) (data_alloc : Bool)
    (ndp_alloc : Option (Nat → Nat)) (d : List Nat) (skb2 : Option (List Nat))
    (hd : s.skb_tx_data = .NULL) (hn : s.skb_tx_ndp = .NULL) :
    ∃ s', wrap_tail sz s data_alloc ndp_alloc d skb2
        = .ok (if alloc_ok data_alloc ndp_alloc = true then skb2 else none, s')
      ∧ tx_repr sz s' (abs_open data_alloc ndp_alloc d)
      ∧ tx_settings s' = tx_settings s := by
  unfold wrap_tail
  cases data_alloc with
  | false =>
    simp [wrap_open, ncm_wrap_ntb_err, hd, hn, skb_ptr.kfree_if_set, bind, Except.bind, abs_open,
      tx_repr, tx_settings, alloc_ok]
  | true =>
    cases ndp_alloc with
    | none =>
      simp [wrap_open, ncm_wrap_ntb_err, hd, hn, skb_ptr.kfree_if_set, bind, Except.bind,
        abs_open, tx_repr, tx_settings, alloc_ok]
    | some mem =>
      refine ⟨after_append sz (opened sz s mem) (fresh_nth (s.opts sz))
        (fresh_ndp (s.opts sz) s.ndp_sign mem) d, ?_, ?_, ?_⟩
      · simp only [wrap_open_idle sz s mem hd, bind, Except.bind, alloc_ok, Option.isSome,
          Bool.and_self, ite_true]
        rw [wrap_append_live sz d (b := fresh_nth (s.opts sz))
          (n := fresh_ndp (s.opts sz) s.ndp_sign mem) rfl rfl]
      · have hs : tx_settings (after_append sz (opened sz s mem) (fresh_nth (s.opts sz))
            (fresh_ndp (s.opts sz) s.ndp_sign mem) d) = tx_settings s := rfl
        have ho : (opened sz s mem).opts sz = s.opts sz := opts_congr sz rfl
        simp only [abs_open, Bool.true_eq_false, ite_false, tx_repr, pending_bufs_congr sz hs,
          pending_bufs_single, after_append, ho]
        refine ⟨by simp, by simp, rfl, rfl, ?_⟩
        simp [opened]
      · rfl

/-- The frame branch of `ncm_wrap_ntb` on a session that holds nothing. -/
theorem wrap_frame_idle (sz : cdc_sizes) (s : f_ncm) (data_alloc : Bool)
    (ndp_alloc : Option (Nat → Nat)) (f : List Nat)
    (hd : s.skb_tx_data = .NULL) (hn : s.skb_tx_ndp = .NULL) :
    ∃ s', ncm_wrap_ntb sz s data_alloc ndp_alloc (some f) = .ok (none, s')
      ∧ tx_repr sz s' (abs_open data_alloc ndp_alloc (with_crc s.is_crc f))
      ∧ tx_settings s' = tx_settings s := by
  obtain ⟨s1, h1, h2, h3⟩ := wrap_tail_idle sz s data_alloc ndp_alloc (with_crc s.is_crc f)
    none hd hn
  refine ⟨s1, ?_, h2, h3⟩
  rw [ncm_wrap_ntb_frame]
  simp only [wrap_flush_if_full, hd, ite_true, Except.bind, h1, ite_self]

theorem wrap_flush_if_full_pending (sz : cdc_sizes) {s : f_ncm} {mem : Nat → Nat}
    {ds : List (List Nat)} (len : Nat) (hp : s.parser_opts = .ndp16)
    (hr : tx_repr sz s (.pending mem ds)) :
    wrap_flush_if_full sz s len
      = if must_flush sz s mem ds len then .ok (some (ntb_of sz s (mem, ds)), after_package s)
        else .ok (none, s) := by
  obtain ⟨-, -, hb, hn, hc⟩ := hr
  unfold wrap_flush_if_full
  simp only [hb, hn, hc, skb_ptr.deref, bind, Except.bind, ntb_parameters, reduceCtorEq,
    ite_false, must_flush, package_for_tx_ndp16 sz hp hb hn, ntb_of]
  by_cases h1 : ds.length + 1 ≥ TX_MAX_NUM_DPE
  · simp [h1]
  · by_cases h2 : (pending_bufs sz s mem ds).1.length + 4 + 0 + len
        + (pending_bufs sz s mem ds).2.length + 4 + 2 * (2 * 2 * (s.opts sz).dgram_item_len)
        > s.fixed_in_len
    · simp [h1, h2]
    · simp [h1, h2]

theorem tx_repr_after_package (sz : cdc_sizes) (s : f_ncm) :
    tx_repr sz (after_package s) .idle := ⟨rfl, rfl⟩

theorem wrap_frame_refines (sz : cdc_sizes) (s s' : f_ncm) (a : tx_abs) (data_alloc : Bool)
    (ndp_alloc : Option (Nat → Nat)) (f : List Nat) (out : Option (List Nat))
    (hp : s.parser_opts = .ndp16) (hr : tx_repr sz s a)
    (h : ncm_wrap_ntb sz s data_alloc ndp_alloc (some f) = .ok (out, s')) :
    tx_repr sz s' (abs_step sz s a (.wrap data_alloc ndp_alloc (some f))).2
      ∧ out = (abs_step sz s a (.wrap data_alloc ndp_alloc (some f))).1.map (ntb_of sz s)
      ∧ tx_settings s' = tx_settings s := by
  rw [ncm_wrap_ntb_frame] at h
  cases a with
  | idle =>
    obtain ⟨hd, hn⟩ := hr
    obtain ⟨s1, h1, h2, h3⟩ := wrap_tail_idle sz s data_alloc ndp_alloc (with_crc s.is_crc f)
      none hd hn
    simp only [wrap_flush_if_full, hd, ite_true, Except.bind, h1, Except.ok.injEq,
      Prod.mk.injEq] at h
    obtain ⟨ho, hs⟩ := h
    subst hs
    refine ⟨h2, ?_, h3⟩
    simp only [abs_step, Option.map]
    rw [← ho]; simp
  | pending mem ds =>
    rw [wrap_flush_if_full_pending sz _ hp hr] at h
    by_cases hm : must_flush sz s mem ds (with_crc s.is_crc f).length
    · obtain ⟨s1, h1, h2, h3⟩ := wrap_tail_idle sz (after_package s) data_alloc ndp_alloc
        (with_crc s.is_crc f) (some (ntb_of sz s (mem, ds))) rfl rfl
      simp only [hm, ite_true, Except.bind, h1, Except.ok.injEq, Prod.mk.injEq] at h
      obtain ⟨ho, hs⟩ := h
      subst hs
      have h3' : tx_settings s1 = tx_settings s := h3
      refine ⟨?_, ?_, h3'⟩
      · simp only [abs_step, hm, ite_true]
        exact (tx_repr_congr sz (s := s1) (t := s1) rfl rfl rfl rfl _).mp h2
      · simp only [abs_step, hm, ite_true]
        rw [← ho]
        cases alloc_ok data_alloc ndp_alloc <;> simp
    · obtain ⟨hne, hlen, hb, hn, hc⟩ := hr
      have hopen : wrap_open sz s data_alloc ndp_alloc = .inl s := by
        simp [wrap_open, hb]
      simp only [hm, ite_false, Except.bind, wrap_tail, hopen, bind,
        wrap_append_live sz (with_crc s.is_crc f) hb hn, Except.ok.injEq, Prod.mk.injEq] at h
      obtain ⟨ho, hs⟩ := h
      subst hs
      have hs : tx_settings (after_append sz s (pending_bufs sz s mem ds).1
          (pending_bufs sz s mem ds).2 (with_crc s.is_crc f)) = tx_settings s := rfl
      have hl : ds.length + 1 < 32 := by
        simp only [must_flush, TX_MAX_NUM_DPE, not_or, not_le] at hm
        omega
      refine ⟨?_, ?_, hs⟩
      · simp only [abs_step, hm, ite_false, tx_repr, pending_bufs_congr sz hs, pending_bufs_snoc,
          after_append, hc]
        refine ⟨by simp, by simp; omega, rfl, rfl, ?_⟩
        simp only [List.length_append, List.length_singleton]
        omega
      · simp only [abs_step, hm, ite_false, Option.map]
        exact ho.symm
  | poisoned =>
    obtain ⟨hd, hn⟩ := hr
    exfalso
    simp only [wrap_flush_if_full, hd, reduceCtorEq, ite_false, package_for_tx, skb_ptr.deref,
      bind, Except.bind] at h
    split at h
    · exact Except.noConfusion h
    · rename_i heq
      split at heq <;> exact Except.noConfusion heq

theorem wrap_null_live (sz : cdc_sizes) {s : f_ncm} {b n : List Nat} (data_alloc : Bool)
    (ndp_alloc : Option (Nat → Nat)) (hp : s.parser_opts = .ndp16)
    (hb : s.skb_tx_data = .live b) (hn : s.skb_tx_ndp = .live n)
    (hf : s.timer_force_tx = true) :
    ncm_wrap_ntb sz s data_alloc ndp_alloc none
      = .ok (some (packaged (s.opts sz) s.ndp_dgram_count b n), after_package s) := by
  unfold ncm_wrap_ntb
  simp only [hb, reduceCtorEq, ite_false, hf, ite_true, bind, Except.bind]
  rw [package_for_tx_ndp16 sz hp hb hn]

theorem wrap_null_refines (sz : cdc_sizes) (s s' : f_ncm) (a : tx_abs) (data_alloc : Bool)
    (ndp_alloc : Option (Nat → Nat)) (out : Option (List Nat))
    (hp : s.parser_opts = .ndp16) (hr : tx_repr sz s a)
    (h : ncm_wrap_ntb sz s data_alloc ndp_alloc none = .ok (out, s')) :
    tx_repr sz s' (abs_step sz s a (.wrap data_alloc ndp_alloc none)).2
      ∧ out = (abs_step sz s a (.wrap data_alloc ndp_alloc none)).1.map (ntb_of sz s)
      ∧ tx_settings s' = tx_settings s := by
  unfold ncm_wrap_ntb at h
  cases a with
  | idle =>
    have hd := hr.1
    simp only [hd, ite_true, Except.ok.injEq, Prod.mk.injEq] at h
    obtain ⟨ho, hs⟩ := h
    subst hs ho
    exact ⟨hr, rfl, rfl⟩
  | pending mem ds =>
    have hr' := hr
    obtain ⟨-, -, hb, hn, hc⟩ := hr
    by_cases hf : s.timer_force_tx = true
    · rw [← ncm_wrap_ntb, wrap_null_live sz data_alloc ndp_alloc hp hb hn hf] at h
      simp only [Except.ok.injEq, Prod.mk.injEq] at h
      obtain ⟨ho, hs⟩ := h
      subst hs ho
      refine ⟨?_, ?_, rfl⟩
      · simp only [abs_step, hf, ite_true]
        exact tx_repr_after_package sz s
      · simp [abs_step, hf, ntb_of, hc]
    · simp only [hb, reduceCtorEq, ite_false, hf, Except.ok.injEq, Prod.mk.injEq] at h
      obtain ⟨ho, hs⟩ := h
      subst hs ho
      refine ⟨?_, ?_, rfl⟩
      · simpa [abs_step, hf] using hr'
      · simp [abs_step, hf]
  | poisoned =>
    have hr' := hr
    obtain ⟨hd, hn⟩ := hr
    by_cases hf : s.timer_force_tx = true
    · simp [hd, hf, package_for_tx, skb_ptr.deref, bind, Except.bind] at h
    · simp only [hd, reduceCtorEq, ite_false, hf, Except.ok.injEq, Prod.mk.injEq] at h
      obtain ⟨ho, hs⟩ := h
      subst hs ho
      exact ⟨hr', rfl, rfl⟩

theorem tasklet_refines (sz : cdc_sizes) (s s' : f_ncm) (a : tx_abs) (out : Option (List Nat))
    (hp : s.parser_opts = .ndp16) (hr : tx_repr sz s a)
    (h : ncm_tx_tasklet sz s = .ok (out, s')) :
    tx_repr sz s' (abs_step sz s a .tasklet).2
      ∧ out = (abs_step sz s a .tasklet).1.map (ntb_of sz s)
      ∧ tx_settings s' = tx_settings s := by
  unfold ncm_tx_tasklet at h
  by_cases hst : s.timer_stopping = true
  · simp only [hst, ite_true, Except.ok.injEq, Prod.mk.injEq] at h
    obtain ⟨ho, hs⟩ := h
    subst hs ho
    cases a <;> simp [abs_step, hst] <;> exact hr
  · cases a with
    | idle =>
      have hd := hr.1
      rw [if_neg hst, if_pos hd] at h
      simp only [Except.ok.injEq, Prod.mk.injEq] at h
      obtain ⟨ho, hs⟩ := h
      subst hs ho
      exact ⟨hr, rfl, rfl⟩
    | pending mem ds =>
      obtain ⟨-, -, hb, hn, hc⟩ := hr
      have hnn : s.skb_tx_data ≠ .NULL := by rw [hb]; exact skb_ptr.noConfusion
      rw [if_neg hst, if_neg hnn,
        wrap_null_live sz (s := { s with timer_force_tx := true }) true none hp hb hn rfl] at h
      simp only [bind, Except.bind, Except.ok.injEq, Prod.mk.injEq] at h
      obtain ⟨ho, hs⟩ := h
      subst hs ho
      refine ⟨?_, ?_, rfl⟩
      · simp only [abs_step, hst, ite_false]
        exact ⟨rfl, rfl⟩
      · simp only [abs_step, hst, ite_false, Option.map, ntb_of, hc]
        rfl
    | poisoned =>
      obtain ⟨hd, hn⟩ := hr
      have hnn : s.skb_tx_data ≠ .NULL := by rw [hd]; exact skb_ptr.noConfusion
      rw [if_neg hst, if_neg hnn] at h
      simp [hd, ncm_wrap_ntb, package_for_tx, skb_ptr.deref, bind, Except.bind] at h

/-- One entry into the transmit path of an NTB16 session does what the reference
model says. -/
theorem tx_step_refines (sz : cdc_sizes) (s s' : f_ncm) (a : tx_abs) (ev : tx_event)
    (out : Option (List Nat)) (hp : s.parser_opts = .ndp16) (hr : tx_repr sz s a)
    (h : tx_step sz s ev = .ok (out, s')) :
    tx_repr sz s' (abs_step sz s a ev).2
      ∧ out = (abs_step sz s a ev).1.map (ntb_of sz s)
      ∧ tx_settings s' = tx_settings s := by
  cases ev with
  | wrap data_alloc ndp_alloc skb =>
    cases skb with
    | none => exact wrap_null_refines sz s s' a data_alloc ndp_alloc out hp hr h
    | some f => exact wrap_frame_refines sz s s' a data_alloc ndp_alloc f out hp hr h
  | tasklet => exact tasklet_refines sz s s' a out hp hr h

theorem ntb_of_congr (sz : cdc_sizes) {s t : f_ncm} (h : tx_settings t = tx_settings s)
    (g : (Nat → Nat) × List (List Nat)) : ntb_of sz t g = ntb_of sz s g := by
  simp [ntb_of, pending_bufs_congr sz h, opts_congr sz h]

theorem parser_of_settings {s t : f_ncm} (h : tx_settings t = tx_settings s) :
    t.parser_opts = s.parser_opts := by
  simp only [tx_settings, Prod.mk.injEq] at h
  exact h.1

theorem is_crc_of_settings {s t : f_ncm} (h : tx_settings t = tx_settings s) :
    t.is_crc = s.is_crc := by
  simp only [tx_settings, Prod.mk.injEq] at h
  exact h.2.1

theorem fixed_in_len_of_settings {s t : f_ncm} (h : tx_settings t = tx_settings s) :
    t.fixed_in_len = s.fixed_in_len := by
  simp only [tx_settings, Prod.mk.injEq] at h
  exact h.2.2.2.1

/-- What the reference model sends is what was pending. -/
theorem abs_step_emit (sz : cdc_sizes) (t : f_ncm) (b : tx_abs) (ev : tx_event)
    (g : (Nat → Nat) × List (List Nat)) (h : (abs_step sz t b ev).1 = some g) :
    b = .pending g.1 g.2 := by
  cases ev with
  | tasklet =>
    cases b <;> simp only [abs_step, reduceCtorEq] at h
    split at h <;> simp at h
    subst h; rfl
  | wrap data_alloc ndp_alloc skb =>
    cases skb with
    | none =>
      cases b <;> simp only [abs_step, reduceCtorEq] at h
      split at h <;> simp at h
      subst h; rfl
    | some f =>
      cases b <;> simp only [abs_step, reduceCtorEq] at h
      split at h
      · split at h <;> simp at h
        subst h; rfl
      · simp at h

/-- Every NTB that a run of an NTB16 session hands back was made by
`package_for_tx` of a pending NTB that holds between 1 and 31 datagrams and has
the property `Q`, when `Q` holds at the start and every step keeps it. -/
theorem tx_run_emitted (sz : cdc_sizes) (Q : (Nat → Nat) × List (List Nat) → Prop)
    (s : f_ncm) (hp : s.parser_opts = .ndp16) :
    ∀ (evs : List tx_event) (t t' : f_ncm) (a : tx_abs) (outs : List (List Nat)),
      tx_settings t = tx_settings s → tx_repr sz t a → abs_inv Q a →
      (∀ u b ev, tx_settings u = tx_settings s → ev ∈ evs → abs_inv Q b →
          abs_inv Q (abs_step sz u b ev).2) →
      tx_run sz t evs = .ok (outs, t') →
      tx_settings t' = tx_settings s
        ∧ (∃ a', tx_repr sz t' a' ∧ abs_inv Q a')
        ∧ ∀ ntb ∈ outs, ∃ g, Q g ∧ g.2 ≠ [] ∧ g.2.length ≤ 31 ∧ ntb = ntb_of sz s g := by
  intro evs
  induction evs with
  | nil =>
    intro t t' a outs hs hr hq _ h
    simp only [tx_run, Except.ok.injEq, Prod.mk.injEq] at h
    obtain ⟨ho, ht⟩ := h
    subst ht ho
    exact ⟨hs, ⟨a, hr, hq⟩, by simp⟩
  | cons ev evs ih =>
    intro t t' a outs hs hr hq hstep h
    simp only [tx_run, bind, Except.bind] at h
    cases h1 : tx_step sz t ev with
    | error e => simp [h1] at h
    | ok r1 =>
      obtain ⟨out, t1⟩ := r1
      simp only [h1] at h
      cases h2 : tx_run sz t1 evs with
      | error e => simp [h2] at h
      | ok r2 =>
        obtain ⟨outs2, t2⟩ := r2
        simp only [h2, Except.ok.injEq, Prod.mk.injEq] at h
        obtain ⟨ho, ht⟩ := h
        subst ht ho
        have hpt : t.parser_opts = .ndp16 := (parser_of_settings hs).trans hp
        obtain ⟨hr1, hout, hs1⟩ := tx_step_refines sz t t1 a ev out hpt hr h1
        have hs1' : tx_settings t1 = tx_settings s := hs1.trans hs
        have hq1 : abs_inv Q (abs_step sz t a ev).2 :=
          hstep t a ev hs (List.mem_cons_self _ _) hq
        obtain ⟨hs2, ha2, hall⟩ := ih t1 t2 _ outs2 hs1' hr1 hq1
          (fun u b e hu he hb => hstep u b e hu (List.mem_cons_of_mem _ he) hb) h2
        refine ⟨hs2, ha2, ?_⟩
        intro ntb hmem
        rcases List.mem_append.mp hmem with hm | hm
        · cases hg : (abs_step sz t a ev).1 with
          | none => simp [hout, hg] at hm
          | some g =>
            simp only [hout, hg, Option.map, Option.toList, List.mem_singleton] at hm
            have hb := abs_step_emit sz t a ev g hg
            subst hb
            refine ⟨g, hq, hr.1, hr.2.1, ?_⟩
            rw [hm, ntb_of_congr sz hs]
        · exact hall ntb hm

/-! ## Stores and reads in a buffer -/

theorem length_poke (buf : List Nat) (off : Nat) (bs : List Nat) :
    (poke buf off bs).length = buf.length := by
  simp only [poke, List.length_append, List.length_take, List.length_drop]
  omega

theorem getElem?_poke (buf : List Nat) (off : Nat) (bs : List Nat) (i : Nat) :
    (poke buf off bs)[i]?
      = if off ≤ i ∧ i < off + bs.length ∧ i < buf.length then bs[i - off]? else buf[i]? := by
  have hl := length_poke buf off bs
  by_cases h4 : i < buf.length
  · unfold poke
    by_cases h1 : i < off
    · rw [if_neg (by omega), List.append_assoc,
        List.getElem?_append_left (by simp only [List.length_take]; omega),
        List.getElem?_take_of_lt h1]
    · by_cases h2 : i < off + bs.length
      · rw [if_pos (by omega),
          List.getElem?_append_left
            (by simp only [List.length_append, List.length_take]; omega),
          List.getElem?_append_right (by simp only [List.length_take]; omega)]
        simp only [List.length_take]
        rw [List.getElem?_take_of_lt (by omega)]
        congr 1; omega
      · rw [if_neg (by omega),
          List.getElem?_append_right
            (by simp only [List.length_append, List.length_take]; omega),
          List.getElem?_drop]
        congr 1
        simp only [List.length_append, List.length_take]
        omega
  · rw [if_neg (by omega), List.getElem?_eq_none (by omega), List.getElem?_eq_none (by omega)]

theorem getElem?_slice (buf : List Nat) (off n j : Nat) :
    ((buf.drop off).take n)[j]? = if j < n then buf[off + j]? else none := by
  rw [List.getElem?_take, List.getElem?_drop]

theorem slice_congr {a b : List Nat} {oa ob n : Nat}
    (h : ∀ j, j < n → a[oa + j]? = b[ob + j]?) :
    (a.drop oa).take n = (b.drop ob).take n := by
  apply List.ext_getElem?
  intro j
  rw [getElem?_slice, getElem?_slice]
  split
  · exact h j ‹_›
  · rfl

theorem slice_eq_of_getElem? {a : List Nat} {off : Nat} (bs : List Nat)
    (h : ∀ j, j < bs.length → a[off + j]? = bs[j]?) :
    (a.drop off).take bs.length = bs := by
  apply List.ext_getElem?
  intro j
  rw [getElem?_slice]
  split
  · exact h j ‹_›
  · rw [List.getElem?_eq_none]; omega

theorem peek_eq_ok {buf : List Nat} {off n : Nat} {r : List Nat} (h : peek buf off n = .ok r) :
    off + n ≤ buf.length ∧ r = (buf.drop off).take n := by
  unfold peek at h
  split at h
  · exact ⟨‹_›, by injection h with h; exact h.symm⟩
  · exact Except.noConfusion h

/-! ## The layout of the two buffers -/

theorem length_put_unaligned_le16 (v : Nat) : (put_unaligned_le16 v).length = 2 := rfl

theorem length_put_unaligned_le32 (v : Nat) : (put_unaligned_le32 v).length = 4 := rfl

theorem length_zeros (n : Nat) : (zeros n).length = n := by simp [zeros]

theorem enc_item_one (v : Nat) : enc_item 1 v = put_unaligned_le16 v := by simp [enc_item]

theorem foldl_lay_prefix (item : Nat) :
    ∀ (ys : List (List Nat)) (st : List Nat × List Nat),
      ∃ P E, ys.foldl (lay_step item) st = (st.1 ++ P, st.2 ++ E) := by
  intro ys
  induction ys with
  | nil => intro st; exact ⟨[], [], by simp⟩
  | cons y ys ih =>
    intro st
    obtain ⟨P, E, h⟩ := ih (lay_step item st y)
    refine ⟨zeros (ALIGN st.1.length 4 - st.1.length) ++ y ++ P,
      (enc_item item (ALIGN st.1.length 4) ++ enc_item item y.length) ++ E, ?_⟩
    rw [List.foldl_cons, h]
    simp [lay_step, List.append_assoc]

theorem length_foldl_lay_snd :
    ∀ (ys : List (List Nat)) (st : List Nat × List Nat),
      (ys.foldl (lay_step 1) st).2.length = st.2.length + 4 * ys.length := by
  intro ys
  induction ys with
  | nil => intro st; simp
  | cons y ys ih =>
    intro st
    rw [List.foldl_cons, ih]
    simp only [lay_step, enc_item_one, List.length_append, length_put_unaligned_le16,
      List.length_cons]
    omega

theorem length_fresh_nth (opts : ndp_parser_opts) :
    (fresh_nth opts).length = ALIGN opts.nth_size 4 := by
  simp [fresh_nth, length_poke, length_zeros]

theorem length_fresh_ndp (opts : ndp_parser_opts) (sign : Nat) (mem : Nat → Nat) :
    (fresh_ndp opts sign mem).length = opts.ndp_size := by
  simp [fresh_ndp, length_poke]

theorem item_ndp16 (sz : cdc_sizes) {s : f_ncm} (hp : s.parser_opts = .ndp16) : (s.opts sz).dgram_item_len = 1 := by
  simp [opts_ndp16 sz hp, INIT_NDP16_OPTS]

theorem nth_size_ndp16 (sz : cdc_sizes) {s : f_ncm} (hp : s.parser_opts = .ndp16) : (s.opts sz).nth_size = sz.nth16 := by
  simp [opts_ndp16 sz hp, INIT_NDP16_OPTS]

theorem ndp_size_ndp16 (sz : cdc_sizes) {s : f_ncm} (hp : s.parser_opts = .ndp16) : (s.opts sz).ndp_size = sz.ndp16 := by
  simp [opts_ndp16 sz hp, INIT_NDP16_OPTS]

/-- The NDP buffer of a pending NTB16: the header and four bytes per datagram. -/
theorem length_pending_ndp (sz : cdc_sizes) {s : f_ncm} (hp : s.parser_opts = .ndp16) (mem : Nat → Nat) (ds : List (List Nat)) :
    (pending_bufs sz s mem ds).2.length = sz.ndp16 + 4 * ds.length := by
  simp only [pending_bufs, lay, item_ndp16 sz hp, length_foldl_lay_snd, length_fresh_ndp,
    ndp_size_ndp16 sz hp]

/-- The body of a pending NTB starts with the NTH. -/
theorem pending_body_prefix (sz : cdc_sizes) (s : f_ncm) (mem : Nat → Nat) (ds : List (List Nat)) :
    ∃ P, (pending_bufs sz s mem ds).1 = fresh_nth (s.opts sz) ++ P := by
  obtain ⟨P, E, h⟩ := foldl_lay_prefix (s.opts sz).dgram_item_len ds
    (fresh_nth (s.opts sz), fresh_ndp (s.opts sz) s.ndp_sign mem)
  exact ⟨P, by simp [pending_bufs, lay, h]⟩

/-- The NDP buffer of a pending NTB starts with the NDP header. -/
theorem pending_ndp_prefix (sz : cdc_sizes) (s : f_ncm) (mem : Nat → Nat) (ds : List (List Nat)) :
    ∃ E, (pending_bufs sz s mem ds).2 = fresh_ndp (s.opts sz) s.ndp_sign mem ++ E := by
  obtain ⟨P, E, h⟩ := foldl_lay_prefix (s.opts sz).dgram_item_len ds
    (fresh_nth (s.opts sz), fresh_ndp (s.opts sz) s.ndp_sign mem)
  exact ⟨E, by simp [pending_bufs, lay, h]⟩

theorem length_pending_body_ge (sz : cdc_sizes) {s : f_ncm} (hp : s.parser_opts = .ndp16) (mem : Nat → Nat) (ds : List (List Nat)) :
    ALIGN sz.nth16 4 ≤ (pending_bufs sz s mem ds).1.length := by
  obtain ⟨P, h⟩ := pending_body_prefix sz s mem ds
  rw [h, List.length_append, length_fresh_nth, nth_size_ndp16 sz hp]
  omega

/-- Where the `k`-th datagram of a pending NTB starts. -/
theorem pending_split (sz : cdc_sizes) {s : f_ncm} (hp : s.parser_opts = .ndp16) (mem : Nat → Nat) (ds : List (List Nat)) (k : Nat) (hk : k < ds.length) :
    ∃ P E,
      (pending_bufs sz s mem ds).1
        = (pending_bufs sz s mem (ds.take k)).1
          ++ zeros (ALIGN (pending_bufs sz s mem (ds.take k)).1.length 4
              - (pending_bufs sz s mem (ds.take k)).1.length)
          ++ ds[k] ++ P
      ∧ (pending_bufs sz s mem ds).2
        = (pending_bufs sz s mem (ds.take k)).2
          ++ (put_unaligned_le16 (ALIGN (pending_bufs sz s mem (ds.take k)).1.length 4)
              ++ put_unaligned_le16 ds[k].length)
          ++ E := by
  have hsplit : ds = ds.take k ++ ds[k] :: ds.drop (k + 1) := by
    rw [← List.drop_eq_getElem_cons hk, List.take_append_drop]
  obtain ⟨P, E, h⟩ := foldl_lay_prefix (s.opts sz).dgram_item_len (ds.drop (k + 1))
    (lay_step (s.opts sz).dgram_item_len (pending_bufs sz s mem (ds.take k)) ds[k])
  refine ⟨P, E, ?_, ?_⟩
  · conv_lhs => rw [hsplit]
    simp only [pending_bufs, lay, List.foldl_append, List.foldl_cons] at h ⊢
    rw [h]
    simp [lay_step]
  · conv_lhs => rw [hsplit]
    simp only [pending_bufs, lay, List.foldl_append, List.foldl_cons] at h ⊢
    rw [h]
    simp [lay_step, item_ndp16 sz hp, enc_item_one]

/-! ## Reading a packaged NTB16 -/

theorem le_value_le16 (v : Nat) : le_value (put_unaligned_le16 v) = v % 65536 := by
  simp only [put_unaligned_le16, le_value]
  omega

theorem le_value_le32 (v : Nat) : le_value (put_unaligned_le32 v) = v % 4294967296 := by
  simp only [put_unaligned_le32, le_value]
  omega

theorem packaged_ndp16 (sz : cdc_sizes) {s : f_ncm} (hp : s.parser_opts = .ndp16)
    (c : Nat) (b n : List Nat) :
    packaged (s.opts sz) c b n
      = poke (poke b 8 (put_unaligned_le16 (ALIGN b.length 4 + 4 + n.length))) 10
          (put_unaligned_le16 (ALIGN b.length 4))
        ++ zeros (ALIGN b.length 4 - b.length)
        ++ poke n 4 (put_unaligned_le16 (sz.ndp16 + c * 4))
        ++ zeros 4 := by
  simp [packaged, opts_ndp16 sz hp, INIT_NDP16_OPTS, enc_item]

theorem length_packaged (sz : cdc_sizes) {s : f_ncm} (hp : s.parser_opts = .ndp16)
    (c : Nat) (b n : List Nat) :
    (packaged (s.opts sz) c b n).length = ALIGN b.length 4 + n.length + 4 := by
  rw [packaged_ndp16 sz hp]
  simp only [List.length_append, length_poke, length_zeros]
  have := ALIGN_ge b.length
  omega

theorem packaged_get_body (sz : cdc_sizes) {s : f_ncm} (hp : s.parser_opts = .ndp16)
    (c : Nat) (b n : List Nat) (i : Nat) (hi : i < b.length) :
    (packaged (s.opts sz) c b n)[i]?
      = if 8 ≤ i ∧ i < 10 then (put_unaligned_le16 (ALIGN b.length 4 + 4 + n.length))[i - 8]?
        else if 10 ≤ i ∧ i < 12 then (put_unaligned_le16 (ALIGN b.length 4))[i - 10]?
        else b[i]? := by
  rw [packaged_ndp16 sz hp, List.append_assoc, List.append_assoc,
    List.getElem?_append_left (by simp only [length_poke]; exact hi),
    getElem?_poke, getElem?_poke]
  simp only [length_poke, length_put_unaligned_le16]
  by_cases h1 : 8 ≤ i ∧ i < 10
  · rw [if_neg (by omega), if_pos (by omega), if_pos h1]
  · by_cases h2 : 10 ≤ i ∧ i < 12
    · rw [if_pos (by omega), if_neg h1, if_pos h2]
    · rw [if_neg (by omega), if_neg (by omega), if_neg h1, if_neg h2]

theorem packaged_get_ndp (sz : cdc_sizes) {s : f_ncm} (hp : s.parser_opts = .ndp16)
    (c : Nat) (b n : List Nat) (j : Nat) (hj : j < n.length) :
    (packaged (s.opts sz) c b n)[ALIGN b.length 4 + j]?
      = if 4 ≤ j ∧ j < 6 then (put_unaligned_le16 (sz.ndp16 + c * 4))[j - 4]? else n[j]? := by
  have hge := ALIGN_ge b.length
  rw [packaged_ndp16 sz hp,
    List.getElem?_append_left
      (by simp only [List.length_append, length_poke, length_zeros]; omega),
    List.getElem?_append_right
      (by simp only [List.length_append, length_poke, length_zeros]; omega),
    getElem?_poke]
  simp only [List.length_append, length_poke, length_zeros, length_put_unaligned_le16]
  have e : ALIGN b.length 4 + j - (b.length + (ALIGN b.length 4 - b.length)) = j := by omega
  rw [e]
  by_cases h1 : 4 ≤ j ∧ j < 6
  · rw [if_pos (by omega), if_pos h1]
  · rw [if_neg (by omega), if_neg h1]

theorem packaged_get_tail (sz : cdc_sizes) {s : f_ncm} (hp : s.parser_opts = .ndp16)
    (c : Nat) (b n : List Nat) (j : Nat) (hj : j < 4) :
    (packaged (s.opts sz) c b n)[ALIGN b.length 4 + n.length + j]? = some 0 := by
  have hge := ALIGN_ge b.length
  rw [packaged_ndp16 sz hp,
    List.getElem?_append_right
      (by simp only [List.length_append, length_poke, length_zeros]; omega)]
  simp only [List.length_append, length_poke, length_zeros]
  simp only [zeros]
  rw [List.getElem?_replicate, if_pos (by omega)]

theorem peek_of_getElem? {buf : List Nat} {off : Nat} (bs : List Nat)
    (hlen : off + bs.length ≤ buf.length) (h : ∀ j, j < bs.length → buf[off + j]? = bs[j]?) :
    peek buf off bs.length = .ok bs := by
  rw [peek_of_le hlen, slice_eq_of_getElem? bs h]

theorem get_unaligned_le16_of_peek {buf : List Nat} {off v : Nat}
    (h : peek buf off 2 = .ok (put_unaligned_le16 v)) :
    get_unaligned_le16 buf off = .ok (v % 65536) := by
  simp [get_unaligned_le16, h, Except.map, le_value_le16]

theorem length_ntb_of (sz : cdc_sizes) {s : f_ncm} (hp : s.parser_opts = .ndp16)
    (mem : Nat → Nat) (ds : List (List Nat)) :
    (ntb_of sz s (mem, ds)).length = ndp_offset sz s mem ds + sz.ndp16 + 4 * ds.length + 4 := by
  simp only [ntb_of, length_packaged sz hp, length_pending_ndp sz hp, ndp_offset]
  omega

theorem ndp_offset_mod (sz : cdc_sizes) (s : f_ncm) (mem : Nat → Nat) (ds : List (List Nat)) :
    ndp_offset sz s mem ds % 4 = 0 := ALIGN_mod _

/-- The NTH fields wBlockLength and wNdpIndex of a packaged NTB16. -/
theorem ntb_of_nth_fields (sz : cdc_sizes) {s : f_ncm} (hp : s.parser_opts = .ndp16)
    (h12 : 9 ≤ sz.nth16) (mem : Nat → Nat) (ds : List (List Nat)) :
    nth_block_length (s.opts sz) (ntb_of sz s (mem, ds))
        = .ok ((ntb_of sz s (mem, ds)).length % 65536)
      ∧ nth_ndp_index (s.opts sz) (ntb_of sz s (mem, ds))
        = .ok (ndp_offset sz s mem ds % 65536) := by
  have hb := length_pending_body_ge sz hp mem ds
  have ha : 12 ≤ ALIGN sz.nth16 4 := by unfold ALIGN; omega
  have hl := length_ntb_of sz hp mem ds
  have hn := length_pending_ndp sz hp mem ds
  have hge := ALIGN_ge (pending_bufs sz s mem ds).1.length
  have hbl : (s.opts sz).block_length = 1 := by simp [opts_ndp16 sz hp, INIT_NDP16_OPTS]
  have hfp : (s.opts sz).fp_index = 1 := by simp [opts_ndp16 sz hp, INIT_NDP16_OPTS]
  constructor
  · simp only [nth_block_length, hbl, get_ncm]
    have e : (ntb_of sz s (mem, ds)).length
        = ALIGN (pending_bufs sz s mem ds).1.length 4 + 4 + (pending_bufs sz s mem ds).2.length := by
      rw [hl, hn, ndp_offset]; omega
    rw [e]
    apply get_unaligned_le16_of_peek
    apply peek_of_getElem? (put_unaligned_le16 _)
    · simp only [length_put_unaligned_le16]; rw [ndp_offset] at hl; omega
    · intro j hj
      simp only [length_put_unaligned_le16] at hj
      simp only [ntb_of]
      rw [packaged_get_body sz hp _ _ _ _ (by omega), if_pos (by omega)]
      congr 1; omega
  · simp only [nth_ndp_index, hbl, hfp, get_ncm]
    apply get_unaligned_le16_of_peek
    apply peek_of_getElem? (put_unaligned_le16 _)
    · simp only [length_put_unaligned_le16]; rw [ndp_offset] at hl; omega
    · intro j hj
      simp only [length_put_unaligned_le16] at hj
      simp only [ntb_of]
      rw [packaged_get_body sz hp _ _ _ _ (by omega), if_neg (by omega), if_pos (by omega),
        ndp_offset]
      congr 1; omega

/-- The NDP field wLength of a packaged NTB16. -/
theorem ntb_of_wLength (sz : cdc_sizes) {s : f_ncm} (hp : s.parser_opts = .ndp16)
    (h6 : 6 ≤ sz.ndp16) (mem : Nat → Nat) (ds : List (List Nat)) :
    ndp_wLength (ntb_of sz s (mem, ds)) (ndp_offset sz s mem ds)
      = .ok ((sz.ndp16 + (ds.length + 1) * 4) % 65536) := by
  have hl := length_ntb_of sz hp mem ds
  have hn := length_pending_ndp sz hp mem ds
  simp only [ndp_wLength]
  apply get_unaligned_le16_of_peek
  apply peek_of_getElem? (put_unaligned_le16 _)
  · simp only [length_put_unaligned_le16]; omega
  · intro j hj
    simp only [length_put_unaligned_le16] at hj
    simp only [ntb_of, ndp_offset]
    rw [Nat.add_assoc, packaged_get_ndp sz hp _ _ _ _ (by omega), if_pos (by omega)]
    congr 1; omega

theorem dgram_index_ge (sz : cdc_sizes) {s : f_ncm} (hp : s.parser_opts = .ndp16)
    (mem : Nat → Nat) (ds : List (List Nat)) (k : Nat) :
    ALIGN sz.nth16 4 ≤ dgram_index sz s mem ds k := by
  have h1 := length_pending_body_ge sz hp mem (ds.take k)
  have h2 := ALIGN_ge (pending_bufs sz s mem (ds.take k)).1.length
  unfold dgram_index
  omega

/-- The bytes of the `k`-th datagram in the body of a pending NTB16, and the
bytes of its entry in the NDP buffer. -/
theorem pending_get (sz : cdc_sizes) {s : f_ncm} (hp : s.parser_opts = .ndp16)
    (mem : Nat → Nat) (ds : List (List Nat)) (k : Nat) (hk : k < ds.length) :
    dgram_index sz s mem ds k + ds[k].length ≤ (pending_bufs sz s mem ds).1.length
      ∧ (∀ j, j < ds[k].length →
          (pending_bufs sz s mem ds).1[dgram_index sz s mem ds k + j]? = ds[k][j]?)
      ∧ (∀ j, j < 4 →
          (pending_bufs sz s mem ds).2[sz.ndp16 + 4 * k + j]?
            = (put_unaligned_le16 (dgram_index sz s mem ds k)
                ++ put_unaligned_le16 ds[k].length)[j]?) := by
  obtain ⟨P, E, hB, hN⟩ := pending_split sz hp mem ds k hk
  have hge := ALIGN_ge (pending_bufs sz s mem (ds.take k)).1.length
  have hlk : (pending_bufs sz s mem (ds.take k)).2.length = sz.ndp16 + 4 * k := by
    rw [length_pending_ndp sz hp, List.length_take, Nat.min_eq_left (Nat.le_of_lt hk)]
  refine ⟨?_, ?_, ?_⟩
  · rw [hB]
    simp only [List.length_append, length_zeros, dgram_index]
    omega
  · intro j hj
    rw [hB, List.getElem?_append_left
        (by simp only [List.length_append, length_zeros, dgram_index]; omega),
      List.getElem?_append_right
        (by simp only [List.length_append, length_zeros, dgram_index]; omega)]
    congr 1
    simp only [List.length_append, length_zeros, dgram_index]
    omega
  · intro j hj
    rw [hN, List.getElem?_append_left
        (by simp only [List.length_append, length_put_unaligned_le16, hlk]; omega),
      List.getElem?_append_right (by rw [hlk]; omega), hlk]
    congr 1
    omega

/-- The `k`-th DPE of a packaged NTB16. -/
theorem ntb_of_dpe_entry (sz : cdc_sizes) {s : f_ncm} (hp : s.parser_opts = .ndp16)
    (h6 : 6 ≤ sz.ndp16) (mem : Nat → Nat) (ds : List (List Nat)) (k : Nat)
    (hk : k < ds.length) :
    dpe_entry (s.opts sz) (ntb_of sz s (mem, ds)) (ndp_offset sz s mem ds) k
      = .ok (dgram_index sz s mem ds k % 65536, ds[k].length % 65536) := by
  have hl := length_ntb_of sz hp mem ds
  have hn := length_pending_ndp sz hp mem ds
  obtain ⟨-, -, hE⟩ := pending_get sz hp mem ds k hk
  have key : ∀ j, j < 4 →
      (ntb_of sz s (mem, ds))[ndp_offset sz s mem ds + (sz.ndp16 + 4 * k + j)]?
        = (put_unaligned_le16 (dgram_index sz s mem ds k)
            ++ put_unaligned_le16 ds[k].length)[j]? := by
    intro j hj
    simp only [ntb_of, ndp_offset]
    rw [packaged_get_ndp sz hp _ _ _ _ (by omega), if_neg (by omega), hE j hj]
  have p1 : peek (ntb_of sz s (mem, ds)) (ndp_offset sz s mem ds + sz.ndp16 + k * (2 * 2 * 1)) 2
      = .ok (put_unaligned_le16 (dgram_index sz s mem ds k)) := by
    apply peek_of_getElem? (put_unaligned_le16 _)
    · simp only [length_put_unaligned_le16]; omega
    · intro j hj
      simp only [length_put_unaligned_le16] at hj
      have := key j (by omega)
      rw [show ndp_offset sz s mem ds + sz.ndp16 + k * (2 * 2 * 1) + j
        = ndp_offset sz s mem ds + (sz.ndp16 + 4 * k + j) by omega, this,
        List.getElem?_append_left (by simp only [length_put_unaligned_le16]; omega)]
  have p2 : peek (ntb_of sz s (mem, ds))
      (ndp_offset sz s mem ds + sz.ndp16 + k * (2 * 2 * 1) + 2 * 1) 2
      = .ok (put_unaligned_le16 ds[k].length) := by
    apply peek_of_getElem? (put_unaligned_le16 _)
    · simp only [length_put_unaligned_le16]; omega
    · intro j hj
      simp only [length_put_unaligned_le16] at hj
      have := key (2 + j) (by omega)
      rw [show ndp_offset sz s mem ds + sz.ndp16 + k * (2 * 2 * 1) + 2 * 1 + j
        = ndp_offset sz s mem ds + (sz.ndp16 + 4 * k + (2 + j)) by omega, this,
        List.getElem?_append_right (by simp only [length_put_unaligned_le16]; omega)]
      simp only [length_put_unaligned_le16]
      congr 1; omega
  simp only [dpe_entry, item_ndp16 sz hp, ndp_size_ndp16 sz hp, get_ncm, bind, Except.bind,
    get_unaligned_le16_of_peek p1, get_unaligned_le16_of_peek p2, pure, Except.pure]

/-- The bytes of a packaged NTB16 at the place of its `k`-th datagram. -/
theorem ntb_of_dgram (sz : cdc_sizes) {s : f_ncm} (hp : s.parser_opts = .ndp16)
    (h12 : 9 ≤ sz.nth16) (mem : Nat → Nat) (ds : List (List Nat)) (k : Nat)
    (hk : k < ds.length) :
    peek (ntb_of sz s (mem, ds)) (dgram_index sz s mem ds k) ds[k].length = .ok ds[k] := by
  have hl := length_ntb_of sz hp mem ds
  have ha : 12 ≤ ALIGN sz.nth16 4 := by unfold ALIGN; omega
  have hi := dgram_index_ge sz hp mem ds k
  have hge := ALIGN_ge (pending_bufs sz s mem ds).1.length
  obtain ⟨hin, hB, -⟩ := pending_get sz hp mem ds k hk
  apply peek_of_getElem? ds[k]
  · rw [hl, ndp_offset]; omega
  · intro j hj
    simp only [ntb_of]
    rw [packaged_get_body sz hp _ _ _ _ (by omega), if_neg (by omega), if_neg (by omega),
      hB j hj]

/-! ## NTB32 sessions -/

theorem wrap_flush_if_full_ndp32 (sz : cdc_sizes) {s : f_ncm} (hp : s.parser_opts = .ndp32)
    (len : Nat) (r : Option (List Nat) × f_ncm) (h : wrap_flush_if_full sz s len = .ok r) :
    r = (none, s) := by
  unfold wrap_flush_if_full at h
  split at h
  · injection h with h; exact h.symm
  · split at h
    · cases hpk : package_for_tx sz s with
      | error e => simp [hpk, bind, Except.bind] at h
      | ok v => exact absurd hpk (package_for_tx_ndp32 sz hp v)
    · cases hd : s.skb_tx_data.deref with
      | error e => simp [hd, bind, Except.bind] at h
      | ok d =>
        cases hn : s.skb_tx_ndp.deref with
        | error e => simp [hd, hn, bind, Except.bind] at h
        | ok n =>
          simp only [hd, hn, bind, Except.bind] at h
          split at h
          · cases hpk : package_for_tx sz s with
            | error e => simp [hpk] at h
            | ok v => exact absurd hpk (package_for_tx_ndp32 sz hp v)
          · injection h with h; exact h.symm

theorem wrap_open_keeps_format (sz : cdc_sizes) (s : f_ncm) (data_alloc : Bool)
    (ndp_alloc : Option (Nat → Nat)) :
    (∀ t, wrap_open sz s data_alloc ndp_alloc = .inl t → t.parser_opts = s.parser_opts)
      ∧ (∀ t, wrap_open sz s data_alloc ndp_alloc = .inr t → t.parser_opts = s.parser_opts) := by
  unfold wrap_open
  constructor <;> intro t h
  · split at h
    · split at h
      · exact Sum.noConfusion h
      · split at h
        · exact Sum.noConfusion h
        · injection h with h; subst h; rfl
    · injection h with h; subst h; rfl
  · split at h
    · split at h
      · injection h with h; subst h; rfl
      · split at h
        · injection h with h; subst h; rfl
        · exact Sum.noConfusion h
    · exact Sum.noConfusion h

theorem wrap_tail_keeps_format (sz : cdc_sizes) (s s' : f_ncm) (data_alloc : Bool)
    (ndp_alloc : Option (Nat → Nat)) (d : List Nat) (skb2 out : Option (List Nat))
    (h : wrap_tail sz s data_alloc ndp_alloc d skb2 = .ok (out, s')) :
    s'.parser_opts = s.parser_opts ∧ (out = none ∨ out = skb2) := by
  unfold wrap_tail at h
  obtain ⟨hl, hr⟩ := wrap_open_keeps_format sz s data_alloc ndp_alloc
  split at h
  · rename_i t ht
    have := hr t ht
    unfold ncm_wrap_ntb_err at h
    cases h1 : t.skb_tx_data.kfree_if_set with
    | error e => simp [h1, bind, Except.bind] at h
    | ok p1 =>
      cases h2 : t.skb_tx_ndp.kfree_if_set with
      | error e => simp [h1, h2, bind, Except.bind] at h
      | ok p2 =>
        simp only [h1, h2, bind, Except.bind, Except.ok.injEq, Prod.mk.injEq] at h
        obtain ⟨ho, hs⟩ := h
        subst hs
        exact ⟨this, Or.inl ho.symm⟩
  · rename_i t ht
    have := hl t ht
    unfold wrap_append at h
    cases h1 : t.skb_tx_ndp.deref with
    | error e => simp [h1, bind, Except.bind] at h
    | ok n =>
      cases h2 : t.skb_tx_data.deref with
      | error e => simp [h1, h2, bind, Except.bind] at h
      | ok b =>
        simp only [h1, h2, bind, Except.bind, put_ncm_item, Except.ok.injEq,
          Prod.mk.injEq] at h
        obtain ⟨ho, hs⟩ := h
        subst hs
        exact ⟨this, Or.inr ho.symm⟩

theorem ncm_wrap_ntb_null (sz : cdc_sizes) (s : f_ncm) (data_alloc : Bool)
    (ndp_alloc : Option (Nat → Nat)) :
    ncm_wrap_ntb sz s data_alloc ndp_alloc none
      = if s.skb_tx_data = .NULL then .ok (none, s)
        else if s.timer_force_tx = true then
          (package_for_tx sz s).bind (fun r => .ok (some r.1, r.2))
        else .ok (none, s) := by
  unfold ncm_wrap_ntb
  rfl

/-- One entry into the transmit path of an NTB32 session hands back no NTB. -/
theorem tx_step_ndp32 (sz : cdc_sizes) (s s' : f_ncm) (ev : tx_event)
    (out : Option (List Nat)) (hp : s.parser_opts = .ndp32)
    (h : tx_step sz s ev = .ok (out, s')) : out = none ∧ s'.parser_opts = .ndp32 := by
  have null_case : ∀ (t t' : f_ncm) (da : Bool) (na : Option (Nat → Nat)) (o : Option (List Nat)),
      t.parser_opts = .ndp32 → ncm_wrap_ntb sz t da na none = .ok (o, t') →
      o = none ∧ t'.parser_opts = .ndp32 := by
    intro t t' da na o ht h
    rw [ncm_wrap_ntb_null] at h
    split at h
    · simp only [Except.ok.injEq, Prod.mk.injEq] at h
      exact ⟨h.1.symm, h.2 ▸ ht⟩
    · split at h
      · cases hpk : package_for_tx sz t with
        | error e => simp [hpk, Except.bind] at h
        | ok v => exact absurd hpk (package_for_tx_ndp32 sz ht v)
      · simp only [Except.ok.injEq, Prod.mk.injEq] at h
        exact ⟨h.1.symm, h.2 ▸ ht⟩
  cases ev with
  | wrap data_alloc ndp_alloc skb =>
    cases skb with
    | none => exact null_case s s' data_alloc ndp_alloc out hp h
    | some f =>
      simp only [tx_step, ncm_wrap_ntb_frame] at h
      cases hf : wrap_flush_if_full sz s (with_crc s.is_crc f).length with
      | error e => simp [hf, Except.bind] at h
      | ok r =>
        have hr := wrap_flush_if_full_ndp32 sz hp _ r hf
        subst hr
        simp only [hf, Except.bind] at h
        obtain ⟨h1, h2⟩ := wrap_tail_keeps_format sz s s' data_alloc ndp_alloc _ none out h
        exact ⟨by rcases h2 with h2 | h2 <;> exact h2, h1.trans hp⟩
  | tasklet =>
    simp only [tx_step, ncm_tx_tasklet] at h
    split at h
    · simp only [Except.ok.injEq, Prod.mk.injEq] at h
      exact ⟨h.1.symm, h.2 ▸ hp⟩
    · split at h
      · simp only [Except.ok.injEq, Prod.mk.injEq] at h
        exact ⟨h.1.symm, h.2 ▸ hp⟩
      · cases hw : ncm_wrap_ntb sz { s with timer_force_tx := true } true none none with
        | error e => simp [hw, bind, Except.bind] at h
        | ok r =>
          obtain ⟨o, t⟩ := r
          simp only [hw, bind, Except.bind, Except.ok.injEq, Prod.mk.injEq] at h
          obtain ⟨h1, h2⟩ := null_case { s with timer_force_tx := true } t true none o hp hw
          exact ⟨h.1 ▸ h1, h.2 ▸ h2⟩

/-- A run of an NTB32 session hands back no NTB. -/
theorem tx_run_ndp32 (sz : cdc_sizes) :
    ∀ (evs : List tx_event) (s s' : f_ncm) (outs : List (List Nat)),
      s.parser_opts = .ndp32 → tx_run sz s evs = .ok (outs, s') → outs = [] := by
  intro evs
  induction evs with
  | nil =>
    intro s s' outs _ h
    simp only [tx_run, Except.ok.injEq, Prod.mk.injEq] at h
    exact h.1.symm
  | cons ev evs ih =>
    intro s s' outs hp h
    simp only [tx_run, bind, Except.bind] at h
    cases h1 : tx_step sz s ev with
    | error e => simp [h1] at h
    | ok r1 =>
      obtain ⟨out, t1⟩ := r1
      simp only [h1] at h
      cases h2 : tx_run sz t1 evs with
      | error e => simp [h2] at h
      | ok r2 =>
        obtain ⟨outs2, t2⟩ := r2
        simp only [h2, Except.ok.injEq, Prod.mk.injEq] at h
        obtain ⟨ho, -⟩ := h
        obtain ⟨h3, h4⟩ := tx_step_ndp32 sz s t1 ev out hp h1
        have := ih t1 t2 outs2 h4 h2
        rw [← ho, h3, this]
        rfl

/-! ## The datagrams of a packaged NTB16 -/

/-- The terminator slot of a packaged NTB16 decodes to index 0 and length 0. -/
theorem ntb_of_dpe_entry_last (sz : cdc_sizes) {s : f_ncm} (hp : s.parser_opts = .ndp16)
    (mem : Nat → Nat) (ds : List (List Nat)) :
    dpe_entry (s.opts sz) (ntb_of sz s (mem, ds)) (ndp_offset sz s mem ds) ds.length
      = .ok (0, 0) := by
  have hl := length_ntb_of sz hp mem ds
  have hn := length_pending_ndp sz hp mem ds
  have key : ∀ j, j < 4 →
      (ntb_of sz s (mem, ds))[ndp_offset sz s mem ds + sz.ndp16 + 4 * ds.length + j]?
        = some 0 := by
    intro j hj
    have := packaged_get_tail sz hp (ds.length + 1) (pending_bufs sz s mem ds).1
      (pending_bufs sz s mem ds).2 j hj
    rw [hn] at this
    simp only [ntb_of, ndp_offset]
    rw [show ALIGN (pending_bufs sz s mem ds).1.length 4 + sz.ndp16 + 4 * ds.length + j
      = ALIGN (pending_bufs sz s mem ds).1.length 4 + (sz.ndp16 + 4 * ds.length) + j
      by omega, this]
  have z : put_unaligned_le16 0 = [0, 0] := rfl
  have p1 : peek (ntb_of sz s (mem, ds))
      (ndp_offset sz s mem ds + sz.ndp16 + ds.length * (2 * 2 * 1)) 2
      = .ok (put_unaligned_le16 0) := by
    apply peek_of_getElem? (put_unaligned_le16 0)
    · simp only [length_put_unaligned_le16]; omega
    · intro j hj
      simp only [length_put_unaligned_le16] at hj
      rw [show ndp_offset sz s mem ds + sz.ndp16 + ds.length * (2 * 2 * 1) + j
        = ndp_offset sz s mem ds + sz.ndp16 + 4 * ds.length + j by omega, key j (by omega), z]
      match j, hj with
      | 0, _ => rfl
      | 1, _ => rfl
  have p2 : peek (ntb_of sz s (mem, ds))
      (ndp_offset sz s mem ds + sz.ndp16 + ds.length * (2 * 2 * 1) + 2 * 1) 2
      = .ok (put_unaligned_le16 0) := by
    apply peek_of_getElem? (put_unaligned_le16 0)
    · simp only [length_put_unaligned_le16]; omega
    · intro j hj
      simp only [length_put_unaligned_le16] at hj
      rw [show ndp_offset sz s mem ds + sz.ndp16 + ds.length * (2 * 2 * 1) + 2 * 1 + j
        = ndp_offset sz s mem ds + sz.ndp16 + 4 * ds.length + (2 + j) by omega,
        key (2 + j) (by omega), z]
      match j, hj with
      | 0, _ => rfl
      | 1, _ => rfl
  simp only [dpe_entry, item_ndp16 sz hp, ndp_size_ndp16 sz hp, get_ncm, bind, Except.bind,
    get_unaligned_le16_of_peek p1, get_unaligned_le16_of_peek p2, pure, Except.pure]

/-- A packaged NTB16 shorter than 64 KiB holds its fields without truncation. -/
theorem ntb_of_small (sz : cdc_sizes) {s : f_ncm} (hp : s.parser_opts = .ndp16)
    (mem : Nat → Nat) (ds : List (List Nat)) (hlen : (ntb_of sz s (mem, ds)).length < 65536) :
    ndp_offset sz s mem ds < 65536
      ∧ sz.ndp16 + (ds.length + 1) * 4 < 65536
      ∧ ∀ k (hk : k < ds.length),
          dgram_index sz s mem ds k < 65536 ∧ ds[k].length < 65536 := by
  have hl := length_ntb_of sz hp mem ds
  refine ⟨by omega, by omega, ?_⟩
  intro k hk
  obtain ⟨hin, -, -⟩ := pending_get sz hp mem ds k hk
  have hge := ALIGN_ge (pending_bufs sz s mem ds).1.length
  rw [ndp_offset] at hl
  constructor <;> omega

/-- The `k`-th DPE of a packaged NTB16 shorter than 64 KiB locates the `k`-th
datagram. -/
theorem ntb_of_dpe_dgram (sz : cdc_sizes) {s : f_ncm} (hp : s.parser_opts = .ndp16)
    (h9 : 9 ≤ sz.nth16) (h6 : 6 ≤ sz.ndp16) (mem : Nat → Nat) (ds : List (List Nat))
    (hlen : (ntb_of sz s (mem, ds)).length < 65536) (k : Nat) (hk : k < ds.length) :
    dpe_dgram (s.opts sz) (ntb_of sz s (mem, ds)) (ndp_offset sz s mem ds) k = .ok ds[k] := by
  obtain ⟨-, -, hs⟩ := ntb_of_small sz hp mem ds hlen
  obtain ⟨h1, h2⟩ := hs k hk
  simp only [dpe_dgram, ntb_of_dpe_entry sz hp h6 mem ds k hk, bind, Except.bind,
    Nat.mod_eq_of_lt h1, Nat.mod_eq_of_lt h2, ntb_of_dgram sz hp h9 mem ds k hk]

theorem ntb_of_dpe_dgrams_take (sz : cdc_sizes) {s : f_ncm} (hp : s.parser_opts = .ndp16)
    (h9 : 9 ≤ sz.nth16) (h6 : 6 ≤ sz.ndp16) (mem : Nat → Nat) (ds : List (List Nat))
    (hlen : (ntb_of sz s (mem, ds)).length < 65536) :
    ∀ k, k ≤ ds.length →
      dpe_dgrams (s.opts sz) (ntb_of sz s (mem, ds)) (ndp_offset sz s mem ds) k
        = .ok (ds.take k) := by
  intro k
  induction k with
  | zero => intro _; simp [dpe_dgrams]
  | succ k ih =>
    intro hk
    have hk' : k < ds.length := hk
    simp only [dpe_dgrams, ih (Nat.le_of_lt hk'), bind, Except.bind,
      ntb_of_dpe_dgram sz hp h9 h6 mem ds hlen k hk', pure, Except.pure]
    rw [List.take_succ, List.getElem?_eq_getElem hk']
    rfl

/-- The DPEs of a packaged NTB16 shorter than 64 KiB locate its datagrams, in
their order. -/
theorem ntb_of_dpe_dgrams (sz : cdc_sizes) {s : f_ncm} (hp : s.parser_opts = .ndp16)
    (h9 : 9 ≤ sz.nth16) (h6 : 6 ≤ sz.ndp16) (mem : Nat → Nat) (ds : List (List Nat))
    (hlen : (ntb_of sz s (mem, ds)).length < 65536) :
    dpe_dgrams (s.opts sz) (ntb_of sz s (mem, ds)) (ndp_offset sz s mem ds) ds.length
      = .ok ds := by
  rw [ntb_of_dpe_dgrams_take sz hp h9 h6 mem ds hlen ds.length (Nat.le_refl _), List.take_length]

/-- The datagrams of a packaged NTB16 shorter than 64 KiB, read from its own
header fields. -/
theorem ntb_of_ntb_dgrams (sz : cdc_sizes) {s : f_ncm} (hp : s.parser_opts = .ndp16)
    (h9 : 9 ≤ sz.nth16) (h6 : 6 ≤ sz.ndp16) (mem : Nat → Nat) (ds : List (List Nat))
    (hlen : (ntb_of sz s (mem, ds)).length < 65536) :
    ntb_dgrams (s.opts sz) (ntb_of sz s (mem, ds)) = .ok ds := by
  obtain ⟨h1, h2, -⟩ := ntb_of_small sz hp mem ds hlen
  have hcount : (sz.ndp16 + (ds.length + 1) * 4 - sz.ndp16) / (2 * 2 * 1) - 1 = ds.length := by
    omega
  simp only [ntb_dgrams, (ntb_of_nth_fields sz hp h9 mem ds).2, bind, Except.bind,
    Nat.mod_eq_of_lt h1, ntb_of_wLength sz hp h6 mem ds, Nat.mod_eq_of_lt h2,
    item_ndp16 sz hp, ndp_size_ndp16 sz hp, hcount,
    ntb_of_dpe_dgrams sz hp h9 h6 mem ds hlen]

/-! ## How a pending NTB comes about -/

/-- What is pending after a step of the reference model was pending before, or
was opened for the frame of the step, or is what was pending with the frame of
the step added because it fitted. -/
theorem abs_step_pending (sz : cdc_sizes) (u : f_ncm) (b : tx_abs) (ev : tx_event)
    (mem : Nat → Nat) (ds : List (List Nat))
    (h : (abs_step sz u b ev).2 = .pending mem ds) :
    b = .pending mem ds
      ∨ ∃ data_alloc ndp_alloc f, ev = .wrap data_alloc ndp_alloc (some f)
          ∧ (ds = [with_crc u.is_crc f]
            ∨ ∃ ds0, b = .pending mem ds0 ∧ ds = ds0 ++ [with_crc u.is_crc f]
                ∧ ¬ must_flush sz u mem ds0 (with_crc u.is_crc f).length) := by
  have open_case : ∀ (da : Bool) (na : Option (Nat → Nat)) (d : List Nat),
      abs_open da na d = .pending mem ds → ds = [d] := by
    intro da na d h
    unfold abs_open at h
    split at h
    · exact tx_abs.noConfusion h
    · split at h
      · exact tx_abs.noConfusion h
      · injection h with h1 h2
        exact h2.symm
  cases ev with
  | tasklet =>
    left
    cases b with
    | idle => exact tx_abs.noConfusion h
    | poisoned => exact tx_abs.noConfusion h
    | pending m0 d0 =>
      simp only [abs_step] at h
      split at h
      · exact h
      · exact tx_abs.noConfusion h
  | wrap data_alloc ndp_alloc skb =>
    cases skb with
    | none =>
      left
      cases b with
      | idle => exact tx_abs.noConfusion h
      | poisoned => exact tx_abs.noConfusion h
      | pending m0 d0 =>
        simp only [abs_step] at h
        split at h
        · exact tx_abs.noConfusion h
        · exact h
    | some f =>
      right
      refine ⟨data_alloc, ndp_alloc, f, rfl, ?_⟩
      cases b with
      | idle =>
        simp only [abs_step] at h
        exact Or.inl (open_case _ _ _ h)
      | poisoned => exact tx_abs.noConfusion h
      | pending m0 d0 =>
        simp only [abs_step] at h
        split at h
        · exact Or.inl (open_case _ _ _ h)
        · rename_i hm
          injection h with h1 h2
          subst h1
          exact Or.inr ⟨d0, rfl, h2.symm, hm⟩

theorem mem_tx_frames {evs : List tx_event} {data_alloc : Bool}
    {ndp_alloc : Option (Nat → Nat)} {f : List Nat}
    (h : tx_event.wrap data_alloc ndp_alloc (some f) ∈ evs) : f ∈ tx_frames evs := by
  induction evs with
  | nil => cases h
  | cons e es ih =>
    rcases List.mem_cons.mp h with h | h
    · subst h
      simp [tx_frames]
    · have := ih h
      cases e with
      | tasklet => simpa [tx_frames] using this
      | wrap da na skb =>
        cases skb with
        | none => simpa [tx_frames] using this
        | some g => simp [tx_frames, this]

/-- An entry into the transmit path of an NTB16 session that holds nothing or a
pending NTB returns. -/
theorem tx_step_progress (sz : cdc_sizes) (s : f_ncm) (a : tx_abs) (ev : tx_event)
    (hp : s.parser_opts = .ndp16) (hr : tx_repr sz s a) (ha : a ≠ .poisoned) :
    ∃ r, tx_step sz s ev = .ok r := by
  cases ev with
  | wrap data_alloc ndp_alloc skb =>
    cases skb with
    | none =>
      simp only [tx_step, ncm_wrap_ntb_null]
      cases a with
      | idle => exact ⟨_, by rw [if_pos hr.1]⟩
      | poisoned => exact absurd rfl ha
      | pending mem ds =>
        obtain ⟨-, -, hb, hn, -⟩ := hr
        have hnn : s.skb_tx_data ≠ .NULL := by rw [hb]; exact skb_ptr.noConfusion
        by_cases hf : s.timer_force_tx = true
        · exact ⟨_, by rw [if_neg hnn, if_pos hf, package_for_tx_ndp16 sz hp hb hn]; rfl⟩
        · exact ⟨_, by rw [if_neg hnn, if_neg hf]⟩
    | some f =>
      simp only [tx_step]
      cases a with
      | idle =>
        obtain ⟨s1, h1, -, -⟩ := wrap_frame_idle sz s data_alloc ndp_alloc f hr.1 hr.2
        exact ⟨_, h1⟩
      | poisoned => exact absurd rfl ha
      | pending mem ds =>
        rw [ncm_wrap_ntb_frame, wrap_flush_if_full_pending sz _ hp hr]
        by_cases hm : must_flush sz s mem ds (with_crc s.is_crc f).length
        · obtain ⟨s1, h1, -, -⟩ := wrap_tail_idle sz (after_package s) data_alloc ndp_alloc
            (with_crc s.is_crc f) (some (ntb_of sz s (mem, ds))) rfl rfl
          exact ⟨_, by rw [if_pos hm]; exact h1⟩
        · obtain ⟨-, -, hb, hn, -⟩ := hr
          have hopen : wrap_open sz s data_alloc ndp_alloc = .inl s := by
            simp [wrap_open, hb]
          refine ⟨(none, after_append sz s (pending_bufs sz s mem ds).1
            (pending_bufs sz s mem ds).2 (with_crc s.is_crc f)), ?_⟩
          rw [if_neg hm]
          simp only [Except.bind, wrap_tail, hopen, bind,
            wrap_append_live sz (with_crc s.is_crc f) hb hn]
  | tasklet =>
    simp only [tx_step, ncm_tx_tasklet]
    by_cases hst : s.timer_stopping = true
    · exact ⟨_, by rw [if_pos hst]⟩
    · cases a with
      | idle => exact ⟨_, by rw [if_neg hst, if_pos hr.1]⟩
      | poisoned => exact absurd rfl ha
      | pending mem ds =>
        obtain ⟨-, -, hb, hn, -⟩ := hr
        have hnn : s.skb_tx_data ≠ .NULL := by rw [hb]; exact skb_ptr.noConfusion
        rw [if_neg hst, if_neg hnn,
          wrap_null_live sz (s := { s with timer_force_tx := true }) true none hp hb hn rfl]
        exact ⟨_, rfl⟩

/-- An entry into the transmit path of an NTB16 session that holds nothing or a
pending NTB returns what the reference model says. -/
theorem tx_step_forward (sz : cdc_sizes) (s : f_ncm) (a : tx_abs) (ev : tx_event)
    (hp : s.parser_opts = .ndp16) (hr : tx_repr sz s a) (ha : a ≠ .poisoned) :
    ∃ s', tx_step sz s ev = .ok ((abs_step sz s a ev).1.map (ntb_of sz s), s')
      ∧ tx_repr sz s' (abs_step sz s a ev).2
      ∧ tx_settings s' = tx_settings s := by
  obtain ⟨⟨out, s'⟩, h⟩ := tx_step_progress sz s a ev hp hr ha
  obtain ⟨h1, h2, h3⟩ := tx_step_refines sz s s' a ev out hp hr h
  exact ⟨s', by rw [h, h2], h1, h3⟩

theorem tx_run_append (sz : cdc_sizes) :
    ∀ (e1 e2 : List tx_event) (s : f_ncm),
      tx_run sz s (e1 ++ e2)
        = (tx_run sz s e1).bind (fun r1 =>
            (tx_run sz r1.2 e2).bind (fun r2 => .ok (r1.1 ++ r2.1, r2.2))) := by
  intro e1
  induction e1 with
  | nil =>
    intro e2 s
    simp only [List.nil_append, tx_run, Except.bind, List.nil_append]
    cases tx_run sz s e2 <;> rfl
  | cons e es ih =>
    intro e2 s
    rw [List.cons_append]
    simp only [tx_run, bind]
    cases h1 : tx_step sz s e with
    | error err => rfl
    | ok r =>
      simp only [Except.bind]
      rw [ih e2 r.2]
      cases h2 : tx_run sz r.2 es with
      | error err => rfl
      | ok r2 =>
        simp only [Except.bind]
        cases h3 : tx_run sz r2.2 e2 with
        | error err => rfl
        | ok r3 => simp [List.append_assoc]

/-! ## Sizes of a pending NTB16 -/

theorem length_lay_step_fst (item : Nat) (st : List Nat × List Nat) (d : List Nat) :
    (lay_step item st d).1.length = ALIGN st.1.length 4 + d.length := by
  simp only [lay_step, List.length_append, length_zeros]
  have := ALIGN_ge st.1.length
  omega

theorem length_lay_step_snd (st : List Nat × List Nat) (d : List Nat) :
    (lay_step 1 st d).2.length = st.2.length + 4 := by
  simp only [lay_step, enc_item_one, List.length_append, length_put_unaligned_le16]

theorem length_pending_body_single (sz : cdc_sizes) (s : f_ncm) (mem : Nat → Nat)
    (d : List Nat) :
    (pending_bufs sz s mem [d]).1.length = ALIGN (s.opts sz).nth_size 4 + d.length := by
  rw [pending_bufs_single, length_lay_step_fst]
  simp only [length_fresh_nth]
  rw [ALIGN_of_mod (ALIGN_mod _)]

theorem length_pending_body_snoc (sz : cdc_sizes) (s : f_ncm) (mem : Nat → Nat)
    (ds : List (List Nat)) (d : List Nat) :
    (pending_bufs sz s mem (ds ++ [d])).1.length
      = ALIGN (pending_bufs sz s mem ds).1.length 4 + d.length := by
  rw [pending_bufs_snoc, length_lay_step_fst]

/-- One frame and the timer flush, on an NTB16 session that holds nothing. -/
theorem single_frame_flush (sz : cdc_sizes) (s : f_ncm) (mem : Nat → Nat) (f : List Nat)
    (hp : s.parser_opts = .ndp16) (hidle : s.skb_tx_data = .NULL ∧ s.skb_tx_ndp = .NULL)
    (hst : s.timer_stopping = false) :
    ∃ s', tx_run sz s (submit mem [f] ++ [.tasklet])
        = .ok ([ntb_of sz s (mem, [with_crc s.is_crc f])], s')
      ∧ tx_settings s' = tx_settings s := by
  obtain ⟨s1, h1, hr1, hs1⟩ := tx_step_forward sz s .idle
    (.wrap true (some mem) (some f)) hp hidle tx_abs.noConfusion
  have hp1 : s1.parser_opts = .ndp16 := (parser_of_settings hs1).trans hp
  have hst1 : s1.timer_stopping = false := by
    have := hs1
    simp only [tx_settings, Prod.mk.injEq] at this
    exact this.2.2.2.2.2.2.trans hst
  have ha : (abs_step sz s .idle (.wrap true (some mem) (some f))).2
      = .pending mem [with_crc s.is_crc f] := rfl
  rw [ha] at hr1
  obtain ⟨s2, h2, -, hs2⟩ := tx_step_forward sz s1 (.pending mem [with_crc s.is_crc f])
    .tasklet hp1 hr1 tx_abs.noConfusion
  refine ⟨s2, ?_, hs2.trans hs1⟩
  have e1 : (abs_step sz s .idle (.wrap true (some mem) (some f))).1 = none := rfl
  have e2 : (abs_step sz s1 (.pending mem [with_crc s.is_crc f]) .tasklet).1
      = some (mem, [with_crc s.is_crc f]) := by
    simp [abs_step, hst1]
  rw [e1] at h1
  rw [e2] at h2
  simp only [submit, List.map_cons, List.map_nil, List.cons_append, List.nil_append, tx_run,
    h1, h2, bind, Except.bind, Option.map, Option.toList, ntb_of_congr sz hs1]

/-! ## A frame call whose allocations succeed -/

theorem package_for_tx_state (sz : cdc_sizes) (s : f_ncm) (v : List Nat × f_ncm)
    (h : package_for_tx sz s = .ok v) : v.2 = after_package s := by
  unfold package_for_tx at h
  cases hd : s.skb_tx_data.deref with
  | error e => simp [hd, bind, Except.bind] at h
  | ok d =>
    cases hn : s.skb_tx_ndp.deref with
    | error e => simp [hd, hn, bind, Except.bind] at h
    | ok n =>
      simp only [hd, hn, bind, Except.bind, put_ncm_block_length] at h
      split at h
      · exact Except.noConfusion h
      · injection h with h
        rw [← h]
        rfl

theorem wrap_flush_if_full_state (sz : cdc_sizes) (s : f_ncm) (len : Nat)
    (r : Option (List Nat) × f_ncm) (h : wrap_flush_if_full sz s len = .ok r) :
    r.2 = s ∨ r.2 = after_package s := by
  unfold wrap_flush_if_full at h
  split at h
  · injection h with h; subst h; exact Or.inl rfl
  · split at h
    · cases hpk : package_for_tx sz s with
      | error e => simp [hpk, bind, Except.bind] at h
      | ok v =>
        simp only [hpk, bind, Except.bind] at h
        injection h with h
        subst h
        exact Or.inr (package_for_tx_state sz s v hpk)
    · cases hd : s.skb_tx_data.deref with
      | error e => simp [hd, bind, Except.bind] at h
      | ok d =>
        cases hn : s.skb_tx_ndp.deref with
        | error e => simp [hd, hn, bind, Except.bind] at h
        | ok n =>
          simp only [hd, hn, bind, Except.bind] at h
          split at h
          · cases hpk : package_for_tx sz s with
            | error e => simp [hpk] at h
            | ok v =>
              simp only [hpk] at h
              injection h with h
              subst h
              exact Or.inr (package_for_tx_state sz s v hpk)
          · injection h with h; subst h; exact Or.inl rfl

theorem wrap_append_inv (sz : cdc_sizes) (t s' : f_ncm) (d : List Nat)
    (h : wrap_append sz t d = .ok s') :
    ∃ b n, t.skb_tx_data = .live b ∧ t.skb_tx_ndp = .live n ∧ s' = after_append sz t b n d := by
  cases hb : t.skb_tx_data with
  | NULL => simp [wrap_append, hb, skb_ptr.deref, bind, Except.bind] at h; split at h <;> simp at h
  | dangling =>
    simp [wrap_append, hb, skb_ptr.deref, bind, Except.bind] at h; split at h <;> simp at h
  | live b =>
    cases hn : t.skb_tx_ndp with
    | NULL => simp [wrap_append, hn, skb_ptr.deref, bind, Except.bind] at h
    | dangling => simp [wrap_append, hn, skb_ptr.deref, bind, Except.bind] at h
    | live n =>
      rw [wrap_append_live sz d hb hn] at h
      injection h with h
      exact ⟨b, n, rfl, rfl, h.symm⟩

theorem submit_snoc (mem : Nat → Nat) (gs : List (List Nat)) (g : List Nat) :
    submit mem (gs ++ [g]) = submit mem gs ++ [.wrap true (some mem) (some g)] := by
  simp [submit]

theorem length_pending_body_nil (sz : cdc_sizes) (s : f_ncm) (mem : Nat → Nat) :
    (pending_bufs sz s mem []).1.length = ALIGN (s.opts sz).nth_size 4 := by
  simp [pending_bufs, lay, length_fresh_nth]

/-- The body of a pending NTB grows by at most the datagram and three bytes of
padding per datagram. -/
theorem length_pending_body_le (sz : cdc_sizes) (s : f_ncm) (mem : Nat → Nat) (L : Nat) :
    ∀ ds : List (List Nat), (∀ d ∈ ds, d.length ≤ L) →
      (pending_bufs sz s mem ds).1.length ≤ ALIGN (s.opts sz).nth_size 4 + ds.length * (L + 3) := by
  intro ds
  induction ds using List.reverseRecOn with
  | nil => intro _; rw [length_pending_body_nil]; simp
  | append_singleton ds d ih =>
    intro h
    have h1 := ih (fun x hx => h x (List.mem_append_left _ hx))
    have h2 := h d (List.mem_append_right _ (List.mem_singleton.mpr rfl))
    have h3 := ALIGN_lt (pending_bufs sz s mem ds).1.length
    rw [length_pending_body_snoc, List.length_append, List.length_singleton, Nat.add_mul]
    omega

/-- A datagram of at most `L` bytes fits a pending NTB16 of fewer than 31
datagrams of at most `L` bytes when `fixed_in_len` has room for 31 of them. -/
theorem not_must_flush (sz : cdc_sizes) (s : f_ncm) (hp : s.parser_opts = .ndp16)
    (mem : Nat → Nat) (L : Nat) (ds : List (List Nat)) (len : Nat)
    (hds : ∀ d ∈ ds, d.length ≤ L) (hlen : len ≤ L) (hn : ds.length < 31)
    (hM : ALIGN sz.nth16 4 + sz.ndp16 + 31 * (L + 7) + 16 ≤ s.fixed_in_len) :
    ¬ must_flush sz s mem ds len := by
  have h1 := length_pending_body_le sz s mem L ds hds
  have h2 := length_pending_ndp sz hp mem ds
  rw [nth_size_ndp16 sz hp] at h1
  have h3 : ds.length * (L + 3) ≤ 30 * (L + 3) := Nat.mul_le_mul_right _ (by omega)
  simp only [must_flush, TX_MAX_NUM_DPE, item_ndp16 sz hp, not_or, not_le, not_lt]
  constructor
  · omega
  · omega

/-- Up to 31 small frames submitted to an NTB16 session that holds nothing are
all kept: no NTB comes back and all of them are pending. -/
theorem submit_all_pending (sz : cdc_sizes) (s : f_ncm) (hp : s.parser_opts = .ndp16)
    (hidle : s.skb_tx_data = .NULL ∧ s.skb_tx_ndp = .NULL) (mem : Nat → Nat) (L : Nat)
    (hM : ALIGN sz.nth16 4 + sz.ndp16 + 31 * (L + 7) + 16 ≤ s.fixed_in_len) :
    ∀ gs : List (List Nat), gs ≠ [] → gs.length ≤ 31 →
      (∀ g ∈ gs, (with_crc s.is_crc g).length ≤ L) →
      ∃ t, tx_run sz s (submit mem gs) = .ok ([], t)
        ∧ tx_repr sz t (.pending mem (gs.map (with_crc s.is_crc)))
        ∧ tx_settings t = tx_settings s := by
  intro gs
  induction gs using List.reverseRecOn with
  | nil => intro h; exact absurd rfl h
  | append_singleton gs g ih =>
    intro _ hlen hL
    rw [List.length_append, List.length_singleton] at hlen
    by_cases hgs : gs = []
    · subst hgs
      obtain ⟨t, h1, h2, h3⟩ := tx_step_forward sz s .idle
        (.wrap true (some mem) (some g)) hp hidle tx_abs.noConfusion
      refine ⟨t, ?_, h2, h3⟩
      have e1 : (abs_step sz s .idle (.wrap true (some mem) (some g))).1 = none := rfl
      rw [e1] at h1
      simp only [List.nil_append, submit, List.map_cons, List.map_nil, tx_run, h1, bind,
        Except.bind, Option.map, Option.toList, List.append_nil]
    · obtain ⟨t, h1, h2, h3⟩ := ih hgs (by omega)
        (fun x hx => hL x (List.mem_append_left _ hx))
      have hpt : t.parser_opts = .ndp16 := (parser_of_settings h3).trans hp
      have hcrc : t.is_crc = s.is_crc := is_crc_of_settings h3
      have hnm : ¬ must_flush sz t mem (gs.map (with_crc s.is_crc)) (with_crc t.is_crc g).length := by
        apply not_must_flush sz t hpt mem L
        · intro d hd
          obtain ⟨x, hx, rfl⟩ := List.mem_map.mp hd
          exact hL x (List.mem_append_left _ hx)
        · rw [hcrc]
          exact hL g (List.mem_append_right _ (List.mem_singleton.mpr rfl))
        · rw [List.length_map]; omega
        · rw [fixed_in_len_of_settings h3]; exact hM
      obtain ⟨t2, h4, h5, h6⟩ := tx_step_forward sz t _ (.wrap true (some mem) (some g)) hpt h2
        tx_abs.noConfusion
      have hnm' := hnm
      rw [hcrc] at hnm'
      simp only [abs_step, hcrc, hnm', ite_false, Option.map] at h4 h5
      refine ⟨t2, ?_, ?_, h6.trans h3⟩
      · rw [submit_snoc, tx_run_append, h1]
        simp only [Except.bind, tx_run, h4, bind, Option.toList, List.append_nil]
      · rw [List.map_append, List.map_singleton]
        exact h5

/-! ## The entry table of a pending NTB is full at 31 datagrams -/

theorem length_ntb_of_le (sz : cdc_sizes) (s : f_ncm) (hp : s.parser_opts = .ndp16)
    (mem : Nat → Nat) (L : Nat) (ds : List (List Nat)) (hds : ∀ d ∈ ds, d.length ≤ L)
    (hn : ds.length ≤ 31) :
    (ntb_of sz s (mem, ds)).length ≤ ALIGN sz.nth16 4 + sz.ndp16 + 31 * (L + 7) + 16 := by
  have h1 := length_pending_body_le sz s mem L ds hds
  rw [nth_size_ndp16 sz hp] at h1
  have h3 : ds.length * (L + 3) ≤ 31 * (L + 3) := Nat.mul_le_mul_right _ hn
  have h4 := ALIGN_lt (pending_bufs sz s mem ds).1.length
  rw [length_ntb_of sz hp, ndp_offset]
  omega

theorem tx_settings_stopping {s t : f_ncm} (h : tx_settings t = tx_settings s) :
    t.timer_stopping = s.timer_stopping := by
  simp only [tx_settings, Prod.mk.injEq] at h
  exact h.2.2.2.2.2.2

/-- What 33 small frames do to an NTB16 session that holds nothing: the first 31
calls return nothing, the 32nd returns the NTB of the first 31 frames, the 33rd
returns nothing, and the last two frames are what the next flush sends. -/
theorem dpe_cap_run (sz : cdc_sizes) (s : f_ncm) (mem : Nat → Nat) (fs : List (List Nat))
    (L : Nat) (hp : s.parser_opts = .ndp16) (h9 : 9 ≤ sz.nth16) (h6 : 6 ≤ sz.ndp16)
    (hidle : s.skb_tx_data = .NULL ∧ s.skb_tx_ndp = .NULL) (hst : s.timer_stopping = false)
    (hn : fs.length = 33) (hL : ∀ f ∈ fs, (with_crc s.is_crc f).length ≤ L)
    (hM : ALIGN sz.nth16 4 + sz.ndp16 + 31 * (L + 7) + 16 ≤ s.fixed_in_len)
    (hM2 : s.fixed_in_len < 65536) :
    ∃ ntb ntb2 s1 s2 s3 s4,
      tx_run sz s (submit mem (fs.take 31)) = .ok ([], s1)
        ∧ tx_run sz s (submit mem (fs.take 32)) = .ok ([ntb], s2)
        ∧ tx_run sz s (submit mem fs) = .ok ([ntb], s3)
        ∧ ntb_dgrams (s.opts sz) ntb = .ok ((fs.take 31).map (with_crc s.is_crc))
        ∧ ncm_tx_tasklet sz s3 = .ok (some ntb2, s4)
        ∧ ntb_dgrams (s.opts sz) ntb2 = .ok ((fs.drop 31).map (with_crc s.is_crc)) := by
  have i31 : 31 < fs.length := by omega
  have i32 : 32 < fs.length := by omega
  have e32 : fs.take 32 = fs.take 31 ++ [fs[31]] := by
    rw [List.take_succ, List.getElem?_eq_getElem i31]; rfl
  have e33 : fs = fs.take 32 ++ [fs[32]] := by
    have : fs.take 33 = fs.take 32 ++ [fs[32]] := by
      rw [List.take_succ, List.getElem?_eq_getElem i32]; rfl
    rw [← this, List.take_of_length_le (by omega)]
  have edrop : fs.drop 31 = [fs[31], fs[32]] := by
    rw [List.drop_eq_getElem_cons i31, List.drop_eq_getElem_cons i32,
      List.drop_of_length_le (by omega)]
  have hL31 := hL fs[31] (List.getElem_mem i31)
  have hL32 := hL fs[32] (List.getElem_mem i32)
  -- the first 31 frames
  have ltake : (fs.take 31).length = 31 := by rw [List.length_take]; omega
  obtain ⟨t1, r1, p1, q1⟩ := submit_all_pending sz s hp hidle mem L hM (fs.take 31)
    (by intro h; rw [h] at ltake; exact absurd ltake (by decide))
    (by omega)
    (fun g hg => hL g (List.mem_of_mem_take hg))
  have hp1 : t1.parser_opts = .ndp16 := (parser_of_settings q1).trans hp
  have hc1 : t1.is_crc = s.is_crc := is_crc_of_settings q1
  have len31 : ((fs.take 31).map (with_crc s.is_crc)).length = 31 := by
    rw [List.length_map, List.length_take]; omega
  -- the 32nd frame
  obtain ⟨t2, r2, p2, q2⟩ := tx_step_forward sz t1 _ (.wrap true (some mem) (some fs[31]))
    hp1 p1 tx_abs.noConfusion
  have hm : must_flush sz t1 mem ((fs.take 31).map (with_crc s.is_crc))
      (with_crc s.is_crc fs[31]).length := by
    left; rw [len31]; decide
  simp only [abs_step, hc1, hm, ite_true, alloc_ok, Option.isSome, Bool.and_self, Option.map,
    abs_open, Bool.true_eq_false, ite_false] at r2 p2
  rw [ntb_of_congr sz q1] at r2
  have q2' : tx_settings t2 = tx_settings s := q2.trans q1
  have hp2 : t2.parser_opts = .ndp16 := (parser_of_settings q2').trans hp
  have hc2 : t2.is_crc = s.is_crc := is_crc_of_settings q2'
  -- the 33rd frame
  obtain ⟨t3, r3, p3, q3⟩ := tx_step_forward sz t2 _ (.wrap true (some mem) (some fs[32]))
    hp2 p2 tx_abs.noConfusion
  have hnm : ¬ must_flush sz t2 mem [with_crc s.is_crc fs[31]]
      (with_crc s.is_crc fs[32]).length := by
    apply not_must_flush sz t2 hp2 mem L
    · intro d hd
      rw [List.mem_singleton] at hd
      rw [hd]; exact hL31
    · exact hL32
    · simp
    · rw [fixed_in_len_of_settings q2']; exact hM
  simp only [abs_step, hc2, hnm, ite_false, Option.map, List.singleton_append] at r3 p3
  have q3' : tx_settings t3 = tx_settings s := q3.trans q2'
  have hp3 : t3.parser_opts = .ndp16 := (parser_of_settings q3').trans hp
  -- the flush
  obtain ⟨t4, r4, -, -⟩ := tx_step_forward sz t3 _ .tasklet hp3 p3 tx_abs.noConfusion
  have hst3 : t3.timer_stopping = false := (tx_settings_stopping q3').trans hst
  simp only [abs_step, hst3, Bool.false_eq_true, ite_false, Option.map, tx_step] at r4
  rw [ntb_of_congr sz q3'] at r4
  -- the runs
  have run32 : tx_run sz s (submit mem (fs.take 32))
      = .ok ([ntb_of sz s (mem, (fs.take 31).map (with_crc s.is_crc))], t2) := by
    rw [e32, submit_snoc, tx_run_append, r1]
    simp only [Except.bind, tx_run, r2, bind, Option.toList, List.append_nil, List.nil_append]
  have run33 : tx_run sz s (submit mem fs)
      = .ok ([ntb_of sz s (mem, (fs.take 31).map (with_crc s.is_crc))], t3) := by
    rw [e33, submit_snoc, tx_run_append, ← e33, run32]
    simp only [Except.bind, tx_run, r3, bind, Option.toList, List.append_nil]
  refine ⟨_, _, t1, t2, t3, t4, r1, run32, run33, ?_, r4, ?_⟩
  · apply ntb_of_ntb_dgrams sz hp h9 h6
    have := length_ntb_of_le sz s hp mem L ((fs.take 31).map (with_crc s.is_crc))
      (by
        intro d hd
        obtain ⟨x, hx, rfl⟩ := List.mem_map.mp hd
        exact hL x (List.mem_of_mem_take hx))
      (by omega)
    omega
  · rw [edrop, List.map_cons, List.map_singleton]
    apply ntb_of_ntb_dgrams sz hp h9 h6
    have := length_ntb_of_le sz s hp mem L [with_crc s.is_crc fs[31], with_crc s.is_crc fs[32]]
      (by
        intro d hd
        rcases List.mem_cons.mp hd with hd | hd
        · rw [hd]; exact hL31
        · rw [List.mem_singleton] at hd
          rw [hd]; exact hL32)
      (by simp)
    omega

theorem abs_step_conserve (sz : cdc_sizes) (u : f_ncm) (a : tx_abs) (ev : tx_event)
    (ha : a ≠ .poisoned) (hev : tx_no_alloc_failure [ev]) :
    (abs_step sz u a ev).2 ≠ .poisoned
      ∧ sent_dgrams (abs_step sz u a ev).1 ++ abs_pend (abs_step sz u a ev).2
        = abs_pend a ++ (tx_frames [ev]).map (with_crc u.is_crc) := by
  cases ev with
  | tasklet =>
    cases a with
    | idle => exact ⟨ha, rfl⟩
    | poisoned => exact absurd rfl ha
    | pending mem ds =>
      simp only [abs_step]
      split
      · exact ⟨ha, by simp [sent_dgrams, abs_pend, tx_frames]⟩
      · exact ⟨tx_abs.noConfusion, by simp [sent_dgrams, abs_pend, tx_frames]⟩
  | wrap data_alloc ndp_alloc skb =>
    simp only [tx_no_alloc_failure, and_true] at hev
    obtain ⟨h1, h2⟩ := hev
    subst h1
    cases ndp_alloc with
    | none => simp at h2
    | some m =>
      cases skb with
      | none =>
        cases a with
        | idle => exact ⟨ha, rfl⟩
        | poisoned => exact absurd rfl ha
        | pending mem ds =>
          simp only [abs_step]
          split
          · exact ⟨tx_abs.noConfusion, by simp [sent_dgrams, abs_pend, tx_frames]⟩
          · exact ⟨ha, by simp [sent_dgrams, abs_pend, tx_frames]⟩
      | some f =>
        cases a with
        | idle =>
          exact ⟨by simp [abs_step, abs_open], by simp [abs_step, abs_open, sent_dgrams,
            abs_pend, tx_frames]⟩
        | poisoned => exact absurd rfl ha
        | pending mem ds =>
          simp only [abs_step]
          split
          · exact ⟨by simp [abs_open], by simp [abs_open, alloc_ok, sent_dgrams, abs_pend,
              tx_frames]⟩
          · exact ⟨tx_abs.noConfusion, by simp [sent_dgrams, abs_pend, tx_frames]⟩

theorem tx_frames_cons (ev : tx_event) (evs : List tx_event) :
    tx_frames (ev :: evs) = tx_frames [ev] ++ tx_frames evs := by
  cases ev with
  | tasklet => rfl
  | wrap da na skb =>
    cases skb with
    | none => rfl
    | some f => rfl

theorem tx_frames_append (e1 e2 : List tx_event) :
    tx_frames (e1 ++ e2) = tx_frames e1 ++ tx_frames e2 := by
  induction e1 with
  | nil => rfl
  | cons e es ih =>
    rw [List.cons_append, tx_frames_cons, ih, tx_frames_cons e es, List.append_assoc]

theorem tx_no_alloc_failure_cons (ev : tx_event) (evs : List tx_event) :
    tx_no_alloc_failure (ev :: evs) ↔ tx_no_alloc_failure [ev] ∧ tx_no_alloc_failure evs := by
  cases ev with
  | tasklet => simp [tx_no_alloc_failure]
  | wrap da na skb => simp [tx_no_alloc_failure, and_assoc]

/-- A run of an NTB16 session in which no allocation fails sends its frames in
the order of submission: the NTBs it hands back are those of consecutive groups
of the datagrams, and what follows the groups is still pending. -/
theorem tx_run_conserves (sz : cdc_sizes) (s : f_ncm) (hp : s.parser_opts = .ndp16) :
    ∀ (evs : List tx_event) (t t' : f_ncm) (a : tx_abs) (outs : List (List Nat)),
      tx_settings t = tx_settings s → tx_repr sz t a → a ≠ .poisoned →
      tx_no_alloc_failure evs → tx_run sz t evs = .ok (outs, t') →
      ∃ (groups : List ((Nat → Nat) × List (List Nat))) (a' : tx_abs),
        outs = groups.map (ntb_of sz s)
          ∧ tx_repr sz t' a' ∧ a' ≠ .poisoned ∧ tx_settings t' = tx_settings s
          ∧ (groups.map (fun g => g.2)).flatten ++ abs_pend a'
            = abs_pend a ++ (tx_frames evs).map (with_crc s.is_crc) := by
  intro evs
  induction evs with
  | nil =>
    intro t t' a outs hs hr ha _ h
    simp only [tx_run, Except.ok.injEq, Prod.mk.injEq] at h
    obtain ⟨ho, ht⟩ := h
    subst ht ho
    exact ⟨[], a, rfl, hr, ha, hs, by simp [tx_frames]⟩
  | cons ev evs ih =>
    intro t t' a outs hs hr ha hna h
    rw [tx_no_alloc_failure_cons] at hna
    simp only [tx_run, bind, Except.bind] at h
    cases h1 : tx_step sz t ev with
    | error e => simp [h1] at h
    | ok r1 =>
      obtain ⟨out, t1⟩ := r1
      simp only [h1] at h
      cases h2 : tx_run sz t1 evs with
      | error e => simp [h2] at h
      | ok r2 =>
        obtain ⟨outs2, t2⟩ := r2
        simp only [h2, Except.ok.injEq, Prod.mk.injEq] at h
        obtain ⟨ho, ht⟩ := h
        subst ht ho
        have hpt : t.parser_opts = .ndp16 := (parser_of_settings hs).trans hp
        obtain ⟨hr1, hout, hs1⟩ := tx_step_refines sz t t1 a ev out hpt hr h1
        obtain ⟨hnp, hcons⟩ := abs_step_conserve sz t a ev ha hna.1
        obtain ⟨groups, a', g1, g2, g3, g4, g5⟩ :=
          ih t1 t2 _ outs2 (hs1.trans hs) hr1 hnp hna.2 h2
        rw [is_crc_of_settings hs] at hcons
        cases hg : (abs_step sz t a ev).1 with
        | none =>
          refine ⟨groups, a', ?_, g2, g3, g4, ?_⟩
          · rw [hout, hg, g1]; rfl
          · rw [hg] at hcons
            simp only [sent_dgrams, List.nil_append] at hcons
            rw [g5, hcons, tx_frames_cons ev evs, List.map_append, List.append_assoc]
        | some g =>
          refine ⟨g :: groups, a', ?_, g2, g3, g4, ?_⟩
          · rw [hout, hg, g1]
            simp only [Option.map, Option.toList, List.map_cons, ntb_of_congr sz hs,
              List.singleton_append]
          · rw [hg] at hcons
            simp only [sent_dgrams] at hcons
            rw [List.map_cons, List.flatten_cons, List.append_assoc, g5, ← List.append_assoc,
              hcons, tx_frames_cons ev evs, List.map_append, List.append_assoc]

theorem tx_no_alloc_failure_append (e1 e2 : List tx_event) :
    tx_no_alloc_failure (e1 ++ e2) ↔ tx_no_alloc_failure e1 ∧ tx_no_alloc_failure e2 := by
  induction e1 with
  | nil => simp [tx_no_alloc_failure]
  | cons e es ih =>
    rw [List.cons_append, tx_no_alloc_failure_cons, ih, tx_no_alloc_failure_cons e es, and_assoc]

/-- The datagrams of the NTBs of a sequence of groups, each NTB shorter than
64 KiB, are the datagrams of the groups. -/
theorem ntbs_dgrams_of_groups (sz : cdc_sizes) {s : f_ncm} (hp : s.parser_opts = .ndp16)
    (h9 : 9 ≤ sz.nth16) (h6 : 6 ≤ sz.ndp16) :
    ∀ groups : List ((Nat → Nat) × List (List Nat)),
      (∀ ntb ∈ groups.map (ntb_of sz s), ntb.length < 65536) →
      ntbs_dgrams (s.opts sz) (groups.map (ntb_of sz s))
        = .ok (groups.map (fun g => g.2)).flatten := by
  intro groups
  induction groups with
  | nil => intro _; rfl
  | cons g gs ih =>
    intro h
    have h1 : (ntb_of sz s (g.1, g.2)).length < 65536 :=
      h _ (List.mem_map_of_mem _ (List.mem_cons_self _ _))
    have h2 := ih (fun ntb hm => h ntb (by
      rw [List.map_cons]; exact List.mem_cons_of_mem _ hm))
    simp only [List.map_cons, ntbs_dgrams, bind, Except.bind, pure, Except.pure, h2,
      List.flatten_cons]
    have := ntb_of_ntb_dgrams sz hp h9 h6 g.1 g.2 h1
    rw [this]

/-- The flush tasklet of a session that is not stopping leaves no NTB pending. -/
theorem tasklet_leaves_nothing (sz : cdc_sizes) (t t' : f_ncm) (out : Option (List Nat))
    (hst : t.timer_stopping = false) (h : ncm_tx_tasklet sz t = .ok (out, t')) :
    t'.skb_tx_data = .NULL := by
  unfold ncm_tx_tasklet at h
  rw [if_neg (by rw [hst]; exact Bool.noConfusion)] at h
  split at h
  · rename_i hd
    injection h with h
    rw [← (Prod.mk.inj h).2]; exact hd
  · rw [ncm_wrap_ntb_null] at h
    rename_i hd
    rw [if_neg (show ({ t with timer_force_tx := true } : f_ncm).skb_tx_data ≠ .NULL from hd),
      if_pos rfl] at h
    cases hpk : package_for_tx sz { t with timer_force_tx := true } with
    | error e => simp [hpk, bind, Except.bind] at h
    | ok v =>
      have hv := package_for_tx_state sz _ v hpk
      simp only [hpk, bind, Except.bind, Except.ok.injEq, Prod.mk.injEq] at h
      rw [← h.2, hv]
      rfl

theorem abs_pend_of_null (sz : cdc_sizes) (t : f_ncm) (a : tx_abs) (hr : tx_repr sz t a)
    (hd : t.skb_tx_data = .NULL) : abs_pend a = [] := by
  cases a with
  | idle => rfl
  | poisoned => rfl
  | pending mem ds =>
    obtain ⟨-, -, hb, -, -⟩ := hr
    rw [hd] at hb
    exact skb_ptr.noConfusion hb

theorem tx_run_snoc_inv (sz : cdc_sizes) (s s' : f_ncm) (evs : List tx_event) (ev : tx_event)
    (outs : List (List Nat)) (h : tx_run sz s (evs ++ [ev]) = .ok (outs, s')) :
    ∃ o1 t1 o2, tx_run sz s evs = .ok (o1, t1) ∧ tx_step sz t1 ev = .ok (o2, s')
      ∧ outs = o1 ++ o2.toList := by
  rw [tx_run_append] at h
  cases h1 : tx_run sz s evs with
  | error e => simp [h1, Except.bind] at h
  | ok r1 =>
    simp only [h1, Except.bind, tx_run, bind] at h
    cases h2 : tx_step sz r1.2 ev with
    | error e => simp [h2] at h
    | ok r2 =>
      simp only [h2, Except.ok.injEq, Prod.mk.injEq, List.append_nil] at h
      exact ⟨r1.1, r1.2, r2.1, rfl, by rw [← h.2, h2], h.1.symm⟩

/-! ## The ingress path on a packaged NTB16 -/

theorem getElem?_fresh_nth (opts : ndp_parser_opts) (i : Nat) (h12 : 12 ≤ ALIGN opts.nth_size 4)
    (hi : i < 8) :
    (fresh_nth opts)[i]?
      = if i < 4 then (put_unaligned_le32 opts.nth_sign)[i]?
        else if i < 6 then (put_unaligned_le16 opts.nth_size)[i - 4]? else some 0 := by
  unfold fresh_nth
  rw [getElem?_poke, getElem?_poke]
  simp only [length_poke, length_zeros, length_put_unaligned_le16, length_put_unaligned_le32]
  by_cases h1 : i < 4
  · rw [if_neg (by omega), if_pos (by omega), if_pos h1]; rfl
  · by_cases h2 : i < 6
    · rw [if_pos (by omega), if_neg h1, if_pos h2]
    · rw [if_neg (by omega), if_neg (by omega), if_neg h1, if_neg h2]
      simp only [zeros]
      rw [List.getElem?_replicate, if_pos (by omega)]

theorem getElem?_fresh_ndp (opts : ndp_parser_opts) (sign : Nat) (mem : Nat → Nat) (i : Nat)
    (h4 : 4 ≤ opts.ndp_size) (hi : i < 4) :
    (fresh_ndp opts sign mem)[i]? = (put_unaligned_le32 sign)[i]? := by
  unfold fresh_ndp
  rw [getElem?_poke]
  simp only [List.length_map, List.length_range, length_put_unaligned_le32]
  rw [if_pos (by omega)]; rfl

theorem get_unaligned_le32_of_peek {buf : List Nat} {off v : Nat}
    (h : peek buf off 4 = .ok (put_unaligned_le32 v)) :
    get_unaligned_le32 buf off = .ok (v % 4294967296) := by
  simp [get_unaligned_le32, h, Except.map, le_value_le32]

/-- The NTH signature and header length of a packaged NTB16. -/
theorem ntb_of_nth_head (sz : cdc_sizes) {s : f_ncm} (hp : s.parser_opts = .ndp16)
    (h9 : 9 ≤ sz.nth16) (mem : Nat → Nat) (ds : List (List Nat)) :
    get_unaligned_le32 (ntb_of sz s (mem, ds)) 0 = .ok ((s.opts sz).nth_sign % 4294967296)
      ∧ get_unaligned_le16 (ntb_of sz s (mem, ds)) 4 = .ok (sz.nth16 % 65536) := by
  have ha : 12 ≤ ALIGN sz.nth16 4 := by unfold ALIGN; omega
  have ha' : 12 ≤ ALIGN (s.opts sz).nth_size 4 := by rw [nth_size_ndp16 sz hp]; exact ha
  have hb := length_pending_body_ge sz hp mem ds
  have hl := length_ntb_of sz hp mem ds
  have hge := ALIGN_ge (pending_bufs sz s mem ds).1.length
  obtain ⟨P, hP⟩ := pending_body_prefix sz s mem ds
  have key : ∀ i, i < 8 → (ntb_of sz s (mem, ds))[i]? = (fresh_nth (s.opts sz))[i]? := by
    intro i hi
    simp only [ntb_of]
    rw [packaged_get_body sz hp _ _ _ _ (by omega), if_neg (by omega), if_neg (by omega), hP,
      List.getElem?_append_left (by rw [length_fresh_nth]; omega)]
  constructor
  · apply get_unaligned_le32_of_peek
    apply peek_of_getElem? (put_unaligned_le32 _)
    · simp only [length_put_unaligned_le32]; rw [ndp_offset] at hl; omega
    · intro j hj
      simp only [length_put_unaligned_le32] at hj
      rw [Nat.zero_add, key j (by omega), getElem?_fresh_nth _ _ ha' (by omega), if_pos hj]
  · have := nth_size_ndp16 sz hp
    rw [← this]
    apply get_unaligned_le16_of_peek
    apply peek_of_getElem? (put_unaligned_le16 _)
    · simp only [length_put_unaligned_le16]; rw [ndp_offset] at hl; omega
    · intro j hj
      simp only [length_put_unaligned_le16] at hj
      rw [key (4 + j) (by omega), getElem?_fresh_nth _ _ ha' (by omega), if_neg (by omega),
        if_pos (by omega)]
      congr 1; omega

/-- The NDP signature of a packaged NTB16. -/
theorem ntb_of_ndp_sign (sz : cdc_sizes) {s : f_ncm} (hp : s.parser_opts = .ndp16)
    (h6 : 6 ≤ sz.ndp16) (mem : Nat → Nat) (ds : List (List Nat)) :
    get_unaligned_le32 (ntb_of sz s (mem, ds)) (ndp_offset sz s mem ds)
      = .ok (s.ndp_sign % 4294967296) := by
  have hl := length_ntb_of sz hp mem ds
  have hn := length_pending_ndp sz hp mem ds
  obtain ⟨E, hE⟩ := pending_ndp_prefix sz s mem ds
  apply get_unaligned_le32_of_peek
  apply peek_of_getElem? (put_unaligned_le32 _)
  · simp only [length_put_unaligned_le32]; omega
  · intro j hj
    simp only [length_put_unaligned_le32] at hj
    simp only [ntb_of, ndp_offset]
    rw [packaged_get_ndp sz hp _ _ _ _ (by omega), if_neg (by omega), hE,
      List.getElem?_append_left (by rw [length_fresh_ndp, ndp_size_ndp16 sz hp]; omega),
      getElem?_fresh_ndp _ _ _ _ (by rw [ndp_size_ndp16 sz hp]; omega) hj]

theorem dpe_entry_reads (opts : ndp_parser_opts) (ntb : List Nat) (ndp k i l : Nat)
    (h : dpe_entry opts ntb ndp k = .ok (i, l)) :
    get_ncm ntb (ndp + opts.ndp_size + k * (2 * 2 * opts.dgram_item_len)) opts.dgram_item_len
        = .ok i
      ∧ get_ncm ntb (ndp + opts.ndp_size + k * (2 * 2 * opts.dgram_item_len)
          + 2 * opts.dgram_item_len) opts.dgram_item_len = .ok l := by
  unfold dpe_entry at h
  cases h1 : get_ncm ntb (ndp + opts.ndp_size + k * (2 * 2 * opts.dgram_item_len))
      opts.dgram_item_len with
  | error e => simp [h1, bind, Except.bind] at h
  | ok a =>
    cases h2 : get_ncm ntb (ndp + opts.ndp_size + k * (2 * 2 * opts.dgram_item_len)
        + 2 * opts.dgram_item_len) opts.dgram_item_len with
    | error e => simp [h1, h2, bind, Except.bind] at h
    | ok b =>
      simp only [h1, h2, bind, Except.bind, pure, Except.pure, Except.ok.injEq,
        Prod.mk.injEq] at h
      rw [h.1, h.2]
      exact ⟨rfl, rfl⟩

theorem peek_split {buf : List Nat} {off : Nat} (a b : List Nat)
    (h : peek buf off (a.length + b.length) = .ok (a ++ b)) :
    peek buf off a.length = .ok a ∧ peek buf (off + a.length) b.length = .ok b := by
  obtain ⟨hle, heq⟩ := peek_eq_ok h
  have hget : ∀ j, j < a.length + b.length → buf[off + j]? = (a ++ b)[j]? := by
    intro j hj
    have := congrArg (fun l => l[j]?) heq
    simp only [getElem?_slice, if_pos hj] at this
    exact this.symm
  constructor
  · apply peek_of_getElem? a (by omega)
    intro j hj
    rw [hget j (by omega), List.getElem?_append_left hj]
  · apply peek_of_getElem? b (by omega)
    intro j hj
    rw [Nat.add_assoc, hget (a.length + j) (by omega), List.getElem?_append_right (by omega)]
    congr 1; omega

theorem dgram_crc_lt (data : List Nat) : dgram_crc data < 4294967296 := by
  unfold dgram_crc not32
  omega

/-- One iteration of the DPE loop of `ncm_unwrap_ntb` on a well-formed entry of
an NTB16. -/
theorem unwrap_loop_step (opts : ndp_parser_opts) (is_crc : Bool) (skb : List Nat)
    (clone_ok : Nat → Bool) (fuel tmp index dg_len ndp_len cnt : Nat)
    (list : List (List Nat)) (index2 dg_len2 : Nat) (hitem : opts.dgram_item_len = 1)
    (hlen : 14 + (if is_crc = true then 4 else 0) ≤ dg_len)
    (hcrc : is_crc = true →
      ∃ payload, get_unaligned_le32 skb (index + dg_len - 4) = .ok (dgram_crc payload)
        ∧ peek skb index (dg_len - 4) = .ok payload)
    (hr1 : get_ncm skb tmp 1 = .ok index2) (hr2 : get_ncm skb (tmp + 2) 1 = .ok dg_len2)
    (hclone : clone_ok cnt = true) (hidx : index ≤ skb.length) :
    unwrap_loop opts is_crc skb clone_ok (fuel + 1) tmp index dg_len ndp_len cnt list
      = if index2 = 0 ∨ dg_len2 = 0 then
          .ok (0, list ++ [(skb.drop index).take (dg_len - (if is_crc = true then 4 else 0))])
        else if ndp_len - 4 > 4 then
          unwrap_loop opts is_crc skb clone_ok fuel (tmp + 4) index2 dg_len2 (ndp_len - 4)
            (cnt + 1)
            (list ++ [(skb.drop index).take (dg_len - (if is_crc = true then 4 else 0))])
        else
          .ok (0, list ++ [(skb.drop index).take (dg_len - (if is_crc = true then 4 else 0))]) := by
  have hidx' : ¬ index > skb.length := by omega
  cases is_crc with
  | false =>
    simp only [Bool.false_eq_true, ite_false, Nat.add_zero] at hlen ⊢
    rw [unwrap_loop]
    simp only [Bool.false_eq_true, ite_false, Nat.add_zero, hitem, Nat.mul_one,
      if_neg (show ¬ dg_len < 14 by omega), pure, Except.pure, bind, Except.bind, hr1, hr2,
      hclone, and_false, hidx', Nat.sub_zero, decide_eq_true_eq, decide_eq_false_iff_not]
    by_cases hl : index2 = 0 ∨ dg_len2 = 0
    · simp [hl]
    · simp [hl]
  | true =>
    simp only [ite_true] at hlen ⊢
    obtain ⟨payload, hc1, hc2⟩ := hcrc rfl
    rw [unwrap_loop]
    simp only [ite_true, hitem, Nat.mul_one, if_neg (show ¬ dg_len < 14 + 4 by omega), pure,
      Except.pure, bind, Except.bind, hc1, hc2, decide_True, Bool.true_eq_false, hr1, hr2,
      hclone, and_false, hidx', decide_eq_true_eq, decide_eq_false_iff_not]
    by_cases hl : index2 = 0 ∨ dg_len2 = 0
    · simp [hl]
    · simp [hl]

/-- The DPE loop of `ncm_unwrap_ntb`, entered at the `k`-th DPE of a packaged
NTB16 with enough fuel, queues the remaining datagrams and returns 0. -/
theorem unwrap_loop_ntb_of (sz : cdc_sizes) {s : f_ncm} (hp : s.parser_opts = .ndp16)
    (h9 : 9 ≤ sz.nth16) (hndp : sz.ndp16 = 8) (mem : Nat → Nat) (ds : List (List Nat))
    (hlen : (ntb_of sz s (mem, ds)).length < 65536) (clone_ok : Nat → Bool)
    (hclone : ∀ k, clone_ok k = true) (hgood : ∀ d ∈ ds, dgram_ok s.is_crc d)
    (list : List (List Nat)) :
    ∀ (fuel k : Nat) (hk : k < ds.length), ds.length - k ≤ fuel →
      unwrap_loop (s.opts sz) s.is_crc (ntb_of sz s (mem, ds)) clone_ok fuel
          (ndp_offset sz s mem ds + 8 + 4 * (k + 1)) (dgram_index sz s mem ds k) ds[k].length
          (4 * (ds.length + 1 - k)) k (list ++ (ds.take k).map (strip_crc s.is_crc))
        = .ok (0, list ++ ds.map (strip_crc s.is_crc)) := by
  have h6 : 6 ≤ sz.ndp16 := by omega
  have hitem := item_ndp16 sz hp
  have hnds := ndp_size_ndp16 sz hp
  obtain ⟨hNI, -, hsmall⟩ := ntb_of_small sz hp mem ds hlen
  have hl := length_ntb_of sz hp mem ds
  intro fuel
  induction fuel with
  | zero => intro k hk hf; omega
  | succ fuel ih =>
    intro k hk hf
    obtain ⟨hg1, hg2⟩ := hgood ds[k] (List.getElem_mem hk)
    have hpk := ntb_of_dgram sz hp h9 mem ds k hk
    obtain ⟨hin, heq⟩ := peek_eq_ok hpk
    -- the slice that is queued
    have hslice : ((ntb_of sz s (mem, ds)).drop (dgram_index sz s mem ds k)).take
        (ds[k].length - (if s.is_crc = true then 4 else 0)) = strip_crc s.is_crc ds[k] := by
      unfold strip_crc
      have h1 : ((ntb_of sz s (mem, ds)).drop (dgram_index sz s mem ds k)).take
          (ds[k].length - (if s.is_crc = true then 4 else 0))
          = (((ntb_of sz s (mem, ds)).drop (dgram_index sz s mem ds k)).take ds[k].length).take
            (ds[k].length - (if s.is_crc = true then 4 else 0)) := by
        rw [List.take_take, Nat.min_eq_left (Nat.sub_le _ _)]
      rw [h1, ← heq]
    -- the CRC check
    have hcrc : s.is_crc = true →
        ∃ payload, get_unaligned_le32 (ntb_of sz s (mem, ds))
            (dgram_index sz s mem ds k + ds[k].length - 4) = .ok (dgram_crc payload)
          ∧ peek (ntb_of sz s (mem, ds)) (dgram_index sz s mem ds k) (ds[k].length - 4)
            = .ok payload := by
      intro hc
      rw [hc] at hg1
      simp only [ite_true] at hg1
      have hsplit : ds[k] = ds[k].take (ds[k].length - 4) ++ ds[k].drop (ds[k].length - 4) :=
        (List.take_append_drop _ _).symm
      have hla : (ds[k].take (ds[k].length - 4)).length = ds[k].length - 4 := by
        rw [List.length_take]; omega
      have hlb : (ds[k].drop (ds[k].length - 4)).length = 4 := by
        rw [List.length_drop]; omega
      have hpk' : peek (ntb_of sz s (mem, ds)) (dgram_index sz s mem ds k)
          ((ds[k].take (ds[k].length - 4)).length + (ds[k].drop (ds[k].length - 4)).length)
          = .ok (ds[k].take (ds[k].length - 4) ++ ds[k].drop (ds[k].length - 4)) := by
        rw [hla, hlb, ← hsplit, show ds[k].length - 4 + 4 = ds[k].length by omega]
        exact hpk
      obtain ⟨p1, p2⟩ := peek_split _ _ hpk'
      rw [hla] at p1 p2
      rw [hlb] at p2
      refine ⟨ds[k].take (ds[k].length - 4), ?_, p1⟩
      rw [show dgram_index sz s mem ds k + ds[k].length - 4
        = dgram_index sz s mem ds k + (ds[k].length - 4) by omega]
      simp only [get_unaligned_le32, p2, Except.map]
      rw [hg2 hc]
    by_cases hlast : k + 1 < ds.length
    · -- another datagram follows
      obtain ⟨r1, r2⟩ := dpe_entry_reads _ _ _ _ _ _ (ntb_of_dpe_entry sz hp h6 mem ds (k + 1) hlast)
      rw [hitem, hnds, hndp] at r1 r2
      obtain ⟨s1, s2⟩ := hsmall (k + 1) hlast
      rw [Nat.mod_eq_of_lt s1] at r1
      rw [Nat.mod_eq_of_lt s2] at r2
      have e1 : ndp_offset sz s mem ds + 8 + (k + 1) * (2 * 2 * 1)
          = ndp_offset sz s mem ds + 8 + 4 * (k + 1) := by omega
      have e2 : ndp_offset sz s mem ds + 8 + (k + 1) * (2 * 2 * 1) + 2 * 1
          = ndp_offset sz s mem ds + 8 + 4 * (k + 1) + 2 := by omega
      rw [e1] at r1
      rw [e2] at r2
      have hi2 := dgram_index_ge sz hp mem ds (k + 1)
      have ha : 12 ≤ ALIGN sz.nth16 4 := by unfold ALIGN; omega
      obtain ⟨hg1', -⟩ := hgood ds[k + 1] (List.getElem_mem hlast)
      rw [unwrap_loop_step (s.opts sz) s.is_crc _ clone_ok fuel _ _ _ _ k _
        (dgram_index sz s mem ds (k + 1)) ds[k + 1].length hitem hg1 hcrc r1 r2 (hclone k)
        (by omega),
        if_neg (by omega), if_pos (by omega), hslice]
      have := ih (k + 1) hlast (by omega)
      rw [show ndp_offset sz s mem ds + 8 + 4 * (k + 1 + 1)
          = ndp_offset sz s mem ds + 8 + 4 * (k + 1) + 4 by omega,
        show 4 * (ds.length + 1 - (k + 1)) = 4 * (ds.length + 1 - k) - 4 by omega,
        List.take_succ, List.getElem?_eq_getElem hk, List.map_append, ← List.append_assoc] at this
      exact this
    · -- the terminator follows
      have hkn : k + 1 = ds.length := by omega
      obtain ⟨r1, r2⟩ := dpe_entry_reads _ _ _ _ _ _ (ntb_of_dpe_entry_last sz hp mem ds)
      rw [hitem, hnds, hndp, ← hkn] at r1 r2
      have e1 : ndp_offset sz s mem ds + 8 + (k + 1) * (2 * 2 * 1)
          = ndp_offset sz s mem ds + 8 + 4 * (k + 1) := by omega
      have e2 : ndp_offset sz s mem ds + 8 + (k + 1) * (2 * 2 * 1) + 2 * 1
          = ndp_offset sz s mem ds + 8 + 4 * (k + 1) + 2 := by omega
      rw [e1] at r1
      rw [e2] at r2
      rw [unwrap_loop_step (s.opts sz) s.is_crc _ clone_ok fuel _ _ _ _ k _ 0 0 hitem hg1 hcrc
        r1 r2 (hclone k)
        (by omega),
        if_pos (Or.inl rfl), hslice]
      have ht : ds.take (k + 1) = ds := by rw [hkn, List.take_length]
      have : (ds.take k).map (strip_crc s.is_crc) ++ [strip_crc s.is_crc ds[k]]
          = ds.map (strip_crc s.is_crc) := by
        conv_rhs => rw [← ht, List.take_succ, List.getElem?_eq_getElem hk]
        rw [List.map_append]; rfl
      rw [List.append_assoc, this]

/-- The parser `ncm_unwrap_ntb` consults the session only through its parser
table and its CRC mode. -/
theorem ncm_unwrap_ntb_congr (sz : cdc_sizes) {u s : f_ncm} (h : tx_settings u = tx_settings s)
    (clone_ok : Nat → Bool) (skb : List Nat) (list : List (List Nat)) :
    ncm_unwrap_ntb sz u clone_ok skb list = ncm_unwrap_ntb sz s clone_ok skb list := by
  have ho := opts_congr sz h
  have hc := is_crc_of_settings h
  unfold ncm_unwrap_ntb
  rw [ho, hc]

/-- The parser `ncm_unwrap_ntb` on a packaged NTB16 of at most `NTB_OUT_SIZE`
bytes queues its datagrams, each without its CRC, and returns 0. -/
theorem unwrap_ntb_of (sz : cdc_sizes) {s : f_ncm} (hp : s.parser_opts = .ndp16)
    (h9 : 9 ≤ sz.nth16) (hnth : sz.nth16 < 65536) (hndp : sz.ndp16 = 8)
    (hsign : s.ndp_sign = s.ndp16_sign) (hs32 : s.ndp16_sign < 4294967296)
    (mem : Nat → Nat) (ds : List (List Nat)) (hne : ds ≠ [])
    (hlen : (ntb_of sz s (mem, ds)).length ≤ NTB_OUT_SIZE) (clone_ok : Nat → Bool)
    (hclone : ∀ k, clone_ok k = true) (hgood : ∀ d ∈ ds, dgram_ok s.is_crc d)
    (list : List (List Nat)) :
    ncm_unwrap_ntb sz s clone_ok (ntb_of sz s (mem, ds)) list
      = .ok (0, list ++ ds.map (strip_crc s.is_crc)) := by
  have h6 : 6 ≤ sz.ndp16 := by omega
  have hlen' : (ntb_of sz s (mem, ds)).length < 65536 := by
    have : NTB_OUT_SIZE = 16384 := rfl
    omega
  have hpos : 0 < ds.length := List.length_pos.mpr hne
  obtain ⟨hNI, hwl, hsmall⟩ := ntb_of_small sz hp mem ds hlen'
  obtain ⟨hd1, hd2⟩ := ntb_of_nth_head sz hp h9 mem ds
  obtain ⟨hb1, hb2⟩ := ntb_of_nth_fields sz hp h9 mem ds
  have hsg := ntb_of_ndp_sign sz hp h6 mem ds
  have hw := ntb_of_wLength sz hp h6 mem ds
  obtain ⟨r1, r2⟩ := dpe_entry_reads _ _ _ _ _ _ (ntb_of_dpe_entry sz hp h6 mem ds 0 hpos)
  have hloop := unwrap_loop_ntb_of sz hp h9 hndp mem ds hlen' clone_ok hclone hgood list
    (4 * (ds.length + 1) + 1) 0 hpos (by omega)
  have hmod := ndp_offset_mod sz s mem ds
  simp only [nth_block_length, nth_ndp_index, ndp_wLength] at hb1 hb2 hw
  obtain ⟨s1, s2⟩ := hsmall 0 hpos
  rw [Nat.mod_eq_of_lt s1] at r1
  rw [Nat.mod_eq_of_lt s2] at r2
  rw [Nat.mod_eq_of_lt hlen'] at hb1
  rw [Nat.mod_eq_of_lt hNI] at hb2
  rw [Nat.mod_eq_of_lt hwl] at hw
  rw [Nat.mod_eq_of_lt hnth] at hd2
  rw [hsign, Nat.mod_eq_of_lt hs32] at hsg
  have hns : (s.opts sz).nth_sign % 4294967296 = (s.opts sz).nth_sign := by
    rw [opts_ndp16 sz hp]; rfl
  rw [hns] at hd1
  have o1 : (s.opts sz).nth_size = sz.nth16 := nth_size_ndp16 sz hp
  have o2 : (s.opts sz).ndp_size = sz.ndp16 := ndp_size_ndp16 sz hp
  have o3 : (s.opts sz).dgram_item_len = 1 := item_ndp16 sz hp
  have o4 : (s.opts sz).ndp_sign = s.ndp16_sign := by rw [opts_ndp16 sz hp]
  have o5 : (s.opts sz).ndplen_align = 4 := by rw [opts_ndp16 sz hp]; rfl
  have o6 : (s.opts sz).reserved1 = 0 := by rw [opts_ndp16 sz hp]; rfl
  have o7 : (s.opts sz).reserved2 = 0 := by rw [opts_ndp16 sz hp]; rfl
  have o8 : (s.opts sz).next_fp_index = 1 := by rw [opts_ndp16 sz hp]; rfl
  rw [o2, o3, hndp] at r1 r2
  simp only [Nat.zero_mul, Nat.add_zero, Nat.mul_one] at r1 r2
  simp only [List.take_zero, List.map_nil, List.append_nil, Nat.sub_zero, Nat.zero_add,
    Nat.mul_one] at hloop
  unfold ncm_unwrap_ntb
  simp only [hd1, hd2, hb1, hb2, hsg, hw, bind, Except.bind, o1, o2, o3, o4, o5, o6, o7, o8,
    ne_eq, not_true_eq_false, ite_false, Nat.mul_zero, Nat.add_zero, Nat.mul_one]
  rw [if_neg (by have : ntb_parameters.dwNtbOutMaxSize = NTB_OUT_SIZE := rfl
                 omega),
    if_neg (by omega), if_neg (by omega)]
  simp only [r1, r2]
  rw [show sz.ndp16 + (ds.length + 1) * 4 - sz.ndp16 = 4 * (ds.length + 1) by omega,
    show ndp_offset sz s mem ds + 6 + 2 + 2 + 2 = ndp_offset sz s mem ds + 8 + 4 by omega]
  exact hloop

/-- The result of `ncm_ep0out_complete` when the request buffer holds four bytes. -/
theorem ncm_ep0out_complete_eq (s : f_ncm) (req : usb_request) (h4 : 4 ≤ req.buf.length) :
    ncm_ep0out_complete s req
        = .ok (if req.status = 0 ∧ req.actual = req.length
                  ∧ 2048 ≤ le_value (req.buf.take 4) ∧ le_value (req.buf.take 4) ≤ 4096
               then { ncm := { s with fixed_in_len := le_value (req.buf.take 4) },
                      halted := false }
               else { ncm := s, halted := true }) := by
  have hb : 0 + 4 ≤ req.buf.length := by omega
  unfold ncm_ep0out_complete
  by_cases h1 : req.status ≠ 0 ∨ req.actual ≠ req.length
  · rw [if_pos h1, if_neg]
    intro h
    rcases h1 with h1 | h1
    · exact h1 h.1
    · exact h1 h.2.1
  · have h1' : req.status = 0 ∧ req.actual = req.length := by
      constructor
      · by_contra hc; exact h1 (Or.inl hc)
      · by_contra hc; exact h1 (Or.inr hc)
    rw [if_neg h1]
    simp only [get_unaligned_le32_of_le hb, bind, Except.bind, List.drop_zero]
    have hmin : USB_CDC_NCM_NTB_MIN_IN_SIZE = 2048 := rfl
    have hmax : ntb_parameters.dwNtbInMaxSize = 4096 := rfl
    rw [hmin, hmax]
    by_cases h2 : le_value (req.buf.take 4) < 2048 ∨ le_value (req.buf.take 4) > 4096
    · rw [if_pos h2, if_neg]
      intro h
      omega
    · rw [if_neg h2, if_pos]
      exact ⟨h1'.1, h1'.2, by omega, by omega⟩

theorem set_input_size_eq (s : f_ncm) (hid : s.ctrl_id < 65536) (N : Nat) (rest : List Nat)
    (q : Int) (hN : 2048 ≤ N ∧ N ≤ 4096) :
    set_input_size s N rest q
      = .ok { ncm := { s with fixed_in_len := N }, halted := false } := by
  have hs : (ncm_setup s (class_request s .SET_NTB_INPUT_SIZE 0 4) q).ncm = s := by
    simp [ncm_setup, class_request, Nat.mod_eq_of_lt hid, setup_respond]
  have hv : le_value ((put_unaligned_le32 N ++ rest).take 4) = N := by
    have : (put_unaligned_le32 N ++ rest).take 4 = put_unaligned_le32 N := by
      simp [put_unaligned_le32]
    rw [this, le_value_le32]
    omega
  unfold set_input_size
  rw [hs, ncm_ep0out_complete_eq _ _ (by simp [put_unaligned_le32])]
  rw [hv, if_pos ⟨rfl, rfl, hN.1, hN.2⟩]

theorem get_reply_format (s : f_ncm) (hid : s.ctrl_id < 65536) (L : Nat) (q : Int)
    (hL : 2 ≤ L ∧ L < 65536) :
    get_reply s .GET_NTB_FORMAT L q
      = some (put_unaligned_le16 (if s.parser_opts = .ndp16 then 0 else 1)) := by
  simp only [get_reply, class_request, ncm_setup, Nat.mod_eq_of_lt hid, Nat.mod_eq_of_lt hL.2,
    Nat.zero_mod, setup_respond]
  rw [if_neg (by omega)]

theorem get_reply_crc (s : f_ncm) (hid : s.ctrl_id < 65536) (L : Nat) (q : Int)
    (hL : 2 ≤ L ∧ L < 65536) :
    get_reply s .GET_CRC_MODE L q
      = some (put_unaligned_le16 (if s.is_crc = true then 1 else 0)) := by
  simp only [get_reply, class_request, ncm_setup, Nat.mod_eq_of_lt hid, Nat.mod_eq_of_lt hL.2,
    Nat.zero_mod, setup_respond]
  rw [if_neg (by omega)]

theorem get_reply_input_size (s : f_ncm) (hid : s.ctrl_id < 65536) (L : Nat) (q : Int)
    (hL : 4 ≤ L ∧ L < 65536) :
    get_reply s .GET_NTB_INPUT_SIZE L q = some (put_unaligned_le32 s.fixed_in_len) := by
  simp only [get_reply, class_request, ncm_setup, Nat.mod_eq_of_lt hid, Nat.mod_eq_of_lt hL.2,
    Nat.zero_mod, setup_respond]
  rw [if_neg (by omega)]

/-- What SET_NTB_FORMAT(v) with v in {0, 1} changes: the parser only. -/
theorem after_set_format (s : f_ncm) (hid : s.ctrl_id < 65536) (v : Nat) (q : Int)
    (hv : v = 0 ∨ v = 1) :
    after_set s .SET_NTB_FORMAT v q
      = { s with parser_opts := if v = 0 then .ndp16 else .ndp32 } := by
  rcases hv with rfl | rfl <;>
    simp [after_set, class_request, ncm_setup, Nat.mod_eq_of_lt hid, setup_respond]

/-- What SET_CRC_MODE(v) with v in {0, 1} leaves as it is: the interface number,
the parser and the NTB input size; the CRC mode is `v`. -/
theorem after_set_crc (s : f_ncm) (hid : s.ctrl_id < 65536) (v : Nat) (q : Int)
    (hv : v = 0 ∨ v = 1) :
    (after_set s .SET_CRC_MODE v q).ctrl_id = s.ctrl_id
      ∧ (after_set s .SET_CRC_MODE v q).parser_opts = s.parser_opts
      ∧ (after_set s .SET_CRC_MODE v q).fixed_in_len = s.fixed_in_len
      ∧ (after_set s .SET_CRC_MODE v q).is_crc = decide (v = 1) := by
  rcases hv with rfl | rfl <;>
    cases hp : s.parser_opts <;>
    simp [after_set, class_request, ncm_setup, Nat.mod_eq_of_lt hid, setup_respond, hp]

/-! ## The shape of every result of `ncm_unwrap_ntb` -/

theorem peek_error {buf : List Nat} {off n : Nat} {e : Fault} (h : peek buf off n = .error e) :
    e = .out_of_bounds := by
  unfold peek at h
  split at h
  · exact Except.noConfusion h
  · injection h with h; exact h.symm

theorem get_unaligned_le16_error {buf : List Nat} {off : Nat} {e : Fault}
    (h : get_unaligned_le16 buf off = .error e) : e = .out_of_bounds := by
  unfold get_unaligned_le16 at h
  cases hp : peek buf off 2 with
  | error e' =>
    rw [hp] at h
    simp only [Except.map] at h
    injection h with h
    rw [← h]; exact peek_error hp
  | ok v => rw [hp] at h; exact Except.noConfusion h

theorem get_unaligned_le32_error {buf : List Nat} {off : Nat} {e : Fault}
    (h : get_unaligned_le32 buf off = .error e) : e = .out_of_bounds := by
  unfold get_unaligned_le32 at h
  cases hp : peek buf off 4 with
  | error e' =>
    rw [hp] at h
    simp only [Except.map] at h
    injection h with h
    rw [← h]; exact peek_error hp
  | ok v => rw [hp] at h; exact Except.noConfusion h

theorem get_ncm_error {buf : List Nat} {off size : Nat} {e : Fault}
    (h : get_ncm buf off size = .error e) : e = .out_of_bounds ∨ e = .BUG := by
  unfold get_ncm at h
  split at h
  · exact Or.inl (get_unaligned_le16_error h)
  · exact Or.inl (get_unaligned_le32_error h)
  · injection h with h; exact Or.inr h.symm

theorem get_ncm_bug {buf : List Nat} {off size : Nat} (h : get_ncm buf off size = .error .BUG) :
    ¬ (size = 1 ∨ size = 2) := by
  intro hs
  rcases hs with rfl | rfl
  · exact Fault.noConfusion (get_unaligned_le16_error h)
  · exact Fault.noConfusion (get_unaligned_le32_error h)

/-- A successful `get_ncm` has read a field of one or two 16-bit units that lies
in the buffer. -/
theorem get_ncm_ok {buf : List Nat} {off size v : Nat} (h : get_ncm buf off size = .ok v) :
    (size = 1 ∨ size = 2) ∧ off + 2 * size ≤ buf.length := by
  unfold get_ncm at h
  split at h
  · refine ⟨Or.inl rfl, ?_⟩
    unfold get_unaligned_le16 peek at h
    split at h
    · omega
    · exact Except.noConfusion h
  · refine ⟨Or.inr rfl, ?_⟩
    unfold get_unaligned_le32 peek at h
    split at h
    · omega
    · exact Except.noConfusion h
  · exact Except.noConfusion h

/-- One iteration of the DPE loop of `ncm_unwrap_ntb`, by cases: a read leaves
the buffer or has a width that is not 1 or 2; the iteration ends at `err:`; it
queues the datagram and the loop ends; or it queues the datagram and the loop
goes on with the next DPE. -/
theorem unwrap_loop_cases (opts : ndp_parser_opts) (is_crc : Bool) (skb : List Nat)
    (clone_ok : Nat → Bool) (fuel tmp index dg_len ndp_len cnt : Nat)
    (list : List (List Nat)) (x : Except Fault (Int × List (List Nat)))
    (hx : unwrap_loop opts is_crc skb clone_ok (fuel + 1) tmp index dg_len ndp_len cnt list = x) :
    x = .error .out_of_bounds
      ∨ (x = .error .BUG ∧ ¬ (opts.dgram_item_len = 1 ∨ opts.dgram_item_len = 2))
      ∨ x = .ok (-EINVAL, [])
      ∨ x = .ok (-EOVERFLOW, [])
      ∨ (14 + (if is_crc = true then 4 else 0) ≤ dg_len ∧ index ≤ skb.length
          ∧ ∃ i2 l2, get_ncm skb tmp opts.dgram_item_len = .ok i2
            ∧ get_ncm skb (tmp + 2 * opts.dgram_item_len) opts.dgram_item_len = .ok l2
            ∧ ((((i2 = 0 ∨ l2 = 0)
                    ∨ ¬ ndp_len - 2 * (opts.dgram_item_len * 2) > 2 * (opts.dgram_item_len * 2))
                  ∧ x = .ok (0, list ++ [dpe_window is_crc skb (index, dg_len)]))
                ∨ (i2 ≠ 0 ∧ l2 ≠ 0
                  ∧ ndp_len - 2 * (opts.dgram_item_len * 2) > 2 * (opts.dgram_item_len * 2)
                  ∧ x = unwrap_loop opts is_crc skb clone_ok fuel
                      (tmp + 2 * opts.dgram_item_len + 2 * opts.dgram_item_len) i2 l2
                      (ndp_len - 2 * (opts.dgram_item_len * 2)) (cnt + 1)
                      (list ++ [dpe_window is_crc skb (index, dg_len)])))) := by
  rw [unwrap_loop] at hx
  simp only [bind, pure, Except.pure, unwrap_err] at hx
  by_cases hlen : dg_len < 14 + (if is_crc = true then 4 else 0)
  · rw [if_pos hlen] at hx
    exact Or.inr (Or.inr (Or.inl hx.symm))
  rw [if_neg hlen] at hx
  -- the CRC check
  have hcrc : x = .error .out_of_bounds ∨ x = .ok (-EINVAL, [])
      ∨ Except.bind (get_ncm skb tmp opts.dgram_item_len) (fun i2 =>
          Except.bind (get_ncm skb (tmp + 2 * opts.dgram_item_len) opts.dgram_item_len)
            (fun l2 =>
              if decide (i2 = 0 ∨ l2 = 0) = false ∧ clone_ok cnt = false then .ok (-EINVAL, [])
              else if index > skb.length then .ok (-EOVERFLOW, [])
              else if decide (i2 = 0 ∨ l2 = 0) = true then
                .ok (0, list ++ [(skb.drop index).take (dg_len - (if is_crc = true then 4 else 0))])
              else if ndp_len - 2 * (opts.dgram_item_len * 2) > 2 * (opts.dgram_item_len * 2) then
                unwrap_loop opts is_crc skb clone_ok fuel
                  (tmp + 2 * opts.dgram_item_len + 2 * opts.dgram_item_len) i2 l2
                  (ndp_len - 2 * (opts.dgram_item_len * 2)) (cnt + 1)
                  (list ++ [(skb.drop index).take (dg_len - (if is_crc = true then 4 else 0))])
              else
                .ok (0, list ++ [(skb.drop index).take (dg_len - (if is_crc = true then 4 else 0))])))
        = x := by
    cases is_crc with
    | false =>
      simp only [Bool.false_eq_true, ite_false, Except.bind, Bool.true_eq_false] at hx ⊢
      exact Or.inr (Or.inr hx)
    | true =>
      simp only [ite_true] at hx ⊢
      cases h1 : get_unaligned_le32 skb (index + dg_len - 4) with
      | error e =>
        rw [h1] at hx
        simp only [Except.bind] at hx
        rw [get_unaligned_le32_error h1] at hx
        exact Or.inl hx.symm
      | ok crc =>
        rw [h1] at hx
        cases h2 : peek skb index (dg_len - 4) with
        | error e =>
          rw [h2] at hx
          simp only [Except.bind] at hx
          rw [peek_error h2] at hx
          exact Or.inl hx.symm
        | ok payload =>
          rw [h2] at hx
          by_cases hc : crc = dgram_crc payload
          · simp only [hc, decide_True, Bool.true_eq_false, ite_false, Except.bind] at hx ⊢
            exact Or.inr (Or.inr hx)
          · simp only [hc, decide_False, ite_true, Except.bind] at hx
            exact Or.inr (Or.inl hx.symm)
  rcases hcrc with h | h | h
  · exact Or.inl h
  · exact Or.inr (Or.inr (Or.inl h))
  clear hx
  cases hr1 : get_ncm skb tmp opts.dgram_item_len with
  | error e =>
    rw [hr1] at h
    simp only [Except.bind] at h
    rcases get_ncm_error hr1 with he | he
    · rw [he] at h; exact Or.inl h.symm
    · rw [he] at h hr1; exact Or.inr (Or.inl ⟨h.symm, get_ncm_bug hr1⟩)
  | ok i2 =>
    rw [hr1] at h
    simp only [Except.bind] at h
    cases hr2 : get_ncm skb (tmp + 2 * opts.dgram_item_len) opts.dgram_item_len with
    | error e =>
      rw [hr2] at h
      simp only [Except.bind] at h
      rcases get_ncm_error hr2 with he | he
      · rw [he] at h; exact Or.inl h.symm
      · rw [he] at h hr2; exact Or.inr (Or.inl ⟨h.symm, get_ncm_bug hr2⟩)
    | ok l2 =>
      rw [hr2] at h
      simp only [Except.bind] at h
      by_cases hcl : decide (i2 = 0 ∨ l2 = 0) = false ∧ clone_ok cnt = false
      · rw [if_pos hcl] at h
        exact Or.inr (Or.inr (Or.inl h.symm))
      rw [if_neg hcl] at h
      by_cases hidx : index > skb.length
      · rw [if_pos hidx] at h
        exact Or.inr (Or.inr (Or.inr (Or.inl h.symm)))
      rw [if_neg hidx] at h
      refine Or.inr (Or.inr (Or.inr (Or.inr ⟨by omega, by omega, i2, l2, rfl, rfl, ?_⟩)))
      by_cases hlast : i2 = 0 ∨ l2 = 0
      · rw [if_pos (by simpa using hlast)] at h
        exact Or.inl ⟨Or.inl hlast, h.symm⟩
      · rw [if_neg (by simpa using hlast)] at h
        have hnz : i2 ≠ 0 ∧ l2 ≠ 0 := by
          constructor
          · intro h0; exact hlast (Or.inl h0)
          · intro h0; exact hlast (Or.inr h0)
        by_cases hb : ndp_len - 2 * (opts.dgram_item_len * 2) > 2 * (opts.dgram_item_len * 2)
        · rw [if_pos hb] at h
          exact Or.inr ⟨hnz.1, hnz.2, hb, h.symm⟩
        · rw [if_neg hb] at h
          exact Or.inl ⟨Or.inr hb, h.symm⟩

theorem get_unaligned_le16_fail {buf : List Nat} {off : Nat} {e : Fault}
    (h : get_unaligned_le16 buf off = .error e) : buf.length < off + 2 := by
  unfold get_unaligned_le16 peek at h
  split at h
  · exact Except.noConfusion h
  · omega

theorem get_unaligned_le32_fail {buf : List Nat} {off : Nat} {e : Fault}
    (h : get_unaligned_le32 buf off = .error e) : buf.length < off + 4 := by
  unfold get_unaligned_le32 peek at h
  split at h
  · exact Except.noConfusion h
  · omega

theorem get_unaligned_le16_ok {buf : List Nat} {off v : Nat}
    (h : get_unaligned_le16 buf off = .ok v) : off + 2 ≤ buf.length := by
  unfold get_unaligned_le16 peek at h
  split at h
  · assumption
  · exact Except.noConfusion h

theorem get_ncm_fail {buf : List Nat} {off size : Nat} {e : Fault} (hs : size = 1 ∨ size = 2)
    (h : get_ncm buf off size = .error e) : e = .out_of_bounds ∧ buf.length < off + 2 * size := by
  rcases hs with rfl | rfl
  · exact ⟨get_unaligned_le16_error h, get_unaligned_le16_fail h⟩
  · exact ⟨get_unaligned_le32_error h, get_unaligned_le32_fail h⟩

/-- The field widths of the two parser tables are 1 or 2. -/
theorem opts_widths (sz : cdc_sizes) (s : f_ncm) :
    ((s.opts sz).block_length = 1 ∨ (s.opts sz).block_length = 2)
      ∧ ((s.opts sz).fp_index = 1 ∨ (s.opts sz).fp_index = 2)
      ∧ ((s.opts sz).dgram_item_len = 1 ∨ (s.opts sz).dgram_item_len = 2) := by
  cases hp : s.parser_opts <;> simp [f_ncm.opts, hp, INIT_NDP16_OPTS, INIT_NDP32_OPTS]

theorem rx_dpe_zero (opts : ndp_parser_opts) (skb : List Nat) (ndp : Nat) (e : Nat × Nat)
    (h : rx_dpe opts skb ndp 0 = .ok e) :
    get_ncm skb (ndp + 6 + 2 * opts.reserved1 + 2 * opts.next_fp_index + 2 * opts.reserved2)
        opts.dgram_item_len = .ok e.1
      ∧ get_ncm skb (ndp + 6 + 2 * opts.reserved1 + 2 * opts.next_fp_index + 2 * opts.reserved2
          + 2 * opts.dgram_item_len) opts.dgram_item_len = .ok e.2 := by
  unfold rx_dpe at h
  simp only [Nat.zero_mul, Nat.add_zero, bind, Except.bind, pure, Except.pure] at h
  split at h
  · exact Except.noConfusion h
  · rename_i i hi
    split at h
    · exact Except.noConfusion h
    · rename_i l hl
      injection h with h
      rw [← h]
      exact ⟨hi, hl⟩

theorem rx_dpe_of_reads (opts : ndp_parser_opts) (skb : List Nat) (ndp k i l : Nat)
    (h1 : get_ncm skb (ndp + 6 + 2 * opts.reserved1 + 2 * opts.next_fp_index + 2 * opts.reserved2
        + k * (2 * (opts.dgram_item_len * 2))) opts.dgram_item_len = .ok i)
    (h2 : get_ncm skb (ndp + 6 + 2 * opts.reserved1 + 2 * opts.next_fp_index + 2 * opts.reserved2
        + k * (2 * (opts.dgram_item_len * 2)) + 2 * opts.dgram_item_len) opts.dgram_item_len
      = .ok l) :
    rx_dpe opts skb ndp k = .ok (i, l) := by
  unfold rx_dpe
  simp only [bind, Except.bind, pure, Except.pure, h1, h2]

/-- The header part of `ncm_unwrap_ntb`, by cases: a read leaves the buffer; a
check sends it to `err:` with `-EINVAL`; or the NTH and the NDP header pass and
the function is its DPE loop, entered with the first DPE. -/
theorem unwrap_cases (sz : cdc_sizes) (s : f_ncm) (clone_ok : Nat → Bool) (skb : List Nat)
    (list : List (List Nat)) (x : Except Fault (Int × List (List Nat)))
    (hx : ncm_unwrap_ntb sz s clone_ok skb list = x) :
    (x = .error .out_of_bounds
        ∧ ∀ ndp wl e, nth_ndp_index (s.opts sz) skb = .ok ndp → ndp_wLength skb ndp = .ok wl →
            rx_dpe (s.opts sz) skb ndp 0 = .ok e → False)
      ∨ x = .ok (-EINVAL, [])
      ∨ ∃ ndp wl i0 l0, nth_ndp_index (s.opts sz) skb = .ok ndp
          ∧ ndp_wLength skb ndp = .ok wl
          ∧ rx_dpe (s.opts sz) skb ndp 0 = .ok (i0, l0)
          ∧ (s.opts sz).ndp_size + 2 * 2 * ((s.opts sz).dgram_item_len * 2) ≤ wl
          ∧ (wl % (s.opts sz).ndplen_align = 0
            ∧ get_unaligned_le32 skb ndp = .ok (s.opts sz).ndp_sign
            ∧ ¬ (ndp % 4 ≠ 0 ∧ ndp < (s.opts sz).nth_size))
          ∧ x = unwrap_loop (s.opts sz) s.is_crc skb clone_ok (wl - (s.opts sz).ndp_size + 1)
              (ndp + 6 + 2 * (s.opts sz).reserved1 + 2 * (s.opts sz).next_fp_index
                + 2 * (s.opts sz).reserved2 + 2 * (s.opts sz).dgram_item_len
                + 2 * (s.opts sz).dgram_item_len)
              i0 l0 (wl - (s.opts sz).ndp_size) 0 list := by
  obtain ⟨wbl, wfp, wit⟩ := opts_widths sz s
  unfold ncm_unwrap_ntb at hx
  simp only [nth_ndp_index, ndp_wLength]
  generalize s.opts sz = opts at *
  simp only [bind, unwrap_err] at hx
  -- dwSignature
  cases h1 : get_unaligned_le32 skb 0 with
  | error e =>
    rw [h1] at hx
    simp only [Except.bind] at hx
    rw [get_unaligned_le32_error h1] at hx
    refine Or.inl ⟨hx.symm, ?_⟩
    intro ndp wl e hn _ _
    have := get_unaligned_le32_fail h1
    have := (get_ncm_ok hn).2
    omega
  | ok sig =>
  rw [h1] at hx
  simp only [Except.bind] at hx
  by_cases c1 : sig ≠ opts.nth_sign
  · rw [if_pos c1] at hx; exact Or.inr (Or.inl hx.symm)
  rw [if_neg c1] at hx
  -- wHeaderLength
  cases h2 : get_unaligned_le16 skb 4 with
  | error e =>
    rw [h2] at hx
    simp only [Except.bind] at hx
    rw [get_unaligned_le16_error h2] at hx
    refine Or.inl ⟨hx.symm, ?_⟩
    intro ndp wl e hn _ _
    have := get_unaligned_le16_fail h2
    have := (get_ncm_ok hn).2
    omega
  | ok hlen =>
  rw [h2] at hx
  simp only [Except.bind] at hx
  by_cases c2 : hlen ≠ opts.nth_size
  · rw [if_pos c2] at hx; exact Or.inr (Or.inl hx.symm)
  rw [if_neg c2] at hx
  -- (d)wBlockLength
  cases h3 : get_ncm skb 8 opts.block_length with
  | error e =>
    rw [h3] at hx
    simp only [Except.bind] at hx
    obtain ⟨he, hl⟩ := get_ncm_fail wbl h3
    rw [he] at hx
    refine Or.inl ⟨hx.symm, ?_⟩
    intro ndp wl e hn _ _
    have := (get_ncm_ok hn).2
    omega
  | ok blen =>
  rw [h3] at hx
  simp only [Except.bind] at hx
  by_cases c3 : blen > ntb_parameters.dwNtbOutMaxSize
  · rw [if_pos c3] at hx; exact Or.inr (Or.inl hx.symm)
  rw [if_neg c3] at hx
  -- (d)wNdpIndex
  cases h4 : get_ncm skb (8 + 2 * opts.block_length) opts.fp_index with
  | error e =>
    rw [h4] at hx
    simp only [Except.bind] at hx
    obtain ⟨he, hl⟩ := get_ncm_fail wfp h4
    rw [he] at hx
    refine Or.inl ⟨hx.symm, ?_⟩
    intro ndp wl e hn _ _
    exact Except.noConfusion hn
  | ok index =>
  rw [h4] at hx
  simp only [Except.bind] at hx
  by_cases c4 : index % 4 ≠ 0 ∧ index < opts.nth_size
  · rw [if_pos c4] at hx; exact Or.inr (Or.inl hx.symm)
  rw [if_neg c4] at hx
  -- the NDP signature
  cases h5 : get_unaligned_le32 skb index with
  | error e =>
    rw [h5] at hx
    simp only [Except.bind] at hx
    rw [get_unaligned_le32_error h5] at hx
    refine Or.inl ⟨hx.symm, ?_⟩
    intro ndp wl e hn hw _
    injection hn with hn
    subst hn
    have := get_unaligned_le32_fail h5
    have := get_unaligned_le16_ok hw
    omega
  | ok nsig =>
  rw [h5] at hx
  simp only [Except.bind] at hx
  by_cases c5 : nsig ≠ opts.ndp_sign
  · rw [if_pos c5] at hx; exact Or.inr (Or.inl hx.symm)
  rw [if_neg c5] at hx
  -- wLength
  cases h6 : get_unaligned_le16 skb (index + 4) with
  | error e =>
    rw [h6] at hx
    simp only [Except.bind] at hx
    rw [get_unaligned_le16_error h6] at hx
    refine Or.inl ⟨hx.symm, ?_⟩
    intro ndp wl e hn hw _
    injection hn with hn
    subst hn
    rw [h6] at hw
    exact Except.noConfusion hw
  | ok wl =>
  rw [h6] at hx
  simp only [Except.bind] at hx
  by_cases c6 : wl < opts.ndp_size + 2 * 2 * (opts.dgram_item_len * 2)
      ∨ wl % opts.ndplen_align ≠ 0
  · rw [if_pos c6] at hx; exact Or.inr (Or.inl hx.symm)
  rw [if_neg c6] at hx
  -- the first DPE
  cases h7 : get_ncm skb
      (index + 6 + 2 * opts.reserved1 + 2 * opts.next_fp_index + 2 * opts.reserved2)
      opts.dgram_item_len with
  | error e =>
    rw [h7] at hx
    simp only [Except.bind] at hx
    obtain ⟨he, hl⟩ := get_ncm_fail wit h7
    rw [he] at hx
    refine Or.inl ⟨hx.symm, ?_⟩
    intro ndp wl' e hn _ hd
    injection hn with hn
    subst hn
    rw [(rx_dpe_zero opts skb _ e hd).1] at h7
    exact Except.noConfusion h7
  | ok i0 =>
  rw [h7] at hx
  simp only [Except.bind] at hx
  cases h8 : get_ncm skb
      (index + 6 + 2 * opts.reserved1 + 2 * opts.next_fp_index + 2 * opts.reserved2
        + 2 * opts.dgram_item_len) opts.dgram_item_len with
  | error e =>
    rw [h8] at hx
    simp only [Except.bind] at hx
    obtain ⟨he, hl⟩ := get_ncm_fail wit h8
    rw [he] at hx
    refine Or.inl ⟨hx.symm, ?_⟩
    intro ndp wl' e hn _ hd
    injection hn with hn
    subst hn
    rw [(rx_dpe_zero opts skb _ e hd).2] at h8
    exact Except.noConfusion h8
  | ok l0 =>
  rw [h8] at hx
  simp only [Except.bind] at hx
  have c5' : nsig = opts.ndp_sign := by
    by_contra hc; exact c5 hc
  refine Or.inr (Or.inr ⟨index, wl, i0, l0, rfl, h6, ?_, by omega,
    ⟨by omega, by rw [h5, c5'], c4⟩, hx.symm⟩)
  apply rx_dpe_of_reads
  · simpa using h7
  · simpa using h8

/-- The DPE loop of `ncm_unwrap_ntb` with more fuel than `ndp_len` never runs
out of fuel: it ends in a read outside the buffer, at `err:` with the list
purged, or with 0 and at least one datagram appended to the list. -/
theorem unwrap_loop_result (opts : ndp_parser_opts) (is_crc : Bool) (skb : List Nat)
    (clone_ok : Nat → Bool)
    (hit : opts.dgram_item_len = 1 ∨ opts.dgram_item_len = 2) :
    ∀ (fuel tmp index dg_len ndp_len cnt : Nat) (list : List (List Nat))
      (x : Except Fault (Int × List (List Nat))),
      ndp_len < fuel →
      unwrap_loop opts is_crc skb clone_ok fuel tmp index dg_len ndp_len cnt list = x →
      x = .error .out_of_bounds ∨ x = .ok (-EINVAL, []) ∨ x = .ok (-EOVERFLOW, [])
        ∨ ∃ new, new ≠ [] ∧ x = .ok (0, list ++ new) := by
  intro fuel
  induction fuel with
  | zero => intro _ _ _ ndp_len _ _ _ h; omega
  | succ fuel ih =>
    intro tmp index dg_len ndp_len cnt list x hf hx
    rcases unwrap_loop_cases opts is_crc skb clone_ok fuel tmp index dg_len ndp_len cnt list x hx
      with h | h | h | h | ⟨-, -, i2, l2, -, -, h⟩
    · exact Or.inl h
    · exact absurd hit h.2
    · exact Or.inr (Or.inl h)
    · exact Or.inr (Or.inr (Or.inl h))
    · rcases h with ⟨-, h⟩ | ⟨-, -, hb, h⟩
      · exact Or.inr (Or.inr (Or.inr ⟨_, List.cons_ne_nil _ _, h⟩))
      · have hlt : ndp_len - 2 * (opts.dgram_item_len * 2) < fuel := by omega
        rcases ih _ _ _ _ _ _ x hlt h.symm with h' | h' | h' | ⟨new, -, h'⟩
        · exact Or.inl h'
        · exact Or.inr (Or.inl h')
        · exact Or.inr (Or.inr (Or.inl h'))
        · refine Or.inr (Or.inr (Or.inr ⟨dpe_window is_crc skb (index, dg_len) :: new,
            List.cons_ne_nil _ _, ?_⟩))
          rw [h', List.append_assoc]
          rfl

/-- Every call of `ncm_unwrap_ntb` ends in one of four ways: a read outside the
received buffer; `-EINVAL` or `-EOVERFLOW` with the list purged; or 0 with at
least one datagram appended to the list. -/
theorem unwrap_result (sz : cdc_sizes) (s : f_ncm) (clone_ok : Nat → Bool) (skb : List Nat)
    (list : List (List Nat)) :
    ncm_unwrap_ntb sz s clone_ok skb list = .error .out_of_bounds
      ∨ ncm_unwrap_ntb sz s clone_ok skb list = .ok (-EINVAL, [])
      ∨ ncm_unwrap_ntb sz s clone_ok skb list = .ok (-EOVERFLOW, [])
      ∨ ∃ new, new ≠ [] ∧ ncm_unwrap_ntb sz s clone_ok skb list = .ok (0, list ++ new) := by
  rcases unwrap_cases sz s clone_ok skb list _ rfl with h | h | ⟨ndp, wl, i0, l0, -, -, -, -, -, h⟩
  · exact Or.inl h.1
  · exact Or.inr (Or.inl h)
  · exact unwrap_loop_result (s.opts sz) s.is_crc skb clone_ok (opts_widths sz s).2.2 _ _ _ _ _ _
      _ _ (Nat.lt_succ_self _) h.symm

/-- The DPE loop of `ncm_unwrap_ntb`, entered with DPE `j` of the NDP at `ndp`
while more than one entry of the `L` bytes behind the NDP header is left, and
returning 0: it has queued the window of DPE `j` and of the DPEs behind it up to
the first that has a zero item or that is followed by no further byte of the `L`. -/
theorem unwrap_loop_walk (opts : ndp_parser_opts) (is_crc : Bool) (skb : List Nat)
    (clone_ok : Nat → Bool) (ndp L : Nat) :
    ∀ (fuel j tmp index dg_len ndp_len : Nat) (list out : List (List Nat)),
      tmp = ndp + 6 + 2 * opts.reserved1 + 2 * opts.next_fp_index + 2 * opts.reserved2
        + (j + 1) * (2 * (opts.dgram_item_len * 2)) →
      ndp_len + j * (2 * (opts.dgram_item_len * 2)) = L →
      2 * (opts.dgram_item_len * 2) < ndp_len →
      rx_dpe opts skb ndp j = .ok (index, dg_len) →
      unwrap_loop opts is_crc skb clone_ok fuel tmp index dg_len ndp_len j list = .ok (0, out) →
      ∃ es : List (Nat × Nat), es ≠ []
        ∧ (∀ k (hk : k < es.length), rx_dpe opts skb ndp (j + k) = .ok es[k]
            ∧ (j + k + 1) * (2 * (opts.dgram_item_len * 2)) < L
            ∧ 14 + (if is_crc = true then 4 else 0) ≤ es[k].2
            ∧ es[k].1 ≤ skb.length
            ∧ (1 ≤ k → es[k].1 ≠ 0))
        ∧ ((∃ e, rx_dpe opts skb ndp (j + es.length) = .ok e ∧ (e.1 = 0 ∨ e.2 = 0))
            ∨ L ≤ (j + es.length + 1) * (2 * (opts.dgram_item_len * 2)))
        ∧ out = list ++ es.map (dpe_window is_crc skb) := by
  intro fuel
  induction fuel with
  | zero =>
    intro j tmp index dg_len ndp_len list out _ _ _ _ h
    rw [unwrap_loop] at h
    exact Except.noConfusion h
  | succ fuel ih =>
    intro j tmp index dg_len ndp_len list out htmp hL hbud hd h
    have hm1 : (j + 1) * (2 * (opts.dgram_item_len * 2))
        = j * (2 * (opts.dgram_item_len * 2)) + 2 * (opts.dgram_item_len * 2) := Nat.succ_mul _ _
    have hm2 : (j + 1 + 1) * (2 * (opts.dgram_item_len * 2))
        = (j + 1) * (2 * (opts.dgram_item_len * 2)) + 2 * (opts.dgram_item_len * 2) :=
      Nat.succ_mul _ _
    rcases unwrap_loop_cases opts is_crc skb clone_ok fuel tmp index dg_len ndp_len j list _ h
      with h' | h' | h' | h' | ⟨hlen, hidx, i2, l2, hr1, hr2, h'⟩
    · exact Except.noConfusion h'
    · exact Except.noConfusion h'.1
    · injection h' with h'
      have h0 : (0 : Int) = -EINVAL := congrArg Prod.fst h'
      exact absurd h0 (by decide)
    · injection h' with h'
      have h0 : (0 : Int) = -EOVERFLOW := congrArg Prod.fst h'
      exact absurd h0 (by decide)
    · -- DPE j + 1 as the loop has read it
      have hnext : rx_dpe opts skb ndp (j + 1) = .ok (i2, l2) := by
        apply rx_dpe_of_reads
        · rw [← htmp]; exact hr1
        · rw [← htmp]; exact hr2
      have hfirst : ∀ k (hk : k < [(index, dg_len)].length),
          rx_dpe opts skb ndp (j + k) = .ok ([(index, dg_len)].get ⟨k, hk⟩)
            ∧ (j + k + 1) * (2 * (opts.dgram_item_len * 2)) < L
            ∧ 14 + (if is_crc = true then 4 else 0) ≤ ([(index, dg_len)].get ⟨k, hk⟩).2
            ∧ ([(index, dg_len)].get ⟨k, hk⟩).1 ≤ skb.length
            ∧ (1 ≤ k → ([(index, dg_len)].get ⟨k, hk⟩).1 ≠ 0) := by
        intro k hk
        have hk0 : k = 0 := by simpa using hk
        subst hk0
        refine ⟨hd, ?_, hlen, hidx, fun h0 => absurd h0 (by decide)⟩
        rw [Nat.add_zero, hm1]; omega
      rcases h' with ⟨hstop, h'⟩ | ⟨hi2, hl2, hb, h'⟩
      · -- the loop ends here
        injection h' with h'
        have hout : out = list ++ [dpe_window is_crc skb (index, dg_len)] :=
          congrArg Prod.snd h'
        refine ⟨[(index, dg_len)], List.cons_ne_nil _ _, hfirst, ?_, ?_⟩
        · rcases hstop with hz | hz
          · exact Or.inl ⟨(i2, l2), hnext, hz⟩
          · right
            simp only [List.length_singleton]
            rw [hm2, hm1]; omega
        · rw [hout]; rfl
      · -- the loop goes on with DPE j + 1
        obtain ⟨es, hne, hes, hend, hout⟩ :=
          ih (j + 1) _ i2 l2 _ _ out (by rw [htmp, hm2]; omega) (by rw [hm1]; omega) hb hnext h'.symm
        refine ⟨(index, dg_len) :: es, List.cons_ne_nil _ _, ?_, ?_, ?_⟩
        · intro k hk
          cases k with
          | zero => exact hfirst 0 (by simp)
          | succ k =>
            have hk' : k < es.length := by simpa using hk
            obtain ⟨a1, a2, a3, a4, a5⟩ := hes k hk'
            have e1 : j + (k + 1) = j + 1 + k := by omega
            have e2 : j + (k + 1) + 1 = j + 1 + k + 1 := by omega
            simp only [List.getElem_cons_succ]
            rw [e1]
            refine ⟨a1, a2, a3, a4, fun _ => ?_⟩
            cases k with
            | zero =>
              have h0 := a1
              rw [Nat.add_zero, hnext] at h0
              injection h0 with h0
              rw [← h0]; exact hi2
            | succ k => exact a5 (by omega)
        · have e1 : j + ((index, dg_len) :: es).length = j + 1 + es.length := by
            simp only [List.length_cons]; omega
          rw [e1]; exact hend
        · rw [hout, List.map_cons, List.append_assoc]; rfl

theorem length_of_peek {buf : List Nat} {off n : Nat} {d : List Nat}
    (h : peek buf off n = .ok d) : d.length = n ∧ off + n ≤ buf.length := by
  obtain ⟨hle, heq⟩ := peek_eq_ok h
  refine ⟨?_, hle⟩
  rw [heq, List.length_take, List.length_drop]
  omega

/-- The two reads of the CRC check of `ncm_unwrap_ntb` on a datagram that lies
in the buffer. -/
theorem crc_reads {skb : List Nat} {index dg_len : Nat} {d : List Nat}
    (h : peek skb index dg_len = .ok d) (h4 : 4 ≤ dg_len) :
    get_unaligned_le32 skb (index + dg_len - 4) = .ok (le_value (d.drop (dg_len - 4)))
      ∧ peek skb index (dg_len - 4) = .ok (d.take (dg_len - 4)) := by
  obtain ⟨hl, -⟩ := length_of_peek h
  have hla : (d.take (dg_len - 4)).length = dg_len - 4 := by
    rw [List.length_take]; omega
  have hlb : (d.drop (dg_len - 4)).length = 4 := by
    rw [List.length_drop]; omega
  have hpk : peek skb index ((d.take (dg_len - 4)).length + (d.drop (dg_len - 4)).length)
      = .ok (d.take (dg_len - 4) ++ d.drop (dg_len - 4)) := by
    rw [hla, hlb, List.take_append_drop, show dg_len - 4 + 4 = dg_len by omega]
    exact h
  obtain ⟨p1, p2⟩ := peek_split _ _ hpk
  rw [hla] at p1 p2
  rw [hlb] at p2
  refine ⟨?_, p1⟩
  rw [show index + dg_len - 4 = index + (dg_len - 4) by omega]
  simp only [get_unaligned_le32, p2, Except.map]

/-- An iteration of the DPE loop of `ncm_unwrap_ntb` whose datagram lies in the
buffer and fails the length or CRC check ends at `err:` with `-EINVAL`. -/
theorem unwrap_loop_bad (opts : ndp_parser_opts) (is_crc : Bool) (skb : List Nat)
    (clone_ok : Nat → Bool) (fuel tmp index dg_len ndp_len cnt : Nat) (list : List (List Nat))
    (d : List Nat) (hd : peek skb index dg_len = .ok d) (hbad : ¬ dgram_ok is_crc d) :
    unwrap_loop opts is_crc skb clone_ok (fuel + 1) tmp index dg_len ndp_len cnt list
      = .ok (-EINVAL, []) := by
  obtain ⟨hl, -⟩ := length_of_peek hd
  rw [unwrap_loop]
  simp only [bind, pure, Except.pure, unwrap_err]
  by_cases hlen : dg_len < 14 + (if is_crc = true then 4 else 0)
  · rw [if_pos hlen]
  rw [if_neg hlen]
  cases is_crc with
  | false =>
    exfalso
    apply hbad
    simp only [Bool.false_eq_true, ite_false, Nat.add_zero] at hlen
    exact ⟨by simp only [Bool.false_eq_true, ite_false]; omega, fun h => Bool.noConfusion h⟩
  | true =>
    simp only [ite_true] at hlen ⊢
    obtain ⟨r1, r2⟩ := crc_reads hd (by omega)
    have hne : le_value (d.drop (dg_len - 4)) ≠ dgram_crc (d.take (dg_len - 4)) := by
      intro he
      apply hbad
      refine ⟨by simp only [ite_true]; omega, fun _ => ?_⟩
      rw [hl]; exact he
    rw [r1, r2]
    simp only [Except.bind, hne, decide_False, ite_true]

/-- An iteration of the DPE loop of `ncm_unwrap_ntb` whose datagram lies in the
buffer and passes the length and CRC checks, the next DPE being in the buffer. -/
theorem unwrap_loop_good (opts : ndp_parser_opts) (is_crc : Bool) (skb : List Nat)
    (clone_ok : Nat → Bool) (fuel tmp index dg_len ndp_len cnt : Nat) (list : List (List Nat))
    (i2 l2 : Nat) (hok : rx_dgram_ok is_crc skb (index, dg_len))
    (hr1 : get_ncm skb tmp opts.dgram_item_len = .ok i2)
    (hr2 : get_ncm skb (tmp + 2 * opts.dgram_item_len) opts.dgram_item_len = .ok l2) :
    unwrap_loop opts is_crc skb clone_ok (fuel + 1) tmp index dg_len ndp_len cnt list
      = if ¬ (i2 = 0 ∨ l2 = 0) ∧ clone_ok cnt = false then .ok (-EINVAL, [])
        else if i2 = 0 ∨ l2 = 0 then
          .ok (0, list ++ [dpe_window is_crc skb (index, dg_len)])
        else if ndp_len - 2 * (opts.dgram_item_len * 2) > 2 * (opts.dgram_item_len * 2) then
          unwrap_loop opts is_crc skb clone_ok fuel
            (tmp + 2 * opts.dgram_item_len + 2 * opts.dgram_item_len) i2 l2
            (ndp_len - 2 * (opts.dgram_item_len * 2)) (cnt + 1)
            (list ++ [dpe_window is_crc skb (index, dg_len)])
        else .ok (0, list ++ [dpe_window is_crc skb (index, dg_len)]) := by
  obtain ⟨d, hd, hlen, hcrc⟩ := hok
  simp only at hd
  obtain ⟨hl, hin⟩ := length_of_peek hd
  rw [hl] at hlen hcrc
  have hidx : ¬ index > skb.length := by omega
  rw [unwrap_loop]
  simp only [bind, pure, Except.pure, unwrap_err, dpe_window]
  rw [if_neg (by omega)]
  cases is_crc with
  | false =>
    simp only [Bool.false_eq_true, ite_false, Except.bind, hr1, hr2, Bool.true_eq_false, hidx,
      decide_eq_false_iff_not, decide_eq_true_eq]
  | true =>
    simp only [ite_true] at hlen ⊢
    obtain ⟨r1, r2⟩ := crc_reads hd (by omega)
    rw [r1, r2]
    simp only [Except.bind, hcrc rfl, decide_True, Bool.true_eq_false, ite_false, hr1, hr2, hidx,
      decide_eq_false_iff_not, decide_eq_true_eq]

/-- The DPE loop of `ncm_unwrap_ntb`, entered with DPE `j`: when the next `n`
DPEs locate datagrams that pass their checks, each further DPE up to DPE `j + n`
is nonzero and within the budget of the loop, and the datagram of DPE `j + n`
lies in the buffer and fails its length or CRC check, the loop ends at `err:`
with `-EINVAL` and the list purged. -/
theorem unwrap_loop_reject (opts : ndp_parser_opts) (is_crc : Bool) (skb : List Nat)
    (clone_ok : Nat → Bool) (ndp : Nat) (dpe : Nat → Nat × Nat) :
    ∀ (n fuel j tmp ndp_len : Nat) (list : List (List Nat)),
      n < fuel →
      tmp = ndp + 6 + 2 * opts.reserved1 + 2 * opts.next_fp_index + 2 * opts.reserved2
        + (j + 1) * (2 * (opts.dgram_item_len * 2)) →
      (∀ k, k ≤ n → rx_dpe opts skb ndp (j + k) = .ok (dpe (j + k))) →
      (∀ k, k < n → rx_dgram_ok is_crc skb (dpe (j + k))) →
      (∀ k, 1 ≤ k → k ≤ n → (dpe (j + k)).1 ≠ 0 ∧ (dpe (j + k)).2 ≠ 0) →
      (1 ≤ n → (n + 1) * (2 * (opts.dgram_item_len * 2)) < ndp_len) →
      (∃ d, peek skb (dpe (j + n)).1 (dpe (j + n)).2 = .ok d ∧ ¬ dgram_ok is_crc d) →
      unwrap_loop opts is_crc skb clone_ok fuel tmp (dpe j).1 (dpe j).2 ndp_len j list
        = .ok (-EINVAL, []) := by
  intro n
  induction n with
  | zero =>
    intro fuel j tmp ndp_len list hf _ _ _ _ _ hbad
    obtain ⟨fuel, rfl⟩ : ∃ f, fuel = f + 1 := ⟨fuel - 1, by omega⟩
    obtain ⟨d, hd, hb⟩ := hbad
    exact unwrap_loop_bad opts is_crc skb clone_ok fuel tmp _ _ ndp_len j list d hd hb
  | succ n ih =>
    intro fuel j tmp ndp_len list hf htmp hrd hgood hnz hbud hbad
    obtain ⟨fuel, rfl⟩ : ∃ f, fuel = f + 1 := ⟨fuel - 1, by omega⟩
    have hm1 : (j + 1 + 1) * (2 * (opts.dgram_item_len * 2))
        = (j + 1) * (2 * (opts.dgram_item_len * 2)) + 2 * (opts.dgram_item_len * 2) :=
      Nat.succ_mul _ _
    have hm2 : (n + 1 + 1) * (2 * (opts.dgram_item_len * 2))
        = (n + 1) * (2 * (opts.dgram_item_len * 2)) + 2 * (opts.dgram_item_len * 2) :=
      Nat.succ_mul _ _
    have hm3 : (n + 1) * (2 * (opts.dgram_item_len * 2))
        = n * (2 * (opts.dgram_item_len * 2)) + 2 * (opts.dgram_item_len * 2) :=
      Nat.succ_mul _ _
    have hb := hbud (by omega)
    -- the next DPE
    have hnext := hrd 1 (by omega)
    unfold rx_dpe at hnext
    simp only [bind, Except.bind, pure, Except.pure] at hnext
    rw [← htmp] at hnext
    cases hr1 : get_ncm skb tmp opts.dgram_item_len with
    | error e => rw [hr1] at hnext; exact Except.noConfusion hnext
    | ok i2 =>
      rw [hr1] at hnext
      simp only at hnext
      cases hr2 : get_ncm skb (tmp + 2 * opts.dgram_item_len) opts.dgram_item_len with
      | error e => rw [hr2] at hnext; exact Except.noConfusion hnext
      | ok l2 =>
        rw [hr2] at hnext
        simp only at hnext
        injection hnext with hnext
        obtain ⟨z1, z2⟩ := hnz 1 (by omega) (by omega)
        rw [← hnext] at z1 z2
        simp only at z1 z2
        have hnl : ¬ (i2 = 0 ∨ l2 = 0) := by
          intro h; rcases h with h | h
          · exact z1 h
          · exact z2 h
        have hg := hgood 0 (by omega)
        rw [Nat.add_zero] at hg
        rw [unwrap_loop_good opts is_crc skb clone_ok fuel tmp _ _ ndp_len j list i2 l2 hg hr1 hr2]
        by_cases hcl : clone_ok j = false
        · rw [if_pos ⟨hnl, hcl⟩]
        · rw [if_neg (fun h => hcl h.2), if_neg hnl, if_pos (by omega)]
          have e1 : i2 = (dpe (j + 1)).1 := by rw [← hnext]
          have e2 : l2 = (dpe (j + 1)).2 := by rw [← hnext]
          rw [e1, e2]
          apply ih fuel (j + 1) _ _ _ (by omega) (by rw [htmp, hm1]; omega)
          · intro k hk
            have := hrd (k + 1) (by omega)
            rw [show j + (k + 1) = j + 1 + k by omega] at this
            exact this
          · intro k hk
            have := hgood (k + 1) (by omega)
            rw [show j + (k + 1) = j + 1 + k by omega] at this
            exact this
          · intro k hk1 hk2
            have := hnz (k + 1) (by omega) (by omega)
            rw [show j + (k + 1) = j + 1 + k by omega] at this
            exact this
          · intro _
            omega
          · rw [show j + 1 + n = j + (n + 1) by omega]
            exact hbad

/-- The function `ncm_unwrap_ntb` on a buffer with readable NdpIndex and wLength
whose DPEs 0 .. n - 1 locate datagrams that pass their checks while DPE `n`,
reached by the loop, locates a datagram in the buffer that fails its length or
CRC check: the result is `-EINVAL` with the list purged. -/
theorem unwrap_reject (sz : cdc_sizes) (s : f_ncm) (clone_ok : Nat → Bool) (skb : List Nat)
    (list : List (List Nat)) (ndp wl n : Nat) (dpe : Nat → Nat × Nat)
    (hndp : nth_ndp_index (s.opts sz) skb = .ok ndp) (hwl : ndp_wLength skb ndp = .ok wl)
    (hrd : ∀ k, k ≤ n → rx_dpe (s.opts sz) skb ndp k = .ok (dpe k))
    (hgood : ∀ k, k < n → rx_dgram_ok s.is_crc skb (dpe k))
    (hnz : ∀ k, 1 ≤ k → k ≤ n → (dpe k).1 ≠ 0 ∧ (dpe k).2 ≠ 0)
    (hbud : 1 ≤ n → (n + 1) * (2 * ((s.opts sz).dgram_item_len * 2)) < wl - (s.opts sz).ndp_size)
    (hbad : ∃ d, peek skb (dpe n).1 (dpe n).2 = .ok d ∧ ¬ dgram_ok s.is_crc d) :
    ncm_unwrap_ntb sz s clone_ok skb list = .ok (-EINVAL, []) := by
  rcases unwrap_cases sz s clone_ok skb list _ rfl with
    h | h | ⟨ndp', wl', i0, l0, h1, h2, h3, h4, -, h⟩
  · exact absurd (hrd 0 (Nat.zero_le _)) (fun h0 => h.2 ndp wl _ hndp hwl h0)
  · exact h
  · rw [hndp] at h1
    injection h1 with h1
    subst h1
    rw [hwl] at h2
    injection h2 with h2
    subst h2
    have h0 := hrd 0 (Nat.zero_le _)
    rw [h3] at h0
    injection h0 with h0
    have wit := (opts_widths sz s).2.2
    have hfuel : n < wl - (s.opts sz).ndp_size + 1 := by
      by_cases hn : 1 ≤ n
      · have hb := hbud hn
        have : n + 1 ≤ (n + 1) * (2 * ((s.opts sz).dgram_item_len * 2)) :=
          Nat.le_mul_of_pos_right _ (by omega)
        omega
      · omega
    have key := unwrap_loop_reject (s.opts sz) s.is_crc skb clone_ok ndp dpe n
      (wl - (s.opts sz).ndp_size + 1) 0
      (ndp + 6 + 2 * (s.opts sz).reserved1 + 2 * (s.opts sz).next_fp_index
        + 2 * (s.opts sz).reserved2 + 2 * (s.opts sz).dgram_item_len
        + 2 * (s.opts sz).dgram_item_len)
      (wl - (s.opts sz).ndp_size) list hfuel (by omega)
      (by intro k hk; rw [Nat.zero_add]; exact hrd k hk)
      (by intro k hk; rw [Nat.zero_add]; exact hgood k hk)
      (by intro k hk1 hk2; rw [Nat.zero_add]; exact hnz k hk1 hk2)
      hbud (by rw [Nat.zero_add]; exact hbad)
    rw [h, ← key, ← h0]

/-- The function `ncm_unwrap_ntb` when it returns 0: the list has grown by the
windows of DPE 0 and of the DPEs behind it up to the first that has a zero item
or that is followed by no further byte of the wLength budget. -/
theorem unwrap_walk (sz : cdc_sizes) (s : f_ncm) (clone_ok : Nat → Bool) (skb : List Nat)
    (list out : List (List Nat)) (ndp wl : Nat)
    (h : ncm_unwrap_ntb sz s clone_ok skb list = .ok (0, out))
    (hndp : nth_ndp_index (s.opts sz) skb = .ok ndp) (hwl : ndp_wLength skb ndp = .ok wl) :
    ∃ es : List (Nat × Nat), es ≠ []
      ∧ (∀ k (hk : k < es.length), rx_dpe (s.opts sz) skb ndp k = .ok es[k]
          ∧ (k + 1) * (2 * ((s.opts sz).dgram_item_len * 2)) < wl - (s.opts sz).ndp_size
          ∧ 14 + (if s.is_crc = true then 4 else 0) ≤ es[k].2
          ∧ es[k].1 ≤ skb.length
          ∧ (1 ≤ k → es[k].1 ≠ 0))
      ∧ ((∃ e, rx_dpe (s.opts sz) skb ndp es.length = .ok e ∧ (e.1 = 0 ∨ e.2 = 0))
          ∨ wl - (s.opts sz).ndp_size ≤ (es.length + 1) * (2 * ((s.opts sz).dgram_item_len * 2)))
      ∧ out = list ++ es.map (dpe_window s.is_crc skb) := by
  rcases unwrap_cases sz s clone_ok skb list _ h with
    h' | h' | ⟨ndp', wl', i0, l0, h1, h2, h3, h4, -, h'⟩
  · exact Except.noConfusion h'.1
  · injection h' with h'
    have h0 : (0 : Int) = -EINVAL := congrArg Prod.fst h'
    exact absurd h0 (by decide)
  · rw [hndp] at h1
    injection h1 with h1
    subst h1
    rw [hwl] at h2
    injection h2 with h2
    subst h2
    have wit := (opts_widths sz s).2.2
    obtain ⟨es, hne, hes, hend, hout⟩ :=
      unwrap_loop_walk (s.opts sz) s.is_crc skb clone_ok ndp (wl - (s.opts sz).ndp_size)
        (wl - (s.opts sz).ndp_size + 1) 0 _ i0 l0 (wl - (s.opts sz).ndp_size) list out
        (by omega) (by omega) (by omega) h3 h'.symm
    refine ⟨es, hne, ?_, ?_, hout⟩
    · intro k hk
      have := hes k hk
      simp only [Nat.zero_add] at this
      exact this
    · simp only [Nat.zero_add] at hend
      exact hend

/-! ## The notification engine touches `notify_state` and `notify_req` only -/

theorem ncm_do_notify_frame (t : f_ncm) (high_speed : Bool) (q : Int) :
    ∃ st rq, (ncm_do_notify t high_speed q).1 = { t with notify_state := st, notify_req := rq } := by
  unfold ncm_do_notify
  cases hr : t.notify_req with
  | false =>
    refine ⟨t.notify_state, false, ?_⟩
    simp only [ite_true]
    cases t
    simp only at hr
    subst hr
    rfl
  | true =>
    simp only [Bool.true_eq_false, ite_false]
    cases hs : t.notify_state with
    | NCM_NOTIFY_NONE =>
      refine ⟨.NCM_NOTIFY_NONE, true, ?_⟩
      cases t
      simp only at hr hs
      subst hr hs
      rfl
    | NCM_NOTIFY_CONNECT =>
      by_cases hq : q < 0
      · simp only [hq, ite_true]; exact ⟨_, _, rfl⟩
      · simp only [hq, ite_false]; exact ⟨_, _, rfl⟩
    | NCM_NOTIFY_SPEED =>
      by_cases hq : q < 0
      · simp only [hq, ite_true]; exact ⟨_, _, rfl⟩
      · simp only [hq, ite_false]; exact ⟨_, _, rfl⟩

theorem ncm_notify_frame (t : f_ncm) (high_speed : Bool) (q : Int) :
    ∃ st rq, (ncm_notify t high_speed q).1 = { t with notify_state := st, notify_req := rq } := by
  obtain ⟨st, rq, h⟩ := ncm_do_notify_frame { t with notify_state := .NCM_NOTIFY_SPEED } high_speed q
  exact ⟨st, rq, by rw [ncm_notify, h]⟩

/-! ## `ncm_set_alt` on the data interface -/

/-- The session that `ncm_set_alt` goes on with behind its reset block. -/
theorem ncm_set_alt_data_zero (s : f_ncm) (env : alt_env) (hd : s.data_id ≠ s.ctrl_id) :
    ncm_set_alt s env s.data_id 0
      = { value := 0
          ncm := (ncm_notify (if env.in_ep_driver_data = true then
              ncm_reset_values { s with timer_stopping := true } else s)
            env.high_speed env.queue_status).1
          notified := (ncm_notify (if env.in_ep_driver_data = true then
              ncm_reset_values { s with timer_stopping := true } else s)
            env.high_speed env.queue_status).2 } := by
  unfold ncm_set_alt
  dsimp only
  rw [if_neg hd, if_pos rfl, if_neg (fun h => absurd h.1 (by decide)), if_neg (by decide),
    if_neg (by decide)]

theorem ncm_set_alt_data_one_fail (s : f_ncm) (env : alt_env) (hd : s.data_id ≠ s.ctrl_id)
    (h1 : env.notify_desc = false) (h2 : env.config_notify ≠ 0) :
    ncm_set_alt s env s.data_id 1 = { value := -EINVAL, ncm := s, notified := none } := by
  unfold ncm_set_alt
  dsimp only
  rw [if_neg hd, if_pos rfl, if_pos ⟨rfl, h1, h2⟩]

theorem ncm_set_alt_data_one (s : f_ncm) (env : alt_env) (hd : s.data_id ≠ s.ctrl_id)
    (hn : env.notify_desc = true ∨ env.config_notify = 0) :
    ncm_set_alt s env s.data_id 1
      = if env.bulk_desc = false ∧ (env.config_in ≠ 0 ∨ env.config_out ≠ 0) then
          { value := -EINVAL
            ncm := if env.in_ep_driver_data = true then
              ncm_reset_values { s with timer_stopping := true } else s
            notified := none }
        else
          match env.connect_err with
          | some e =>
            { value := e
              ncm := { (if env.in_ep_driver_data = true then
                ncm_reset_values { s with timer_stopping := true } else s) with
                timer_stopping := false }
              notified := none }
          | none =>
            { value := 0
              ncm := (ncm_notify { (if env.in_ep_driver_data = true then
                  ncm_reset_values { s with timer_stopping := true } else s) with
                  timer_stopping := false } env.high_speed env.queue_status).1
              notified := (ncm_notify { (if env.in_ep_driver_data = true then
                  ncm_reset_values { s with timer_stopping := true } else s) with
                  timer_stopping := false } env.high_speed env.queue_status).2 } := by
  have hn' : ¬ (1 = 1 ∧ env.notify_desc = false ∧ env.config_notify ≠ 0) := by
    rintro ⟨-, h1, h2⟩
    rcases hn with h | h
    · rw [h1] at h; exact Bool.noConfusion h
    · exact h2 h
  unfold ncm_set_alt
  dsimp only
  rw [if_neg hd, if_pos rfl, if_neg hn', if_neg (by decide), if_pos rfl]

/-! ## A 32-bit field and the two 16-bit fields it covers -/

theorem le_value_four (a b c d : Nat) :
    le_value [a, b, c, d] = le_value [a, b] + 65536 * le_value [c, d] := by
  simp only [le_value]
  omega

theorem le_value_two_lt (a b : Nat) : le_value [a, b] < 65536 := by
  simp only [le_value]
  omega

/-- A 32-bit little-endian read, split into its 16-bit halves. -/
theorem get_unaligned_le32_halves {buf : List Nat} {off v : Nat}
    (h : get_unaligned_le32 buf off = .ok v) :
    get_unaligned_le16 buf off = .ok (v % 65536)
      ∧ get_unaligned_le16 buf (off + 2) = .ok (v / 65536) := by
  unfold get_unaligned_le32 at h
  cases hp : peek buf off 4 with
  | error e => rw [hp] at h; exact Except.noConfusion h
  | ok r =>
    rw [hp] at h
    simp only [Except.map] at h
    injection h with h
    obtain ⟨hl, -⟩ := length_of_peek hp
    match r, hl with
    | [a, b, c, d], _ =>
      have hs : peek buf off ([a, b].length + [c, d].length) = .ok ([a, b] ++ [c, d]) := hp
      obtain ⟨p1, p2⟩ := peek_split _ _ hs
      have h2 := le_value_two_lt a b
      rw [le_value_four] at h
      simp only [List.length_cons, List.length_nil] at p1 p2
      constructor
      · simp only [get_unaligned_le16, p1, Except.map]
        congr 1; omega
      · simp only [get_unaligned_le16, p2, Except.map]
        congr 1; omega

/-! ## The table signatures stay what the driver puts there -/

theorem table_signs_ok_initial (ctrl_id data_id : Nat) :
    table_signs_ok (ncm_initial ctrl_id data_id) :=
  ⟨Or.inl rfl, Or.inl rfl⟩

theorem sign16_update (x : Nat)
    (h : x = USB_CDC_NCM_NDP16_NOCRC_SIGN ∨ x = USB_CDC_NCM_NDP16_NOCRC_SIGN + NCM_NDP_HDR_CRC) :
    Nat.lor (Nat.land x (4294967295 - NCM_NDP_HDR_CRC_MASK)) NCM_NDP_HDR_NOCRC
        = USB_CDC_NCM_NDP16_NOCRC_SIGN
      ∧ Nat.lor (Nat.land x (4294967295 - NCM_NDP_HDR_CRC_MASK)) NCM_NDP_HDR_CRC
        = USB_CDC_NCM_NDP16_NOCRC_SIGN + NCM_NDP_HDR_CRC := by
  rcases h with rfl | rfl <;> decide

theorem sign32_update (x : Nat)
    (h : x = USB_CDC_NCM_NDP32_NOCRC_SIGN ∨ x = USB_CDC_NCM_NDP32_NOCRC_SIGN + NCM_NDP_HDR_CRC) :
    Nat.lor (Nat.land x (4294967295 - NCM_NDP_HDR_CRC_MASK)) NCM_NDP_HDR_NOCRC
        = USB_CDC_NCM_NDP32_NOCRC_SIGN
      ∧ Nat.lor (Nat.land x (4294967295 - NCM_NDP_HDR_CRC_MASK)) NCM_NDP_HDR_CRC
        = USB_CDC_NCM_NDP32_NOCRC_SIGN + NCM_NDP_HDR_CRC := by
  rcases h with rfl | rfl <;> decide

theorem table_signs_ok_setup (s : f_ncm) (ctrl : usb_ctrlrequest) (q : Int)
    (h : table_signs_ok s) : table_signs_ok (ncm_setup s ctrl q).ncm := by
  obtain ⟨h16, h32⟩ := h
  obtain ⟨request, wValue, wIndex, wLength⟩ := ctrl
  unfold ncm_setup
  cases request <;> simp only [setup_invalid, setup_respond]
  · split <;> exact ⟨h16, h32⟩
  · split <;> exact ⟨h16, h32⟩
  · split <;> exact ⟨h16, h32⟩
  · split <;> exact ⟨h16, h32⟩
  · split
    · exact ⟨h16, h32⟩
    · split <;> exact ⟨h16, h32⟩
  · split <;> exact ⟨h16, h32⟩
  · split
    · exact ⟨h16, h32⟩
    · split
      · cases hp : s.parser_opts with
        | ndp16 => exact ⟨Or.inl (sign16_update _ h16).1, h32⟩
        | ndp32 => exact ⟨h16, Or.inl (sign32_update _ h32).1⟩
      · cases hp : s.parser_opts with
        | ndp16 => exact ⟨Or.inr (sign16_update _ h16).2, h32⟩
        | ndp32 => exact ⟨h16, Or.inr (sign32_update _ h32).2⟩
      · exact ⟨h16, h32⟩
  · exact ⟨h16, h32⟩

theorem table_signs_ok_set_alt (s : f_ncm) (env : alt_env) (intf alt : Nat)
    (h : table_signs_ok s) : table_signs_ok (ncm_set_alt s env intf alt).ncm := by
  have hn : ∀ t : f_ncm, table_signs_ok t →
      table_signs_ok (ncm_notify t env.high_speed env.queue_status).1 := by
    intro t ht
    obtain ⟨st, rq, e⟩ := ncm_notify_frame t env.high_speed env.queue_status
    rw [e]; exact ht
  have hr : table_signs_ok (if env.in_ep_driver_data = true then
      ncm_reset_values { s with timer_stopping := true } else s) := by
    split
    · exact h
    · exact h
  unfold ncm_set_alt
  dsimp only
  split
  · split
    · exact h
    · split <;> exact h
  · split
    · split
      · exact h
      · split
        · exact h
        · split
          · split
            · exact hr
            · split
              · exact hr
              · exact hn _ hr
          · exact hn _ hr
    · exact h

/-- The tail of `ncm_unwrap_ntb` behind the NTH checks, when the four bytes at
NdpIndex lie in the buffer and are not the signature of the parser table. -/
theorem unwrap_bad_ndp_sign (sz : cdc_sizes) (s : f_ncm) (clone_ok : Nat → Bool)
    (skb : List Nat) (list : List (List Nat)) (blen ndp v : Nat)
    (h1 : get_unaligned_le32 skb 0 = .ok (s.opts sz).nth_sign)
    (h2 : get_unaligned_le16 skb 4 = .ok (s.opts sz).nth_size)
    (h3 : nth_block_length (s.opts sz) skb = .ok blen) (hb : blen ≤ NTB_OUT_SIZE)
    (h4 : nth_ndp_index (s.opts sz) skb = .ok ndp)
    (h5 : get_unaligned_le32 skb ndp = .ok v) (hv : v ≠ (s.opts sz).ndp_sign) :
    ncm_unwrap_ntb sz s clone_ok skb list = .ok (-EINVAL, []) := by
  unfold nth_block_length at h3
  unfold nth_ndp_index at h4
  have hb' : ¬ blen > ntb_parameters.dwNtbOutMaxSize := by
    have : ntb_parameters.dwNtbOutMaxSize = NTB_OUT_SIZE := rfl
    omega
  unfold ncm_unwrap_ntb
  simp only [bind, Except.bind, h1, h2, h3, h4, h5, ne_eq, not_true_eq_false, ite_false, hb',
    unwrap_err, hv, not_false_eq_true, ite_true]
  split <;> rfl

/-- With the structures of linux/usb/cdc.h packed, a received buffer whose NTH
passes its checks and whose NdpIndex lies below `nth_size` is rejected: a
misaligned index by the NCM 3.2 test, an aligned one because the header bytes
there are not an NDP signature. -/
theorem unwrap_ndp_in_header (s : f_ncm) (clone_ok : Nat → Bool) (skb : List Nat)
    (list : List (List Nat)) (blen ndp : Nat) (hs : table_signs_ok s)
    (h1 : get_unaligned_le32 skb 0 = .ok (s.opts packed_sizes).nth_sign)
    (h2 : get_unaligned_le16 skb 4 = .ok (s.opts packed_sizes).nth_size)
    (h3 : nth_block_length (s.opts packed_sizes) skb = .ok blen) (hb : blen ≤ NTB_OUT_SIZE)
    (h4 : nth_ndp_index (s.opts packed_sizes) skb = .ok ndp)
    (hlt : ndp < (s.opts packed_sizes).nth_size) :
    ncm_unwrap_ntb packed_sizes s clone_ok skb list = .ok (-EINVAL, []) := by
  by_cases c4 : ndp % 4 ≠ 0 ∧ ndp < (s.opts packed_sizes).nth_size
  · -- NCM 3.2
    unfold nth_block_length at h3
    unfold nth_ndp_index at h4
    have hb' : ¬ blen > ntb_parameters.dwNtbOutMaxSize := by
      have : ntb_parameters.dwNtbOutMaxSize = NTB_OUT_SIZE := rfl
      omega
    unfold ncm_unwrap_ntb
    simp only [bind, Except.bind, h1, h2, h3, h4, ne_eq, not_true_eq_false, ite_false, hb',
      unwrap_err]
    rw [if_pos c4]
  · have hmod : ndp % 4 = 0 := by
      by_contra hc; exact c4 ⟨hc, hlt⟩
    have hmax : NTB_OUT_SIZE = 16384 := rfl
    have hlen := (get_ncm_ok h4).2
    obtain ⟨h16, h32⟩ := hs
    have s16 : USB_CDC_NCM_NDP16_NOCRC_SIGN = 810369870 := rfl
    have s32 : USB_CDC_NCM_NDP32_NOCRC_SIGN = 812475246 := rfl
    have hcrc : NCM_NDP_HDR_CRC = 16777216 := rfl
    cases hp : s.parser_opts with
    | ndp16 =>
      have o1 : (s.opts packed_sizes).nth_sign = 1213023054 := by rw [opts_ndp16 _ hp]; rfl
      have o2 : (s.opts packed_sizes).nth_size = 12 := by rw [opts_ndp16 _ hp]; rfl
      have o3 : (s.opts packed_sizes).block_length = 1 := by rw [opts_ndp16 _ hp]; rfl
      have o4 : (s.opts packed_sizes).fp_index = 1 := by rw [opts_ndp16 _ hp]; rfl
      have o5 : (s.opts packed_sizes).ndp_sign = s.ndp16_sign := by rw [opts_ndp16 _ hp]
      rw [o3, o4] at hlen
      have hin : ndp + 4 ≤ skb.length := by omega
      have h5 := get_unaligned_le32_of_le hin
      refine unwrap_bad_ndp_sign packed_sizes s clone_ok skb list blen ndp _ h1 h2 h3 hb h4 h5 ?_
      rw [o5]
      intro he
      rw [he] at h5
      obtain ⟨q1, q2⟩ := get_unaligned_le32_halves h5
      have hcase : ndp = 0 ∨ ndp = 4 ∨ ndp = 8 := by omega
      rcases hcase with rfl | rfl | rfl
      · rw [h1, o1] at h5
        injection h5 with h5
        rcases h16 with h | h <;> omega
      · rw [h2, o2] at q1
        injection q1 with q1
        rcases h16 with h | h <;> omega
      · unfold nth_block_length at h3
        rw [o3] at h3
        simp only [get_ncm] at h3
        rw [h3] at q1
        injection q1 with q1
        rcases h16 with h | h <;> omega
    | ndp32 =>
      have o1 : (s.opts packed_sizes).nth_sign = 1751999342 := by rw [opts_ndp32 _ hp]; rfl
      have o2 : (s.opts packed_sizes).nth_size = 16 := by rw [opts_ndp32 _ hp]; rfl
      have o3 : (s.opts packed_sizes).block_length = 2 := by rw [opts_ndp32 _ hp]; rfl
      have o4 : (s.opts packed_sizes).fp_index = 2 := by rw [opts_ndp32 _ hp]; rfl
      have o5 : (s.opts packed_sizes).ndp_sign = s.ndp32_sign := by rw [opts_ndp32 _ hp]
      rw [o3, o4] at hlen
      have hin : ndp + 4 ≤ skb.length := by omega
      have h5 := get_unaligned_le32_of_le hin
      refine unwrap_bad_ndp_sign packed_sizes s clone_ok skb list blen ndp _ h1 h2 h3 hb h4 h5 ?_
      rw [o5]
      intro he
      rw [he] at h5
      obtain ⟨q1, q2⟩ := get_unaligned_le32_halves h5
      have hcase : ndp = 0 ∨ ndp = 4 ∨ ndp = 8 ∨ ndp = 12 := by omega
      rcases hcase with rfl | rfl | rfl | rfl
      · rw [h1, o1] at h5
        injection h5 with h5
        rcases h32 with h | h <;> omega
      · rw [h2, o2] at q1
        injection q1 with q1
        rcases h32 with h | h <;> omega
      · unfold nth_block_length at h3
        rw [o3] at h3
        simp only [get_ncm] at h3
        rw [h3] at h5
        injection h5 with h5
        rcases h32 with h | h <;> omega
      · unfold nth_ndp_index at h4
        rw [o3, o4] at h4
        simp only [get_ncm] at h4
        rw [h4] at h5
        injection h5 with h5
        rcases h32 with h | h <;> omega

/-! ## The order of the notifications handed to the interrupt endpoint -/

/-- What one run of `ncm_do_notify` does: either it queues nothing, and then the
request is out of its slot afterwards only if it was before, with the state
untouched; or it had the request, and queues SPEED_CHANGE from state SPEED
(going to CONNECT) or NETWORK_CONNECTION from state CONNECT (going to NONE). -/
theorem ncm_do_notify_step (t : f_ncm) (high_speed : Bool) (q : Int) :
    ((ncm_do_notify t high_speed q).2 = none
        ∧ ((ncm_do_notify t high_speed q).1.notify_req = false →
            t.notify_req = false
              ∧ (ncm_do_notify t high_speed q).1.notify_state = t.notify_state))
      ∨ (∃ event, (ncm_do_notify t high_speed q).2 = some event ∧ t.notify_req = true
          ∧ ((t.notify_state = .NCM_NOTIFY_SPEED
                ∧ event.bNotificationType = .USB_CDC_NOTIFY_SPEED_CHANGE
                ∧ (ncm_do_notify t high_speed q).1.notify_state = .NCM_NOTIFY_CONNECT)
              ∨ (t.notify_state = .NCM_NOTIFY_CONNECT
                ∧ event.bNotificationType = .USB_CDC_NOTIFY_NETWORK_CONNECTION
                ∧ (ncm_do_notify t high_speed q).1.notify_state = .NCM_NOTIFY_NONE))) := by
  cases hr : t.notify_req with
  | false =>
    left
    have h : ncm_do_notify t high_speed q = (t, none) := by
      unfold ncm_do_notify
      rw [if_pos hr]
    rw [h]
    exact ⟨rfl, fun _ => ⟨rfl, rfl⟩⟩
  | true =>
    have hr' : ¬ t.notify_req = false := by rw [hr]; decide
    cases hs : t.notify_state with
    | NCM_NOTIFY_NONE =>
      left
      have h : ncm_do_notify t high_speed q = (t, none) := by
        unfold ncm_do_notify
        rw [if_neg hr', hs]
      rw [h]
      exact ⟨rfl, fun h => absurd h hr'⟩
    | NCM_NOTIFY_CONNECT =>
      by_cases hq : q < 0
      · left
        have h : ncm_do_notify t high_speed q
            = ({ t with notify_state := .NCM_NOTIFY_NONE, notify_req := true }, none) := by
          unfold ncm_do_notify
          rw [if_neg hr', hs]
          dsimp only
          rw [if_pos hq]
        rw [h]
        exact ⟨rfl, fun h => absurd (show true = false from h) (by decide)⟩
      · right
        have h : ∃ event, ncm_do_notify t high_speed q
            = ({ t with notify_state := .NCM_NOTIFY_NONE, notify_req := false }, some event)
            ∧ event.bNotificationType = .USB_CDC_NOTIFY_NETWORK_CONNECTION := by
          unfold ncm_do_notify
          rw [if_neg hr', hs]
          dsimp only
          rw [if_neg hq]
          exact ⟨_, rfl, rfl⟩
        obtain ⟨event, h, hty⟩ := h
        rw [h]
        exact ⟨event, rfl, rfl, Or.inr ⟨rfl, hty, rfl⟩⟩
    | NCM_NOTIFY_SPEED =>
      by_cases hq : q < 0
      · left
        have h : ncm_do_notify t high_speed q
            = ({ t with notify_state := .NCM_NOTIFY_CONNECT, notify_req := true }, none) := by
          unfold ncm_do_notify
          rw [if_neg hr', hs]
          dsimp only
          rw [if_pos hq]
        rw [h]
        exact ⟨rfl, fun h => absurd (show true = false from h) (by decide)⟩
      · right
        have h : ∃ event, ncm_do_notify t high_speed q
            = ({ t with notify_state := .NCM_NOTIFY_CONNECT, notify_req := false }, some event)
            ∧ event.bNotificationType = .USB_CDC_NOTIFY_SPEED_CHANGE := by
          unfold ncm_do_notify
          rw [if_neg hr', hs]
          dsimp only
          rw [if_neg hq]
          exact ⟨_, rfl, rfl⟩
        obtain ⟨event, h, hty⟩ := h
        rw [h]
        exact ⟨event, rfl, rfl, Or.inl ⟨rfl, hty, rfl⟩⟩

theorem ncm_notify_order (s : f_ncm) (high_speed : Bool) (q : Int) (last : Option cdc_notify) :
    connect_follows_speed last
        (((ncm_notify s high_speed q).2.toList).map (fun e => e.bNotificationType))
      ∧ connect_armed (ncm_notify s high_speed q).1
          (last_notified last (ncm_notify s high_speed q).2) := by
  unfold ncm_notify
  rcases ncm_do_notify_step { s with notify_state := .NCM_NOTIFY_SPEED } high_speed q with
    ⟨h1, h2⟩ | ⟨event, h1, _, h3⟩
  · rw [h1]
    refine ⟨trivial, fun hc hr => ?_⟩
    have h := (h2 hr).2
    rw [hc] at h
    exact absurd (show ncm_notify_state.NCM_NOTIFY_CONNECT = .NCM_NOTIFY_SPEED from h) (by decide)
  · rw [h1]
    rcases h3 with ⟨_, ht, _⟩ | ⟨hst, _, _⟩
    · refine ⟨⟨fun hx => ?_, trivial⟩, fun _ _ => ?_⟩
      · have hx' : event.bNotificationType = .USB_CDC_NOTIFY_NETWORK_CONNECTION := hx
        rw [ht] at hx'
        exact absurd hx' (by decide)
      · show some event.bNotificationType = _
        rw [ht]
    · exact absurd (show ncm_notify_state.NCM_NOTIFY_SPEED = .NCM_NOTIFY_CONNECT from hst)
        (by decide)

theorem ncm_notify_complete_order (s : f_ncm) (status : Int) (high_speed : Bool) (q : Int)
    (last : Option cdc_notify) (hinv : connect_armed s last) (hreq : s.notify_req = false) :
    connect_follows_speed last
        (((ncm_notify_complete s status high_speed q).2.toList).map
          (fun e => e.bNotificationType))
      ∧ connect_armed (ncm_notify_complete s status high_speed q).1
          (last_notified last (ncm_notify_complete s status high_speed q).2) := by
  have key : ∀ t : f_ncm, (t.notify_state = .NCM_NOTIFY_CONNECT → s.notify_state = .NCM_NOTIFY_CONNECT) →
      connect_follows_speed last
        (((ncm_do_notify { t with notify_req := true } high_speed q).2.toList).map
          (fun e => e.bNotificationType))
      ∧ connect_armed (ncm_do_notify { t with notify_req := true } high_speed q).1
          (last_notified last (ncm_do_notify { t with notify_req := true } high_speed q).2) := by
    intro t ht
    rcases ncm_do_notify_step { t with notify_req := true } high_speed q with
      ⟨h1, h2⟩ | ⟨event, h1, _, h3⟩
    · rw [h1]
      refine ⟨trivial, fun _ hr => ?_⟩
      exact absurd (show true = false from (h2 hr).1) (by decide)
    · rw [h1]
      rcases h3 with ⟨_, hty, _⟩ | ⟨hst, hty, hn⟩
      · refine ⟨⟨fun hx => ?_, trivial⟩, fun _ _ => ?_⟩
        · have hx' : event.bNotificationType = .USB_CDC_NOTIFY_NETWORK_CONNECTION := hx
          rw [hty] at hx'
          exact absurd hx' (by decide)
        · show some event.bNotificationType = _
          rw [hty]
      · refine ⟨⟨fun _ => hinv (ht hst) hreq, trivial⟩, fun hc _ => ?_⟩
        rw [hn] at hc
        exact absurd hc (by decide)
  unfold ncm_notify_complete
  by_cases h0 : status = 0
  · simp only [if_pos h0]
    exact key s id
  · by_cases hs : status = -ECONNRESET ∨ status = -ESHUTDOWN
    · simp only [if_neg h0, if_pos hs]
      exact key { s with notify_state := .NCM_NOTIFY_NONE } (fun h =>
        absurd (show ncm_notify_state.NCM_NOTIFY_NONE = .NCM_NOTIFY_CONNECT from h) (by decide))
    · simp only [if_neg h0, if_neg hs]
      exact key s id

theorem notify_step_order (high_speed : Bool) (s : f_ncm) (e : notify_event)
    (last : Option cdc_notify) (hinv : connect_armed s last)
    (hc : match e with
      | .completed _ _ => s.notify_req = false
      | _ => True) :
    connect_follows_speed last
        (((notify_step high_speed s e).2.toList).map (fun e => e.bNotificationType))
      ∧ connect_armed (notify_step high_speed s e).1
          (last_notified last (notify_step high_speed s e).2) := by
  cases e with
  | notify q => exact ncm_notify_order s high_speed q last
  | opened q => exact ncm_notify_order { s with is_open := true } high_speed q last
  | closed q => exact ncm_notify_order { s with is_open := false } high_speed q last
  | completed status q => exact ncm_notify_complete_order s status high_speed q last hinv hc

theorem connect_follows_speed_append (last : Option cdc_notify)
    (x : Option usb_cdc_notification) (rest : List usb_cdc_notification)
    (h1 : connect_follows_speed last ((x.toList).map (fun e => e.bNotificationType)))
    (h2 : connect_follows_speed (last_notified last x) (rest.map (fun e => e.bNotificationType))) :
    connect_follows_speed last ((x.toList ++ rest).map (fun e => e.bNotificationType)) := by
  cases x with
  | none => exact h2
  | some event => exact ⟨h1.1, h2⟩

/-- In every run of entries whose completions are completions of a queued
request, each NETWORK_CONNECTION handed to the endpoint directly follows a
SPEED_CHANGE. -/
theorem notify_run_order (high_speed : Bool) (evs : List notify_event) :
    ∀ (s : f_ncm) (last : Option cdc_notify), connect_armed s last →
      completions_in_flight high_speed s evs →
      connect_follows_speed last
        ((notify_run high_speed s evs).1.map (fun e => e.bNotificationType)) := by
  induction evs with
  | nil => intro _ _ _ _; trivial
  | cons e es ih =>
    intro s last hinv hc
    obtain ⟨h1, h2⟩ := notify_step_order high_speed s e last hinv hc.1
    exact connect_follows_speed_append last _ _ h1 (ih _ _ h2 hc.2)

/-- A call of `ncm_notify` while a notification is in flight, whatever is
pending behind it (CONNECT behind a SPEED_CHANGE in particular): the two
completions that follow hand over SPEED_CHANGE, then NETWORK_CONNECTION. -/
theorem notify_replay (high_speed : Bool) (t : f_ncm) (q0 q1 q2 st1 st2 : Int)
    (hr : t.notify_req = false)
    (h1 : 0 ≤ q1) (h2 : 0 ≤ q2)
    (n1 : ¬ (st1 = -ECONNRESET ∨ st1 = -ESHUTDOWN))
    (n2 : ¬ (st2 = -ECONNRESET ∨ st2 = -ESHUTDOWN)) :
    (notify_run high_speed t [.notify q0, .completed st1 q1, .completed st2 q2]).1.map
        (fun e => e.bNotificationType)
      = [.USB_CDC_NOTIFY_SPEED_CHANGE, .USB_CDC_NOTIFY_NETWORK_CONNECTION] := by
  have h1' : ¬ q1 < 0 := by omega
  have h2' : ¬ q2 < 0 := by omega
  have c1 : ∀ (u : f_ncm) (st : Int), ¬ (st = -ECONNRESET ∨ st = -ESHUTDOWN) →
      (if st = 0 then u else if st = -ECONNRESET ∨ st = -ESHUTDOWN then
        { u with notify_state := .NCM_NOTIFY_NONE } else u) = u := by
    intro u st hn
    by_cases h0 : st = 0
    · rw [if_pos h0]
    · rw [if_neg h0, if_neg hn]
  simp only [notify_run, notify_step, ncm_notify, ncm_notify_complete, c1 _ _ n1, c1 _ _ n2,
    ncm_do_notify, hr, ite_true, Bool.true_eq_false, ite_false, h1', h2', Option.toList,
    List.nil_append, List.cons_append, List.append_nil, List.map]

/-! ## The DPE loop, pass by pass -/

/-- The loop of `ncm_unwrap_ntb` is its passes, one after the other. -/
theorem unwrap_loop_pass (opts : ndp_parser_opts) (is_crc : Bool) (skb : List Nat)
    (clone_ok : Nat → Bool) (fuel : Nat) (st : dpe_loop) :
    unwrap_loop opts is_crc skb clone_ok (fuel + 1) st.tmp st.index2 st.dg_len2 st.ndp_len
        st.dgram_counter st.list
      = match unwrap_pass opts is_crc skb clone_ok st with
        | .error e => .error e
        | .ok (.inl r) => .ok r
        | .ok (.inr st2) =>
          unwrap_loop opts is_crc skb clone_ok fuel st2.tmp st2.index2 st2.dg_len2 st2.ndp_len
            st2.dgram_counter st2.list := by
  rw [unwrap_loop]
  unfold unwrap_pass
  simp only [bind, pure, Except.pure, unwrap_err, Except.bind]
  cases is_crc
  · simp only [Bool.false_eq_true, ite_false]
    by_cases hlen : st.dg_len2 < 14 + 0
    · rw [if_pos hlen, if_pos hlen]
    rw [if_neg hlen, if_neg hlen]
    cases h1 : get_ncm skb st.tmp opts.dgram_item_len with
    | error e => rfl
    | ok i2 =>
      cases h2 : get_ncm skb (st.tmp + 2 * opts.dgram_item_len) opts.dgram_item_len with
      | error e => rfl
      | ok l2 =>
        simp only [Bool.true_eq_false, if_false]
        by_cases c1 : decide (i2 = 0 ∨ l2 = 0) = false ∧ clone_ok st.dgram_counter = false
        · rw [if_pos c1, if_pos c1]
        rw [if_neg c1, if_neg c1]
        by_cases c2 : st.index2 > skb.length
        · rw [if_pos c2, if_pos c2]
        rw [if_neg c2, if_neg c2]
        by_cases c3 : decide (i2 = 0 ∨ l2 = 0) = true
        · rw [if_pos c3, if_pos c3]
        rw [if_neg c3, if_neg c3]
        by_cases c4 : st.ndp_len - 2 * (opts.dgram_item_len * 2) > 2 * (opts.dgram_item_len * 2)
        · rw [if_pos c4, if_pos c4]
        · rw [if_neg c4, if_neg c4]
  · simp only [ite_true]
    by_cases hlen : st.dg_len2 < 14 + 4
    · rw [if_pos hlen, if_pos hlen]
    rw [if_neg hlen, if_neg hlen]
    cases h3 : get_unaligned_le32 skb (st.index2 + st.dg_len2 - 4) with
    | error e => rfl
    | ok crc =>
      cases h4 : peek skb st.index2 (st.dg_len2 - 4) with
      | error e => rfl
      | ok payload =>
        simp only []
        by_cases hg : decide (crc = dgram_crc payload) = false
        · rw [if_pos hg, if_pos hg]
        rw [if_neg hg, if_neg hg]
        cases h1 : get_ncm skb st.tmp opts.dgram_item_len with
        | error e => rfl
        | ok i2 =>
          cases h2 : get_ncm skb (st.tmp + 2 * opts.dgram_item_len) opts.dgram_item_len with
          | error e => rfl
          | ok l2 =>
            simp only [Bool.true_eq_false, if_false]
            by_cases c1 : decide (i2 = 0 ∨ l2 = 0) = false ∧ clone_ok st.dgram_counter = false
            · rw [if_pos c1, if_pos c1]
            rw [if_neg c1, if_neg c1]
            by_cases c2 : st.index2 > skb.length
            · rw [if_pos c2, if_pos c2]
            rw [if_neg c2, if_neg c2]
            by_cases c3 : decide (i2 = 0 ∨ l2 = 0) = true
            · rw [if_pos c3, if_pos c3]
            rw [if_neg c3, if_neg c3]
            by_cases c4 : st.ndp_len - 2 * (opts.dgram_item_len * 2) > 2 * (opts.dgram_item_len * 2)
            · rw [if_pos c4, if_pos c4]
            · rw [if_neg c4, if_neg c4]

/-- One pass of the DPE loop, by cases. -/
theorem unwrap_pass_cases (opts : ndp_parser_opts) (is_crc : Bool) (skb : List Nat)
    (clone_ok : Nat → Bool) (st : dpe_loop) :
    (∃ e, unwrap_pass opts is_crc skb clone_ok st = .error e)
      ∨ unwrap_pass opts is_crc skb clone_ok st = .ok (.inl (-EINVAL, []))
      ∨ unwrap_pass opts is_crc skb clone_ok st = .ok (.inl (-EOVERFLOW, []))
      ∨ unwrap_pass opts is_crc skb clone_ok st
          = .ok (.inl (0, st.list ++ [dpe_window is_crc skb (st.index2, st.dg_len2)]))
      ∨ ∃ i2 l2, 2 * (opts.dgram_item_len * 2) < st.ndp_len - 2 * (opts.dgram_item_len * 2)
          ∧ unwrap_pass opts is_crc skb clone_ok st
            = .ok (.inr { tmp := st.tmp + 2 * opts.dgram_item_len + 2 * opts.dgram_item_len
                          index2 := i2
                          dg_len2 := l2
                          ndp_len := st.ndp_len - 2 * (opts.dgram_item_len * 2)
                          dgram_counter := st.dgram_counter + 1
                          list := st.list ++ [dpe_window is_crc skb (st.index2, st.dg_len2)] }) := by
  have tail : ∀ (x : Except Fault ((Int × List (List Nat)) ⊕ dpe_loop)),
      x = Except.bind (get_ncm skb st.tmp opts.dgram_item_len) (fun i2 =>
          Except.bind (get_ncm skb (st.tmp + 2 * opts.dgram_item_len) opts.dgram_item_len)
            (fun l2 =>
            if decide (i2 = 0 ∨ l2 = 0) = false ∧ clone_ok st.dgram_counter = false then
              .ok (.inl (-EINVAL, []))
            else if st.index2 > skb.length then .ok (.inl (-EOVERFLOW, []))
            else if decide (i2 = 0 ∨ l2 = 0) = true then
              .ok (.inl (0, st.list ++ [dpe_window is_crc skb (st.index2, st.dg_len2)]))
            else if st.ndp_len - 2 * (opts.dgram_item_len * 2) > 2 * (opts.dgram_item_len * 2) then
              .ok (.inr { tmp := st.tmp + 2 * opts.dgram_item_len + 2 * opts.dgram_item_len
                          index2 := i2
                          dg_len2 := l2
                          ndp_len := st.ndp_len - 2 * (opts.dgram_item_len * 2)
                          dgram_counter := st.dgram_counter + 1
                          list := st.list ++ [dpe_window is_crc skb (st.index2, st.dg_len2)] })
            else .ok (.inl (0, st.list ++ [dpe_window is_crc skb (st.index2, st.dg_len2)])))) →
      (∃ e, x = .error e)
        ∨ x = .ok (.inl (-EINVAL, []))
        ∨ x = .ok (.inl (-EOVERFLOW, []))
        ∨ x = .ok (.inl (0, st.list ++ [dpe_window is_crc skb (st.index2, st.dg_len2)]))
        ∨ ∃ i2 l2, 2 * (opts.dgram_item_len * 2) < st.ndp_len - 2 * (opts.dgram_item_len * 2)
            ∧ x = .ok (.inr { tmp := st.tmp + 2 * opts.dgram_item_len + 2 * opts.dgram_item_len
                              index2 := i2
                              dg_len2 := l2
                              ndp_len := st.ndp_len - 2 * (opts.dgram_item_len * 2)
                              dgram_counter := st.dgram_counter + 1
                              list := st.list
                                ++ [dpe_window is_crc skb (st.index2, st.dg_len2)] }) := by
    intro x hx
    cases h1 : get_ncm skb st.tmp opts.dgram_item_len with
    | error e => rw [h1] at hx; exact Or.inl ⟨e, hx⟩
    | ok i2 =>
      rw [h1] at hx
      cases h2 : get_ncm skb (st.tmp + 2 * opts.dgram_item_len) opts.dgram_item_len with
      | error e =>
        have hx2 : x = .error e := by rw [hx]; simp only [Except.bind]; rw [h2]
        exact Or.inl ⟨e, hx2⟩
      | ok l2 =>
        simp only [Except.bind] at hx
        rw [h2] at hx
        simp only [] at hx
        by_cases c1 : decide (i2 = 0 ∨ l2 = 0) = false ∧ clone_ok st.dgram_counter = false
        · rw [if_pos c1] at hx; exact Or.inr (Or.inl hx)
        rw [if_neg c1] at hx
        by_cases c2 : st.index2 > skb.length
        · rw [if_pos c2] at hx; exact Or.inr (Or.inr (Or.inl hx))
        rw [if_neg c2] at hx
        by_cases c3 : decide (i2 = 0 ∨ l2 = 0) = true
        · rw [if_pos c3] at hx; exact Or.inr (Or.inr (Or.inr (Or.inl hx)))
        rw [if_neg c3] at hx
        by_cases c4 : st.ndp_len - 2 * (opts.dgram_item_len * 2) > 2 * (opts.dgram_item_len * 2)
        · rw [if_pos c4] at hx; exact Or.inr (Or.inr (Or.inr (Or.inr ⟨i2, l2, c4, hx⟩)))
        · rw [if_neg c4] at hx; exact Or.inr (Or.inr (Or.inr (Or.inl hx)))
  unfold unwrap_pass
  simp only [bind, pure, Except.pure, Except.bind, dpe_window]
  cases is_crc
  · simp only [Bool.false_eq_true, ite_false]
    by_cases hlen : st.dg_len2 < 14 + 0
    · rw [if_pos hlen]; exact Or.inr (Or.inl rfl)
    rw [if_neg hlen]
    simp only [Bool.true_eq_false, if_false]
    exact tail _ rfl
  · simp only [ite_true]
    by_cases hlen : st.dg_len2 < 14 + 4
    · rw [if_pos hlen]; exact Or.inr (Or.inl rfl)
    rw [if_neg hlen]
    cases h3 : get_unaligned_le32 skb (st.index2 + st.dg_len2 - 4) with
    | error e => exact Or.inl ⟨e, rfl⟩
    | ok crc =>
      cases h4 : peek skb st.index2 (st.dg_len2 - 4) with
      | error e => exact Or.inl ⟨e, rfl⟩
      | ok payload =>
        simp only []
        by_cases hg : decide (crc = dgram_crc payload) = false
        · rw [if_pos hg]; exact Or.inr (Or.inl rfl)
        rw [if_neg hg]
        exact tail _ rfl

/-- The counter `ndp_len` at the start of every pass: after `n` passes of a loop
entered with `m` entries of room, `m - n` entries are left, at least two. -/
theorem pass_nth_counter (opts : ndp_parser_opts) (is_crc : Bool) (skb : List Nat)
    (clone_ok : Nat → Bool) :
    ∀ (n m : Nat) (st0 st : dpe_loop),
      st0.ndp_len = m * (2 * (opts.dgram_item_len * 2)) → 2 ≤ m →
      pass_nth opts is_crc skb clone_ok n st0 = some st →
      st.ndp_len = (m - n) * (2 * (opts.dgram_item_len * 2)) ∧ n + 2 ≤ m
        ∧ st.dgram_counter = st0.dgram_counter + n
        ∧ st.list.length = st0.list.length + n := by
  intro n
  induction n with
  | zero =>
    intro m st0 st h0 hm h
    simp only [pass_nth, Option.some.injEq] at h
    subst h
    exact ⟨h0, hm, rfl, rfl⟩
  | succ n ih =>
    intro m st0 st h0 hm h
    rw [pass_nth] at h
    rcases unwrap_pass_cases opts is_crc skb clone_ok st0 with
      ⟨e, hp⟩ | hp | hp | hp | ⟨i2, l2, hgt, hp⟩
    · rw [hp] at h; exact Option.noConfusion h
    · rw [hp] at h; exact Option.noConfusion h
    · rw [hp] at h; exact Option.noConfusion h
    · rw [hp] at h; exact Option.noConfusion h
    · rw [hp] at h
      simp only [] at h
      obtain ⟨m', rfl⟩ : ∃ m', m = m' + 1 := ⟨m - 1, by omega⟩
      have hmul := Nat.add_one_mul m' (2 * (opts.dgram_item_len * 2))
      have h1 : st0.ndp_len - 2 * (opts.dgram_item_len * 2)
          = m' * (2 * (opts.dgram_item_len * 2)) := by
        rw [h0]; omega
      have hm' : 2 ≤ m' := by
        rw [h1] at hgt
        by_contra hc
        have hle : m' ≤ 1 := by omega
        have := Nat.mul_le_mul_right (2 * (opts.dgram_item_len * 2)) hle
        omega
      obtain ⟨a, b, c, d⟩ := ih m' _ st h1 hm' h
      refine ⟨?_, by omega, ?_, ?_⟩
      · rw [a]; congr 1; omega
      · rw [c]; simp only []; omega
      · rw [d]; simp only [List.length_append, List.length_singleton]; omega

/-- The list that the DPE loop leaves behind when it returns 0: at most one
datagram for each entry of room but the last. -/
theorem unwrap_loop_count (opts : ndp_parser_opts) (is_crc : Bool) (skb : List Nat)
    (clone_ok : Nat → Bool) :
    ∀ (fuel tmp index dg_len ndp_len cnt m : Nat) (list out : List (List Nat)),
      ndp_len = m * (2 * (opts.dgram_item_len * 2)) → 2 ≤ m →
      unwrap_loop opts is_crc skb clone_ok fuel tmp index dg_len ndp_len cnt list
        = .ok (0, out) →
      ∃ new, out = list ++ new ∧ new.length + 1 ≤ m := by
  intro fuel
  induction fuel with
  | zero =>
    intro _ _ _ _ _ _ _ _ _ _ h
    rw [unwrap_loop] at h
    exact Except.noConfusion h
  | succ fuel ih =>
    intro tmp index dg_len ndp_len cnt m list out h0 hm hx
    rcases unwrap_loop_cases opts is_crc skb clone_ok fuel tmp index dg_len ndp_len cnt list _ hx
      with h | h | h | h | ⟨-, -, i2, l2, -, -, h⟩
    · exact Except.noConfusion h
    · exact Except.noConfusion h.1
    · have h' : (0 : Int) = -EINVAL := congrArg Prod.fst (Except.ok.inj h)
      exact absurd h' (by decide)
    · have h' : (0 : Int) = -EOVERFLOW := congrArg Prod.fst (Except.ok.inj h)
      exact absurd h' (by decide)
    · rcases h with ⟨-, h⟩ | ⟨-, -, hgt, h⟩
      · have h' := congrArg Prod.snd (Except.ok.inj h)
        exact ⟨[dpe_window is_crc skb (index, dg_len)], h', by simp only [List.length_singleton]; omega⟩
      · obtain ⟨m', rfl⟩ : ∃ m', m = m' + 1 := ⟨m - 1, by omega⟩
        have hmul := Nat.add_one_mul m' (2 * (opts.dgram_item_len * 2))
        have h1 : ndp_len - 2 * (opts.dgram_item_len * 2)
            = m' * (2 * (opts.dgram_item_len * 2)) := by
          rw [h0]; omega
        have hm' : 2 ≤ m' := by
          rw [h1] at hgt
          by_contra hc
          have hle : m' ≤ 1 := by omega
          have := Nat.mul_le_mul_right (2 * (opts.dgram_item_len * 2)) hle
          omega
        obtain ⟨new, hn, hl⟩ := ih _ _ _ _ _ m' _ out h1 hm' h.symm
        refine ⟨dpe_window is_crc skb (index, dg_len) :: new, ?_, ?_⟩
        · rw [hn, List.append_assoc]; rfl
        · simp only [List.length_cons]; omega

/-! ## The fit test of `ncm_wrap_ntb` -/

/-- What the first `if` of the frame branch leaves: no NTB pending (none was, or
the pending one has been packaged), or the pending NTB, which has room for
another entry and passes the fit test. -/
theorem wrap_flush_if_full_fit (sz : cdc_sizes) (s : f_ncm) (len : Nat)
    (r : Option (List Nat) × f_ncm) (h : wrap_flush_if_full sz s len = .ok r) :
    (r.2.skb_tx_data = .NULL ∧ (r.2 = s ∨ r.2 = after_package s))
      ∨ (r = (none, s) ∧ ∃ b n, s.skb_tx_data = .live b ∧ s.skb_tx_ndp = .live n
          ∧ s.ndp_dgram_count < TX_MAX_NUM_DPE
          ∧ b.length + ntb_parameters.wNdpInDivisor + ntb_parameters.wNdpInPayloadRemainder
              + len + n.length + ntb_parameters.wNdpInAlignment
              + 2 * (2 * 2 * (s.opts sz).dgram_item_len) ≤ s.fixed_in_len) := by
  unfold wrap_flush_if_full at h
  by_cases h0 : s.skb_tx_data = .NULL
  · rw [if_pos h0] at h
    injection h with h
    subst h
    exact Or.inl ⟨h0, Or.inl rfl⟩
  rw [if_neg h0] at h
  by_cases h1 : s.ndp_dgram_count ≥ TX_MAX_NUM_DPE
  · rw [if_pos h1] at h
    cases hpk : package_for_tx sz s with
    | error e => simp [hpk, bind, Except.bind] at h
    | ok v =>
      simp only [hpk, bind, Except.bind] at h
      injection h with h
      subst h
      have := package_for_tx_state sz s v hpk
      exact Or.inl ⟨by rw [this]; rfl, Or.inr this⟩
  rw [if_neg h1] at h
  cases hb : s.skb_tx_data with
  | NULL => exact absurd hb h0
  | dangling => simp [hb, skb_ptr.deref, bind, Except.bind] at h
  | live b =>
    cases hn : s.skb_tx_ndp with
    | NULL => simp [hb, hn, skb_ptr.deref, bind, Except.bind] at h
    | dangling => simp [hb, hn, skb_ptr.deref, bind, Except.bind] at h
    | live n =>
      simp only [hb, hn, skb_ptr.deref, bind, Except.bind] at h
      by_cases h2 : b.length + ntb_parameters.wNdpInDivisor
          + ntb_parameters.wNdpInPayloadRemainder + len + n.length
          + ntb_parameters.wNdpInAlignment + 2 * (2 * 2 * (s.opts sz).dgram_item_len)
          > s.fixed_in_len
      · rw [if_pos h2] at h
        cases hpk : package_for_tx sz s with
        | error e => simp [hpk, bind, Except.bind] at h
        | ok v =>
          simp only [hpk, bind, Except.bind] at h
          injection h with h
          subst h
          have := package_for_tx_state sz s v hpk
          exact Or.inl ⟨by rw [this]; rfl, Or.inr this⟩
      · rw [if_neg h2] at h
        injection h with h
        exact Or.inr ⟨h.symm, b, n, rfl, rfl, by omega, by omega⟩

/-- The sizes of the two buffers after the rest of the frame branch has added
the datagram `d`: to an NTB it has just opened, or to the pending one. -/
theorem wrap_tail_sizes (sz : cdc_sizes) (t s' : f_ncm) (data_alloc : Bool)
    (ndp_alloc : Option (Nat → Nat)) (d : List Nat) (skb2 out : Option (List Nat))
    (dd nn : List Nat)
    (h : wrap_tail sz t data_alloc ndp_alloc d skb2 = .ok (out, s'))
    (hd : s'.skb_tx_data = .live dd) (hn : s'.skb_tx_ndp = .live nn) :
    out = skb2 ∧ s'.fixed_in_len = t.fixed_in_len ∧ s'.opts sz = t.opts sz
      ∧ ((t.skb_tx_data = .NULL
            ∧ dd.length = ALIGN (t.opts sz).nth_size 4 + d.length
            ∧ nn.length = (t.opts sz).ndp_size + 2 * 2 * (t.opts sz).dgram_item_len)
          ∨ ∃ b n, t.skb_tx_data = .live b ∧ t.skb_tx_ndp = .live n
            ∧ dd.length = ALIGN b.length 4 + d.length
            ∧ nn.length = n.length + 2 * 2 * (t.opts sz).dgram_item_len) := by
  have sizes : ∀ (u : f_ncm) (b n : List Nat), u.opts sz = t.opts sz →
      s' = after_append sz u b n d →
      dd.length = ALIGN b.length 4 + d.length
        ∧ nn.length = n.length + 2 * 2 * (t.opts sz).dgram_item_len := by
    intro u b n hu hs
    rw [hs] at hd hn
    simp only [after_append] at hd hn
    injection hd with hd
    injection hn with hn
    constructor
    · rw [← hd, length_lay_step_fst]
    · rw [← hn]
      simp only [lay_step, List.length_append, length_enc_item, hu]
      omega
  unfold wrap_tail at h
  by_cases h0 : t.skb_tx_data = .NULL
  · cases data_alloc with
    | false =>
      simp only [wrap_open, h0, ite_true, ncm_wrap_ntb_err, skb_ptr.kfree_if_set, bind,
        Except.bind] at h
      cases hk : t.skb_tx_ndp with
      | dangling => rw [hk] at h; exact Except.noConfusion h
      | NULL =>
        rw [hk] at h
        simp only [Except.ok.injEq, Prod.mk.injEq] at h
        rw [← h.2] at hd
        exact skb_ptr.noConfusion hd
      | live k =>
        rw [hk] at h
        simp only [Except.ok.injEq, Prod.mk.injEq] at h
        rw [← h.2] at hd
        exact skb_ptr.noConfusion hd
    | true =>
      cases ndp_alloc with
      | none =>
        simp only [wrap_open, h0, ite_true, Bool.true_eq_false, ite_false, ncm_wrap_ntb_err,
          skb_ptr.kfree_if_set, bind, Except.bind, Except.ok.injEq, Prod.mk.injEq] at h
        rw [← h.2] at hd
        exact skb_ptr.noConfusion hd
      | some mem =>
        rw [wrap_open_idle sz t mem h0] at h
        cases ha : wrap_append sz (opened sz t mem) d with
        | error e => simp [ha, bind, Except.bind] at h
        | ok t1 =>
          simp only [ha, bind, Except.bind, Except.ok.injEq, Prod.mk.injEq] at h
          obtain ⟨b, n, hb, hn2, h3⟩ := wrap_append_inv sz _ _ _ ha
          have hu : (opened sz t mem).opts sz = t.opts sz := opts_congr sz rfl
          rw [h.2] at h3
          obtain ⟨e1, e2⟩ := sizes _ b n hu h3
          have hb' : b = fresh_nth (t.opts sz) := by
            simp only [opened] at hb
            injection hb with hb
            exact hb.symm
          have hn' : n = fresh_ndp (t.opts sz) t.ndp_sign mem := by
            simp only [opened] at hn2
            injection hn2 with hn2
            exact hn2.symm
          refine ⟨h.1.symm, ?_, ?_, Or.inl ⟨h0, ?_, ?_⟩⟩
          · rw [h3]; rfl
          · rw [h3]; exact hu
          · rw [e1, hb', length_fresh_nth, ALIGN_of_mod (ALIGN_mod _)]
          · rw [e2, hn', length_fresh_ndp]
  · have ho : wrap_open sz t data_alloc ndp_alloc = .inl t := by
      simp only [wrap_open, h0, ite_false]
    rw [ho] at h
    cases ha : wrap_append sz t d with
    | error e => simp [ha, bind, Except.bind] at h
    | ok t1 =>
      simp only [ha, bind, Except.bind, Except.ok.injEq, Prod.mk.injEq] at h
      obtain ⟨b, n, hb, hn2, h3⟩ := wrap_append_inv sz _ _ _ ha
      rw [h.2] at h3
      obtain ⟨e1, e2⟩ := sizes t b n rfl h3
      refine ⟨h.1.symm, ?_, ?_, Or.inr ⟨b, n, hb, hn2, e1, e2⟩⟩
      · rw [h3]; rfl
      · rw [h3]; exact opts_congr sz rfl

/-- The length of the NTB that `package_for_tx` returns: the `new_len` that it
writes into the block-length field. -/
theorem package_for_tx_length (sz : cdc_sizes) (s t : f_ncm) (dd nn ntb : List Nat)
    (hd : s.skb_tx_data = .live dd) (hn : s.skb_tx_ndp = .live nn)
    (h : package_for_tx sz s = .ok (ntb, t)) :
    ntb.length = ALIGN dd.length ntb_parameters.wNdpInAlignment
      + 2 * 2 * (s.opts sz).dgram_item_len + nn.length := by
  cases hp : s.parser_opts with
  | ndp32 => exact absurd h (package_for_tx_ndp32 sz hp _)
  | ndp16 =>
    rw [package_for_tx_ndp16 sz hp hd hn] at h
    simp only [Except.ok.injEq, Prod.mk.injEq] at h
    rw [← h.1, length_packaged sz hp, item_ndp16 sz hp]
    simp only [ntb_parameters]
    omega

/-! ## The notification request: in its slot or with the endpoint -/

/-- What `ncm_do_notify` does with the request: without it, nothing; with it,
either nothing is queued and the request stays in (or comes back to) its slot,
or `usb_ep_queue` has taken it and the slot is empty. -/
theorem ncm_do_notify_req (t : f_ncm) (high_speed : Bool) (q : Int) :
    (t.notify_req = false →
        ncm_do_notify t high_speed q = (t, none))
      ∧ (t.notify_req = true →
        ((ncm_do_notify t high_speed q).2 = none
            ∧ (ncm_do_notify t high_speed q).1.notify_req = true)
          ∨ (∃ event, (ncm_do_notify t high_speed q).2 = some event
            ∧ (ncm_do_notify t high_speed q).1.notify_req = false ∧ 0 ≤ q))
      ∧ (t.notify_req = true → q < 0 →
        (ncm_do_notify t high_speed q).2 = none
          ∧ (ncm_do_notify t high_speed q).1.notify_req = true) := by
  have main : t.notify_req = true →
      ((ncm_do_notify t high_speed q).2 = none
          ∧ (ncm_do_notify t high_speed q).1.notify_req = true)
        ∨ (¬ q < 0 ∧ ∃ event, (ncm_do_notify t high_speed q).2 = some event
          ∧ (ncm_do_notify t high_speed q).1.notify_req = false) := by
    intro hr
    have hr' : ¬ t.notify_req = false := by rw [hr]; decide
    cases hs : t.notify_state with
    | NCM_NOTIFY_NONE =>
      left
      have h : ncm_do_notify t high_speed q = (t, none) := by
        unfold ncm_do_notify
        rw [if_neg hr', hs]
      rw [h]
      exact ⟨rfl, hr⟩
    | NCM_NOTIFY_CONNECT =>
      by_cases hq : q < 0
      · left
        have h : ncm_do_notify t high_speed q
            = ({ t with notify_state := .NCM_NOTIFY_NONE, notify_req := true }, none) := by
          unfold ncm_do_notify
          rw [if_neg hr', hs]
          dsimp only
          rw [if_pos hq]
        rw [h]
        exact ⟨rfl, rfl⟩
      · right
        have h : ∃ event, ncm_do_notify t high_speed q
            = ({ t with notify_state := .NCM_NOTIFY_NONE, notify_req := false }, some event) := by
          unfold ncm_do_notify
          rw [if_neg hr', hs]
          dsimp only
          rw [if_neg hq]
          exact ⟨_, rfl⟩
        obtain ⟨event, h⟩ := h
        rw [h]
        exact ⟨hq, event, rfl, rfl⟩
    | NCM_NOTIFY_SPEED =>
      by_cases hq : q < 0
      · left
        have h : ncm_do_notify t high_speed q
            = ({ t with notify_state := .NCM_NOTIFY_CONNECT, notify_req := true }, none) := by
          unfold ncm_do_notify
          rw [if_neg hr', hs]
          dsimp only
          rw [if_pos hq]
        rw [h]
        exact ⟨rfl, rfl⟩
      · right
        have h : ∃ event, ncm_do_notify t high_speed q
            = ({ t with notify_state := .NCM_NOTIFY_CONNECT, notify_req := false },
                some event) := by
          unfold ncm_do_notify
          rw [if_neg hr', hs]
          dsimp only
          rw [if_neg hq]
          exact ⟨_, rfl⟩
        obtain ⟨event, h⟩ := h
        rw [h]
        exact ⟨hq, event, rfl, rfl⟩
  refine ⟨?_, ?_, ?_⟩
  · intro hr
    unfold ncm_do_notify
    rw [if_pos hr]
  · intro hr
    rcases main hr with h | ⟨hq, event, h1, h2⟩
    · exact Or.inl h
    · exact Or.inr ⟨event, h1, h2, by omega⟩
  · intro hr hq
    rcases main hr with h | ⟨hq', -⟩
    · exact h
    · exact absurd hq hq'

/-- The slot and the endpoint after one entry into the engine: with `n` requests
held by the endpoint before, `n` being 1 exactly when the slot is empty, the
same holds afterwards. -/
theorem notify_step_flight (high_speed : Bool) (s : f_ncm) (e : notify_event) (n : Nat)
    (hn : n ≤ 1) (hinv : s.notify_req = false ↔ n = 1) :
    (∀ q, e = .notify q ∨ e = .opened q ∨ e = .closed q →
        n + (notify_step high_speed s e).2.toList.length ≤ 1
          ∧ ((notify_step high_speed s e).1.notify_req = false
              ↔ n + (notify_step high_speed s e).2.toList.length = 1))
      ∧ (∀ status q, e = .completed status q → n ≠ 0 →
        n - 1 + (notify_step high_speed s e).2.toList.length ≤ 1
          ∧ ((notify_step high_speed s e).1.notify_req = false
              ↔ n - 1 + (notify_step high_speed s e).2.toList.length = 1)) := by
  have call : ∀ (t : f_ncm) (q : Int), t.notify_req = s.notify_req →
      n + (ncm_do_notify t high_speed q).2.toList.length ≤ 1
        ∧ ((ncm_do_notify t high_speed q).1.notify_req = false
            ↔ n + (ncm_do_notify t high_speed q).2.toList.length = 1) := by
    intro t q ht
    obtain ⟨f1, f2, -⟩ := ncm_do_notify_req t high_speed q
    cases hr : s.notify_req with
    | false =>
      have h1 : n = 1 := hinv.mp hr
      rw [f1 (ht.trans hr)]
      simp only [Option.toList, List.length_nil]
      exact ⟨by omega, ⟨fun _ => by omega, fun _ => ht.trans hr⟩⟩
    | true =>
      have h0 : n = 0 := by
        have : ¬ n = 1 := fun h => by
          have := hinv.mpr h
          rw [hr] at this
          exact Bool.noConfusion this
        omega
      rcases f2 (ht.trans hr) with ⟨g1, g2⟩ | ⟨event, g1, g2, -⟩
      · rw [g1, g2]
        simp only [Option.toList, List.length_nil]
        exact ⟨by omega, ⟨fun h => Bool.noConfusion h, fun h => by omega⟩⟩
      · rw [g1, g2]
        simp only [Option.toList, List.length_singleton]
        exact ⟨by omega, ⟨fun _ => by omega, fun _ => trivial⟩⟩
  constructor
  · intro q he
    rcases he with rfl | rfl | rfl
    · exact call { s with notify_state := .NCM_NOTIFY_SPEED } q rfl
    · exact call { ({ s with is_open := true } : f_ncm) with notify_state := .NCM_NOTIFY_SPEED }
        q rfl
    · exact call { ({ s with is_open := false } : f_ncm) with notify_state := .NCM_NOTIFY_SPEED }
        q rfl
  · intro status q he h0
    subst he
    have h1 : n = 1 := by omega
    have back : ∀ t : f_ncm,
        n - 1 + (ncm_do_notify { t with notify_req := true } high_speed q).2.toList.length ≤ 1
          ∧ ((ncm_do_notify { t with notify_req := true } high_speed q).1.notify_req = false
              ↔ n - 1
                + (ncm_do_notify { t with notify_req := true } high_speed q).2.toList.length
                  = 1) := by
      intro t
      obtain ⟨-, f2, -⟩ := ncm_do_notify_req { t with notify_req := true } high_speed q
      rcases f2 rfl with ⟨g1, g2⟩ | ⟨event, g1, g2, -⟩
      · rw [g1, g2]
        simp only [Option.toList, List.length_nil]
        exact ⟨by omega, ⟨fun h => Bool.noConfusion h, fun h => by omega⟩⟩
      · rw [g1, g2]
        simp only [Option.toList, List.length_singleton]
        exact ⟨by omega, ⟨fun _ => by omega, fun _ => trivial⟩⟩
    simp only [notify_step, ncm_notify_complete]
    by_cases c0 : status = 0
    · rw [if_pos c0]; exact back s
    · rw [if_neg c0]
      by_cases c1 : status = -ECONNRESET ∨ status = -ESHUTDOWN
      · rw [if_pos c1]; exact back { s with notify_state := .NCM_NOTIFY_NONE }
      · rw [if_neg c1]; exact back s

/-- In every run of the engine the endpoint holds at most one notification
request, and it holds one exactly when the slot `notify_req` is empty. -/
theorem notify_flight_single (high_speed : Bool) (evs : List notify_event) :
    ∀ (s t : f_ncm) (n k : Nat), n ≤ 1 → (s.notify_req = false ↔ n = 1) →
      notify_flight high_speed s n evs = some (t, k) →
      k ≤ 1 ∧ (t.notify_req = false ↔ k = 1) := by
  induction evs with
  | nil =>
    intro s t n k hn hinv h
    simp only [notify_flight, Option.some.injEq, Prod.mk.injEq] at h
    rw [← h.1, ← h.2]
    exact ⟨hn, hinv⟩
  | cons e es ih =>
    intro s t n k hn hinv h
    obtain ⟨f1, f2⟩ := notify_step_flight high_speed s e n hn hinv
    cases e with
    | notify q =>
      simp only [notify_flight] at h
      obtain ⟨a, b⟩ := f1 q (Or.inl rfl)
      exact ih _ _ _ _ a b h
    | opened q =>
      simp only [notify_flight] at h
      obtain ⟨a, b⟩ := f1 q (Or.inr (Or.inl rfl))
      exact ih _ _ _ _ a b h
    | closed q =>
      simp only [notify_flight] at h
      obtain ⟨a, b⟩ := f1 q (Or.inr (Or.inr rfl))
      exact ih _ _ _ _ a b h
    | completed status q =>
      simp only [notify_flight] at h
      by_cases h0 : n = 0
      · rw [if_pos h0] at h
        exact Option.noConfusion h
      · rw [if_neg h0] at h
        obtain ⟨a, b⟩ := f2 status q rfl h0
        exact ih _ _ _ _ a b h

/-! ## Entries that change the settings leave the transmit buffers alone -/

/-- Header back-patching in an NTB16 session (the working half of C5): for the
pending NTB that holds the datagrams `ds`, `package_for_tx` returns a buffer
whose wBlockLength field is its length, whose wNdpIndex field is the body length
rounded up to a multiple of 4, both modulo 2^16, and whose NDP with its
terminator is exactly the tail of the buffer. -/
theorem package_for_tx_ntb16_backpatch (sz : cdc_sizes) (s : f_ncm) (mem : Nat → Nat)
    (ds : List (List Nat)) (hp : s.parser_opts = .ndp16) (h9 : 9 ≤ sz.nth16)
    (h6 : 6 ≤ sz.ndp16) (hr : tx_repr sz s (.pending mem ds)) :
    ∃ ntb body,
      s.skb_tx_data = .live body
        ∧ package_for_tx sz s = .ok (ntb, after_package s)
        ∧ nth_block_length (s.opts sz) ntb = .ok (ntb.length % 65536)
        ∧ nth_ndp_index (s.opts sz) ntb = .ok (ALIGN body.length 4 % 65536)
        ∧ ndp_wLength ntb (ALIGN body.length 4)
          = .ok (((s.opts sz).ndp_size + (ds.length + 1) * 4) % 65536)
        ∧ ALIGN body.length 4 + ((s.opts sz).ndp_size + (ds.length + 1) * 4) = ntb.length := by
  obtain ⟨-, -, hb, hn, hc⟩ := hr
  refine ⟨ntb_of sz s (mem, ds), (pending_bufs sz s mem ds).1, hb, ?_,
    (ntb_of_nth_fields sz hp h9 mem ds).1, (ntb_of_nth_fields sz hp h9 mem ds).2, ?_, ?_⟩
  · rw [package_for_tx_ndp16 sz hp hb hn, hc]; rfl
  · rw [ndp_size_ndp16 sz hp]; exact ntb_of_wLength sz hp h6 mem ds
  · rw [ndp_size_ndp16 sz hp, length_ntb_of sz hp, ndp_offset]; omega

/-- Egress order and conservation in an NTB16 session (the working half of C7):
for every run of `ncm_wrap_ntb` calls and flushes without allocation failure,
started with nothing pending and ended by a timer flush, the datagrams located
by the DPEs of the returned NTBs, in the order of the NTBs and of their DPEs, are
the submitted frames in the order of submission, each with its CRC in CRC mode.
Every NTB is shorter than 2^16 bytes. -/
theorem egress_ntb16_in_order (sz : cdc_sizes) (s s' : f_ncm) (evs : List tx_event)
    (outs : List (List Nat)) (hp : s.parser_opts = .ndp16) (h9 : 9 ≤ sz.nth16)
    (h6 : 6 ≤ sz.ndp16) (hidle : s.skb_tx_data = .NULL ∧ s.skb_tx_ndp = .NULL)
    (hst : s.timer_stopping = false) (hna : tx_no_alloc_failure evs)
    (h : tx_run sz s (evs ++ [.tasklet]) = .ok (outs, s'))
    (hsmall : ∀ ntb ∈ outs, ntb.length < 65536) :
    ntbs_dgrams (s.opts sz) outs = .ok ((tx_frames evs).map (with_crc s.is_crc)) := by
  obtain ⟨o1, t1, o2, r1, r2, -⟩ := tx_run_snoc_inv sz s s' evs .tasklet outs h
  obtain ⟨-, -, -, -, -, q1, -⟩ :=
    tx_run_conserves sz s hp evs s t1 .idle o1 rfl hidle tx_abs.noConfusion hna r1
  have hnull : s'.skb_tx_data = .NULL :=
    tasklet_leaves_nothing sz t1 s' o2 ((tx_settings_stopping q1).trans hst) r2
  obtain ⟨groups, a', g1, g2, -, -, g5⟩ :=
    tx_run_conserves sz s hp (evs ++ [.tasklet]) s s' .idle outs rfl hidle tx_abs.noConfusion
      ((tx_no_alloc_failure_append evs [.tasklet]).mpr
        ⟨hna, (trivial : tx_no_alloc_failure [.tasklet])⟩) h
  rw [abs_pend_of_null sz s' a' g2 hnull, List.append_nil, tx_frames_append] at g5
  simp only [abs_pend, tx_frames, List.append_nil, List.nil_append] at g5
  rw [g1] at hsmall ⊢
  rw [ntbs_dgrams_of_groups sz hp h9 h6 groups hsmall, g5]

/-- A frame of at least 14 bytes, as the transmit path emits it, passes the
per-datagram checks of `ncm_unwrap_ntb`, which gives the frame back. -/
theorem with_crc_roundtrip (is_crc : Bool) (f : List Nat) (h : 14 ≤ f.length) :
    dgram_ok is_crc (with_crc is_crc f) ∧ strip_crc is_crc (with_crc is_crc f) = f := by
  cases is_crc with
  | false =>
    refine ⟨⟨by simpa [with_crc] using h, fun hc => Bool.noConfusion hc⟩, ?_⟩
    simp [strip_crc, with_crc]
  | true =>
    have hl : (with_crc true f).length = f.length + 4 := by
      simp [with_crc, length_put_unaligned_le32]
    have e : with_crc true f = f ++ put_unaligned_le32 (dgram_crc f) := by simp [with_crc]
    refine ⟨⟨by rw [hl]; simp only [ite_true]; omega, fun _ => ?_⟩, ?_⟩
    · rw [hl, Nat.add_sub_cancel, e, List.drop_left, List.take_left, le_value_le32,
        Nat.mod_eq_of_lt (dgram_crc_lt f)]
    · unfold strip_crc
      rw [hl]
      simp only [ite_true, Nat.add_sub_cancel]
      rw [e, List.take_left]

/-- Round trip in an NTB16 session (the working half of C1): when a run of
`ncm_wrap_ntb` calls and flushes without allocation failure, started with
nothing pending and ended by a timer flush, hands back exactly one NTB of at
most `NTB_OUT_SIZE` bytes, and every submitted frame has at least 14 bytes, then
`ncm_unwrap_ntb` of the same session on that NTB, every `skb_clone` succeeding,
returns 0 and queues exactly the submitted frames in the order of submission.
The session walks 8-byte NDP headers, and the CRC bit of the signature it writes
is the one it expects. -/
theorem roundtrip_ntb16 (sz : cdc_sizes) (s s' : f_ncm) (evs : List tx_event) (ntb : List Nat)
    (list : List (List Nat)) (hp : s.parser_opts = .ndp16) (h9 : 9 ≤ sz.nth16)
    (hnth : sz.nth16 < 65536) (hndp : sz.ndp16 = 8)
    (hsign : s.ndp_sign = s.ndp16_sign) (hs32 : s.ndp16_sign < 4294967296)
    (hidle : s.skb_tx_data = .NULL ∧ s.skb_tx_ndp = .NULL)
    (hst : s.timer_stopping = false) (hna : tx_no_alloc_failure evs)
    (hne : tx_frames evs ≠ []) (hframes : ∀ f ∈ tx_frames evs, 14 ≤ f.length)
    (h : tx_run sz s (evs ++ [.tasklet]) = .ok ([ntb], s'))
    (hlen : ntb.length ≤ NTB_OUT_SIZE) :
    ncm_unwrap_ntb sz s' (fun _ => true) ntb list = .ok (0, list ++ tx_frames evs) := by
  obtain ⟨o1, t1, o2, r1, r2, -⟩ := tx_run_snoc_inv sz s s' evs .tasklet [ntb] h
  obtain ⟨-, -, -, -, -, q1, -⟩ :=
    tx_run_conserves sz s hp evs s t1 .idle o1 rfl hidle tx_abs.noConfusion hna r1
  have hnull : s'.skb_tx_data = .NULL :=
    tasklet_leaves_nothing sz t1 s' o2 ((tx_settings_stopping q1).trans hst) r2
  obtain ⟨groups, a', g1, g2, -, g4, g5⟩ :=
    tx_run_conserves sz s hp (evs ++ [.tasklet]) s s' .idle [ntb] rfl hidle tx_abs.noConfusion
      ((tx_no_alloc_failure_append evs [.tasklet]).mpr
        ⟨hna, (trivial : tx_no_alloc_failure [.tasklet])⟩) h
  rw [abs_pend_of_null sz s' a' g2 hnull, List.append_nil, tx_frames_append] at g5
  simp only [abs_pend, tx_frames, List.append_nil, List.nil_append] at g5
  match groups, g1, g5 with
  | [], g1, _ => exact absurd g1 (List.cons_ne_nil _ _)
  | _ :: _ :: _, g1, _ => simp at g1
  | [(mem, ds)], g1, g5 =>
    simp only [List.map_cons, List.map_nil, List.cons.injEq, and_true, List.flatten_cons,
      List.flatten_nil, List.append_nil] at g1 g5
    subst g1
    subst g5
    rw [ncm_unwrap_ntb_congr sz g4,
      unwrap_ntb_of sz hp h9 hnth hndp hsign hs32 mem _
        (by simpa using hne) hlen (fun _ => true) (fun _ => rfl)
        (by
          intro d hd
          obtain ⟨f, hf, rfl⟩ := List.mem_map.mp hd
          exact (with_crc_roundtrip s.is_crc f (hframes f hf)).1)]
    have hm : (List.map (with_crc s.is_crc) (tx_frames evs)).map (strip_crc s.is_crc)
        = tx_frames evs := by
      rw [List.map_map]
      conv_rhs => rw [← List.map_id (tx_frames evs)]
      apply List.map_congr_left
      intro f hf
      exact (with_crc_roundtrip s.is_crc f (hframes f hf)).2
    rw [hm]

/-- The round trip at a sample: the default session wraps one 64-byte frame, the
timer flushes, and `ncm_unwrap_ntb` of the resulting session queues that frame. -/
theorem roundtrip_ntb16_sample :
    ncm_unwrap_ntb packed_sizes single_frame_after (fun _ => true) single_frame_ntb []
      = .ok (0, [sample_frame 64 0]) :=
  roundtrip_ntb16 packed_sizes default_session single_frame_after single_frame_events.dropLast
    single_frame_ntb [] rfl (by decide) (by decide) rfl rfl (by decide) ⟨rfl, rfl⟩ rfl
    ⟨rfl, rfl, trivial⟩ (by decide) (by decide) rfl (by decide)

/-! ## What the NDP checks of `ncm_unwrap_ntb` do reject -/

/-- The NDP checks of `ncm_unwrap_ntb` (the parts of C11 and C12 that hold): on
a buffer whose NdpIndex, NDP signature, wLength and first DPE lie in it,
`ncm_unwrap_ntb` returns `-EINVAL` with the list empty whenever NdpIndex is
misaligned and below `nth_size`, or the signature at NdpIndex differs from the
`ndp_sign` of the current parser table, or wLength is below `ndp_size` plus two
entries, or wLength is not a multiple of `ndplen_align`. -/
theorem unwrap_rejects_bad_ndp (sz : cdc_sizes) (s : f_ncm) (clone_ok : Nat → Bool)
    (skb : List Nat) (list : List (List Nat)) (ndp sig wLength : Nat) (e : Nat × Nat)
    (hndp : nth_ndp_index (s.opts sz) skb = .ok ndp)
    (hsig : get_unaligned_le32 skb ndp = .ok sig)
    (hwl : ndp_wLength skb ndp = .ok wLength)
    (hd : rx_dpe (s.opts sz) skb ndp 0 = .ok e)
    (h : (ndp % 4 ≠ 0 ∧ ndp < (s.opts sz).nth_size) ∨ sig ≠ (s.opts sz).ndp_sign
      ∨ wLength < (s.opts sz).ndp_size + 2 * (2 * ((s.opts sz).dgram_item_len * 2))
      ∨ wLength % (s.opts sz).ndplen_align ≠ 0) :
    ncm_unwrap_ntb sz s clone_ok skb list = .ok (-EINVAL, []) := by
  rcases unwrap_cases sz s clone_ok skb list _ rfl with
    h' | h' | ⟨ndp', wl', i0, l0, h1, h2, -, h4, ⟨h5, h6, h7⟩, -⟩
  · exact absurd hd (fun h0 => h'.2 ndp wLength e hndp hwl h0)
  · exact h'
  · exfalso
    rw [hndp] at h1
    injection h1 with h1
    subst h1
    rw [hwl] at h2
    injection h2 with h2
    subst h2
    rw [hsig] at h6
    injection h6 with h6
    rcases h with h | h | h | h
    · exact h7 h
    · exact h h6
    · omega
    · exact h h5

/-! ## The flush without a frame and the failed body allocation, where they work -/

/-- Flush without a frame (the part of C27 that holds): `ncm_wrap_ntb` with no
frame returns nothing and leaves the session as it is when no NTB is pending,
and when an NTB is pending but the `timer_force_tx` latch is not set; with the
latch set, in an NTB16 session that holds the datagrams `ds`, it returns their
NTB, and afterwards `skb_tx_data` and `skb_tx_ndp` are NULL and
`ndp_dgram_count` is 0. -/
theorem wrap_null_ntb16 (sz : cdc_sizes) (s : f_ncm) (data_alloc : Bool)
    (ndp_alloc : Option (Nat → Nat)) :
    (s.skb_tx_data = .NULL → ncm_wrap_ntb sz s data_alloc ndp_alloc none = .ok (none, s))
      ∧ (s.timer_force_tx = false → ncm_wrap_ntb sz s data_alloc ndp_alloc none = .ok (none, s))
      ∧ (∀ mem ds, s.parser_opts = .ndp16 → tx_repr sz s (.pending mem ds) →
          s.timer_force_tx = true →
          ∃ s', ncm_wrap_ntb sz s data_alloc ndp_alloc none = .ok (some (ntb_of sz s (mem, ds)), s')
            ∧ s'.skb_tx_data = .NULL ∧ s'.skb_tx_ndp = .NULL ∧ s'.ndp_dgram_count = 0) := by
  refine ⟨?_, ?_, ?_⟩
  · intro h
    rw [ncm_wrap_ntb_null, if_pos h]
  · intro h
    rw [ncm_wrap_ntb_null]
    by_cases hd : s.skb_tx_data = .NULL
    · rw [if_pos hd]
    · rw [if_neg hd, if_neg (by rw [h]; decide)]
  · intro mem ds hp hr hf
    obtain ⟨-, -, hb, hn, hc⟩ := hr
    refine ⟨after_package s, ?_, rfl, rfl, rfl⟩
    rw [wrap_null_live sz data_alloc ndp_alloc hp hb hn hf, hc]
    rfl

/-- A failed allocation of the body buffer (the part of C28 that holds): when
`ncm_wrap_ntb` gets a frame while nothing is pending and the first `alloc_skb`
fails, it returns nothing, counts one dropped frame and leaves both buffers
NULL. -/
theorem wrap_body_alloc_failure (sz : cdc_sizes) (s : f_ncm) (ndp_alloc : Option (Nat → Nat))
    (f : List Nat) (hd : s.skb_tx_data = .NULL) (hn : s.skb_tx_ndp = .NULL) :
    ncm_wrap_ntb sz s false ndp_alloc (some f)
      = .ok (none, { s with tx_dropped := s.tx_dropped + 1 }) := by
  rw [ncm_wrap_ntb_frame]
  have h1 : wrap_flush_if_full sz s (with_crc s.is_crc f).length = .ok (none, s) := by
    unfold wrap_flush_if_full
    simp only [hd, ite_true]
  rw [h1]
  simp only [Except.bind, wrap_tail, wrap_open, hd, ite_true, ncm_wrap_ntb_err, hn,
    skb_ptr.kfree_if_set, bind]

/-- What holds of the two orders of SET_NTB_FORMAT and SET_CRC_MODE: the parser
and the CRC mode agree, and the whole session agrees when the format request
selects the parser that is current already. -/
theorem format_crc_commute_settings (s : f_ncm) (hid : s.ctrl_id < 65536) (a b : Nat)
    (ha : a = 0 ∨ a = 1) (hb : b = 0 ∨ b = 1) :
    (format_then_crc s a b).parser_opts = (crc_then_format s a b).parser_opts
      ∧ (format_then_crc s a b).is_crc = (crc_then_format s a b).is_crc
      ∧ ((if a = 0 then parser_sel.ndp16 else parser_sel.ndp32) = s.parser_opts →
          format_then_crc s a b = crc_then_format s a b) := by
  rcases ha with rfl | rfl <;> rcases hb with rfl | rfl <;> cases hp : s.parser_opts <;>
    simp [format_then_crc, crc_then_format, after_set, class_request, ncm_setup,
      Nat.mod_eq_of_lt hid, setup_respond, hp]

/-! ## The claims -/

/-- C1 (round trip), where it fails: in a session that the host has switched to
NTB32 with SET_NTB_FORMAT(1), wrapping any frame and finalizing it with the
timer-forced flush does not produce an NTB to unwrap: `package_for_tx` calls
`put_ncm` with the width `ndp_index`, which `INIT_NDP32_OPTS` leaves zero, and
hits `BUG()`. -/
theorem roundtrip_ntb32_hits_bug (sz : cdc_sizes) (mem : Nat → Nat) (f : List Nat) :
    tx_run sz ntb32_session [.wrap true (some mem) (some f), .tasklet] = .error .BUG := by
  obtain ⟨s1, h1, h2, h3⟩ :=
    wrap_frame_idle sz ntb32_session true (some mem) f rfl rfl
  have hst : s1.timer_stopping = false := by
    have : tx_settings s1 = tx_settings ntb32_session := h3
    simp only [tx_settings, Prod.mk.injEq] at this
    exact this.2.2.2.2.2.2
  have hp1 : s1.parser_opts = .ndp32 := parser_of_settings h3
  simp only [abs_open, Bool.true_eq_false, ite_false, tx_repr] at h2
  obtain ⟨-, -, hb, hn, -⟩ := h2
  have hnn : s1.skb_tx_data ≠ .NULL := by rw [hb]; exact skb_ptr.noConfusion
  have hpk : package_for_tx sz { s1 with timer_force_tx := true } = .error .BUG :=
    package_for_tx_ndp32_live sz (s := { s1 with timer_force_tx := true }) hp1 hb hn
  have htask : ncm_tx_tasklet sz s1 = .error .BUG := by
    unfold ncm_tx_tasklet
    rw [if_neg (by rw [hst]; exact Bool.noConfusion), if_neg hnn, ncm_wrap_ntb_null,
      if_neg (show ({ s1 with timer_force_tx := true } : f_ncm).skb_tx_data ≠ .NULL from hnn),
      if_pos rfl, hpk]
    rfl
  simp only [tx_run, tx_step, h1, htask, bind, Except.bind]

/-- C5 (header back-patching), where it fails: for every pending NTB of an NTB32
session `package_for_tx` does not return a buffer; it hits the `BUG()` of
`put_ncm`, called with the width `ndp_index` that `INIT_NDP32_OPTS` leaves zero. -/
theorem package_for_tx_ntb32_hits_bug (sz : cdc_sizes) (s : f_ncm) (b n : List Nat)
    (hp : s.parser_opts = .ndp32) (hb : s.skb_tx_data = .live b)
    (hn : s.skb_tx_ndp = .live n) : package_for_tx sz s = .error .BUG :=
  package_for_tx_ndp32_live sz hp hb hn

theorem package_for_tx_ntb32_hits_bug_witness :
    ntb32_pending.parser_opts = .ndp32
      ∧ package_for_tx packed_sizes ntb32_pending = .error .BUG :=
  ⟨rfl, package_for_tx_ntb32_hits_bug packed_sizes ntb32_pending _ _ rfl rfl rfl⟩

/-- C7 (egress order and conservation), where it fails: in the NTB32 session two
submitted frames followed by the timer-forced flush come out in no NTB; the
flush ends in the `BUG()` of `put_ncm` and both frames are lost. -/
theorem egress_ntb32_loses_frames :
    tx_run packed_sizes ntb32_session
        (submit zero_mem [sample_frame 14 1, sample_frame 20 100] ++ [.tasklet])
      = .error .BUG := by
  rfl

/-- C9 (NTB32 selection), where it fails: once SET_NTB_FORMAT(1) has selected the
NTB32 table, no call of `ncm_wrap_ntb` and no timer-forced flush ever hands back
an NTB: every path to `package_for_tx` ends in `BUG()`, so a run that returns has
returned nothing. -/
theorem ntb32_session_never_emits (sz : cdc_sizes) (s s' : f_ncm) (evs : List tx_event)
    (outs : List (List Nat)) (hp : s.parser_opts = .ndp32)
    (h : tx_run sz s evs = .ok (outs, s')) : outs = [] :=
  tx_run_ndp32 sz evs s s' outs hp h

theorem ntb32_session_never_emits_witness :
    (ncm_setup default_session
        { request := .SET_NTB_FORMAT, wValue := 1, wIndex := 0, wLength := 0 } 0).value = 0
      ∧ ntb32_session.parser_opts = .ndp32
      ∧ ∃ s', tx_run packed_sizes ntb32_session (submit zero_mem [sample_frame 100 0])
          = .ok ([], s')
        ∧ ([] : List (List Nat)) = [] :=
  ⟨rfl, rfl, _, rfl,
    ntb32_session_never_emits packed_sizes ntb32_session _
      (submit zero_mem [sample_frame 100 0]) [] rfl rfl⟩

/-- C2 (size limit) as the claim states it fails: in the default session
(`fixed_in_len` 4096) one frame of 4069 bytes, finalized by the timer flush,
comes back as an NTB of 4100 bytes.  The first frame of an NTB is added without
any size test. -/
theorem size_limit_counterexample :
    ∃ ntb s', tx_run packed_sizes default_session
          (submit zero_mem [List.replicate 4069 0] ++ [.tasklet]) = .ok ([ntb], s')
      ∧ s'.fixed_in_len = default_session.fixed_in_len
      ∧ default_session.fixed_in_len < ntb.length := by
  obtain ⟨s', h, hs⟩ := single_frame_flush packed_sizes default_session zero_mem
    (List.replicate 4069 0) rfl ⟨rfl, rfl⟩ rfl
  refine ⟨_, s', h, fixed_in_len_of_settings hs, ?_⟩
  have hp : default_session.parser_opts = .ndp16 := rfl
  rw [length_ntb_of packed_sizes hp, ndp_offset, length_pending_body_single,
    nth_size_ndp16 packed_sizes hp]
  have hc : default_session.is_crc = false := rfl
  have e : (with_crc default_session.is_crc (List.replicate 4069 0)).length = 4069 := by
    rw [with_crc, if_neg (by rw [hc]; exact Bool.noConfusion), List.length_replicate]
  rw [e]
  decide

/-- C2 (size limit), amended: when every frame of a run is, with its CRC, at most
`fixed_in_len - nth_size - ndp_size - 2 * (bytes per DPE) - 3` bytes long, every
NTB that the run hands back is at most `fixed_in_len` bytes long.  The run starts
with no NTB pending and `nth_size` is a multiple of 4. -/
theorem emitted_ntb_size_limit (sz : cdc_sizes) (s s' : f_ncm) (evs : List tx_event)
    (outs : List (List Nat)) (ntb : List Nat)
    (hnth : (s.opts sz).nth_size % 4 = 0)
    (hidle : s.skb_tx_data = .NULL ∧ s.skb_tx_ndp = .NULL)
    (hfr : ∀ f ∈ tx_frames evs,
      (with_crc s.is_crc f).length + (s.opts sz).nth_size + (s.opts sz).ndp_size
        + 2 * (2 * 2 * (s.opts sz).dgram_item_len) + 3 ≤ s.fixed_in_len)
    (h : tx_run sz s evs = .ok (outs, s')) (hmem : ntb ∈ outs) :
    ntb.length ≤ s.fixed_in_len := by
  cases hp : s.parser_opts with
  | ndp32 =>
    have := tx_run_ndp32 sz evs s s' outs hp h
    rw [this] at hmem
    cases hmem
  | ndp16 =>
    have hitem := item_ndp16 sz hp
    have hndp := ndp_size_ndp16 sz hp
    have key := tx_run_emitted sz
      (fun g => ALIGN (pending_bufs sz s g.1 g.2).1.length 4
          + (pending_bufs sz s g.1 g.2).2.length + 4 ≤ s.fixed_in_len)
      s hp evs s s' .idle outs rfl hidle trivial
      (by
        intro u b ev hu hev hb
        cases hnew : (abs_step sz u b ev).2 with
        | idle => trivial
        | poisoned => trivial
        | pending mem ds =>
          have hcrc : u.is_crc = s.is_crc := is_crc_of_settings hu
          rcases abs_step_pending sz u b ev mem ds hnew with h1 | ⟨da, na, f, hf, h2⟩
          · subst h1; exact hb
          · subst hf
            have hfb := hfr f (mem_tx_frames hev)
            rw [hitem, hndp] at hfb
            rcases h2 with h2 | ⟨ds0, hb0, h2, hm⟩
            · show ALIGN (pending_bufs sz s mem ds).1.length 4
                + (pending_bufs sz s mem ds).2.length + 4 ≤ s.fixed_in_len
              rw [h2, hcrc, length_pending_body_single, length_pending_ndp sz hp,
                ALIGN_of_mod hnth]
              have := ALIGN_lt ((s.opts sz).nth_size + (with_crc s.is_crc f).length)
              simp only [List.length_singleton]
              omega
            · subst hb0
              show ALIGN (pending_bufs sz s mem ds).1.length 4
                + (pending_bufs sz s mem ds).2.length + 4 ≤ s.fixed_in_len
              simp only [must_flush, not_or, not_lt, pending_bufs_congr sz hu,
                opts_congr sz hu, fixed_in_len_of_settings hu, hcrc, hitem] at hm
              rw [h2, hcrc, length_pending_body_snoc, length_pending_ndp sz hp]
              have h3 := length_pending_ndp sz hp mem ds0
              have h4 := ALIGN_lt (pending_bufs sz s mem ds0).1.length
              have h5 := ALIGN_lt (ALIGN (pending_bufs sz s mem ds0).1.length 4
                + (with_crc s.is_crc f).length)
              simp only [List.length_append, List.length_singleton]
              omega) h
    obtain ⟨g, hq, -, -, hntb⟩ := key.2.2 ntb hmem
    rw [hntb, ntb_of, length_packaged sz hp]
    exact hq

theorem emitted_ntb_size_limit_witness :
    single_frame_ntb.length = 92
      ∧ single_frame_ntb.length ≤ default_session.fixed_in_len :=
  ⟨by decide,
    emitted_ntb_size_limit packed_sizes default_session single_frame_after single_frame_events
      [single_frame_ntb] single_frame_ntb (by decide) ⟨rfl, rfl⟩ (by decide) rfl
      (List.mem_singleton.mpr rfl)⟩

theorem frames_33_small (f : List Nat) (hf : f ∈ frames_33) :
    (with_crc default_session.is_crc f).length ≤ 64 := by
  have := List.eq_of_mem_replicate hf
  subst this
  decide

/-- C6 (32-entry cap) as the claim states it fails: with 33 frames of 64 bytes
and `fixed_in_len` 4096 it is already the 32nd call of `ncm_wrap_ntb` that hands
back an NTB, and that NTB holds 31 frames, not 32: `ndp_dgram_count` counts the
terminator entry, so the test against `TX_MAX_NUM_DPE` fires at 31 datagrams. -/
theorem dpe_cap_counterexample :
    ∃ ntb s2,
      tx_run packed_sizes default_session (submit zero_mem (frames_33.take 32))
          = .ok ([ntb], s2)
        ∧ ntb_dgrams (default_session.opts packed_sizes) ntb
          = .ok ((frames_33.take 31).map (with_crc default_session.is_crc))
        ∧ (frames_33.take 31).length = 31 := by
  obtain ⟨ntb, ntb2, s1, s2, s3, s4, -, h2, -, h4, -, -⟩ :=
    dpe_cap_run packed_sizes default_session zero_mem frames_33 64 rfl (by decide) (by decide)
      ⟨rfl, rfl⟩ rfl rfl frames_33_small (by decide) (by decide)
  exact ⟨ntb, s2, h2, h4, by decide⟩

/-- C6 (the cap on DPEs), amended: starting from an NTB16 session with no
pending NTB, for every sequence of 33 frames small enough that the size limit is
never reached, the first 31 calls of `ncm_wrap_ntb` return nothing, the 32nd call
returns one NTB that contains exactly the first 31 frames, the 33rd call returns
nothing, and the 32nd and 33rd frames are the datagrams of the new pending NTB
(the NTB that the next timer flush sends). -/
theorem dpe_cap_is_31 (sz : cdc_sizes) (s : f_ncm) (mem : Nat → Nat) (fs : List (List Nat))
    (L : Nat) (hp : s.parser_opts = .ndp16) (h9 : 9 ≤ sz.nth16) (h6 : 6 ≤ sz.ndp16)
    (hidle : s.skb_tx_data = .NULL ∧ s.skb_tx_ndp = .NULL) (hst : s.timer_stopping = false)
    (hn : fs.length = 33) (hL : ∀ f ∈ fs, (with_crc s.is_crc f).length ≤ L)
    (hM : ALIGN sz.nth16 4 + sz.ndp16 + 31 * (L + 7) + 16 ≤ s.fixed_in_len)
    (hM2 : s.fixed_in_len < 65536) :
    ∃ ntb ntb2 s1 s2 s3 s4,
      tx_run sz s (submit mem (fs.take 31)) = .ok ([], s1)
        ∧ tx_run sz s (submit mem (fs.take 32)) = .ok ([ntb], s2)
        ∧ tx_run sz s (submit mem fs) = .ok ([ntb], s3)
        ∧ ntb_dgrams (s.opts sz) ntb = .ok ((fs.take 31).map (with_crc s.is_crc))
        ∧ ncm_tx_tasklet sz s3 = .ok (some ntb2, s4)
        ∧ ntb_dgrams (s.opts sz) ntb2 = .ok ((fs.drop 31).map (with_crc s.is_crc)) :=
  dpe_cap_run sz s mem fs L hp h9 h6 hidle hst hn hL hM hM2

theorem dpe_cap_is_31_witness :
    frames_33.length = 33
      ∧ ∃ ntb ntb2 s1 s2 s3 s4,
        tx_run packed_sizes default_session (submit zero_mem (frames_33.take 31)) = .ok ([], s1)
          ∧ tx_run packed_sizes default_session (submit zero_mem (frames_33.take 32))
            = .ok ([ntb], s2)
          ∧ tx_run packed_sizes default_session (submit zero_mem frames_33) = .ok ([ntb], s3)
          ∧ ntb_dgrams (default_session.opts packed_sizes) ntb
            = .ok ((frames_33.take 31).map (with_crc default_session.is_crc))
          ∧ ncm_tx_tasklet packed_sizes s3 = .ok (some ntb2, s4)
          ∧ ntb_dgrams (default_session.opts packed_sizes) ntb2
            = .ok ((frames_33.drop 31).map (with_crc default_session.is_crc)) :=
  ⟨rfl,
    dpe_cap_is_31 packed_sizes default_session zero_mem frames_33 64 rfl (by decide) (by decide)
      ⟨rfl, rfl⟩ rfl rfl frames_33_small (by decide) (by decide)⟩

/-- C10 (ingress header validation): for every received buffer, `ncm_unwrap_ntb`
returns `-EINVAL` and leaves the output list empty whenever the NTH dwSignature
differs from the parser's `nth_sign`, or wHeaderLength differs from its
`nth_size`, or the (d)wBlockLength field exceeds `NTB_OUT_SIZE`; each field is
one that the buffer is long enough to hold. -/
theorem unwrap_rejects_bad_nth (sz : cdc_sizes) (s : f_ncm) (clone_ok : Nat → Bool)
    (skb : List Nat) (list : List (List Nat))
    (h : (4 ≤ skb.length ∧ le_value (skb.take 4) ≠ (s.opts sz).nth_sign)
      ∨ (6 ≤ skb.length ∧ le_value ((skb.drop 4).take 2) ≠ (s.opts sz).nth_size)
      ∨ (8 + 2 * (s.opts sz).block_length ≤ skb.length
          ∧ le_value ((skb.drop 8).take (2 * (s.opts sz).block_length)) > NTB_OUT_SIZE)) :
    ncm_unwrap_ntb sz s clone_ok skb list = .ok (-EINVAL, []) := by
  have h4 : 0 + 4 ≤ skb.length := by
    rcases h with h | h | h <;> omega
  unfold ncm_unwrap_ntb
  simp only [get_unaligned_le32_of_le h4, bind, Except.bind, List.drop_zero]
  by_cases hs : le_value (skb.take 4) = (s.opts sz).nth_sign
  · have h6 : 4 + 2 ≤ skb.length := by
      rcases h with h | h | h
      · exact absurd hs h.2
      · omega
      · omega
    simp only [hs, ne_eq, not_true_eq_false, ite_false, get_unaligned_le16_of_le h6]
    by_cases hh : le_value ((skb.drop 4).take 2) = (s.opts sz).nth_size
    · have h8 : 8 + 2 * (s.opts sz).block_length ≤ skb.length := by
        rcases h with h | h | h
        · exact absurd hs h.2
        · exact absurd hh h.2
        · exact h.1
      have hb : le_value ((skb.drop 8).take (2 * (s.opts sz).block_length)) > NTB_OUT_SIZE := by
        rcases h with h | h | h
        · exact absurd hs h.2
        · exact absurd hh h.2
        · exact h.2
      simp only [hh, not_true_eq_false, ite_false, get_ncm_block_length sz s h8]
      have : le_value ((skb.drop 8).take (2 * (s.opts sz).block_length))
          > ntb_parameters.dwNtbOutMaxSize := hb
      simp [this, unwrap_err]
    · simp [hh, unwrap_err]
  · simp [hs, unwrap_err]

theorem unwrap_rejects_bad_nth_witness :
    (6 ≤ bad_header_skb.length
        ∧ le_value ((bad_header_skb.drop 4).take 2) ≠ (default_session.opts packed_sizes).nth_size)
      ∧ ncm_unwrap_ntb packed_sizes default_session (fun _ => true) bad_header_skb [[1, 2, 3]]
        = .ok (-EINVAL, []) :=
  ⟨by decide,
    unwrap_rejects_bad_nth packed_sizes default_session (fun _ => true) bad_header_skb
      [[1, 2, 3]] (Or.inr (Or.inl (by decide)))⟩

/-- C11 (ingress NdpIndex alignment), where it fails: the check of
`ncm_unwrap_ntb` is `(index % 4 != 0) && (index < nth_size)`, so a misaligned
NdpIndex that is not below the header size passes.  The NTB16 `misaligned_ntb`
has its NDP at offset 14; `ncm_unwrap_ntb` returns 0 and queues its datagram. -/
theorem unwrap_accepts_misaligned_ndp_index :
    nth_ndp_index (default_session.opts packed_sizes) misaligned_ntb = .ok 14
      ∧ 14 % 4 ≠ 0
      ∧ ncm_unwrap_ntb packed_sizes default_session (fun _ => true) misaligned_ntb []
        = .ok (0, [sample_frame 14 1]) :=
  ⟨rfl, by decide, rfl⟩

set_option maxRecDepth 8000 in
/-- C12 (ingress NDP validation), where it fails: SET_CRC_MODE puts the CRC flag
into the signature of the parser table that is current at that time, and
SET_NTB_FORMAT does not carry it over.  After SET_CRC_MODE(1) and then
SET_NTB_FORMAT(1) the session is in CRC mode and parses NTB32, yet
`ncm_unwrap_ntb` accepts an NDP32 with the signature without the CRC flag and
rejects the one with it. -/
theorem unwrap_accepts_stale_ndp_sign :
    crc_then_ntb32_session.is_crc = true
      ∧ crc_then_ntb32_session.parser_opts = .ndp32
      ∧ get_unaligned_le32 (ntb32_one_dgram USB_CDC_NCM_NDP32_NOCRC_SIGN) 16
        = .ok USB_CDC_NCM_NDP32_NOCRC_SIGN
      ∧ ncm_unwrap_ntb packed_sizes crc_then_ntb32_session (fun _ => true)
          (ntb32_one_dgram USB_CDC_NCM_NDP32_NOCRC_SIGN) [] = .ok (0, [sample_frame 14 1])
      ∧ ncm_unwrap_ntb packed_sizes crc_then_ntb32_session (fun _ => true)
          (ntb32_one_dgram (USB_CDC_NCM_NDP32_NOCRC_SIGN + NCM_NDP_HDR_CRC)) []
        = .ok (-EINVAL, []) :=
  ⟨rfl, rfl, rfl, rfl, rfl⟩

/-- C16 (SET_NTB_INPUT_SIZE acceptance): when the request buffer holds the four
bytes of the data stage, `ncm_ep0out_complete` sets `fixed_in_len` to their
little-endian value `N` if the status is 0, the transfer is complete and
2048 <= N <= 4096, and returns without halting; in every other case it leaves
the session as it is and halts EP0. -/
theorem ep0out_complete_sets_input_size (s : f_ncm) (req : usb_request)
    (h4 : 4 ≤ req.buf.length) :
    ncm_ep0out_complete s req
        = .ok (if req.status = 0 ∧ req.actual = req.length
                  ∧ 2048 ≤ le_value (req.buf.take 4) ∧ le_value (req.buf.take 4) ≤ 4096
               then { ncm := { s with fixed_in_len := le_value (req.buf.take 4) },
                      halted := false }
               else { ncm := s, halted := true }) :=
  ncm_ep0out_complete_eq s req h4

theorem ep0out_complete_sets_input_size_witness :
    4 ≤ (put_unaligned_le32 3000).length
      ∧ ncm_ep0out_complete default_session
          { status := 0, actual := 4, length := 4, buf := put_unaligned_le32 3000 }
        = .ok { ncm := { default_session with fixed_in_len := 3000 }, halted := false } :=
  ⟨by decide,
    ep0out_complete_sets_input_size default_session
      { status := 0, actual := 4, length := 4, buf := put_unaligned_le32 3000 } (by decide)⟩

/-- C17 (malformed setup is rejected without side effect): for a setup packet
with 16-bit fields that is addressed to another interface than `ctrl_id`, or
whose wLength or wValue the request does not allow, or that is none of the seven
class requests, `ncm_setup` returns `-EOPNOTSUPP`, queues nothing on EP0 and
leaves the whole session (parser, CRC mode, `ndp_sign`, `fixed_in_len` and
everything else) as it is. -/
theorem setup_rejects_malformed (s : f_ncm) (ctrl : usb_ctrlrequest) (queue_ret : Int)
    (hv : ctrl.wValue < 65536) (hi : ctrl.wIndex < 65536) (hl : ctrl.wLength < 65536)
    (h : setup_malformed s ctrl) :
    ncm_setup s ctrl queue_ret
      = { value := -EOPNOTSUPP, queued := none, out_stage := false, ncm := s } := by
  obtain ⟨request, wValue, wIndex, wLength⟩ := ctrl
  simp only at hv hi hl
  cases request <;>
    simp only [setup_malformed] at h <;>
    simp only [ncm_setup, Nat.mod_eq_of_lt hv, Nat.mod_eq_of_lt hi, Nat.mod_eq_of_lt hl,
      setup_invalid]
  · rw [if_pos]; omega
  · rw [if_pos]; omega
  · rw [if_pos]; omega
  · rw [if_pos]; omega
  · by_cases hc : wLength ≠ 0 ∨ wIndex ≠ s.ctrl_id
    · rw [if_pos hc]
    · rw [if_neg hc]
      have hw : wValue ≠ 0 ∧ wValue ≠ 1 := by omega
      split
      · exact absurd rfl hw.1
      · exact absurd rfl hw.2
      · rfl
  · rw [if_pos]; omega
  · by_cases hc : wLength ≠ 0 ∨ wIndex ≠ s.ctrl_id
    · rw [if_pos hc]
    · rw [if_neg hc]
      have hw : wValue ≠ 0 ∧ wValue ≠ 1 := by omega
      split
      · exact absurd rfl hw.1
      · exact absurd rfl hw.2
      · rfl

theorem setup_rejects_malformed_witness :
    setup_malformed crc_session
        { request := .SET_NTB_FORMAT, wValue := 2, wIndex := 0, wLength := 0 }
      ∧ ncm_setup crc_session
          { request := .SET_NTB_FORMAT, wValue := 2, wIndex := 0, wLength := 0 } 0
        = { value := -EOPNOTSUPP, queued := none, out_stage := false, ncm := crc_session } :=
  ⟨Or.inr (Or.inr ⟨by decide, by decide⟩),
    setup_rejects_malformed crc_session
      { request := .SET_NTB_FORMAT, wValue := 2, wIndex := 0, wLength := 0 } 0
      (by decide) (by decide) (by decide) (Or.inr (Or.inr ⟨by decide, by decide⟩))⟩

/-- C19 (NTB parameter block): for every GET_NTB_PARAMETERS with wValue 0,
wIndex equal to `ctrl_id` and 1 <= wLength, `ncm_setup` queues exactly the first
min(wLength, 28) bytes of the 28-byte parameter block on EP0, returns what
`usb_ep_queue` returns and leaves the session as it is. -/
theorem ntb_parameters_reply (s : f_ncm) (ctrl : usb_ctrlrequest) (queue_ret : Int)
    (hr : ctrl.request = .GET_NTB_PARAMETERS) (hv : ctrl.wValue = 0)
    (hi : ctrl.wIndex = s.ctrl_id) (hid : s.ctrl_id < 65536)
    (hl : 1 ≤ ctrl.wLength) (hl16 : ctrl.wLength < 65536) :
    ncm_setup s ctrl queue_ret
      = { value := queue_ret
          queued := some (ntb_parameter_block.take (min ctrl.wLength 28))
          out_stage := false
          ncm := s } := by
  obtain ⟨request, wValue, wIndex, wLength⟩ := ctrl
  simp only at hr hv hi hl hl16
  subst hr hv hi
  have hb : ntb_parameters_bytes = ntb_parameter_block := by decide
  simp only [ncm_setup, Nat.mod_eq_of_lt hid, Nat.mod_eq_of_lt hl16, Nat.zero_mod, hb,
    setup_respond]
  rw [if_neg (by omega)]
  by_cases h28 : wLength > 28
  · rw [if_pos h28, Nat.min_eq_right (by omega)]
  · rw [if_neg h28, Nat.min_eq_left (by omega)]

theorem ntb_parameters_reply_witness :
    ncm_setup default_session
        { request := .GET_NTB_PARAMETERS, wValue := 0, wIndex := 0, wLength := 8 } 0
      = { value := 0, queued := some [28, 0, 1, 0, 0, 16, 0, 0], out_stage := false,
          ncm := default_session } :=
  ntb_parameters_reply default_session
    { request := .GET_NTB_PARAMETERS, wValue := 0, wIndex := 0, wLength := 8 } 0
    rfl rfl rfl (by decide) (by decide) (by decide)

/-- C18 (GET reflects SET): in a session whose control interface number fits the
16-bit wIndex, for v in {0, 1} and 2048 <= N <= 4096: after SET_NTB_FORMAT(v) a
valid GET_NTB_FORMAT replies the two little-endian bytes of v; after
SET_CRC_MODE(v) a valid GET_CRC_MODE replies the two bytes of v; the data stage
of SET_NTB_INPUT_SIZE carrying N is accepted without a halt and a valid
GET_NTB_INPUT_SIZE then replies the four little-endian bytes of N; and after
each of the three SETs the other two GETs reply what they reply before it. -/
theorem get_reflects_set (s : f_ncm) (v N L2 L4 : Nat) (rest : List Nat) (q q' : Int)
    (hid : s.ctrl_id < 65536) (hv : v = 0 ∨ v = 1) (hN : 2048 ≤ N ∧ N ≤ 4096)
    (h2 : 2 ≤ L2 ∧ L2 < 65536) (h4 : 4 ≤ L4 ∧ L4 < 65536) :
    ∃ sized, set_input_size s N rest q = .ok { ncm := sized, halted := false }
      ∧ get_reply (after_set s .SET_NTB_FORMAT v q) .GET_NTB_FORMAT L2 q'
        = some (put_unaligned_le16 v)
      ∧ get_reply (after_set s .SET_CRC_MODE v q) .GET_CRC_MODE L2 q'
        = some (put_unaligned_le16 v)
      ∧ get_reply sized .GET_NTB_INPUT_SIZE L4 q' = some (put_unaligned_le32 N)
      ∧ get_reply (after_set s .SET_NTB_FORMAT v q) .GET_CRC_MODE L2 q'
        = get_reply s .GET_CRC_MODE L2 q'
      ∧ get_reply (after_set s .SET_NTB_FORMAT v q) .GET_NTB_INPUT_SIZE L4 q'
        = get_reply s .GET_NTB_INPUT_SIZE L4 q'
      ∧ get_reply (after_set s .SET_CRC_MODE v q) .GET_NTB_FORMAT L2 q'
        = get_reply s .GET_NTB_FORMAT L2 q'
      ∧ get_reply (after_set s .SET_CRC_MODE v q) .GET_NTB_INPUT_SIZE L4 q'
        = get_reply s .GET_NTB_INPUT_SIZE L4 q'
      ∧ get_reply sized .GET_NTB_FORMAT L2 q' = get_reply s .GET_NTB_FORMAT L2 q'
      ∧ get_reply sized .GET_CRC_MODE L2 q' = get_reply s .GET_CRC_MODE L2 q' := by
  obtain ⟨c1, c2, c3, c4⟩ := after_set_crc s hid v q hv
  have hf := after_set_format s hid v q hv
  have hidc : (after_set s .SET_CRC_MODE v q).ctrl_id < 65536 := by rw [c1]; exact hid
  have hidf : (after_set s .SET_NTB_FORMAT v q).ctrl_id < 65536 := by rw [hf]; exact hid
  have hids : ({ s with fixed_in_len := N } : f_ncm).ctrl_id < 65536 := hid
  refine ⟨{ s with fixed_in_len := N }, set_input_size_eq s hid N rest q hN, ?_, ?_, ?_, ?_, ?_,
    ?_, ?_, ?_, ?_⟩
  · rw [get_reply_format _ hidf _ _ h2, hf]
    rcases hv with rfl | rfl <;> simp
  · rw [get_reply_crc _ hidc _ _ h2, c4]
    rcases hv with rfl | rfl <;> simp
  · rw [get_reply_input_size _ hids _ _ h4]
  · rw [get_reply_crc _ hidf _ _ h2, get_reply_crc _ hid _ _ h2, hf]
  · rw [get_reply_input_size _ hidf _ _ h4, get_reply_input_size _ hid _ _ h4, hf]
  · rw [get_reply_format _ hidc _ _ h2, get_reply_format _ hid _ _ h2, c2]
  · rw [get_reply_input_size _ hidc _ _ h4, get_reply_input_size _ hid _ _ h4, c3]
  · rw [get_reply_format _ hids _ _ h2, get_reply_format _ hid _ _ h2]
  · rw [get_reply_crc _ hids _ _ h2, get_reply_crc _ hid _ _ h2]

theorem get_reflects_set_witness :
    ∃ sized, set_input_size default_session 3000 [] 0 = .ok { ncm := sized, halted := false }
      ∧ get_reply (after_set default_session .SET_NTB_FORMAT 1 0) .GET_NTB_FORMAT 2 0
        = some (put_unaligned_le16 1)
      ∧ get_reply (after_set default_session .SET_CRC_MODE 1 0) .GET_CRC_MODE 2 0
        = some (put_unaligned_le16 1)
      ∧ get_reply sized .GET_NTB_INPUT_SIZE 4 0 = some (put_unaligned_le32 3000)
      ∧ get_reply (after_set default_session .SET_NTB_FORMAT 1 0) .GET_CRC_MODE 2 0
        = get_reply default_session .GET_CRC_MODE 2 0
      ∧ get_reply (after_set default_session .SET_NTB_FORMAT 1 0) .GET_NTB_INPUT_SIZE 4 0
        = get_reply default_session .GET_NTB_INPUT_SIZE 4 0
      ∧ get_reply (after_set default_session .SET_CRC_MODE 1 0) .GET_NTB_FORMAT 2 0
        = get_reply default_session .GET_NTB_FORMAT 2 0
      ∧ get_reply (after_set default_session .SET_CRC_MODE 1 0) .GET_NTB_INPUT_SIZE 4 0
        = get_reply default_session .GET_NTB_INPUT_SIZE 4 0
      ∧ get_reply sized .GET_NTB_FORMAT 2 0 = get_reply default_session .GET_NTB_FORMAT 2 0
      ∧ get_reply sized .GET_CRC_MODE 2 0 = get_reply default_session .GET_CRC_MODE 2 0 :=
  get_reflects_set default_session 1 3000 2 4 [] 0 0 (by decide) (Or.inr rfl)
    ⟨by decide, by decide⟩ ⟨by decide, by decide⟩ ⟨by decide, by decide⟩

/-- C20 (notification sequence): from `notify_state` NONE with the notification
request in its slot, when `usb_ep_queue` succeeds, one call of `ncm_notify`
followed by the completion with status 0 of every notification queued puts
exactly two notifications on the interrupt endpoint, SPEED_CHANGE (both speed
words the bitrate) and then NETWORK_CONNECTION (wValue the open flag), and ends
in the session it started from: `notify_state` NONE, the request in its slot. -/
theorem notify_sequence (s : f_ncm) (high_speed : Bool) (queue_status : Int) (fuel : Nat)
    (hs : s.notify_state = .NCM_NOTIFY_NONE) (hr : s.notify_req = true)
    (hq : 0 ≤ queue_status) (hf : 2 ≤ fuel) :
    notify_drain high_speed queue_status fuel (ncm_notify s high_speed queue_status)
      = .ok ([{ bmRequestType := 0xA1
                bNotificationType := .USB_CDC_NOTIFY_SPEED_CHANGE
                wValue := 0
                wIndex := s.ctrl_id
                wLength := 8
                length := 16
                data := put_unaligned_le32 (ncm_bitrate high_speed)
                  ++ put_unaligned_le32 (ncm_bitrate high_speed) },
              { bmRequestType := 0xA1
                bNotificationType := .USB_CDC_NOTIFY_NETWORK_CONNECTION
                wValue := if s.is_open = true then 1 else 0
                wIndex := s.ctrl_id
                wLength := 0
                length := 8
                data := [] }], s) := by
  obtain ⟨fuel, rfl⟩ : ∃ k, fuel = k + 2 := ⟨fuel - 2, by omega⟩
  have hq' : ¬ queue_status < 0 := by omega
  have hend : ({ s with notify_state := .NCM_NOTIFY_NONE, notify_req := true } : f_ncm) = s := by
    cases s
    simp only at hs hr
    subst hs hr
    rfl
  simp only [ncm_notify, ncm_do_notify, hr, Bool.true_eq_false, ite_false, hq', notify_drain,
    ncm_notify_complete, ite_true, bind, Except.bind, NCM_STATUS_BYTECOUNT, hend]

theorem notify_sequence_witness :
    ∃ speed connect,
      notify_drain true 0 5 (ncm_notify default_session true 0)
          = .ok ([speed, connect], default_session)
        ∧ speed.bNotificationType = .USB_CDC_NOTIFY_SPEED_CHANGE
        ∧ connect.bNotificationType = .USB_CDC_NOTIFY_NETWORK_CONNECTION :=
  ⟨_, _, notify_sequence default_session true 0 5 rfl rfl (by decide) (by decide), rfl, rfl⟩

/-- C13 (ingress CRC check): in CRC mode, let the DPEs 0 .. n - 1 of a received
NTB locate datagrams in the buffer that pass the length and CRC checks, and let
DPE n, which the loop reaches (for n >= 1 it has a nonzero index, as the DPEs
before it, and the wLength budget is not used up), locate a datagram in the
buffer whose last four bytes, little-endian, differ from `~crc32_le(~0, ...)` of
the bytes before them.  Then `ncm_unwrap_ntb` returns `-EINVAL` and the list is
empty, whatever it held and however many datagrams had a correct CRC. -/
theorem unwrap_rejects_bad_crc (sz : cdc_sizes) (s : f_ncm) (clone_ok : Nat → Bool)
    (skb : List Nat) (list : List (List Nat)) (ndp wLength : Nat) (es : List (Nat × Nat))
    (bad : Nat × Nat) (d : List Nat) (hcrc : s.is_crc = true)
    (hndp : nth_ndp_index (s.opts sz) skb = .ok ndp) (hwl : ndp_wLength skb ndp = .ok wLength)
    (hes : ∀ k (hk : k < es.length), rx_dpe (s.opts sz) skb ndp k = .ok es[k]
      ∧ rx_dgram_ok true skb es[k] ∧ (1 ≤ k → es[k].1 ≠ 0))
    (hbad : rx_dpe (s.opts sz) skb ndp es.length = .ok bad)
    (hreach : 1 ≤ es.length → bad.1 ≠ 0
      ∧ (es.length + 1) * (2 * ((s.opts sz).dgram_item_len * 2))
          < wLength - (s.opts sz).ndp_size)
    (hd : peek skb bad.1 bad.2 = .ok d) (h4 : 4 ≤ d.length)
    (hmis : le_value (d.drop (d.length - 4)) ≠ dgram_crc (d.take (d.length - 4))) :
    ncm_unwrap_ntb sz s clone_ok skb list = .ok (-EINVAL, []) := by
  have hge : es.getD es.length bad = bad := List.getD_eq_default _ _ (Nat.le_refl _)
  apply unwrap_reject sz s clone_ok skb list ndp wLength es.length (fun k => es.getD k bad) hndp
    hwl
  · intro k hk
    by_cases hk' : k < es.length
    · simp only [List.getD_eq_getElem _ _ hk']
      exact (hes k hk').1
    · have : k = es.length := by omega
      subst this
      simp only [hge]
      exact hbad
  · intro k hk
    simp only [List.getD_eq_getElem _ _ hk, hcrc]
    exact (hes k hk).2.1
  · intro k hk1 hk2
    by_cases hk' : k < es.length
    · simp only [List.getD_eq_getElem _ _ hk']
      obtain ⟨-, ⟨d', hd', hl', -⟩, hz⟩ := hes k hk'
      have := (length_of_peek hd').1
      simp only [ite_true] at hl'
      exact ⟨hz hk1, by omega⟩
    · have : k = es.length := by omega
      subst this
      simp only [hge]
      have := (length_of_peek hd).1
      exact ⟨(hreach hk1).1, by omega⟩
  · intro hn
    exact (hreach hn).2
  · simp only [hge, hcrc]
    exact ⟨d, hd, fun h => hmis (h.2 rfl)⟩

set_option maxRecDepth 8000 in
theorem unwrap_rejects_bad_crc_witness :
    crc_session.is_crc = true
      ∧ rx_dpe (crc_session.opts packed_sizes) bad_crc_ntb 12 0 = .ok (32, 18)
      ∧ peek bad_crc_ntb 32 18 = .ok (with_crc true (sample_frame 14 1))
      ∧ rx_dpe (crc_session.opts packed_sizes) bad_crc_ntb 12 1 = .ok (50, 18)
      ∧ peek bad_crc_ntb 50 18 = .ok (sample_frame 14 2 ++ [0, 0, 0, 0])
      ∧ ncm_unwrap_ntb packed_sizes crc_session (fun _ => true) bad_crc_ntb [[7]]
        = .ok (-EINVAL, []) :=
  ⟨rfl, rfl, rfl, rfl, rfl,
    unwrap_rejects_bad_crc packed_sizes crc_session (fun _ => true) bad_crc_ntb [[7]] 12 20
      [(32, 18)] (50, 18) (sample_frame 14 2 ++ [0, 0, 0, 0]) rfl rfl rfl
      (by
        intro k hk
        have hk0 : k = 0 := by simpa using hk
        subst hk0
        exact ⟨rfl, ⟨with_crc true (sample_frame 14 1), rfl,
          (with_crc_roundtrip true (sample_frame 14 1) (by decide)).1⟩,
          fun h => absurd h (by decide)⟩)
      rfl (fun _ => ⟨by decide, by decide⟩)
      (show peek bad_crc_ntb 50 18 = .ok (sample_frame 14 2 ++ [0, 0, 0, 0]) from rfl)
      (by decide) (by decide)⟩

/-- C14 (ingress output), as the claim words it, fails at two received buffers.
`no_terminator_ntb` has an NDP with wLength 16 that holds two nonzero DPEs, both
within the wLength budget, and `ncm_unwrap_ntb` returns 0 with the datagram of
the first only.  `zero_first_ntb` has a first DPE with index 0 and length 14, so
that no DPE precedes the first one with a zero index, and `ncm_unwrap_ntb`
returns 0 with the first 14 bytes of the buffer as a datagram. -/
theorem ingress_output_counterexample :
    ¬ ingress_output_claim packed_sizes default_session (fun _ => true) no_terminator_ntb
      ∧ ¬ ingress_output_claim packed_sizes default_session (fun _ => true) zero_first_ntb := by
  constructor
  · intro h
    have h1 := h [sample_frame 14 1] 12 16 rfl rfl rfl
    have h2 : claimed_output (default_session.opts packed_sizes) default_session.is_crc
        no_terminator_ntb 12 16 = .ok [sample_frame 14 1, sample_frame 14 2] := rfl
    rw [h2] at h1
    injection h1 with h1
    exact absurd h1 (by decide)
  · intro h
    have h1 := h [zero_first_ntb.take 14] 12 16 rfl rfl rfl
    have h2 : claimed_output (default_session.opts packed_sizes) default_session.is_crc
        zero_first_ntb 12 16 = .ok [] := rfl
    rw [h2] at h1
    injection h1 with h1
    exact absurd h1 (by decide)

/-- C14 (ingress output), amended: for every NTB that `ncm_unwrap_ntb` accepts
and whose first DPE has a nonzero index, the list has grown, in DPE order, by
exactly one datagram for each of the DPEs 0 .. n - 1, where every one of them is
nonzero and followed by at least one more byte of the wLength budget, and DPE n
is the first with a zero index or length or DPE n - 1 is the last that leaves
room for a further entry (the last entry of the budget is taken for the zero
entry whatever it holds); the datagram of DPE (index, length) is the bytes
[index, index + length - crc_len) of the NTB. -/
theorem unwrap_output (sz : cdc_sizes) (s : f_ncm) (clone_ok : Nat → Bool) (skb : List Nat)
    (list out : List (List Nat)) (ndp wLength : Nat)
    (h : ncm_unwrap_ntb sz s clone_ok skb list = .ok (0, out))
    (hndp : nth_ndp_index (s.opts sz) skb = .ok ndp) (hwl : ndp_wLength skb ndp = .ok wLength)
    (hfirst : ∀ e, rx_dpe (s.opts sz) skb ndp 0 = .ok e → e.1 ≠ 0) :
    ∃ es : List (Nat × Nat), es ≠ []
      ∧ (∀ k (hk : k < es.length), rx_dpe (s.opts sz) skb ndp k = .ok es[k]
          ∧ es[k].1 ≠ 0 ∧ es[k].2 ≠ 0
          ∧ (k + 1) * (2 * ((s.opts sz).dgram_item_len * 2)) < wLength - (s.opts sz).ndp_size)
      ∧ ((∃ e, rx_dpe (s.opts sz) skb ndp es.length = .ok e ∧ (e.1 = 0 ∨ e.2 = 0))
          ∨ wLength - (s.opts sz).ndp_size
            ≤ (es.length + 1) * (2 * ((s.opts sz).dgram_item_len * 2)))
      ∧ out = list ++ es.map (dpe_window s.is_crc skb) := by
  obtain ⟨es, hne, hes, hend, hout⟩ := unwrap_walk sz s clone_ok skb list out ndp wLength h hndp hwl
  refine ⟨es, hne, ?_, hend, hout⟩
  intro k hk
  obtain ⟨a1, a2, a3, -, a5⟩ := hes k hk
  refine ⟨a1, ?_, by omega, a2⟩
  cases k with
  | zero => exact hfirst _ a1
  | succ k => exact a5 (by omega)

theorem unwrap_output_witness :
    ncm_unwrap_ntb packed_sizes default_session (fun _ => true) two_dgram_ntb [[7]]
        = .ok (0, [[7], sample_frame 14 1, sample_frame 14 2])
      ∧ ∃ es : List (Nat × Nat), es ≠ []
        ∧ (∀ k (hk : k < es.length),
            rx_dpe (default_session.opts packed_sizes) two_dgram_ntb 12 k = .ok es[k]
            ∧ es[k].1 ≠ 0 ∧ es[k].2 ≠ 0
            ∧ (k + 1) * (2 * ((default_session.opts packed_sizes).dgram_item_len * 2))
              < 20 - (default_session.opts packed_sizes).ndp_size)
        ∧ ((∃ e, rx_dpe (default_session.opts packed_sizes) two_dgram_ntb 12 es.length = .ok e
              ∧ (e.1 = 0 ∨ e.2 = 0))
            ∨ 20 - (default_session.opts packed_sizes).ndp_size
              ≤ (es.length + 1) * (2 * ((default_session.opts packed_sizes).dgram_item_len * 2)))
        ∧ [[7], sample_frame 14 1, sample_frame 14 2]
          = [[7]] ++ es.map (dpe_window default_session.is_crc two_dgram_ntb) :=
  ⟨rfl,
    unwrap_output packed_sizes default_session (fun _ => true) two_dgram_ntb [[7]]
      [[7], sample_frame 14 1, sample_frame 14 2] 12 20 rfl rfl rfl
      (by
        intro e he
        have h0 : rx_dpe (default_session.opts packed_sizes) two_dgram_ntb 12 0 = .ok (32, 14) :=
          rfl
        rw [h0] at he
        injection he with he
        rw [← he]
        decide)⟩

/-- C15 (ingress failure is all-or-nothing): every call of `ncm_unwrap_ntb` ends
in one of four ways: a read outside the received buffer; `-EINVAL` with the
list empty; `-EOVERFLOW` with the list empty; or 0 with at least one datagram
appended to the list.  So whenever it returns an error the list holds none of
the datagrams of this NTB, also when some had been appended before the error
was found. -/
theorem unwrap_all_or_nothing (sz : cdc_sizes) (s : f_ncm) (clone_ok : Nat → Bool)
    (skb : List Nat) (list : List (List Nat)) :
    ncm_unwrap_ntb sz s clone_ok skb list = .error .out_of_bounds
      ∨ ncm_unwrap_ntb sz s clone_ok skb list = .ok (-EINVAL, [])
      ∨ ncm_unwrap_ntb sz s clone_ok skb list = .ok (-EOVERFLOW, [])
      ∨ ∃ new, new ≠ [] ∧ ncm_unwrap_ntb sz s clone_ok skb list = .ok (0, list ++ new) :=
  unwrap_result sz s clone_ok skb list

/-- C21 (notification contents): with the request in its slot and `usb_ep_queue`
succeeding, `ncm_do_notify` in state SPEED queues a SPEED_CHANGE notification of
16 bytes with bmRequestType 0xA1, wValue 0, wIndex `ctrl_id`, wLength 8 and two
little-endian 32-bit words that both are `ncm_bitrate`, 425984000 at high speed
and 9728000 otherwise; in state CONNECT it queues the 8-byte NETWORK_CONNECTION
header with wIndex `ctrl_id`, wLength 0 and wValue 1 if `is_open` is true at
that time, else 0. -/
theorem notification_contents (s : f_ncm) (high_speed : Bool) (queue_status : Int)
    (hr : s.notify_req = true) (hq : 0 ≤ queue_status) :
    (s.notify_state = .NCM_NOTIFY_SPEED →
        ∃ event, (ncm_do_notify s high_speed queue_status).2 = some event
          ∧ event.bNotificationType = .USB_CDC_NOTIFY_SPEED_CHANGE
          ∧ event.length = 16 ∧ (notification_bytes event).length = 16
          ∧ event.bmRequestType = 0xA1 ∧ event.wValue = 0 ∧ event.wIndex = s.ctrl_id
          ∧ event.wLength = 8
          ∧ event.data = put_unaligned_le32 (ncm_bitrate high_speed)
              ++ put_unaligned_le32 (ncm_bitrate high_speed)
          ∧ (notification_bytes event).drop 8 = event.data)
      ∧ (s.notify_state = .NCM_NOTIFY_CONNECT →
        ∃ event, (ncm_do_notify s high_speed queue_status).2 = some event
          ∧ event.bNotificationType = .USB_CDC_NOTIFY_NETWORK_CONNECTION
          ∧ event.length = 8 ∧ (notification_bytes event).length = 8
          ∧ event.bmRequestType = 0xA1 ∧ event.wIndex = s.ctrl_id ∧ event.wLength = 0
          ∧ event.wValue = (if s.is_open = true then 1 else 0))
      ∧ ncm_bitrate true = 425984000 ∧ ncm_bitrate false = 9728000 := by
  have hq' : ¬ queue_status < 0 := by omega
  refine ⟨?_, ?_, rfl, rfl⟩
  · intro hs
    simp only [ncm_do_notify, hr, hs, Bool.true_eq_false, ite_false, hq']
    exact ⟨_, rfl, rfl, rfl, rfl, rfl, rfl, rfl, rfl, rfl, rfl⟩
  · intro hs
    simp only [ncm_do_notify, hr, hs, Bool.true_eq_false, ite_false, hq']
    exact ⟨_, rfl, rfl, rfl, rfl, rfl, rfl, rfl, rfl⟩

theorem notification_contents_witness :
    ∃ event, (ncm_do_notify speed_pending_session true 0).2 = some event
      ∧ event.bNotificationType = .USB_CDC_NOTIFY_SPEED_CHANGE
      ∧ event.length = 16 ∧ (notification_bytes event).length = 16
      ∧ event.bmRequestType = 0xA1 ∧ event.wValue = 0
      ∧ event.wIndex = speed_pending_session.ctrl_id ∧ event.wLength = 8
      ∧ event.data = put_unaligned_le32 (ncm_bitrate true)
          ++ put_unaligned_le32 (ncm_bitrate true)
      ∧ (notification_bytes event).drop 8 = event.data :=
  (notification_contents speed_pending_session true 0 rfl (by decide)).1 rfl

/-- C22 (endpoint shutdown): for every session, when the notification completes
with status -ECONNRESET or -ESHUTDOWN, `ncm_notify_complete` sets `notify_state`
to NONE, puts the request back into its slot and queues nothing; for any other
status it puts the request back, keeps the pending state and runs
`ncm_do_notify` on it, which (when `usb_ep_queue` succeeds) queues SPEED_CHANGE
for SPEED, NETWORK_CONNECTION for CONNECT and nothing for NONE. -/
theorem notify_complete_shutdown (s : f_ncm) (status : Int) (high_speed : Bool)
    (queue_status : Int) (hq : 0 ≤ queue_status) :
    ((status = -ECONNRESET ∨ status = -ESHUTDOWN) →
        ncm_notify_complete s status high_speed queue_status
          = ({ s with notify_state := .NCM_NOTIFY_NONE, notify_req := true }, none))
      ∧ (¬ (status = -ECONNRESET ∨ status = -ESHUTDOWN) →
        ncm_notify_complete s status high_speed queue_status
            = ncm_do_notify { s with notify_req := true } high_speed queue_status
          ∧ (s.notify_state = .NCM_NOTIFY_NONE →
              ncm_notify_complete s status high_speed queue_status
                = ({ s with notify_req := true }, none))
          ∧ (s.notify_state = .NCM_NOTIFY_SPEED →
              ∃ event, ncm_notify_complete s status high_speed queue_status
                  = ({ s with notify_state := .NCM_NOTIFY_CONNECT, notify_req := false },
                      some event)
                ∧ event.bNotificationType = .USB_CDC_NOTIFY_SPEED_CHANGE)
          ∧ (s.notify_state = .NCM_NOTIFY_CONNECT →
              ∃ event, ncm_notify_complete s status high_speed queue_status
                  = ({ s with notify_state := .NCM_NOTIFY_NONE, notify_req := false },
                      some event)
                ∧ event.bNotificationType = .USB_CDC_NOTIFY_NETWORK_CONNECTION)) := by
  have hq' : ¬ queue_status < 0 := by omega
  constructor
  · intro h
    have h0 : status ≠ 0 := by
      rcases h with h | h <;> rw [h] <;> decide
    simp only [ncm_notify_complete, if_neg h0, if_pos h, ncm_do_notify, Bool.true_eq_false,
      ite_false]
  · intro h
    have hkeep : ncm_notify_complete s status high_speed queue_status
        = ncm_do_notify { s with notify_req := true } high_speed queue_status := by
      unfold ncm_notify_complete
      by_cases h0 : status = 0
      · simp only [if_pos h0]
      · simp only [if_neg h0, if_neg h]
    refine ⟨hkeep, ?_, ?_, ?_⟩
    · intro hs
      rw [hkeep]
      simp only [ncm_do_notify, Bool.true_eq_false, ite_false, hs]
    · intro hs
      rw [hkeep]
      simp only [ncm_do_notify, Bool.true_eq_false, ite_false, hs, hq']
      exact ⟨_, rfl, rfl⟩
    · intro hs
      rw [hkeep]
      simp only [ncm_do_notify, Bool.true_eq_false, ite_false, hs, hq']
      exact ⟨_, rfl, rfl⟩

theorem notify_complete_shutdown_witness :
    ncm_notify_complete
        { default_session with notify_state := .NCM_NOTIFY_CONNECT, notify_req := false }
        (-ESHUTDOWN) true 0
      = (default_session, none) :=
  (notify_complete_shutdown
    { default_session with notify_state := .NCM_NOTIFY_CONNECT, notify_req := false }
    (-ESHUTDOWN) true 0 (by decide)).1 (Or.inr rfl)

/-- C23 (alt-setting validation): `ncm_set_alt` returns `-EINVAL`, calls no
`ncm_notify` and leaves the whole session (parser, CRC mode, `fixed_in_len`,
`notify_state`, `timer_stopping` and everything else) as it is for the control
interface with an alt other than 0, for the data interface with an alt above 1,
and for an interface that is neither. -/
theorem set_alt_rejects (s : f_ncm) (env : alt_env) (intf alt : Nat)
    (h : (intf = s.ctrl_id ∧ alt ≠ 0) ∨ (intf = s.data_id ∧ alt > 1)
      ∨ (intf ≠ s.ctrl_id ∧ intf ≠ s.data_id)) :
    ncm_set_alt s env intf alt = { value := -EINVAL, ncm := s, notified := none } := by
  unfold ncm_set_alt
  rcases h with ⟨h1, h2⟩ | ⟨h1, h2⟩ | ⟨h1, h2⟩
  · simp only [h1, if_pos, h2, ne_eq, not_false_eq_true]
  · by_cases hc : intf = s.ctrl_id
    · simp only [hc, if_pos, ne_eq, show ¬ alt = 0 by omega, not_false_eq_true]
    · simp only [hc, if_false, h1, if_pos, h2]
      rw [if_neg (by omega)]
      simp
  · simp only [h1, h2, if_false]

theorem set_alt_rejects_witness :
    ncm_set_alt crc_session active_env crc_session.data_id 2
      = { value := -EINVAL, ncm := crc_session, notified := none } :=
  set_alt_rejects crc_session active_env crc_session.data_id 2
    (Or.inr (Or.inl ⟨rfl, by decide⟩))

/-- C24 (data-interface reset), as the claim words it, fails: with the bulk
endpoints claimed, `ncm_set_alt(data_id, 1)` on a session in CRC mode returns
`-EINVAL` without resetting it when the interrupt endpoint has no descriptor and
`config_ep_by_speed` fails for it; the test comes before the reset. -/
theorem set_alt_reset_counterexample :
    notify_unconfigured_env.in_ep_driver_data = true
      ∧ crc_session.is_crc = true
      ∧ ncm_set_alt crc_session notify_unconfigured_env crc_session.data_id 1
        = { value := -EINVAL, ncm := crc_session, notified := none } := by
  decide

/-- C24 (data-interface reset), amended: for `ncm_set_alt(data_id, alt)` with
alt in {0, 1}, the bulk endpoints claimed and, for alt 1, the interrupt endpoint
configured (it has its descriptor or `config_ep_by_speed` succeeds for it), the
session afterwards has parser NTB16, CRC mode off, `fixed_in_len` 4096 and
`fixed_out_len` 16384, whatever it was before; `timer_stopping` is true after
alt 0 and false after an alt 1 that returns 0.  When for alt 1 the interrupt
endpoint cannot be configured the call returns `-EINVAL` and leaves the session
as it was.  When the bulk endpoints are not claimed, parser, CRC mode and
`fixed_in_len` are left as they were.  The data interface is not the control
interface. -/
theorem set_alt_reset (s : f_ncm) (env : alt_env) (alt : Nat) (hd : s.data_id ≠ s.ctrl_id)
    (halt : alt = 0 ∨ alt = 1) :
    (env.in_ep_driver_data = true →
        (alt = 1 → env.notify_desc = true ∨ env.config_notify = 0) →
        (ncm_set_alt s env s.data_id alt).ncm.parser_opts = .ndp16
          ∧ (ncm_set_alt s env s.data_id alt).ncm.is_crc = false
          ∧ (ncm_set_alt s env s.data_id alt).ncm.fixed_in_len = 4096
          ∧ (ncm_set_alt s env s.data_id alt).ncm.fixed_out_len = 16384
          ∧ (alt = 0 → (ncm_set_alt s env s.data_id alt).ncm.timer_stopping = true)
          ∧ (alt = 1 → (ncm_set_alt s env s.data_id alt).value = 0 →
              (ncm_set_alt s env s.data_id alt).ncm.timer_stopping = false))
      ∧ (alt = 1 → env.notify_desc = false → env.config_notify ≠ 0 →
          ncm_set_alt s env s.data_id alt = { value := -EINVAL, ncm := s, notified := none })
      ∧ (env.in_ep_driver_data = false →
        (ncm_set_alt s env s.data_id alt).ncm.parser_opts = s.parser_opts
          ∧ (ncm_set_alt s env s.data_id alt).ncm.is_crc = s.is_crc
          ∧ (ncm_set_alt s env s.data_id alt).ncm.fixed_in_len = s.fixed_in_len) := by
  have hfields : ∀ (t : f_ncm) (q : Int),
      (ncm_notify t env.high_speed q).1.parser_opts = t.parser_opts
        ∧ (ncm_notify t env.high_speed q).1.is_crc = t.is_crc
        ∧ (ncm_notify t env.high_speed q).1.fixed_in_len = t.fixed_in_len
        ∧ (ncm_notify t env.high_speed q).1.fixed_out_len = t.fixed_out_len
        ∧ (ncm_notify t env.high_speed q).1.timer_stopping = t.timer_stopping := by
    intro t q
    obtain ⟨st, rq, h⟩ := ncm_notify_frame t env.high_speed q
    rw [h]
    exact ⟨rfl, rfl, rfl, rfl, rfl⟩
  refine ⟨?_, ?_, ?_⟩
  · intro hclaimed hnotify
    rcases halt with rfl | rfl
    · obtain ⟨f1, f2, f3, f4, f5⟩ :=
        hfields (ncm_reset_values { s with timer_stopping := true }) env.queue_status
      rw [ncm_set_alt_data_zero s env hd, if_pos hclaimed]
      exact ⟨f1.trans rfl, f2.trans rfl, f3.trans rfl, f4.trans rfl, fun _ => f5.trans rfl,
        fun h => absurd h (by decide)⟩
    · rw [ncm_set_alt_data_one s env hd (hnotify rfl), if_pos hclaimed]
      by_cases hb : env.bulk_desc = false ∧ (env.config_in ≠ 0 ∨ env.config_out ≠ 0)
      · rw [if_pos hb]
        exact ⟨rfl, rfl, rfl, rfl, fun h => absurd h (by decide),
          fun _ h => absurd (show (-EINVAL : Int) = 0 from h) (by decide)⟩
      · rw [if_neg hb]
        cases hc : env.connect_err with
        | some e =>
          exact ⟨rfl, rfl, rfl, rfl, fun h => absurd h (by decide), fun _ _ => rfl⟩
        | none =>
          obtain ⟨f1, f2, f3, f4, f5⟩ :=
            hfields { ncm_reset_values { s with timer_stopping := true } with
              timer_stopping := false } env.queue_status
          exact ⟨f1.trans rfl, f2.trans rfl, f3.trans rfl, f4.trans rfl,
            fun h => absurd h (by decide), fun _ _ => f5.trans rfl⟩
  · intro h1 h2 h3
    subst h1
    exact ncm_set_alt_data_one_fail s env hd h2 h3
  · intro hfree
    have hfree' : ¬ env.in_ep_driver_data = true := by rw [hfree]; decide
    rcases halt with rfl | rfl
    · obtain ⟨f1, f2, f3, -, -⟩ := hfields s env.queue_status
      rw [ncm_set_alt_data_zero s env hd, if_neg hfree']
      exact ⟨f1, f2, f3⟩
    · by_cases hn : env.notify_desc = true ∨ env.config_notify = 0
      · rw [ncm_set_alt_data_one s env hd hn, if_neg hfree']
        by_cases hb : env.bulk_desc = false ∧ (env.config_in ≠ 0 ∨ env.config_out ≠ 0)
        · rw [if_pos hb]
          exact ⟨rfl, rfl, rfl⟩
        · rw [if_neg hb]
          cases hc : env.connect_err with
          | some e => exact ⟨rfl, rfl, rfl⟩
          | none =>
            obtain ⟨f1, f2, f3, -, -⟩ :=
              hfields { s with timer_stopping := false } env.queue_status
            exact ⟨f1, f2, f3⟩
      · have h1 : env.notify_desc = false := by
          cases hv : env.notify_desc with
          | false => rfl
          | true => exact absurd (Or.inl hv) hn
        have h2 : env.config_notify ≠ 0 := fun h => hn (Or.inr h)
        rw [ncm_set_alt_data_one_fail s env hd h1 h2]
        exact ⟨rfl, rfl, rfl⟩

theorem set_alt_reset_witness :
    (ncm_set_alt crc_then_ntb32_session active_env crc_then_ntb32_session.data_id 1).ncm.parser_opts
        = .ndp16
      ∧ (ncm_set_alt crc_then_ntb32_session active_env crc_then_ntb32_session.data_id 1).ncm.is_crc
        = false
      ∧ (ncm_set_alt crc_then_ntb32_session active_env
          crc_then_ntb32_session.data_id 1).ncm.fixed_in_len = 4096
      ∧ (ncm_set_alt crc_then_ntb32_session active_env
          crc_then_ntb32_session.data_id 1).ncm.fixed_out_len = 16384
      ∧ (1 = 0 → (ncm_set_alt crc_then_ntb32_session active_env
          crc_then_ntb32_session.data_id 1).ncm.timer_stopping = true)
      ∧ (1 = 1 → (ncm_set_alt crc_then_ntb32_session active_env
            crc_then_ntb32_session.data_id 1).value = 0 →
          (ncm_set_alt crc_then_ntb32_session active_env
            crc_then_ntb32_session.data_id 1).ncm.timer_stopping = false) :=
  (set_alt_reset crc_then_ntb32_session active_env 1 (by decide) (Or.inr rfl)).1 rfl
    (fun _ => Or.inl rfl)

/-- C25 (NDP signature is a function of parser and CRC mode), where it fails:
SET_NTB_FORMAT switches the parser without assigning `ncm->ndp_sign`, so after
SET_NTB_FORMAT(1) the session parses NTB32 while its `ndp_sign` is still the
NTB16 signature; and `ncm_reset_values` copies the signature of the static
NTB16 table, in which SET_CRC_MODE(1) has left the CRC flag, so after a reset
the CRC mode is off while `ndp_sign` carries the flag. -/
theorem ndp_sign_not_derived :
    ntb32_session.parser_opts = .ndp32 ∧ ntb32_session.is_crc = false
      ∧ ntb32_session.ndp_sign = USB_CDC_NCM_NDP16_NOCRC_SIGN
      ∧ ntb32_session.ndp_sign ≠ USB_CDC_NCM_NDP32_NOCRC_SIGN
      ∧ crc_reset_session.parser_opts = .ndp16 ∧ crc_reset_session.is_crc = false
      ∧ crc_reset_session.ndp_sign = USB_CDC_NCM_NDP16_NOCRC_SIGN + NCM_NDP_HDR_CRC := by
  decide

/-- C26 (parser-options table), where it fails: `INIT_NDP32_OPTS` names neither
`dpe_size` nor `ndp_index`, so both are 0 in the NTB32 record, whatever the
sizes of the structures; `ndplen_align` is 8 and `dgram_item_len` and
`block_length` are 2.  The NTB16 record has `dpe_size` 4 (the size of
`struct usb_cdc_ncm_dpe16`), `ndplen_align` 4 and 1 for `dgram_item_len`,
`block_length` and `ndp_index`. -/
theorem ndp32_opts_missing_members (sz : cdc_sizes) :
    (INIT_NDP32_OPTS sz).dpe_size = 0 ∧ (INIT_NDP32_OPTS sz).ndp_index = 0
      ∧ (INIT_NDP32_OPTS sz).ndplen_align = 8 ∧ (INIT_NDP32_OPTS sz).dgram_item_len = 2
      ∧ (INIT_NDP32_OPTS sz).block_length = 2
      ∧ (INIT_NDP16_OPTS packed_sizes).dpe_size = 4 ∧ (INIT_NDP16_OPTS sz).ndplen_align = 4
      ∧ (INIT_NDP16_OPTS sz).dgram_item_len = 1 ∧ (INIT_NDP16_OPTS sz).block_length = 1
      ∧ (INIT_NDP16_OPTS sz).ndp_index = 1 :=
  ⟨rfl, rfl, rfl, rfl, rfl, rfl, rfl, rfl, rfl, rfl⟩

/-- C27 (flush without a frame), where it fails: in an NTB32 session that holds
a pending NTB, `ncm_wrap_ntb` without a frame and with the `timer_force_tx`
latch set does not return the finalized NTB: `package_for_tx` hits the `BUG()`
of `put_ncm`. -/
theorem wrap_null_ntb32_hits_bug (sz : cdc_sizes) (s : f_ncm) (b n : List Nat)
    (data_alloc : Bool) (ndp_alloc : Option (Nat → Nat)) (hp : s.parser_opts = .ndp32)
    (hb : s.skb_tx_data = .live b) (hn : s.skb_tx_ndp = .live n)
    (hf : s.timer_force_tx = true) :
    ncm_wrap_ntb sz s data_alloc ndp_alloc none = .error .BUG := by
  rw [ncm_wrap_ntb_null, if_neg (by rw [hb]; exact skb_ptr.noConfusion), if_pos hf,
    package_for_tx_ndp32_live sz hp hb hn]
  rfl

theorem wrap_null_ntb32_hits_bug_witness :
    ntb32_pending_forced.parser_opts = .ndp32 ∧ ntb32_pending_forced.timer_force_tx = true
      ∧ ncm_wrap_ntb packed_sizes ntb32_pending_forced true (some zero_mem) none
        = .error .BUG :=
  ⟨rfl, rfl,
    wrap_null_ntb32_hits_bug packed_sizes ntb32_pending_forced _ _ true (some zero_mem) rfl rfl
      rfl rfl⟩

/-- C28 (allocation failure on egress), where it fails: when the allocation of
the NDP buffer fails, the label `err:` frees the body buffer just allocated but
leaves `skb_tx_data` pointing to it.  The call returns nothing and counts one
dropped frame, but the session is left with a dangling body pointer and no NDP
buffer, and the next `ncm_wrap_ntb` with a frame, like the next flush by the
tasklet, reads the freed buffer. -/
theorem wrap_ndp_alloc_failure_dangles :
    ncm_wrap_ntb packed_sizes default_session true none (some (sample_frame 64 0))
        = .ok (none, ndp_alloc_failed_session)
      ∧ ndp_alloc_failed_session.tx_dropped = default_session.tx_dropped + 1
      ∧ ndp_alloc_failed_session.skb_tx_data = .dangling
      ∧ ndp_alloc_failed_session.skb_tx_ndp = .NULL
      ∧ ncm_wrap_ntb packed_sizes ndp_alloc_failed_session true (some zero_mem)
          (some (sample_frame 64 0)) = .error .use_after_free
      ∧ ncm_tx_tasklet packed_sizes ndp_alloc_failed_session = .error .use_after_free :=
  ⟨rfl, rfl, rfl, rfl, rfl, rfl⟩

/-- C29 (ingress rejects an NDP inside the header): for both formats and either
CRC setting, with the parser tables holding a signature the driver puts there,
every received buffer whose NTH passes the signature, header-length and
block-length checks and whose NdpIndex is below `nth_size` (0 in particular)
makes `ncm_unwrap_ntb` return -EINVAL with no datagram. -/
theorem unwrap_rejects_ndp_in_header (s : f_ncm) (clone_ok : Nat → Bool) (skb : List Nat)
    (list : List (List Nat)) (blen ndp : Nat) (hs : table_signs_ok s)
    (h1 : get_unaligned_le32 skb 0 = .ok (s.opts packed_sizes).nth_sign)
    (h2 : get_unaligned_le16 skb 4 = .ok (s.opts packed_sizes).nth_size)
    (h3 : nth_block_length (s.opts packed_sizes) skb = .ok blen) (hb : blen ≤ NTB_OUT_SIZE)
    (h4 : nth_ndp_index (s.opts packed_sizes) skb = .ok ndp)
    (hlt : ndp < (s.opts packed_sizes).nth_size) :
    ncm_unwrap_ntb packed_sizes s clone_ok skb list = .ok (-EINVAL, []) :=
  unwrap_ndp_in_header s clone_ok skb list blen ndp hs h1 h2 h3 hb h4 hlt

theorem unwrap_rejects_ndp_in_header_witness :
    table_signs_ok default_session
      ∧ nth_ndp_index (default_session.opts packed_sizes) ndp_in_header_ntb = .ok 8
      ∧ ncm_unwrap_ntb packed_sizes default_session (fun _ => true) ndp_in_header_ntb []
        = .ok (-EINVAL, []) :=
  ⟨table_signs_ok_initial 0 1, rfl,
    unwrap_rejects_ndp_in_header default_session (fun _ => true) ndp_in_header_ntb [] 40 8
      (table_signs_ok_initial 0 1) rfl rfl rfl (by decide) rfl (by decide)⟩

/-- C30 (CONNECT is never sent without SPEED): from a session whose notification
request is in its slot, in every sequence of entries into the engine
(`ncm_notify` from set_alt, open and close, completions of the queued request
with any status, `usb_ep_queue` returning anything), each NETWORK_CONNECTION
handed to the interrupt endpoint directly follows a SPEED_CHANGE among the
notifications handed over; and a `ncm_notify` call made while CONNECT is pending
behind the request in flight makes the next two completions hand over
SPEED_CHANGE, then NETWORK_CONNECTION. -/
theorem connect_never_without_speed (high_speed : Bool) (s : f_ncm) (evs : List notify_event)
    (hreq : s.notify_req = true) (hc : completions_in_flight high_speed s evs) :
    connect_follows_speed none
        ((notify_run high_speed s evs).1.map (fun e => e.bNotificationType))
      ∧ (∀ (t : f_ncm) (q0 q1 q2 st1 st2 : Int),
          t.notify_state = .NCM_NOTIFY_CONNECT → t.notify_req = false →
          0 ≤ q1 → 0 ≤ q2 →
          ¬ (st1 = -ECONNRESET ∨ st1 = -ESHUTDOWN) → ¬ (st2 = -ECONNRESET ∨ st2 = -ESHUTDOWN) →
          (notify_run high_speed t [.notify q0, .completed st1 q1, .completed st2 q2]).1.map
              (fun e => e.bNotificationType)
            = [.USB_CDC_NOTIFY_SPEED_CHANGE, .USB_CDC_NOTIFY_NETWORK_CONNECTION]) :=
  ⟨notify_run_order high_speed evs s none
      (fun _ hr => absurd (hreq.symm.trans hr) (by decide)) hc,
    fun t q0 q1 q2 st1 st2 _ hr h1 h2 n1 n2 =>
      notify_replay high_speed t q0 q1 q2 st1 st2 hr h1 h2 n1 n2⟩

theorem connect_never_without_speed_witness :
    (notify_run true default_session
        [.notify 0, .opened 0, .completed 0 (-1), .notify 0, .completed 0 0, .closed 0,
          .completed 0 0, .completed 0 0]).1.map (fun e => e.bNotificationType)
        = [.USB_CDC_NOTIFY_SPEED_CHANGE, .USB_CDC_NOTIFY_SPEED_CHANGE,
            .USB_CDC_NOTIFY_NETWORK_CONNECTION, .USB_CDC_NOTIFY_SPEED_CHANGE,
            .USB_CDC_NOTIFY_NETWORK_CONNECTION]
      ∧ connect_follows_speed none
        ((notify_run true default_session
          [.notify 0, .opened 0, .completed 0 (-1), .notify 0, .completed 0 0, .closed 0,
            .completed 0 0, .completed 0 0]).1.map (fun e => e.bNotificationType)) :=
  ⟨by decide,
    (connect_never_without_speed true default_session
      [.notify 0, .opened 0, .completed 0 (-1), .notify 0, .completed 0 0, .closed 0,
        .completed 0 0, .completed 0 0] rfl
      ⟨trivial, trivial, (by show _ = false; decide), trivial, (by show _ = false; decide),
        trivial, (by show _ = false; decide), (by show _ = false; decide), trivial⟩).1⟩

/-- C32 (ingress loop is bounded by the NDP length): for every received buffer
whose NDP wLength passes the check of `ncm_unwrap_ntb` (structures of
linux/usb/cdc.h packed), with `e` the bytes per DPE (4 for NTB16, 8 for NTB32)
and `m = (wLength - ndp_size) / e`: every pass of the DPE loop starts with at
least `e` bytes in the counter `ndp_len`, so `ndp_len -= e` never underflows;
the loop makes at most `m - 1` passes, so it terminates; `ncm_unwrap_ntb` ends
(the iteration budget of the embedding is never used up); and when it returns
0 it has added at most `m - 1` datagrams to the list. -/
theorem unwrap_loop_bounded (s : f_ncm) (clone_ok : Nat → Bool) (skb : List Nat)
    (list : List (List Nat)) (ndp wl : Nat)
    (hn : nth_ndp_index (s.opts packed_sizes) skb = .ok ndp)
    (hw : ndp_wLength skb ndp = .ok wl)
    (hchk : ¬ (wl < (s.opts packed_sizes).ndp_size
          + 2 * 2 * ((s.opts packed_sizes).dgram_item_len * 2)
        ∨ wl % (s.opts packed_sizes).ndplen_align ≠ 0)) :
    2 * ((s.opts packed_sizes).dgram_item_len * 2)
        = (match s.parser_opts with
          | .ndp16 => 4
          | .ndp32 => 8)
      ∧ (∀ i0 l0 n st,
          pass_nth (s.opts packed_sizes) s.is_crc skb clone_ok n
              (unwrap_entry (s.opts packed_sizes) ndp wl i0 l0 list) = some st →
            2 * ((s.opts packed_sizes).dgram_item_len * 2) ≤ st.ndp_len
              ∧ n + 1 ≤ (wl - (s.opts packed_sizes).ndp_size)
                  / (2 * ((s.opts packed_sizes).dgram_item_len * 2)) - 1)
      ∧ (∀ i0 l0,
          pass_nth (s.opts packed_sizes) s.is_crc skb clone_ok
              ((wl - (s.opts packed_sizes).ndp_size)
                / (2 * ((s.opts packed_sizes).dgram_item_len * 2)) - 1)
              (unwrap_entry (s.opts packed_sizes) ndp wl i0 l0 list) = none)
      ∧ ncm_unwrap_ntb packed_sizes s clone_ok skb list ≠ .error .fuel
      ∧ (∀ out, ncm_unwrap_ntb packed_sizes s clone_ok skb list = .ok (0, out) →
          ∃ new, out = list ++ new
            ∧ new.length ≤ (wl - (s.opts packed_sizes).ndp_size)
                / (2 * ((s.opts packed_sizes).dgram_item_len * 2)) - 1) := by
  -- the room of the NDP, in entries
  have room : ∃ m, 2 ≤ m
      ∧ wl - (s.opts packed_sizes).ndp_size
          = m * (2 * ((s.opts packed_sizes).dgram_item_len * 2))
      ∧ (wl - (s.opts packed_sizes).ndp_size)
          / (2 * ((s.opts packed_sizes).dgram_item_len * 2)) = m
      ∧ 2 * ((s.opts packed_sizes).dgram_item_len * 2)
          = (match s.parser_opts with
            | .ndp16 => 4
            | .ndp32 => 8) := by
    cases hp : s.parser_opts with
    | ndp16 =>
      have o1 : (s.opts packed_sizes).ndp_size = 8 := by rw [opts_ndp16 _ hp]; rfl
      have o2 : (s.opts packed_sizes).dgram_item_len = 1 := by rw [opts_ndp16 _ hp]; rfl
      have o3 : (s.opts packed_sizes).ndplen_align = 4 := by rw [opts_ndp16 _ hp]; rfl
      rw [o1, o2, o3] at hchk
      rw [o1, o2]
      refine ⟨(wl - 8) / 4, ?_, ?_, ?_, rfl⟩ <;> omega
    | ndp32 =>
      have o1 : (s.opts packed_sizes).ndp_size = 16 := by rw [opts_ndp32 _ hp]; rfl
      have o2 : (s.opts packed_sizes).dgram_item_len = 2 := by rw [opts_ndp32 _ hp]; rfl
      have o3 : (s.opts packed_sizes).ndplen_align = 8 := by rw [opts_ndp32 _ hp]; rfl
      rw [o1, o2, o3] at hchk
      rw [o1, o2]
      refine ⟨(wl - 16) / 8, ?_, ?_, ?_, rfl⟩ <;> omega
  obtain ⟨m, hm, hL, hdiv, he⟩ := room
  rw [hdiv]
  have passes : ∀ i0 l0 n st,
      pass_nth (s.opts packed_sizes) s.is_crc skb clone_ok n
          (unwrap_entry (s.opts packed_sizes) ndp wl i0 l0 list) = some st →
        st.ndp_len = (m - n) * (2 * ((s.opts packed_sizes).dgram_item_len * 2)) ∧ n + 2 ≤ m := by
    intro i0 l0 n st h
    obtain ⟨a, b, -, -⟩ := pass_nth_counter (s.opts packed_sizes) s.is_crc skb clone_ok n m
      (unwrap_entry (s.opts packed_sizes) ndp wl i0 l0 list) st hL hm h
    exact ⟨a, b⟩
  refine ⟨he, ?_, ?_, ?_, ?_⟩
  · intro i0 l0 n st h
    obtain ⟨a, b⟩ := passes i0 l0 n st h
    refine ⟨?_, by omega⟩
    rw [a]
    have : 1 ≤ m - n := by omega
    have := Nat.mul_le_mul_right (2 * ((s.opts packed_sizes).dgram_item_len * 2)) this
    omega
  · intro i0 l0
    cases h : pass_nth (s.opts packed_sizes) s.is_crc skb clone_ok (m - 1)
        (unwrap_entry (s.opts packed_sizes) ndp wl i0 l0 list) with
    | none => rfl
    | some st =>
      have := (passes i0 l0 (m - 1) st h).2
      omega
  · rcases unwrap_result packed_sizes s clone_ok skb list with h | h | h | ⟨new, -, h⟩ <;>
      rw [h] <;> intro hc
    · exact absurd (Except.error.inj hc) (by decide)
    · exact Except.noConfusion hc
    · exact Except.noConfusion hc
    · exact Except.noConfusion hc
  · intro out hx
    rcases unwrap_cases packed_sizes s clone_ok skb list _ hx with
      h | h | ⟨ndp2, wl2, i0, l0, hn2, hw2, -, -, -, h⟩
    · exact Except.noConfusion h.1
    · have h' : (0 : Int) = -EINVAL := congrArg Prod.fst (Except.ok.inj h)
      exact absurd h' (by decide)
    · rw [hn] at hn2
      have e1 : ndp = ndp2 := Except.ok.inj hn2
      subst e1
      rw [hw] at hw2
      have e2 : wl = wl2 := Except.ok.inj hw2
      subst e2
      obtain ⟨new, h1, h2⟩ := unwrap_loop_count (s.opts packed_sizes) s.is_crc skb clone_ok _ _ _ _
        _ _ m list out hL hm h.symm
      exact ⟨new, h1, by omega⟩

theorem unwrap_loop_bounded_witness :
    ncm_unwrap_ntb packed_sizes default_session (fun _ => true) two_dgram_ntb []
        = .ok (0, [sample_frame 14 1, sample_frame 14 2])
      ∧ (20 - (default_session.opts packed_sizes).ndp_size)
          / (2 * ((default_session.opts packed_sizes).dgram_item_len * 2)) - 1 = 2
      ∧ ∀ out, ncm_unwrap_ntb packed_sizes default_session (fun _ => true) two_dgram_ntb []
          = .ok (0, out) →
        ∃ new, out = [] ++ new
          ∧ new.length ≤ (20 - (default_session.opts packed_sizes).ndp_size)
              / (2 * ((default_session.opts packed_sizes).dgram_item_len * 2)) - 1 :=
  ⟨rfl, by decide,
    (unwrap_loop_bounded default_session (fun _ => true) two_dgram_ntb [] 12 20 rfl rfl
      (by decide)).2.2.2.2⟩

/-- C33 (field-width assertion), where it fails: SET_NTB_FORMAT(1) is accepted
and selects the table whose `ndp_index` is 0; `put_ncm` with that width is
`BUG()` for every value, and `package_for_tx` calls it: after one frame has been
wrapped into the NTB32 session, `package_for_tx` and with it the flush tasklet
end in `BUG()`.  The widths that `ncm_unwrap_ntb` and the entry writes of
`ncm_wrap_ntb` pass (`block_length`, `fp_index`, `dgram_item_len`) are 1 or 2 in
both tables, and `ncm_unwrap_ntb` never ends in `BUG()`. -/
theorem put_ncm_bug_reachable (sz : cdc_sizes) (mem : Nat → Nat) (f : List Nat) :
    (ncm_setup default_session
        { request := .SET_NTB_FORMAT, wValue := 1, wIndex := 0, wLength := 0 } 0).value = 0
      ∧ (ntb32_session.opts sz).ndp_index = 0
      ∧ (∀ v, put_ncm (ntb32_session.opts sz).ndp_index v = .error .BUG)
      ∧ (∃ s1, ncm_wrap_ntb sz ntb32_session true (some mem) (some f) = .ok (none, s1)
          ∧ package_for_tx sz s1 = .error .BUG
          ∧ ncm_tx_tasklet sz s1 = .error .BUG)
      ∧ (∀ s : f_ncm, ((s.opts sz).block_length = 1 ∨ (s.opts sz).block_length = 2)
          ∧ ((s.opts sz).fp_index = 1 ∨ (s.opts sz).fp_index = 2)
          ∧ ((s.opts sz).dgram_item_len = 1 ∨ (s.opts sz).dgram_item_len = 2))
      ∧ (∀ (s : f_ncm) (clone_ok : Nat → Bool) (skb : List Nat) (list : List (List Nat)),
          ncm_unwrap_ntb sz s clone_ok skb list ≠ .error .BUG) := by
  refine ⟨rfl, rfl, fun _ => rfl, ?_, fun s => opts_widths sz s, ?_⟩
  · obtain ⟨s1, h1, h2, h3⟩ :=
      wrap_frame_idle sz ntb32_session true (some mem) f rfl rfl
    have hst : s1.timer_stopping = false := by
      have : tx_settings s1 = tx_settings ntb32_session := h3
      simp only [tx_settings, Prod.mk.injEq] at this
      exact this.2.2.2.2.2.2
    have hp1 : s1.parser_opts = .ndp32 := parser_of_settings h3
    simp only [abs_open, Bool.true_eq_false, ite_false, tx_repr] at h2
    obtain ⟨-, -, hb, hn, -⟩ := h2
    have hnn : s1.skb_tx_data ≠ .NULL := by rw [hb]; exact skb_ptr.noConfusion
    have hpk : package_for_tx sz { s1 with timer_force_tx := true } = .error .BUG :=
      package_for_tx_ndp32_live sz (s := { s1 with timer_force_tx := true }) hp1 hb hn
    refine ⟨s1, h1, package_for_tx_ndp32_live sz hp1 hb hn, ?_⟩
    unfold ncm_tx_tasklet
    rw [if_neg (by rw [hst]; exact Bool.noConfusion), if_neg hnn, ncm_wrap_ntb_null,
      if_neg (show ({ s1 with timer_force_tx := true } : f_ncm).skb_tx_data ≠ .NULL from hnn),
      if_pos rfl, hpk]
    rfl
  · intro s clone_ok skb list
    rcases unwrap_result sz s clone_ok skb list with h | h | h | ⟨new, -, h⟩ <;>
      rw [h] <;> intro hc
    · exact absurd (Except.error.inj hc) (by decide)
    · exact Except.noConfusion hc
    · exact Except.noConfusion hc
    · exact Except.noConfusion hc

set_option maxRecDepth 8000 in
/-- C34 (ingress bounds), where it fails: `ncm_unwrap_ntb` tests no offset
against the length of the received buffer (only `skb_pull` tests the datagram
index).  A 12-byte buffer that is just an NTH16 makes it read the NDP signature
behind the end of the buffer, and so does an NTH16 whose wNdpIndex is 65532; in
CRC mode a DPE (28, 100) in a 46-byte buffer makes it read the CRC at offset
124.  An NTB16 of 42 bytes whose NDP would end at offset 44 is accepted, and so
is one whose DPE (28, 100) would end at offset 128: both return 0 with the 14
bytes that the buffer holds from offset 28.  Only a datagram that starts behind
the end of the buffer is refused, with -EOVERFLOW. -/
theorem unwrap_reads_outside_buffer :
    header_only_ntb.length = 12
      ∧ ncm_unwrap_ntb packed_sizes default_session (fun _ => true) header_only_ntb []
          = .error .out_of_bounds
      ∧ far_ndp_ntb.length = 44
      ∧ nth_ndp_index (default_session.opts packed_sizes) far_ndp_ntb = .ok 65532
      ∧ ncm_unwrap_ntb packed_sizes default_session (fun _ => true) far_ndp_ntb []
          = .error .out_of_bounds
      ∧ long_crc_dgram_ntb.length = 46
      ∧ rx_dpe (crc_session.opts packed_sizes) long_crc_dgram_ntb 12 0 = .ok (28, 100)
      ∧ ncm_unwrap_ntb packed_sizes crc_session (fun _ => true) long_crc_dgram_ntb []
          = .error .out_of_bounds
      ∧ long_ndp_ntb.length = 42
      ∧ nth_ndp_index (default_session.opts packed_sizes) long_ndp_ntb = .ok 12
      ∧ ndp_wLength long_ndp_ntb 12 = .ok 32
      ∧ ncm_unwrap_ntb packed_sizes default_session (fun _ => true) long_ndp_ntb []
          = .ok (0, [sample_frame 14 1])
      ∧ long_dgram_ntb.length = 42
      ∧ rx_dpe (default_session.opts packed_sizes) long_dgram_ntb 12 0 = .ok (28, 100)
      ∧ ncm_unwrap_ntb packed_sizes default_session (fun _ => true) long_dgram_ntb []
          = .ok (0, [sample_frame 14 1])
      ∧ far_dgram_ntb.length = 42
      ∧ rx_dpe (default_session.opts packed_sizes) far_dgram_ntb 12 0 = .ok (100, 14)
      ∧ ncm_unwrap_ntb packed_sizes default_session (fun _ => true) far_dgram_ntb []
          = .ok (-EOVERFLOW, []) :=
  ⟨rfl, rfl, rfl, rfl, rfl, rfl, rfl, rfl, rfl, rfl, rfl, rfl, rfl, rfl, rfl, rfl, rfl, rfl⟩

/-- C35 (fit estimate is sound): let a call of `ncm_wrap_ntb` with a frame
return with the frame added, the session then holding the body `dd` and the NDP
buffer `nn`; `M` is `fixed_in_len`, which the call leaves as it is, and `e` the
bytes per DPE, `2 * 2 * dgram_item_len`.  If `nth_size` is a multiple of 4 and
the frame with its CRC is at most `M - nth_size - ndp_size - 2 * e - 3` bytes
long, then `dd` is at most `M` bytes long and so is the NTB that
`package_for_tx` builds from the session (its `new_len`).  And whenever the
frame was added to the NTB already pending, with the fit test passed, the same
bounds hold whatever the length of the frame. -/
theorem fit_estimate_sound (sz : cdc_sizes) (s s' : f_ncm) (data_alloc : Bool)
    (ndp_alloc : Option (Nat → Nat)) (frame : List Nat) (out : Option (List Nat))
    (dd nn : List Nat)
    (h : ncm_wrap_ntb sz s data_alloc ndp_alloc (some frame) = .ok (out, s'))
    (hd : s'.skb_tx_data = .live dd) (hn : s'.skb_tx_ndp = .live nn) :
    s'.fixed_in_len = s.fixed_in_len
      ∧ ((s.opts sz).nth_size % 4 = 0 →
          (with_crc s.is_crc frame).length + (s.opts sz).nth_size + (s.opts sz).ndp_size
              + 2 * (2 * 2 * (s.opts sz).dgram_item_len) + 3 ≤ s.fixed_in_len →
          dd.length ≤ s.fixed_in_len
            ∧ ALIGN dd.length ntb_parameters.wNdpInAlignment
                + 2 * 2 * (s.opts sz).dgram_item_len + nn.length ≤ s.fixed_in_len
            ∧ ∀ ntb t, package_for_tx sz s' = .ok (ntb, t) → ntb.length ≤ s.fixed_in_len)
      ∧ (∀ b n, s.skb_tx_data = .live b → s.skb_tx_ndp = .live n →
          s.ndp_dgram_count < TX_MAX_NUM_DPE →
          b.length + ntb_parameters.wNdpInDivisor + ntb_parameters.wNdpInPayloadRemainder
              + (with_crc s.is_crc frame).length + n.length
              + ntb_parameters.wNdpInAlignment
              + 2 * (2 * 2 * (s.opts sz).dgram_item_len) ≤ s.fixed_in_len →
          out = none
            ∧ dd.length = ALIGN b.length 4 + (with_crc s.is_crc frame).length
            ∧ nn.length = n.length + 2 * 2 * (s.opts sz).dgram_item_len
            ∧ dd.length ≤ s.fixed_in_len
            ∧ ALIGN dd.length ntb_parameters.wNdpInAlignment
                + 2 * 2 * (s.opts sz).dgram_item_len + nn.length ≤ s.fixed_in_len
            ∧ ∀ ntb t, package_for_tx sz s' = .ok (ntb, t) → ntb.length ≤ s.fixed_in_len) := by
  rw [ncm_wrap_ntb_frame] at h
  cases hf : wrap_flush_if_full sz s (with_crc s.is_crc frame).length with
  | error e => simp [hf, Except.bind] at h
  | ok r =>
    simp only [hf, Except.bind] at h
    obtain ⟨hout, hM, hopts, hsz⟩ := wrap_tail_sizes sz r.2 s' data_alloc ndp_alloc _ r.1 out dd nn
      h hd hn
    have hr : r.2.opts sz = s.opts sz ∧ r.2.fixed_in_len = s.fixed_in_len := by
      rcases wrap_flush_if_full_state sz s _ r hf with h1 | h1
      · rw [h1]; exact ⟨rfl, rfl⟩
      · rw [h1]; exact ⟨rfl, rfl⟩
    have hso : s'.opts sz = s.opts sz := hopts.trans hr.1
    have hal : ntb_parameters.wNdpInAlignment = 4 := rfl
    have hdiv : ntb_parameters.wNdpInDivisor = 4 := rfl
    have hrem : ntb_parameters.wNdpInPayloadRemainder = 0 := rfl
    have pk : ∀ ntb t, package_for_tx sz s' = .ok (ntb, t) →
        ntb.length = ALIGN dd.length 4 + 2 * 2 * (s.opts sz).dgram_item_len + nn.length := by
      intro ntb t hp
      have := package_for_tx_length sz s' t dd nn ntb hd hn hp
      rw [hso, hal] at this
      exact this
    have a1 := ALIGN_lt dd.length
    have a2 := ALIGN_ge dd.length
    rw [hal]
    refine ⟨hM.trans hr.2, ?_, ?_⟩
    · intro h4 hL
      have bound : dd.length ≤ s.fixed_in_len
          ∧ ALIGN dd.length 4 + 2 * 2 * (s.opts sz).dgram_item_len + nn.length
            ≤ s.fixed_in_len := by
        rcases wrap_flush_if_full_fit sz s _ r hf with ⟨hnull, -⟩ | ⟨hre, b, n, hb, hn2, -, hfit⟩
        · rcases hsz with ⟨-, e1, e2⟩ | ⟨b, n, hb, -, -, -⟩
          · rw [hr.1, ALIGN_of_mod h4] at e1
            rw [hr.1] at e2
            omega
          · rw [hnull] at hb
            exact skb_ptr.noConfusion hb
        · have hr2 : r.2 = s := by rw [hre]
          rw [hr2] at hsz
          rcases hsz with ⟨h0, -, -⟩ | ⟨b2, n2, hb2, hn3, e1, e2⟩
          · rw [hb] at h0
            exact skb_ptr.noConfusion h0
          · rw [hb] at hb2
            rw [hn2] at hn3
            injection hb2 with hb2
            injection hn3 with hn3
            subst hb2 hn3
            have a3 := ALIGN_lt b.length
            rw [hdiv, hrem, hal] at hfit
            omega
      refine ⟨bound.1, bound.2, ?_⟩
      intro ntb t hp
      rw [pk ntb t hp]
      exact bound.2
    · intro b n hb hn2 hcnt hfit
      rw [hdiv, hrem] at hfit
      have hnn : s.skb_tx_data ≠ .NULL := by rw [hb]; exact skb_ptr.noConfusion
      rcases wrap_flush_if_full_fit sz s _ r hf with ⟨hnull, hre⟩ | ⟨hre, -⟩
      · rcases hre with hre | hre
        · rw [hre] at hnull
          exact absurd hnull hnn
        · -- the pending NTB was not packaged: the fit test passed
          exfalso
          have hne : r.2 ≠ s := by
            intro hc
            rw [hc] at hnull
            exact hnn hnull
          unfold wrap_flush_if_full at hf
          rw [if_neg hnn, if_neg (by omega)] at hf
          simp only [hb, hn2, skb_ptr.deref, bind, Except.bind] at hf
          rw [if_neg (by rw [hdiv, hrem, hal]; omega)] at hf
          injection hf with hf
          exact hne (by rw [← hf])
      · have hr2 : r.2 = s := by rw [hre]
        have hr1 : r.1 = none := by rw [hre]
        rw [hr2] at hsz
        rcases hsz with ⟨h0, -, -⟩ | ⟨b2, n2, hb2, hn3, e1, e2⟩
        · exact absurd h0 hnn
        · rw [hb] at hb2
          rw [hn2] at hn3
          injection hb2 with hb2
          injection hn3 with hn3
          subst hb2 hn3
          have a3 := ALIGN_lt b.length
          refine ⟨by rw [hout, hr1], e1, e2, by omega, by omega, ?_⟩
          intro ntb t hp
          rw [pk ntb t hp]
          omega

set_option maxRecDepth 8000 in
theorem fit_estimate_sound_witness :
    (pending_body one_frame_pending).length = 76
      ∧ (pending_body two_frames_pending).length = 106
      ∧ (pending_ndp two_frames_pending).length = 16
      ∧ ((pending_body one_frame_pending).length ≤ default_session.fixed_in_len
        ∧ ALIGN (pending_body one_frame_pending).length ntb_parameters.wNdpInAlignment
            + 2 * 2 * (default_session.opts packed_sizes).dgram_item_len
            + (pending_ndp one_frame_pending).length ≤ default_session.fixed_in_len
        ∧ ∀ ntb t, package_for_tx packed_sizes one_frame_pending = .ok (ntb, t) →
            ntb.length ≤ default_session.fixed_in_len)
      ∧ ((none : Option (List Nat)) = none
        ∧ (pending_body two_frames_pending).length
            = ALIGN (pending_body one_frame_pending).length 4
              + (with_crc one_frame_pending.is_crc (sample_frame 30 7)).length
        ∧ (pending_ndp two_frames_pending).length
            = (pending_ndp one_frame_pending).length
              + 2 * 2 * (one_frame_pending.opts packed_sizes).dgram_item_len
        ∧ (pending_body two_frames_pending).length ≤ one_frame_pending.fixed_in_len
        ∧ ALIGN (pending_body two_frames_pending).length ntb_parameters.wNdpInAlignment
            + 2 * 2 * (one_frame_pending.opts packed_sizes).dgram_item_len
            + (pending_ndp two_frames_pending).length ≤ one_frame_pending.fixed_in_len
        ∧ ∀ ntb t, package_for_tx packed_sizes two_frames_pending = .ok (ntb, t) →
            ntb.length ≤ one_frame_pending.fixed_in_len) :=
  ⟨by decide, by decide, by decide,
    (fit_estimate_sound packed_sizes default_session one_frame_pending true (some zero_mem)
      (sample_frame 64 0) none (pending_body one_frame_pending)
      (pending_ndp one_frame_pending) rfl rfl rfl).2.1 (by decide) (by decide),
    (fit_estimate_sound packed_sizes one_frame_pending two_frames_pending true (some zero_mem)
      (sample_frame 30 7) none (pending_body two_frames_pending)
      (pending_ndp two_frames_pending) rfl rfl rfl).2.2
      (pending_body one_frame_pending) (pending_ndp one_frame_pending) rfl rfl
      (by decide) (by decide)⟩

/-- C36 (format and CRC negotiation commute), where it fails: from the freshly
bound session, SET_NTB_FORMAT(1) then SET_CRC_MODE(1) and SET_CRC_MODE(1) then
SET_NTB_FORMAT(1) both end with the NTB32 parser and CRC mode on, but the first
order leaves `ndp_sign` 'ncm1', the NTB16 table 'NCM0' and the NTB32 table
'ncm1', the second `ndp_sign` 'NCM1', the NTB16 table 'NCM1' and the NTB32
table 'ncm0': SET_CRC_MODE writes the flag into the table of the parser current
at the time, and SET_NTB_FORMAT assigns no signature.  When the format request
selects the parser that is current already (here NTB16), the two orders agree. -/
theorem format_crc_do_not_commute :
    (format_then_crc default_session 1 1).parser_opts = .ndp32
      ∧ (crc_then_format default_session 1 1).parser_opts = .ndp32
      ∧ (format_then_crc default_session 1 1).is_crc = true
      ∧ (crc_then_format default_session 1 1).is_crc = true
      ∧ (format_then_crc default_session 1 1).ndp_sign
          = USB_CDC_NCM_NDP32_NOCRC_SIGN + NCM_NDP_HDR_CRC
      ∧ (crc_then_format default_session 1 1).ndp_sign
          = USB_CDC_NCM_NDP16_NOCRC_SIGN + NCM_NDP_HDR_CRC
      ∧ (format_then_crc default_session 1 1).ndp16_sign = USB_CDC_NCM_NDP16_NOCRC_SIGN
      ∧ (crc_then_format default_session 1 1).ndp16_sign
          = USB_CDC_NCM_NDP16_NOCRC_SIGN + NCM_NDP_HDR_CRC
      ∧ (format_then_crc default_session 1 1).ndp32_sign
          = USB_CDC_NCM_NDP32_NOCRC_SIGN + NCM_NDP_HDR_CRC
      ∧ (crc_then_format default_session 1 1).ndp32_sign = USB_CDC_NCM_NDP32_NOCRC_SIGN
      ∧ ((format_then_crc default_session 1 1).opts packed_sizes).ndp_sign
          ≠ ((crc_then_format default_session 1 1).opts packed_sizes).ndp_sign
      ∧ format_then_crc default_session 1 1 ≠ crc_then_format default_session 1 1
      ∧ format_then_crc default_session 0 1 = crc_then_format default_session 0 1 := by
  decide

/-- C37 (single notification request): from a session whose notification request
is in its slot and with no request at the interrupt endpoint, after every
sequence of entries into the engine (`ncm_notify` from set_alt, open and close,
completions of a request that the endpoint holds, `usb_ep_queue` returning
anything) the endpoint holds at most one request, and it holds one exactly when
the slot `notify_req` is empty; and a `usb_ep_queue` that fails leaves the
request in the slot and nothing queued. -/
theorem single_notify_request (high_speed : Bool) (s t : f_ncm) (evs : List notify_event)
    (k : Nat) (hreq : s.notify_req = true)
    (h : notify_flight high_speed s 0 evs = some (t, k)) :
    k ≤ 1 ∧ (t.notify_req = false ↔ k = 1)
      ∧ (∀ (u : f_ncm) (q : Int), u.notify_req = true → q < 0 →
          (ncm_do_notify u high_speed q).2 = none
            ∧ (ncm_do_notify u high_speed q).1.notify_req = true) := by
  obtain ⟨a, b⟩ := notify_flight_single high_speed evs s t 0 k (by omega)
    ⟨fun hf => by rw [hreq] at hf; exact Bool.noConfusion hf, fun h0 => by omega⟩ h
  exact ⟨a, b, fun u q hu hq => (ncm_do_notify_req u high_speed q).2.2 hu hq⟩

theorem single_notify_request_witness :
    notify_flight true default_session 0 notify_sample_events
        = some ((notify_run true default_session notify_sample_events).2, 1)
      ∧ (notify_run true default_session notify_sample_events).2.notify_req = false
      ∧ notify_flight true default_session 0 (notify_sample_events.take 3)
        = some ((notify_run true default_session (notify_sample_events.take 3)).2, 0)
      ∧ (notify_run true default_session (notify_sample_events.take 3)).2.notify_req = true
      ∧ (1 ≤ 1
        ∧ ((notify_run true default_session notify_sample_events).2.notify_req = false ↔ 1 = 1)
        ∧ ∀ (u : f_ncm) (q : Int), u.notify_req = true → q < 0 →
            (ncm_do_notify u true q).2 = none ∧ (ncm_do_notify u true q).1.notify_req = true) :=
  ⟨by decide, by decide, by decide, by decide,
    single_notify_request true default_session
      (notify_run true default_session notify_sample_events).2 notify_sample_events 1
      (by decide) (by decide)⟩

end NCM
